import Mathlib

/-!
# YCSBR phased workload generator: embedding and verified properties

A shallow embedding of the request generator of the YCSBR benchmark driver
(`generator/config_impl.cc`, `generator/workload.cc` and the chooser headers).

Conventions of the embedding:

* machine integers are natural numbers; a reduction modulo `2 ^ 32` or `2 ^ 64`
  is written wherever the source relies on, or can run into, wrap-around;
* code that throws returns `Except Error _`; reading a vector past its end and
  failed assertions are errors as well, a run stops at the first error;
* every random draw is an explicit argument of the function that makes it.
-/

namespace YCSBR

/-! ## Basic types -/

/-- Request keys are 64-bit unsigned integers (`Request::Key`). -/
abbrev Key := Nat

/-- Size of the 32-bit unsigned range. -/
def U32 : Nat := 2 ^ 32

/-- Size of the 64-bit unsigned range. -/
def U64 : Nat := 2 ^ 64

/-- Modelled from the spec: `kMaxKey` of `ycsbr/gen/types.h` (not among the
sources); keys must not exceed `2^48 - 1` before tagging. -/
def kMaxKey : Nat := 2 ^ 48 - 1

/-- Modelled from the spec: `kMaxNumPhases` of `ycsbr/gen/types.h` (not among the
sources); at most 254 phases per workload. -/
def kMaxNumPhases : Nat := 254

/-- Ways in which the modelled code fails. -/
inductive Error where
  | invalid_argument (msg : String)
  | runtime_error (msg : String)
  | bad_conversion
  | assertion_failed
  | out_of_bounds
  | null_pointer
  | division_by_zero
  | loop_bound
  deriving DecidableEq, Repr

/-- The operations of a request (`Request::Operation`). -/
inductive Operation where
  | kRead
  | kReadModifyWrite
  | kNegativeRead
  | kScan
  | kUpdate
  | kDelete
  | kInsert
  deriving DecidableEq, Repr

/-- A request as built in `Producer::Next`: operation, key, scan amount and the size
of the attached value (0 when the value pointer is null). -/
structure Request where
  op : Operation
  key : Key
  scan_amount : Nat
  value_size : Nat
  deriving DecidableEq, Repr

/-! ## Key tagging (`workload.cc`, lines 19-26) -/

/-- The loop body of `ApplyPhaseAndProducerIDs`:
`(key << 16) | ((phase_id & 0xFF) << 8) | (producer_id & 0xFF)` on a 64-bit key. -/
def tagKey (phase_id producer_id : Nat) (key : Nat) : Nat :=
  ((key <<< 16) % U64) ||| ((phase_id &&& 0xFF) <<< 8) ||| (producer_id &&& 0xFF)

/-- The function `ApplyPhaseAndProducerIDs` on the keys of the range `[begin, end)`,
given as a list. -/
def ApplyPhaseAndProducerIDs (keys : List Key) (phase_id producer_id : Nat) : List Key :=
  keys.map (tagKey phase_id producer_id)

/-! ## Double-precision arithmetic used by `GetPhase`

`GetPhase` computes `num_inserts` as
`static_cast<size_t>(num_requests * (insert_pct / 100.0))`. The operations involved
(conversion of an unsigned integer to `double`, one division, one multiplication and
the truncating conversion back) are correctly rounded IEEE 754 binary64 operations,
so their results are determined exactly; they are reproduced here on natural numbers.
A finite non-negative double is a pair `(m, e)` standing for `m * 2 ^ e`. -/

/-- Number of binary digits of `n` (`fuel` bounds the recursion; `fuel = n` always
suffices). -/
def bitLength : Nat → Nat → Nat
  | 0, _ => 0
  | fuel + 1, n => if n = 0 then 0 else bitLength fuel (n / 2) + 1

/-- The binary64 value nearest to the non-negative rational `num / den`, ties to
even, as mantissa and exponent with a 53-bit mantissa. Exponent range limits
(subnormals, infinities) are not modelled: no operand of `GetPhase` comes near them. -/
def roundDouble (num den : Nat) : Nat × Int :=
  if num = 0 then (0, 0) else
    let k : Int := (bitLength num num : Int) - (bitLength den den : Int)
    let fl : Int := if den * 2 ^ k.toNat ≤ num * 2 ^ (-k).toNat then k else k - 1
    let e : Int := fl - 52
    let n := num * 2 ^ (-e).toNat
    let d := den * 2 ^ e.toNat
    let q := n / d
    let r := n % d
    if d < 2 * r ∨ (2 * r = d ∧ q % 2 = 1) then (q + 1, e) else (q, e)

/-- Rounded product of two doubles. -/
def mulDouble (x y : Nat × Int) : Nat × Int :=
  let e := x.2 + y.2
  roundDouble (x.1 * y.1 * 2 ^ e.toNat) (2 ^ (-e).toNat)

/-- Truncation of a double towards zero (`static_cast<size_t>`). -/
def truncDouble (x : Nat × Int) : Nat :=
  x.1 * 2 ^ x.2.toNat / 2 ^ (-x.2).toNat

/-- The expression `static_cast<size_t>(num_requests * (insert_pct / 100.0))` of
`GetPhase` (config_impl.cc, lines 413-414): `insert_pct` is converted exactly,
the quotient is rounded, `num_requests` is converted (rounded above `2^53`), the
product is rounded and then truncated. -/
def computeNumInserts (num_requests insert_pct : Nat) : Nat :=
  truncDouble (mulDouble (roundDouble num_requests 1) (roundDouble insert_pct 100))

/-- A signed finite double, `(-1)^neg * mant * 2^exp`, for parsed parameters such as
`theta`. -/
structure Double where
  neg : Bool
  mant : Nat
  exp : Int
  deriving DecidableEq, Repr

/-- The comparison `x <= 0.0`. -/
def Double.leZero (x : Double) : Bool := x.neg || x.mant == 0

/-- The comparison `x >= 1.0`. -/
def Double.geOne (x : Double) : Bool :=
  !x.neg && decide (2 ^ (-x.exp).toNat ≤ x.mant * 2 ^ x.exp.toNat)

/-! ## Workload configuration (`config_impl.cc`)

The YAML document is represented by typed records; an absent mapping key is `none`.
Integers of the document are natural numbers, and the conversions `as<uint32_t>` and
`as<size_t>` fail on values outside the target type. -/

/-- A `distribution` mapping: its `type` and the type-specific parameters. -/
structure DistributionConfig where
  dist_type : String
  theta : Option Double := none
  salt : Option Nat := none
  range_min : Option Nat := none
  range_max : Option Nat := none
  hot_range_min : Option Nat := none
  hot_range_max : Option Nat := none
  hot_proportion_pct : Option Nat := none
  start_key : Option Nat := none
  step_size : Option Nat := none
  name : Option String := none
  offset : Option Nat := none
  deriving DecidableEq, Repr

/-- An operation mapping of a phase: `proportion_pct`, `distribution` and, for scans,
`max_length`. -/
structure OpConfig where
  proportion_pct : Nat
  distribution : DistributionConfig
  max_length : Option Nat := none
  deriving DecidableEq, Repr

/-- One entry of the `run` list. -/
structure PhaseConfig where
  num_requests : Nat
  read : Option OpConfig := none
  readmodifywrite : Option OpConfig := none
  negativeread : Option OpConfig := none
  scan : Option OpConfig := none
  update : Option OpConfig := none
  delete : Option OpConfig := none
  insert : Option OpConfig := none
  deriving DecidableEq, Repr

/-- The conversion `as<uint32_t>()`. -/
def asU32 (n : Nat) : Except Error Nat :=
  if n < U32 then pure n else throw Error.bad_conversion

/-- The conversion `as<size_t>()`. -/
def asSizeT (n : Nat) : Except Error Nat :=
  if n < U64 then pure n else throw Error.bad_conversion

/-- The conversion `as<uint64_t>()`. -/
def asU64 (n : Nat) : Except Error Nat :=
  if n < U64 then pure n else throw Error.bad_conversion

/-- A mandatory mapping key: reading an absent one fails in the YAML library. -/
def required {α : Type} : Option α → Except Error α
  | some a => pure a
  | none => throw Error.bad_conversion

/-- The access `v[i]` to a vector; reading past the end is an error. -/
def elemAt {α : Type} (v : List α) (i : Nat) : Except Error α :=
  match v[i]? with
  | some a => pure a
  | none => throw Error.out_of_bounds

/-! ## Choosers -/

/-- The chooser classes built by `CreateChooser`. -/
inductive ChooserKind where
  | uniform
  | zipfian
  | scattered_zipfian
  | latest
  deriving DecidableEq, Repr

/-- A chooser, reduced to its class, its item count and, for the scattered Zipfian
chooser, the salt that its constructor is given (0 for the other classes, which have
none); what `Next(prng)` returns is an argument of the functions that draw. -/
structure Chooser where
  kind : ChooserKind
  item_count : Nat
  scatter_salt : Nat := 0
  deriving DecidableEq, Repr

/-- The method `SetItemCount` of a chooser (`uniform_chooser.h`, `zipfian_chooser.h`). -/
def Chooser.SetItemCount (c : Chooser) (item_count : Nat) : Chooser :=
  { c with item_count := item_count }

/-- The method `IncreaseItemCountBy(size_t delta)`: `UniformChooser` adds `delta`
modulo `2^64`; `ZipfianChooser` (inherited by the scattered chooser) adds 1 when
`delta == 1` and subtracts 1 for every other `delta`.
Modelled from the spec: `LatestChooser` (latest_chooser.h is not among the
sources) is "like Zipfian" and is given the Zipfian behaviour. -/
def Chooser.IncreaseItemCountBy (c : Chooser) (delta : Nat) : Chooser :=
  match c.kind with
  | ChooserKind.uniform => { c with item_count := (c.item_count + delta) % U64 }
  | _ =>
    if delta ≠ 1 then { c with item_count := (c.item_count + (U64 - 1)) % U64 }
    else { c with item_count := (c.item_count + delta) % U64 }

/-- The function `CreateChooser` (config_impl.cc, lines 106-158). The optional `salt`
of the two Zipfian types is converted with `as<uint64_t>()` after the check of theta
(lines 127-130); the `latest` and `uniform` branches do not read it. -/
def CreateChooser (distribution_config : DistributionConfig) (operation_name : String)
    (item_count : Nat) : Except Error Chooser :=
  let dist_type := distribution_config.dist_type
  if dist_type = "uniform" then
    pure { kind := ChooserKind.uniform, item_count := item_count }
  else if dist_type = "zipfian" ∨ dist_type = "zipfian_clustered" then do
    let theta ← required distribution_config.theta
    if theta.leZero || theta.geOne then
      throw (Error.invalid_argument "Zipfian theta must be in the range (0, 1).")
    else do
      let salt ←
        match distribution_config.salt with
        | some salt => asU64 salt
        | none => pure 0
      if dist_type = "zipfian" then
        pure { kind := ChooserKind.scattered_zipfian, item_count := item_count,
               scatter_salt := salt }
      else
        pure { kind := ChooserKind.zipfian, item_count := item_count }
  else if dist_type = "latest" then do
    let theta ← required distribution_config.theta
    if theta.leZero || theta.geOne then
      throw (Error.invalid_argument "Theta must be in the range (0, 1).")
    else
      pure { kind := ChooserKind.latest, item_count := item_count }
  else
    throw (Error.invalid_argument
      ("Unsupported " ++ operation_name ++ " distribution: " ++ dist_type))

/-! ## Phases -/

/-- Modelled from the spec: the `Phase` descriptor of `ycsbr/gen/phase.h` (not among
the sources), with the fields that `GetPhase` and `Producer` use. The thresholds are
32-bit unsigned: each is assigned from `as<uint32_t>()`, summed with the `uint32_t
insert_pct`, compared with the `uint32_t` draw and used as a bound of
`uniform_int_distribution<uint32_t>`. -/
structure Phase where
  phase_id : Nat
  num_inserts : Nat := 0
  num_inserts_left : Nat := 0
  num_requests : Nat := 0
  num_requests_left : Nat := 0
  read_thres : Nat := 0
  rmw_thres : Nat := 0
  negativeread_thres : Nat := 0
  scan_thres : Nat := 0
  update_thres : Nat := 0
  delete_thres : Nat := 0
  max_scan_length : Nat := 0
  read_chooser : Option Chooser := none
  rmw_chooser : Option Chooser := none
  negativeread_chooser : Option Chooser := none
  scan_chooser : Option Chooser := none
  update_chooser : Option Chooser := none
  delete_chooser : Option Chooser := none
  scan_length_chooser : Option Chooser := none
  deriving DecidableEq, Repr

/-- Modelled from the spec: `Phase::HasNext` (phase.h is not among the sources),
true while requests are left. -/
def Phase.HasNext (phase : Phase) : Bool := decide (0 < phase.num_requests_left)

/-- Modelled from the spec: `Phase::SetItemCount` (phase.h is not among the sources)
sets the item count of each key chooser of the phase. -/
def Phase.SetItemCount (phase : Phase) (item_count : Nat) : Phase :=
  { phase with
    read_chooser := phase.read_chooser.map (Chooser.SetItemCount · item_count)
    rmw_chooser := phase.rmw_chooser.map (Chooser.SetItemCount · item_count)
    negativeread_chooser := phase.negativeread_chooser.map (Chooser.SetItemCount · item_count)
    scan_chooser := phase.scan_chooser.map (Chooser.SetItemCount · item_count)
    update_chooser := phase.update_chooser.map (Chooser.SetItemCount · item_count)
    delete_chooser := phase.delete_chooser.map (Chooser.SetItemCount · item_count) }

/-- Modelled from the spec: `Phase::IncreaseItemCountBy` (phase.h is not among the
sources) forwards the delta to each key chooser of the phase. -/
def Phase.IncreaseItemCountBy (phase : Phase) (delta : Nat) : Phase :=
  { phase with
    read_chooser := phase.read_chooser.map (Chooser.IncreaseItemCountBy · delta)
    rmw_chooser := phase.rmw_chooser.map (Chooser.IncreaseItemCountBy · delta)
    negativeread_chooser :=
      phase.negativeread_chooser.map (Chooser.IncreaseItemCountBy · delta)
    scan_chooser := phase.scan_chooser.map (Chooser.IncreaseItemCountBy · delta)
    update_chooser := phase.update_chooser.map (Chooser.IncreaseItemCountBy · delta)
    delete_chooser := phase.delete_chooser.map (Chooser.IncreaseItemCountBy · delta) }

/-- The key choosers of a phase that exist. -/
def Phase.keyChoosers (phase : Phase) : List Chooser :=
  [phase.read_chooser, phase.rmw_chooser, phase.negativeread_chooser, phase.scan_chooser,
    phase.update_chooser, phase.delete_chooser].filterMap id

/-- The block that `GetPhase` repeats for read, readmodifywrite, negativeread, update
and delete: when the operation is configured, its threshold is `proportion_pct` and
its chooser is created; otherwise the threshold keeps its initial 0 and the chooser
stays null. -/
def loadOperation (op : Option OpConfig) (operation_name : String)
    (initial_chooser_size : Nat) : Except Error (Nat × Option Chooser) :=
  match op with
  | none => pure (0, none)
  | some c => do
    let thres ← asU32 c.proportion_pct
    let chooser ← CreateChooser c.distribution operation_name initial_chooser_size
    pure (thres, some chooser)

/-- The scan block of `GetPhase` (lines 362-380): threshold, `max_scan_length`
(rejected when 0), key chooser and scan-length chooser. -/
def loadScan (op : Option OpConfig) (initial_chooser_size : Nat) :
    Except Error (Nat × Nat × Option Chooser × Option Chooser) :=
  match op with
  | none => pure (0, 0, none, none)
  | some c => do
    let thres ← asU32 c.proportion_pct
    let max_length ← required c.max_length
    let max_scan_length ← asSizeT max_length
    if max_scan_length = 0 then
      throw (Error.invalid_argument "The maximum scan length must be at least 1.")
    else do
      let chooser ← CreateChooser c.distribution "scan" initial_chooser_size
      pure (thres, max_scan_length, some chooser,
        some { kind := ChooserKind.uniform, item_count := (max_scan_length + 1) % U64 })

/-- The insert block of `GetPhase` (lines 400-402): only the proportion is read. -/
def loadInsertPct (op : Option OpConfig) : Except Error Nat :=
  match op with
  | none => pure 0
  | some c => asU32 c.proportion_pct

/-- The method `WorkloadConfigImpl::GetPhase` (config_impl.cc, lines 318-426) on the
`run` list of the configuration. -/
def GetPhase (run : List PhaseConfig) (phase_id producer_id num_producers : Nat) :
    Except Error Phase := do
  let initial_chooser_size := 1
  let phase_config ← required run[phase_id]?
  -- Compute the number of requests for this producer.
  let total_requests ← asSizeT phase_config.num_requests
  if num_producers = 0 then throw Error.division_by_zero else
  let remainder := total_requests % num_producers
  let num_requests :=
    if producer_id < remainder then total_requests / num_producers + 1
    else total_requests / num_producers
  -- Load the request proportions and validate them.
  let (read_thres, read_chooser) ←
    loadOperation phase_config.read "read" initial_chooser_size
  let (rmw_thres, rmw_chooser) ←
    loadOperation phase_config.readmodifywrite "readmodifywrite" initial_chooser_size
  let (negativeread_thres, negativeread_chooser) ←
    loadOperation phase_config.negativeread "negativeread" initial_chooser_size
  let (scan_thres, max_scan_length, scan_chooser, scan_length_chooser) ←
    loadScan phase_config.scan initial_chooser_size
  let (update_thres, update_chooser) ←
    loadOperation phase_config.update "update" initial_chooser_size
  let (delete_thres, delete_chooser) ←
    loadOperation phase_config.delete "delete" initial_chooser_size
  let insert_pct ← loadInsertPct phase_config.insert
  if (insert_pct + read_thres + rmw_thres + negativeread_thres + scan_thres + update_thres
      + delete_thres) % U32 ≠ 100 then
    throw (Error.invalid_argument "Request proportions must sum to exactly 100%.")
  else
  -- Compute the number of inserts we should expect to do.
  let num_inserts := computeNumInserts num_requests insert_pct
  -- Set the thresholds to allow for comparison against an integer in [0, 100).
  let delete_thres := (delete_thres + read_thres) % U32
  let rmw_thres := (rmw_thres + read_thres) % U32
  let negativeread_thres := (negativeread_thres + rmw_thres) % U32
  let scan_thres := (scan_thres + negativeread_thres) % U32
  let update_thres := (update_thres + scan_thres) % U32
  pure {
    phase_id := phase_id
    num_inserts := num_inserts
    num_inserts_left := num_inserts
    num_requests := num_requests
    num_requests_left := num_requests
    read_thres := read_thres
    rmw_thres := rmw_thres
    negativeread_thres := negativeread_thres
    scan_thres := scan_thres
    update_thres := update_thres
    delete_thres := delete_thres
    max_scan_length := max_scan_length
    read_chooser := read_chooser
    rmw_chooser := rmw_chooser
    negativeread_chooser := negativeread_chooser
    scan_chooser := scan_chooser
    update_chooser := update_chooser
    delete_chooser := delete_chooser
    scan_length_chooser := scan_length_chooser }

/-- The comparator chain of `Producer::Next` (workload.cc, lines 361-378): the
operation selected by the draw `choice`. -/
def selectOperation (phase : Phase) (choice : Nat) : Operation :=
  if choice < phase.read_thres then Operation.kRead
  else if choice < phase.rmw_thres then Operation.kReadModifyWrite
  else if choice < phase.negativeread_thres then Operation.kNegativeRead
  else if choice < phase.scan_thres then Operation.kScan
  else if choice < phase.update_thres then Operation.kUpdate
  else if choice < phase.delete_thres then Operation.kDelete
  else Operation.kInsert

/-- The load section and the top-level keys of the workload configuration
(`raw_config_` and `set_record_size_bytes_` of `WorkloadConfigImpl`). -/
structure WorkloadConfig where
  load_num_records : Option Nat := none
  load_distribution : Option DistributionConfig := none
  run : List PhaseConfig
  record_size_bytes : Option Nat := none
  set_record_size_bytes : Nat := 0
  deriving DecidableEq, Repr

/-- The method `GetRecordSizeBytes` (config_impl.cc, lines 277-292). -/
def WorkloadConfig.GetRecordSizeBytes (config : WorkloadConfig) : Except Error Nat := do
  let record_size_bytes ←
    match config.record_size_bytes with
    | some n => asSizeT n
    | none =>
      if config.set_record_size_bytes ≠ 0 then pure config.set_record_size_bytes
      else throw (Error.invalid_argument "No record size was specified.")
  if record_size_bytes < 9 then
    throw (Error.invalid_argument "Record sizes must be at least 9 bytes.")
  else pure record_size_bytes

/-- The method `GetNumPhases` (config_impl.cc, lines 308-316). -/
def WorkloadConfig.GetNumPhases (config : WorkloadConfig) : Except Error Nat :=
  if config.run.length > kMaxNumPhases then
    throw (Error.invalid_argument "Too many workload phases (only 254 are supported).")
  else pure config.run.length

/-- The function `ParseKeyRange` (config_impl.cc, lines 160-174), returning the
bounds of the range. -/
def ParseKeyRange (range_min range_max : Option Nat) : Except Error (Nat × Nat) := do
  let lo ← required range_min
  let lo ← asSizeT lo
  let hi ← required range_max
  let hi ← asSizeT hi
  if lo > hi then
    throw (Error.invalid_argument "invalid range (min is greater than max).")
  else if lo > kMaxKey ∨ hi > kMaxKey then
    throw (Error.invalid_argument "Key values cannot exceed 2^48 - 1.")
  else pure (lo, hi)

/-- The function `CreateGenerator` (config_impl.cc, lines 178-219), reduced to the
checks it makes: the generator classes themselves (uniform_keygen.h,
hotspot_keygen.h, linspace_keygen.h) are not among the sources, and the keys they
produce are an argument of `Producer.Prepare`. -/
def CreateGenerator (distribution_config : DistributionConfig) : Except Error Unit :=
  let dist_type := distribution_config.dist_type
  if dist_type = "uniform" then do
    let _ ← ParseKeyRange distribution_config.range_min distribution_config.range_max
    pure ()
  else if dist_type = "hotspot" then do
    let _ ← ParseKeyRange distribution_config.range_min distribution_config.range_max
    let _ ← ParseKeyRange distribution_config.hot_range_min distribution_config.hot_range_max
    let pct ← required distribution_config.hot_proportion_pct
    let _ ← asU32 pct
    pure ()
  else if dist_type = "linspace" then do
    let start_key ← required distribution_config.start_key
    let _ ← asSizeT start_key
    let step_size ← required distribution_config.step_size
    let _ ← asSizeT step_size
    pure ()
  else
    throw (Error.invalid_argument ("Unsupported load/insert distribution: " ++ dist_type))

/-- The method `GetCustomInsertsForPhase` (config_impl.cc, lines 445-476): name and
offset of the custom insert list of the phase, if it has one. -/
def WorkloadConfig.GetCustomInsertsForPhase (config : WorkloadConfig) (phase : Phase) :
    Except Error (Option (String × Nat)) := do
  let phase_config ←
    match config.run[phase.phase_id]? with
    | some c => pure c
    | none => throw (Error.invalid_argument "Nonexistent phase id")
  match phase_config.insert with
  | none => pure none
  | some ins =>
    if phase.num_inserts = 0 then pure none
    else if ins.distribution.dist_type ≠ "custom" then pure none
    else
      match ins.distribution.name with
      | none => throw (Error.invalid_argument "Missing custom insert name.")
      | some name =>
        match ins.distribution.offset with
        | some offset => do
          let offset ← asSizeT offset
          pure (some (name, offset))
        | none => pure (some (name, 0))

/-- The method `GetGeneratorForPhase` (config_impl.cc, lines 428-443): `false` stands
for the null pointer. -/
def WorkloadConfig.GetGeneratorForPhase (config : WorkloadConfig) (phase : Phase) :
    Except Error Bool := do
  let phase_config ←
    match config.run[phase.phase_id]? with
    | some c => pure c
    | none => throw (Error.invalid_argument "Nonexistent phase id")
  match phase_config.insert with
  | none => pure false
  | some ins =>
    if phase.num_inserts = 0 then pure false
    else do
      CreateGenerator ins.distribution
      pure true

/-! ## Deletion maps

The maps `delete_map_` and `delete_map_insert_` are `std::map<size_t, size_t>`: here
lists of entries in ascending key order. -/

/-- An ordered map from indices to deletion ordinals. -/
abbrev IndexMap := List (Nat × Nat)

/-- The lookup `find`: the entry with the given key, if any. -/
def IndexMap.find (m : IndexMap) (k : Nat) : Option (Nat × Nat) :=
  List.find? (fun e => e.1 == k) m

/-- The lookup `lower_bound`: the first entry whose key is not less than `k`. -/
def IndexMap.lower_bound (m : IndexMap) (k : Nat) : Option (Nat × Nat) :=
  List.find? (fun e => decide (k ≤ e.1)) m

/-- The insertion `emplace`: adds the entry unless the key is present, keeping the
keys in ascending order. -/
def IndexMap.emplace : IndexMap → Nat → Nat → IndexMap
  | [], k, v => [(k, v)]
  | e :: m, k, v =>
    if k < e.1 then (k, v) :: e :: m
    else if k = e.1 then e :: m
    else e :: IndexMap.emplace m k v

/-- The deletion-skipping loop of `ChooseKey` and `deleteChooseKey`
(`while (target != 0) { index++; if (map.find(index + offset) == map.end()) target--; }`),
returning the final `index`. The loop ends after at most `target` plus the number
of map entries iterations; `fuel` bounds the iterations and `none` is returned
when it runs out. -/
def skipDeleted (m : IndexMap) (offset : Nat) : Nat → Nat → Nat → Option Nat
  | _, index, 0 => some index
  | 0, _, _ + 1 => none
  | fuel + 1, index, target + 1 =>
    if (m.find (index + 1 + offset)).isSome then
      skipDeleted m offset fuel (index + 1) (target + 1)
    else skipDeleted m offset fuel (index + 1) target

/-! ## Producer (`workload.cc`)

The state of one producer, together with the state it shares with the other
producers of the workload (load keys, load deletion map and its size). Indices into
the key vectors are natural numbers; reading past the end of a vector is an error. -/

/-- The fields of `PhasedWorkload::Producer` that `Prepare`, `ChooseKey`,
`deleteChooseKey` and `Next` use. `op_dist_` is kept as its inclusive bounds,
`valuegen_` as the size of its values and `prng_` as the seed it is constructed
with. -/
structure Producer where
  id_ : Nat
  num_producers_ : Nat
  config_ : WorkloadConfig
  phases_ : List Phase := []
  current_phase_ : Nat := 0
  load_keys_ : List Key
  num_load_keys_ : Nat
  custom_inserts_ : Option (List (String × List Key)) := none
  insert_keys_ : List Key := []
  next_insert_key_index_ : Nat := 0
  num_load_previous : Nat
  delete_map_ : IndexMap := []
  map_size_ : Nat := 0
  delete_map_insert_ : IndexMap := []
  map_size_insert : Nat := 0
  value_size : Nat
  op_dist_ : Nat × Nat := (0, 99)
  prng_seed : Nat := 0
  deriving DecidableEq, Repr

/-- The constructor of `Producer` as called by `GetProducers` (workload.cc, lines
117-170): fresh deletion map, `*num_load_keys_` equal to the number of load keys. -/
def Producer.create (config : WorkloadConfig) (load_keys : List Key)
    (custom_inserts : Option (List (String × List Key))) (id num_producers : Nat) :
    Except Error Producer := do
  let record_size ← config.GetRecordSizeBytes
  pure {
    id_ := id
    num_producers_ := num_producers
    config_ := config
    load_keys_ := load_keys
    num_load_keys_ := load_keys.length
    custom_inserts_ := custom_inserts
    num_load_previous := load_keys.length
    value_size := record_size - 8 }

/-- The first loop of `Prepare` (lines 174-178): one `GetPhase` call per phase id. -/
def loadPhases (config : WorkloadConfig) (id num_producers : Nat) :
    List Nat → Except Error (List Phase)
  | [] => pure []
  | phase_id :: rest => do
    let phase ← GetPhase config.run phase_id id num_producers
    let phases ← loadPhases config id num_producers rest
    pure (phase :: phases)

/-- The second loop of `Prepare` (lines 181-221): the insert keys of each phase with
inserts are appended to `insert_keys_`, copied from the named custom list or produced
by the generator of the phase (`keygen phase_id i` is the i-th key it produces), and
tagged with phase id + 1 and producer id + 1. -/
def generateInserts (config : WorkloadConfig)
    (custom_inserts : Option (List (String × List Key))) (id : Nat)
    (keygen : Nat → Nat → Key) : List Phase → List Key → Except Error (List Key)
  | [], insert_keys => pure insert_keys
  | phase :: rest, insert_keys =>
    if phase.num_inserts = 0 then
      generateInserts config custom_inserts id keygen rest insert_keys
    else do
      let custom_insert_info ← config.GetCustomInsertsForPhase phase
      let raw ←
        match custom_insert_info with
        | some (name, offset) =>
          match custom_inserts with
          | none => throw (Error.runtime_error ("Did not find inserts for " ++ name))
          | some lists =>
            match lists.find? (fun e => e.1 == name) with
            | none => throw (Error.runtime_error ("Did not find inserts for " ++ name))
            | some (_, list) =>
              if list.length < offset ∨ list.length - offset < phase.num_inserts then
                throw (Error.runtime_error ("Not enough keys in " ++ name))
              else pure ((list.drop offset).take phase.num_inserts)
        | none => do
          let generator ← config.GetGeneratorForPhase phase
          if generator = false then throw Error.assertion_failed
          else pure ((List.range phase.num_inserts).map (keygen phase.phase_id))
      generateInserts config custom_inserts id keygen rest
        (insert_keys ++ ApplyPhaseAndProducerIDs raw (phase.phase_id + 1) (id + 1))

/-- The third loop of `Prepare` (lines 225-229): the item count of each phase is the
number of load keys plus the inserts of the phases before it. -/
def setItemCounts : List Phase → Nat → List Phase
  | [], _ => []
  | phase :: rest, count =>
    phase.SetItemCount count :: setItemCounts rest ((count + phase.num_inserts) % U64)

/-- The method `Producer::Prepare` (workload.cc, lines 172-230) on a producer that has
not been prepared before. -/
def Producer.Prepare (p : Producer) (keygen : Nat → Nat → Key) : Except Error Producer := do
  let num_phases ← p.config_.GetNumPhases
  let phases ← loadPhases p.config_ p.id_ p.num_producers_ (List.range num_phases)
  let insert_keys ←
    generateInserts p.config_ p.custom_inserts_ p.id_ keygen phases p.insert_keys_
  pure { p with
    phases_ := p.phases_ ++ setItemCounts phases p.load_keys_.length
    insert_keys_ := insert_keys }

/-- The method `Producer::HasNext` (workload.h). -/
def Producer.HasNext (p : Producer) : Bool :=
  match p.phases_[p.current_phase_]? with
  | some phase => phase.HasNext
  | none => false

/-- An update of the phase `phases_[current_phase_]`. -/
def Producer.modifyPhase (p : Producer) (f : Phase → Phase) : Producer :=
  { p with phases_ := p.phases_.modify f p.current_phase_ }

/-- The live load-key count `*num_load_keys_ - *map_size_`. -/
def Producer.numLoad (p : Producer) : Nat :=
  (p.num_load_keys_ + (U64 - p.map_size_ % U64)) % U64

/-- The first statements of `ChooseKey` and `deleteChooseKey` (lines 238-241 and
312-315), run before the chooser draws: when the live load-key count differs from the
one observed last, the item counts of the current phase are changed by the unsigned
difference `num_load - num_load_previous`. -/
def Producer.syncLoadCount (p : Producer) : Producer :=
  let num_load := p.numLoad
  let p :=
    if (p.num_load_previous + (U64 - num_load)) % U64 > 0 then
      p.modifyPhase (Phase.IncreaseItemCountBy · ((num_load + (U64 - p.num_load_previous % U64)) % U64))
    else p
  { p with num_load_previous := num_load }

/-- The method `Producer::IntoLoadKeys` (workload.cc, lines 268-285). -/
def Producer.IntoLoadKeys (p : Producer) (index : Nat) : Nat :=
  if p.map_size_ > 0 then
    match p.delete_map_.lower_bound index with
    | none => p.map_size_
    | some result =>
      if result.1 = index then result.2
      else if result.1 > index then
        if p.map_size_ ≠ 1 then result.2 - 1 else 0
      else 0
  else 0

/-- The method `Producer::IntoInsertKeys` (workload.cc, lines 287-304). -/
def Producer.IntoInsertKeys (p : Producer) (index : Nat) : Nat :=
  if p.map_size_insert > 0 then
    match p.delete_map_insert_.lower_bound index with
    | none => p.map_size_insert
    | some result =>
      if result.1 = index then result.2
      else if result.1 > index then
        if p.map_size_insert ≠ 1 then result.2 - 1 else 0
      else 0
  else 0

/-- The physical position that `ChooseKey` and `deleteChooseKey` reach for the draw
`index` (lines 243-250 and 254-263): `Sum.inl` is a position in `load_keys_`,
`Sum.inr` a position in `insert_keys_`. -/
def Producer.locate (p : Producer) (index : Nat) : Except Error (Nat ⊕ Nat) :=
  if p.numLoad > index then
    let target := p.IntoLoadKeys index
    match skipDeleted p.delete_map_ 0 (target + p.delete_map_.length) index target with
    | some index => pure (Sum.inl index)
    | none => throw Error.loop_bound
  else
    let index := index - p.numLoad
    let target := p.IntoInsertKeys (index + p.num_load_keys_)
    match skipDeleted p.delete_map_insert_ p.num_load_keys_
        (target + p.delete_map_insert_.length) index target with
    | some index => pure (Sum.inr index)
    | none => throw Error.loop_bound

/-- The method `Producer::ChooseKey` (workload.cc, lines 232-266). `chooser` selects
the chooser of the current phase that is passed by reference and `draw` is what its
`Next(prng_)` returns. -/
def Producer.ChooseKey (p : Producer) (chooser : Phase → Option Chooser) (draw : Nat) :
    Except Error (Key × Producer) := do
  let p := p.syncLoadCount
  let this_phase ← elemAt p.phases_ p.current_phase_
  if (chooser this_phase).isNone then throw Error.null_pointer else
  let position ← p.locate draw
  match position with
  | Sum.inl index => do
    let key ← elemAt p.load_keys_ index
    pure (key, p)
  | Sum.inr index => do
    let key ← elemAt p.insert_keys_ index
    pure (key, p)

/-- The method `Producer::deleteChooseKey` (workload.cc, lines 307-345): as `ChooseKey`,
and the position reached is recorded in the deletion map of its key space. -/
def Producer.deleteChooseKey (p : Producer) (chooser : Phase → Option Chooser)
    (draw : Nat) : Except Error (Key × Producer) := do
  let p := p.syncLoadCount
  let this_phase ← elemAt p.phases_ p.current_phase_
  if (chooser this_phase).isNone then throw Error.null_pointer else
  let position ← p.locate draw
  match position with
  | Sum.inl index => do
    let key ← elemAt p.load_keys_ index
    pure (key, { p with
      delete_map_ := p.delete_map_.emplace index (p.map_size_ + 1)
      map_size_ := p.map_size_ + 1 })
  | Sum.inr index => do
    let p := { p with
      delete_map_insert_ :=
        p.delete_map_insert_.emplace (index + p.num_load_keys_) (p.map_size_insert + 1)
      map_size_insert := p.map_size_insert + 1 }
    let p := p.modifyPhase (Phase.IncreaseItemCountBy · (U64 - 1))
    let key ← elemAt p.insert_keys_ index
    pure (key, p)

/-- The operation decided at the start of `Producer::Next` (workload.cc, lines
352-379): the comparator chain on the draw `choice` when fewer inserts than requests
are left, an insert otherwise. With `debug` the assertion of the final `else` is
checked. -/
def Producer.chooseOperation (debug : Bool) (this_phase : Phase) (choice : Nat) :
    Except Error Operation :=
  if this_phase.num_inserts_left < this_phase.num_requests_left then
    let next_op := selectOperation this_phase choice
    if next_op = Operation.kInsert ∧ debug = true ∧ ¬ (0 < this_phase.num_inserts_left) then
      throw Error.assertion_failed
    else pure next_op
  else pure Operation.kInsert

/-- The insert case of `Producer::Next` (workload.cc, lines 428-450). -/
def Producer.doInsert (debug : Bool) (p : Producer) : Except Error (Request × Producer) := do
  let this_phase ← elemAt p.phases_ p.current_phase_
  let key ← elemAt p.insert_keys_ p.next_insert_key_index_
  let to_return : Request :=
    { op := Operation.kInsert, key := key, scan_amount := 0, value_size := p.value_size }
  let num_inserts_left := (this_phase.num_inserts_left + (U64 - 1)) % U64
  let p := { p with next_insert_key_index_ := p.next_insert_key_index_ + 1 }
  let p := p.modifyPhase (fun phase => { phase with num_inserts_left := num_inserts_left })
  let p := p.modifyPhase (Phase.IncreaseItemCountBy · 1)
  if num_inserts_left = 0 then
    if this_phase.delete_thres > 0 then
      pure (to_return, { p with op_dist_ := (0, this_phase.delete_thres - 1) })
    else if debug = true ∧ this_phase.num_requests_left ≠ 1 then
      throw Error.assertion_failed
    else pure (to_return, p)
  else pure (to_return, p)

/-- The switch of `Producer::Next` (workload.cc, lines 381-451): the request for the
operation `next_op`, the key returned by `ChooseKey` or `deleteChooseKey` when one
of them is called, and the state afterwards. `draw` is the value drawn by the key
chooser and `scan_draw` the value drawn by the scan-length chooser. -/
def Producer.dispatch (debug : Bool) (p : Producer) (next_op : Operation)
    (draw scan_draw : Nat) : Except Error (Request × Option Key × Producer) :=
  match next_op with
  | Operation.kRead => do
    let (key, p) ← p.ChooseKey Phase.read_chooser draw
    pure ({ op := Operation.kRead, key := key, scan_amount := 0, value_size := 0 },
      some key, p)
  | Operation.kReadModifyWrite => do
    let (key, p) ← p.ChooseKey Phase.rmw_chooser draw
    pure ({ op := Operation.kReadModifyWrite, key := key, scan_amount := 0,
            value_size := p.value_size }, some key, p)
  | Operation.kNegativeRead => do
    let (to_read, p) ← p.ChooseKey Phase.negativeread_chooser draw
    pure ({ op := Operation.kNegativeRead, key := to_read ||| (0xFF <<< 8),
            scan_amount := 0, value_size := 0 }, some to_read, p)
  | Operation.kScan => do
    let (key, p) ← p.ChooseKey Phase.scan_chooser draw
    let this_phase ← elemAt p.phases_ p.current_phase_
    if this_phase.scan_length_chooser.isNone then throw Error.null_pointer
    else
      pure ({ op := Operation.kScan, key := key, scan_amount := (scan_draw + 1) % U64,
              value_size := 0 }, some key, p)
  | Operation.kUpdate => do
    let (key, p) ← p.ChooseKey Phase.update_chooser draw
    pure ({ op := Operation.kUpdate, key := key, scan_amount := 0,
            value_size := p.value_size }, some key, p)
  | Operation.kDelete => do
    let (key, p) ← p.deleteChooseKey Phase.delete_chooser draw
    pure ({ op := Operation.kDelete, key := key, scan_amount := 0, value_size := 0 },
      some key, p)
  | Operation.kInsert => do
    let (to_return, p) ← p.doInsert debug
    pure (to_return, none, p)

/-- The end of `Producer::Next` (workload.cc, lines 453-470): one request less is
left; when none is left the producer moves to the next phase, whose item counts are
set from the sizes of the key vectors and of the deletion maps, and the operation
draw is reset to `[0, 99]`. -/
def Producer.advance (p : Producer) : Except Error Producer := do
  let this_phase ← elemAt p.phases_ p.current_phase_
  let num_requests_left := (this_phase.num_requests_left + (U64 - 1)) % U64
  let p := p.modifyPhase (fun phase => { phase with num_requests_left := num_requests_left })
  if num_requests_left = 0 then
    let p := { p with current_phase_ := p.current_phase_ + 1 }
    let p :=
      if p.current_phase_ < p.phases_.length then
        p.modifyPhase (Phase.SetItemCount ·
          ((p.num_load_keys_ + p.insert_keys_.length + (U64 - p.map_size_ % U64)
            + (U64 - p.map_size_insert % U64)) % U64))
      else p
    pure { p with op_dist_ := (0, 99) }
  else pure p

/-- The method `Producer::Next` (workload.cc, lines 348-472) together with the key
that its chooser call returned. `choice`, `draw` and `scan_draw` are the values
drawn from `op_dist_`, from the key chooser and from the scan-length chooser (each
is used only if the call makes that draw). With `debug` the assertions are checked
and a failed one is an error; without, they are skipped as in a release build. -/
def Producer.NextTraced (debug : Bool) (p : Producer) (choice draw scan_draw : Nat) :
    Except Error (Request × Option Key × Producer) := do
  if debug = true ∧ p.HasNext = false then throw Error.assertion_failed else
  let this_phase ← elemAt p.phases_ p.current_phase_
  let next_op ← Producer.chooseOperation debug this_phase choice
  let (to_return, chosen, p) ← p.dispatch debug next_op draw scan_draw
  let p ← p.advance
  pure (to_return, chosen, p)

/-- The method `Producer::Next`: the request and the state afterwards. -/
def Producer.Next (debug : Bool) (p : Producer) (choice draw scan_draw : Nat) :
    Except Error (Request × Producer) := do
  let (to_return, _, p) ← p.NextTraced debug choice draw scan_draw
  pure (to_return, p)

/-- Successive calls of `Next`, one per triple of draws, while the producer has a
next request and no call fails: the requests emitted, each with the key returned by
its chooser call, and the last state reached. -/
def Producer.run (debug : Bool) :
    Producer → List (Nat × Nat × Nat) → List (Request × Option Key) × Producer
  | p, [] => ([], p)
  | p, (choice, draw, scan_draw) :: draws =>
    if p.HasNext then
      match p.NextTraced debug choice draw scan_draw with
      | Except.ok (to_return, chosen, p1) =>
        let (trace, p2) := Producer.run debug p1 draws
        ((to_return, chosen) :: trace, p2)
      | Except.error _ => ([], p)
    else ([], p)

/-! ## Auxiliary notions used in the statements -/

/-- The configured proportion of an operation, an absent operation counting as 0. -/
def proportionOf (op : Option OpConfig) : Nat :=
  match op with
  | none => 0
  | some c => c.proportion_pct

/-- The number of draws in `[0, 100)` that the comparator chain maps to `op`. -/
def drawsSelecting (phase : Phase) (op : Operation) : Nat :=
  ((List.range 100).filter (fun choice => selectOperation phase choice = op)).length

/-! ## Example workloads -/

/-- A uniform access distribution. -/
def uniformAccess : DistributionConfig := { dist_type := "uniform" }

/-- A uniform insert distribution over `[1000, 2000]`. -/
def uniformInserts : DistributionConfig :=
  { dist_type := "uniform", range_min := some 1000, range_max := some 2000 }

/-- A phase of 100 requests: 50% reads, 30% updates, 20% deletes. -/
def mixedDeletePhase : PhaseConfig :=
  { num_requests := 100
    read := some { proportion_pct := 50, distribution := uniformAccess }
    update := some { proportion_pct := 30, distribution := uniformAccess }
    delete := some { proportion_pct := 20, distribution := uniformAccess } }

/-- A phase whose proportions are 4294967295 (read) and 101 (update). -/
def wrappedSumPhase : PhaseConfig :=
  { num_requests := 100
    read := some { proportion_pct := 4294967295, distribution := uniformAccess }
    update := some { proportion_pct := 101, distribution := uniformAccess } }

/-- A phase of 100 requests: 71% reads, 29% inserts. -/
def insert29Phase : PhaseConfig :=
  { num_requests := 100
    read := some { proportion_pct := 71, distribution := uniformAccess }
    insert := some { proportion_pct := 29, distribution := uniformInserts } }

/-- A workload of two phases: one read, then two requests with 50% reads and 50%
inserts. -/
def readThenInsertWorkload : WorkloadConfig :=
  { run := [
      { num_requests := 1
        read := some { proportion_pct := 100, distribution := uniformAccess } },
      { num_requests := 2
        read := some { proportion_pct := 50, distribution := uniformAccess }
        insert := some { proportion_pct := 50, distribution := uniformInserts } }]
    record_size_bytes := some 16 }

/-- A workload of two phases: two requests with 50% updates and 50% inserts, then
one insert. -/
def updateInsertWorkload : WorkloadConfig :=
  { run := [
      { num_requests := 2
        update := some { proportion_pct := 50, distribution := uniformAccess }
        insert := some { proportion_pct := 50, distribution := uniformInserts } },
      { num_requests := 1
        insert := some { proportion_pct := 100, distribution := uniformInserts } }]
    record_size_bytes := some 16 }

/-- A workload of one phase: four requests with 50% reads and 50% deletes. -/
def readDeleteWorkload : WorkloadConfig :=
  { run := [
      { num_requests := 4
        read := some { proportion_pct := 50, distribution := uniformAccess }
        delete := some { proportion_pct := 50, distribution := uniformAccess } }]
    record_size_bytes := some 16 }

/-- The keys that the insert generator of the examples produces: 1000, 1001, ... -/
def exampleKeygen (_phase_id i : Nat) : Key := 1000 + i

/-- The producer 0 of 1 of a workload over the load keys 5 and 6 (tagged), created
and prepared. -/
def exampleProducer (config : WorkloadConfig) : Except Error Producer := do
  let p ← Producer.create config (ApplyPhaseAndProducerIDs [5, 6] 0 0) none 0 1
  p.Prepare exampleKeygen

/-- The phases that `GetPhase` returns for the producers of `mixedDeletePhase`. -/
def mixedDeletePhases (num_producers producer_id : Nat) : Phase :=
  match GetPhase [mixedDeletePhase] 0 producer_id num_producers with
  | Except.ok phase => phase
  | Except.error _ => { phase_id := 0 }

/-! ## Invariants of the deletion maps -/

/-- Ascending keys. -/
def IndexMap.Sorted (m : IndexMap) : Prop := List.Pairwise (fun a b => a.1 < b.1) m

/-- The deletion maps are well formed: ascending keys, ordinals from 1, and a
non-empty map has a positive size counter. -/
def Producer.MapsOk (p : Producer) : Prop :=
  p.delete_map_.Sorted ∧ p.delete_map_insert_.Sorted ∧
  (∀ e, e ∈ p.delete_map_ → 1 ≤ e.2) ∧ (∀ e, e ∈ p.delete_map_insert_ → 1 ≤ e.2) ∧
  (p.delete_map_ ≠ [] → 0 < p.map_size_) ∧
  (p.delete_map_insert_ ≠ [] → 0 < p.map_size_insert)

/-- The key `K` stands at a position that is recorded in a deletion map. -/
def Producer.deletedKey (p : Producer) (K : Key) : Prop :=
  (∃ i, p.load_keys_[i]? = some K ∧ (p.delete_map_.find i).isSome = true) ∨
  (∃ j, p.insert_keys_[j]? = some K ∧
    (p.delete_map_insert_.find (j + p.num_load_keys_)).isSome = true)

/-- The key `K` stands at a position that is in no deletion map. -/
def Producer.liveKey (p : Producer) (K : Key) : Prop :=
  (∃ i, p.load_keys_[i]? = some K ∧ (p.delete_map_.find i).isSome = false) ∨
  (∃ j, p.insert_keys_[j]? = some K ∧
    (p.delete_map_insert_.find (j + p.num_load_keys_)).isSome = false)

/-- The state `q` has the key vectors of `p` and deletion maps that contain those
of `p`. -/
def Producer.Extends (p q : Producer) : Prop :=
  q.load_keys_ = p.load_keys_ ∧ q.insert_keys_ = p.insert_keys_ ∧
  q.num_load_keys_ = p.num_load_keys_ ∧
  (∀ e, e ∈ p.delete_map_ → e ∈ q.delete_map_) ∧
  (∀ e, e ∈ p.delete_map_insert_ → e ∈ q.delete_map_insert_)

/-- The states `p` and `q` have the same key vectors, deletion maps and counters. -/
def Producer.SameKeySpace (p q : Producer) : Prop :=
  q.load_keys_ = p.load_keys_ ∧ q.insert_keys_ = p.insert_keys_ ∧
  q.num_load_keys_ = p.num_load_keys_ ∧ q.delete_map_ = p.delete_map_ ∧
  q.map_size_ = p.map_size_ ∧ q.delete_map_insert_ = p.delete_map_insert_ ∧
  q.map_size_insert = p.map_size_insert

/-- What one successful call of `Next` does to the deletion maps and which key it
can return. -/
def Producer.StepOk (p q : Producer) (r : Request) (chosen : Option Key) : Prop :=
  q.MapsOk ∧ p.Extends q ∧ (∀ K, chosen = some K → p.liveKey K) ∧
  (r.op = Operation.kDelete → ∃ K, chosen = some K ∧ q.deletedKey K) ∧
  (r.op ≠ Operation.kInsert → r.op ≠ Operation.kNegativeRead → chosen = some r.key)

/-! ## The workload (`workload.cc`, lines 41-138) -/

/-- The fields of `PhasedWorkload`: seed, configuration, load keys (null until they
are generated or set) and custom insert lists (null until the first one is added). -/
structure PhasedWorkload where
  prng_seed_ : Nat
  config_ : WorkloadConfig
  load_keys_ : Option (List Key) := none
  custom_inserts_ : Option (List (String × List Key)) := none
  deriving DecidableEq, Repr

/-- The method `UsingCustomDatasetImpl` (config_impl.cc, lines 262-265). -/
def WorkloadConfig.UsingCustomDataset (config : WorkloadConfig) : Except Error Bool := do
  let distribution ← required config.load_distribution
  pure (decide (distribution.dist_type = "custom"))

/-- The method `GetNumLoadRecordsImpl` (config_impl.cc, lines 272-275). -/
def WorkloadConfig.GetNumLoadRecords (config : WorkloadConfig) : Except Error Nat := do
  let custom ← config.UsingCustomDataset
  if custom = true then pure 0
  else do
    let num_records ← required config.load_num_records
    asSizeT num_records

/-- The method `GetLoadGenerator` (config_impl.cc, lines 294-306), reduced like
`CreateGenerator` to the checks it makes. -/
def WorkloadConfig.GetLoadGenerator (config : WorkloadConfig) : Except Error Unit := do
  let custom ← config.UsingCustomDataset
  if custom = true then
    throw (Error.invalid_argument
      "Cannot create a generator when a custom dataset is being used.")
  else
    match config.load_distribution with
    | none => throw (Error.invalid_argument "Missing load distribution configuration.")
    | some load_dist => CreateGenerator load_dist

/-- The call `std::sort(load_keys_->begin(), load_keys_->end())`: the keys in
ascending order. -/
def sortKeys (keys : List Nat) : List Nat :=
  List.insertionSort (fun a b => a ≤ b) keys

/-- The largest element of a non-empty vector (`*std::max_element`). -/
def maxElement (first : Nat) (rest : List Nat) : Nat :=
  rest.foldl max first

/-- The constructor `PhasedWorkload::PhasedWorkload` (workload.cc, lines 56-77).
With a custom dataset the load keys stay null; otherwise `num_records` keys are
generated (`loadgen i` is the i-th key the load generator produces), tagged with
phase 0 and producer 0 and sorted. -/
def PhasedWorkload.create (config : WorkloadConfig) (prng_seed : Nat)
    (loadgen : Nat → Key) : Except Error PhasedWorkload := do
  let custom ← config.UsingCustomDataset
  if custom = true then
    pure { prng_seed_ := prng_seed, config_ := config }
  else do
    let num_records ← config.GetNumLoadRecords
    config.GetLoadGenerator
    let load_keys := (List.range num_records).map loadgen
    pure {
      prng_seed_ := prng_seed
      config_ := config
      load_keys_ := some (sortKeys (ApplyPhaseAndProducerIDs load_keys 0 0)) }

/-- The method `SetCustomLoadDataset` (workload.cc, lines 79-91): the outcome and
the workload afterwards. On an empty dataset the assertion fails in a debug build,
and a release build reads the element past the end. -/
def PhasedWorkload.SetCustomLoadDataset (debug : Bool) (w : PhasedWorkload)
    (dataset : List Key) : Except Error Unit × PhasedWorkload :=
  match dataset with
  | [] => (throw (if debug = true then Error.assertion_failed else Error.out_of_bounds), w)
  | first :: rest =>
    if maxElement first rest > kMaxKey then
      (throw (Error.invalid_argument "The maximum supported key is 2^48 - 1."), w)
    else
      (pure (), { w with
        load_keys_ := some (sortKeys (ApplyPhaseAndProducerIDs (first :: rest) 0 0)) })

/-- The insertion `emplace` of an `unordered_map`: the list is added unless the name
is present. -/
def emplaceList (lists : List (String × List Key)) (name : String) (list : List Key) :
    List (String × List Key) :=
  if (lists.find? (fun e => e.1 == name)).isSome then lists else lists ++ [(name, list)]

/-- The method `AddCustomInsertList` (workload.cc, lines 93-104): the outcome and the
workload afterwards. -/
def PhasedWorkload.AddCustomInsertList (debug : Bool) (w : PhasedWorkload) (name : String)
    (to_insert : List Key) : Except Error Unit × PhasedWorkload :=
  match to_insert with
  | [] => (throw (if debug = true then Error.assertion_failed else Error.out_of_bounds), w)
  | first :: rest =>
    if maxElement first rest > kMaxKey then
      (throw (Error.invalid_argument "The maximum supported key is 2^48 - 1."), w)
    else
      let lists :=
        match w.custom_inserts_ with
        | none => []
        | some lists => lists
      (pure (), { w with custom_inserts_ := some (emplaceList lists name (first :: rest)) })

/-- The access through a pointer; a null pointer is an error. -/
def deref {α : Type} : Option α → Except Error α
  | some a => pure a
  | none => throw Error.null_pointer

/-- The loop of `GetProducers` (workload.cc, lines 128-136): one producer per id, its
PRNG seeded with `prng_seed_ ^ id` (converted to the 32-bit seed parameter). The type
`ProducerID` is declared in `ycsbr/gen/types.h`, which is not among the sources; it
is taken to hold every id below `num_producers`, as the mask `producer_id & 0xFF` of
`ApplyPhaseAndProducerIDs` presupposes. -/
def constructProducers (w : PhasedWorkload) (load_keys : List Key) (num_producers : Nat) :
    List Nat → Except Error (List Producer)
  | [] => pure []
  | id :: rest => do
    let p ← Producer.create w.config_ load_keys w.custom_inserts_ id num_producers
    let p := { p with prng_seed := (w.prng_seed_ ^^^ id) % U32 }
    let producers ← constructProducers w load_keys num_producers rest
    pure (p :: producers)

/-- The method `PhasedWorkload::GetProducers` (workload.cc, lines 117-138). The
producers share the load keys, their number, the deletion map and its size; each
producer state holds its view of them. -/
def PhasedWorkload.GetProducers (w : PhasedWorkload) (num_producers : Nat) :
    Except Error (List Producer) := do
  let load_keys ← deref w.load_keys_
  constructProducers w load_keys num_producers (List.range num_producers)


/-- The real number that a finite double stands for. -/
def Double.value (x : Double) : ℚ :=
  (if x.neg = true then -1 else 1) * (x.mant : ℚ) * (2 : ℚ) ^ x.exp

/-- The double that a decimal literal `num / den` is converted to (rounded to
nearest). -/
def parseDecimal (num den : Nat) : Double :=
  { neg := false, mant := (roundDouble num den).1, exp := (roundDouble num den).2 }

/-- The access distribution types that `CreateChooser` knows. -/
def chooserTypes : List String := ["uniform", "zipfian", "zipfian_clustered", "latest"]

/-- The insert and load distribution types that `CreateGenerator` knows. -/
def generatorTypes : List String := ["uniform", "hotspot", "linspace"]

/-- A configuration whose file gives a record size of 16 bytes and that is loaded
with `set_record_size_bytes` = 32. -/
def bothRecordSizes : WorkloadConfig :=
  { run := [], record_size_bytes := some 16, set_record_size_bytes := 32 }

/-- A scattered Zipfian distribution with theta = 0.5. -/
def zipfianOneHalf : DistributionConfig :=
  { dist_type := "zipfian", theta := some (parseDecimal 1 2) }

/-- A workload with a custom dataset and one phase of reads, before its dataset is
set. -/
def exampleWorkload : PhasedWorkload :=
  { prng_seed_ := 42
    config_ :=
      { load_distribution := some { dist_type := "custom" }
        run := [{ num_requests := 4
                  read := some { proportion_pct := 100, distribution := uniformAccess } }]
        record_size_bytes := some 16 } }

/-- A configuration whose three load keys are generated from a uniform distribution. -/
def generatedWorkload : WorkloadConfig :=
  { load_num_records := some 3
    load_distribution :=
      some { dist_type := "uniform", range_min := some 0, range_max := some 100 }
    run := []
    record_size_bytes := some 16 }

/-! ## Notions used in the statements about tags and producers -/

/-- The index of `insert_keys_` at which the insert keys of the phase at position `f`
start (`insert_index` in `Prepare`): the sum of `num_inserts` over the phases before
it. -/
def insertStart (phases : List Phase) (f : Nat) : Nat :=
  ((phases.take f).map (fun phase => phase.num_inserts)).sum

/-- The workloads that the constructor, `SetCustomLoadDataset` and
`AddCustomInsertList` produce. -/
inductive PhasedWorkload.Reachable : PhasedWorkload → Prop where
  | create {config : WorkloadConfig} {seed : Nat} {loadgen : Nat → Key} {w : PhasedWorkload} :
    PhasedWorkload.create config seed loadgen = Except.ok w → PhasedWorkload.Reachable w
  | setLoad {w : PhasedWorkload} (debug : Bool) (dataset : List Key) :
    PhasedWorkload.Reachable w →
    PhasedWorkload.Reachable (w.SetCustomLoadDataset debug dataset).2
  | addInserts {w : PhasedWorkload} (debug : Bool) (name : String) (keys : List Key) :
    PhasedWorkload.Reachable w →
    PhasedWorkload.Reachable (w.AddCustomInsertList debug name keys).2

/-- The origin of a key in the key vectors of a producer: a position of `load_keys_`
or a position of `insert_keys_`. -/
def Producer.holdsKey (p : Producer) (K : Key) : Prop :=
  (∃ i : Nat, p.load_keys_[i]? = some K) ∨ (∃ j : Nat, p.insert_keys_[j]? = some K)

/-- A workload with a custom dataset and the two phases of `updateInsertWorkload`,
before its dataset is set. -/
def insertingWorkload : PhasedWorkload :=
  { prng_seed_ := 42
    config_ :=
      { load_distribution := some { dist_type := "custom" }
        run := updateInsertWorkload.run
        record_size_bytes := some 16 } }

/-- The workload `insertingWorkload` after its dataset has been set to 7, 5, 6. -/
def loadedWorkload : PhasedWorkload :=
  (insertingWorkload.SetCustomLoadDataset true [7, 5, 6]).2

/-- A workload over the dataset 5 with one phase of 256 requests, all of them
inserts. -/
def manyInsertsWorkload : PhasedWorkload :=
  (({ prng_seed_ := 42
      config_ :=
        { load_distribution := some { dist_type := "custom" }
          run := [{ num_requests := 256
                    insert := some { proportion_pct := 100, distribution := uniformInserts } }]
          record_size_bytes := some 16 } } : PhasedWorkload).SetCustomLoadDataset true [5]).2

/-- Whether `Prepare` returns for every producer of the list. -/
def allPrepared (producers : List Producer) (keygen : Nat → Nat → Key) : Bool :=
  producers.all (fun p =>
    match p.Prepare keygen with
    | Except.ok _ => true
    | Except.error _ => false)

/-- A workload over the dataset 5, 6 with one phase of two negative reads. -/
def negativeReadWorkload : PhasedWorkload :=
  (({ prng_seed_ := 42
      config_ :=
        { load_distribution := some { dist_type := "custom" }
          run := [{ num_requests := 2
                    negativeread := some { proportion_pct := 100,
                                           distribution := uniformAccess } }]
          record_size_bytes := some 16 } } : PhasedWorkload).SetCustomLoadDataset true [5, 6]).2

/-- Whether `GetProducers` returns for the count `N` and `Prepare` returns for every
producer of the list. -/
def producersPrepared (w : PhasedWorkload) (N : Nat) (keygen : Nat → Nat → Key) : Bool :=
  match w.GetProducers N with
  | Except.ok producers => allPrepared producers keygen
  | Except.error _ => false

/-! ## The producers of one workload run together

`GetProducers` hands the same four pointers to every producer (workload.cc, lines
122-126 and 134): the load keys, their number, the deletion map of the load keys and
the size of that map. A call of `Next` reads and writes them through the pointers, so
a producer sees the deletions that the other producers have made before the call. -/

/-- The state behind the pointers `num_load_keys_`, `delete_map_` and `map_size_`
that the producers of one `GetProducers` call share. -/
structure Shared where
  num_load_keys_ : Nat
  delete_map_ : IndexMap := []
  map_size_ : Nat := 0
  deriving DecidableEq, Repr

/-- The producer state with the shared fields read through the pointers. -/
def Producer.attach (p : Producer) (shared : Shared) : Producer :=
  { p with
    num_load_keys_ := shared.num_load_keys_
    delete_map_ := shared.delete_map_
    map_size_ := shared.map_size_ }

/-- The shared fields as a call leaves them. -/
def Producer.detach (p : Producer) : Shared :=
  { num_load_keys_ := p.num_load_keys_
    delete_map_ := p.delete_map_
    map_size_ := p.map_size_ }

/-- The method `Prepare` called on every producer of the list. -/
def prepareAll (keygen : Nat → Nat → Key) : List Producer → Except Error (List Producer)
  | [] => pure []
  | p :: rest => do
    let q ← p.Prepare keygen
    let producers ← prepareAll keygen rest
    pure (q :: producers)

/-- The calls of `Next` in the order of a schedule: each entry names the producer
that makes the next call and the draws of that call. A producer without a next
request makes no call, and the run stops at the first error. The result lists the
requests with the position of the producer that emitted them. -/
def runSchedule (debug : Bool) :
    List Producer → Shared → List (Nat × Nat × Nat × Nat) → List (Nat × Request)
  | _, _, [] => []
  | producers, shared, (i, choice, draw, scan_draw) :: rest =>
    match producers[i]? with
    | none => []
    | some p =>
      if p.HasNext then
        match (p.attach shared).Next debug choice draw scan_draw with
        | Except.ok (to_return, q) =>
          (i, to_return) :: runSchedule debug (producers.set i q) q.detach rest
        | Except.error _ => []
      else runSchedule debug producers shared rest

/-- The producers of `GetProducers(N)`, prepared and then driven by a schedule. -/
def PhasedWorkload.runProducers (debug : Bool) (w : PhasedWorkload) (N : Nat)
    (keygen : Nat → Nat → Key) (schedule : List (Nat × Nat × Nat × Nat)) :
    Except Error (List (Nat × Request)) := do
  let producers ← w.GetProducers N
  let producers ← prepareAll keygen producers
  let load_keys ← deref w.load_keys_
  pure (runSchedule debug producers { num_load_keys_ := load_keys.length } schedule)

/-- The requests of the producer at position `i` in the result of a schedule. -/
def requestsOf (i : Nat) (trace : List (Nat × Request)) : List Request :=
  (trace.filter (fun e => e.1 == i)).map (fun e => e.2)

/-- A workload over the dataset 5, 6 with one phase of two deletes. -/
def deleteTwoWorkload : PhasedWorkload :=
  (({ prng_seed_ := 42
      config_ :=
        { load_distribution := some { dist_type := "custom" }
          run := [{ num_requests := 2
                    delete := some { proportion_pct := 100, distribution := uniformAccess } }]
          record_size_bytes := some 16 } } : PhasedWorkload).SetCustomLoadDataset true [5, 6]).2

/-- The Delete request for the key `key`. -/
def deleteRequest (key : Key) : Request :=
  { op := Operation.kDelete, key := key, scan_amount := 0, value_size := 0 }

/-! ## Meters and benchmark results (`meter.h`, `tracking.h`, `benchmark_result.h`)

A latency is the count of a `std::chrono::nanoseconds`, a signed integer. The
counters of a meter count the requests, records and bytes of one run; they stay far
below `2^64` and are written without reduction. -/

/-- The class `Meter`. -/
structure Meter where
  bytes_ : Nat := 0
  request_count_ : Nat := 0
  record_count_ : Nat := 0
  latencies_ : List Int := []
  deriving DecidableEq, Repr

/-- The method `Meter::RecordMultipleRecords` (meter.h, lines 23-31). -/
def Meter.RecordMultipleRecords (m : Meter) (run_time : Option Int)
    (bytes record_count : Nat) : Meter :=
  { latencies_ :=
      match run_time with
      | some t => m.latencies_ ++ [t]
      | none => m.latencies_
    request_count_ := m.request_count_ + 1
    bytes_ := m.bytes_ + bytes
    record_count_ := m.record_count_ + record_count }

/-- The method `Meter::Record` (meter.h, lines 19-21). -/
def Meter.Record (m : Meter) (run_time : Option Int) (bytes : Nat) : Meter :=
  m.RecordMultipleRecords run_time bytes 1

/-- The class `FrozenMeter`; its default constructor gives zero counters and no
latencies. -/
structure FrozenMeter where
  bytes_ : Nat := 0
  request_count_ : Nat := 0
  record_count_ : Nat := 0
  latencies_ : List Int := []
  deriving DecidableEq, Repr

/-- The call `std::sort` on a vector of latencies. -/
def sortLatencies (latencies : List Int) : List Int :=
  List.insertionSort (fun a b => a ≤ b) latencies

/-- The method `Meter::Freeze` (meter.h, lines 123-126). -/
def Meter.Freeze (m : Meter) : FrozenMeter :=
  { bytes_ := m.bytes_
    request_count_ := m.request_count_
    record_count_ := m.record_count_
    latencies_ := sortLatencies m.latencies_ }

/-- The method `Meter::FreezeGroup` (meter.h, lines 128-151): the first loop adds the
counters, the second appends the latencies, which are then sorted. -/
def Meter.FreezeGroup (meters : List Meter) : FrozenMeter :=
  let request_count := meters.foldl (fun acc meter => acc + meter.request_count_) 0
  let record_count := meters.foldl (fun acc meter => acc + meter.record_count_) 0
  let bytes := meters.foldl (fun acc meter => acc + meter.bytes_) 0
  let all_latencies := meters.foldl (fun acc meter => acc ++ meter.latencies_) []
  { bytes_ := bytes
    request_count_ := request_count
    record_count_ := record_count
    latencies_ := sortLatencies all_latencies }

/-- The class `BenchmarkResult` (benchmark_result.h); `read_xor_` is a `uint32_t`. -/
structure BenchmarkResult where
  run_time_ : Int
  reads_ : FrozenMeter
  writes_ : FrozenMeter
  scans_ : FrozenMeter
  deletes_ : FrozenMeter
  failed_deletes_ : Nat
  failed_reads_ : Nat
  failed_writes_ : Nat
  failed_scans_ : Nat
  read_xor_ : Nat
  deriving DecidableEq, Repr

/-- The constructor of `BenchmarkResult` with ten parameters
(benchmark_result-inl.h, lines 15-34), in the order of its parameter list. -/
def BenchmarkResult.create (total_run_time : Int) (read_xor : Nat)
    (reads writes scans deletes : FrozenMeter)
    (failed_deletes failed_reads failed_writes failed_scans : Nat) : BenchmarkResult :=
  { run_time_ := total_run_time
    reads_ := reads
    writes_ := writes
    scans_ := scans
    deletes_ := deletes
    failed_deletes_ := failed_deletes
    failed_reads_ := failed_reads
    failed_writes_ := failed_writes
    failed_scans_ := failed_scans
    read_xor_ := read_xor }

/-- The members of `MetricsTracker` (tracking.h) that record requests. The sampling
members `last_count_` and `last_sample_time_` are left out. -/
structure MetricsTracker where
  reads_ : Meter := {}
  writes_ : Meter := {}
  scans_ : Meter := {}
  deletes_ : Meter := {}
  failed_reads_ : Nat := 0
  failed_writes_ : Nat := 0
  failed_scans_ : Nat := 0
  failed_deletes_ : Nat := 0
  read_xor_ : Nat := 0
  deriving DecidableEq, Repr

/-- The method `MetricsTracker::RecordRead` (tracking.h, lines 50-57). -/
def MetricsTracker.RecordRead (t : MetricsTracker) (run_time : Option Int)
    (read_bytes : Nat) (succeeded : Bool) : MetricsTracker :=
  if succeeded then { t with reads_ := t.reads_.Record run_time read_bytes }
  else { t with failed_reads_ := t.failed_reads_ + 1 }

/-- The method `MetricsTracker::RecordWrite` (tracking.h, lines 59-66). -/
def MetricsTracker.RecordWrite (t : MetricsTracker) (run_time : Option Int)
    (write_bytes : Nat) (succeeded : Bool) : MetricsTracker :=
  if succeeded then { t with writes_ := t.writes_.Record run_time write_bytes }
  else { t with failed_writes_ := t.failed_writes_ + 1 }

/-- The method `MetricsTracker::RecordScan` (tracking.h, lines 68-75). -/
def MetricsTracker.RecordScan (t : MetricsTracker) (run_time : Option Int)
    (scanned_bytes scanned_amount : Nat) (succeeded : Bool) : MetricsTracker :=
  if succeeded then
    { t with scans_ := t.scans_.RecordMultipleRecords run_time scanned_bytes scanned_amount }
  else { t with failed_scans_ := t.failed_scans_ + 1 }

/-- The method `MetricsTracker::RecordDelete` (tracking.h, lines 78-85). -/
def MetricsTracker.RecordDelete (t : MetricsTracker) (run_time : Option Int)
    (succeeded : Bool) : MetricsTracker :=
  if succeeded then { t with deletes_ := t.deletes_.Record run_time 0 }
  else { t with failed_deletes_ := t.failed_deletes_ + 1 }

/-- The method `MetricsTracker::SetReadXOR`. -/
def MetricsTracker.SetReadXOR (t : MetricsTracker) (value : Nat) : MetricsTracker :=
  { t with read_xor_ := value }

/-- The method `MetricsTracker::Finalize` (tracking.h, lines 103-110). -/
def MetricsTracker.Finalize (t : MetricsTracker) (total_run_time : Int) : BenchmarkResult :=
  BenchmarkResult.create total_run_time t.read_xor_ t.reads_.Freeze t.writes_.Freeze
    t.scans_.Freeze t.deletes_.Freeze t.failed_deletes_ t.failed_reads_ t.failed_writes_
    t.failed_scans_

/-- The method `MetricsTracker::FinalizeGroup` (tracking.h, lines 112-145): the loop
moves the meters of every tracker into four vectors and adds the failure counters,
then each vector is frozen as a group. The line for the delete meters is written
`deletes.emplce_back(...)` in the source and is read as `emplace_back`, like the three
lines before it. -/
def MetricsTracker.FinalizeGroup (total_run_time : Int) (trackers : List MetricsTracker) :
    BenchmarkResult :=
  let reads := trackers.foldl (fun acc tracker => acc ++ [tracker.reads_]) []
  let writes := trackers.foldl (fun acc tracker => acc ++ [tracker.writes_]) []
  let scans := trackers.foldl (fun acc tracker => acc ++ [tracker.scans_]) []
  let deletes := trackers.foldl (fun acc tracker => acc ++ [tracker.deletes_]) []
  let read_xor := trackers.foldl (fun acc tracker => acc ^^^ tracker.read_xor_) 0
  let failed_reads := trackers.foldl (fun acc tracker => acc + tracker.failed_reads_) 0
  let failed_writes := trackers.foldl (fun acc tracker => acc + tracker.failed_writes_) 0
  let failed_scans := trackers.foldl (fun acc tracker => acc + tracker.failed_scans_) 0
  let failed_deletes := trackers.foldl (fun acc tracker => acc + tracker.failed_deletes_) 0
  BenchmarkResult.create total_run_time read_xor (Meter.FreezeGroup reads)
    (Meter.FreezeGroup writes) (Meter.FreezeGroup scans) (Meter.FreezeGroup deletes)
    failed_deletes failed_reads failed_writes failed_scans

/-! ## The executor loop (`executor.h`, lines 144-325) -/

/-- The fields of `RunOptions` that `WorkloadLoop` reads (`run_options.h` is not among
the sources). -/
structure RunOptions where
  latency_sample_period : Nat := 10
  throughput_sample_period : Nat := 0
  expect_request_success : Bool := false
  expect_scan_amount_found : Bool := false
  deriving DecidableEq, Repr

/-- What one call on the database leaves behind: its return value, the size of
`value_out` and the `uint32_t` at its start (for reads), the value sizes of the
records in `scan_out` and the `uint32_t` at the start of the first one (for scans),
and the time the call took. -/
structure DbReply where
  succeeded : Bool
  value_size : Nat := 0
  value_word : Nat := 0
  scan_out : List Nat := []
  run_time : Int := 0
  deriving DecidableEq, Repr

/-- The state of `WorkloadLoop`: the tracker, the latency sampling counter and the
local `read_xor`. The throughput samples, which only go to the output file, are left
out. -/
structure Executor where
  tracker_ : MetricsTracker := {}
  latency_sampling_counter_ : Nat := 0
  read_xor : Nat := 0
  deriving DecidableEq, Repr

/-- The function `MeasurementHelper` (executor.h, lines 97-108): the time of the call
when the latency is measured. -/
def MeasurementHelper (reply : DbReply) (measure_latency : Bool) : Option Int :=
  if measure_latency then some reply.run_time else none

/-- The body of the loop of `WorkloadLoop` (executor.h, lines 165-313) for one
request. `first` is the reply of the database call of the request and `second` the
reply of the update of a read-modify-write. -/
def Executor.step (options : RunOptions) (e : Executor) (req : Request)
    (first second : DbReply) : Except Error Executor :=
  let counter := (e.latency_sampling_counter_ + 1) % U64
  let measure_latency := decide (counter ≥ options.latency_sample_period)
  let e := { e with latency_sampling_counter_ := if measure_latency then 0 else counter }
  match req.op with
  | Operation.kRead | Operation.kNegativeRead =>
    let succeeded := first.succeeded
    let e := if succeeded then { e with read_xor := e.read_xor ^^^ first.value_word } else e
    let run_time := MeasurementHelper first measure_latency
    let e := { e with tracker_ := e.tracker_.RecordRead run_time first.value_size succeeded }
    if !succeeded && options.expect_request_success then
      throw (Error.runtime_error "Failed to read a key that was expected to be found.")
    else pure e
  | Operation.kDelete =>
    let succeeded := first.succeeded
    let run_time := MeasurementHelper first measure_latency
    let e := { e with tracker_ := e.tracker_.RecordDelete run_time succeeded }
    if !succeeded && options.expect_request_success then
      throw (Error.runtime_error "Failed to delete a record (expected to succeed).")
    else pure e
  | Operation.kInsert =>
    let succeeded := first.succeeded
    let run_time := MeasurementHelper first measure_latency
    let e := { e with
      tracker_ := e.tracker_.RecordWrite run_time (req.value_size + 8) succeeded }
    if !succeeded && options.expect_request_success then
      throw (Error.runtime_error "Failed to insert a record (expected to succeed).")
    else pure e
  | Operation.kUpdate =>
    let succeeded := first.succeeded
    let run_time := MeasurementHelper first measure_latency
    let e := { e with tracker_ := e.tracker_.RecordWrite run_time req.value_size succeeded }
    if !succeeded && options.expect_request_success then
      throw (Error.runtime_error "Failed to update a record (expected to succeed).")
    else pure e
  | Operation.kScan =>
    let succeeded := first.succeeded
    let e :=
      if succeeded && decide (first.scan_out.length > 0) then
        { e with read_xor := e.read_xor ^^^ first.value_word }
      else e
    let run_time := MeasurementHelper first measure_latency
    let scanned_bytes := first.scan_out.foldl (fun acc size => acc + (8 + size)) 0
    let e := { e with
      tracker_ := e.tracker_.RecordScan run_time scanned_bytes first.scan_out.length succeeded }
    if !succeeded && options.expect_request_success then
      throw (Error.runtime_error "Failed to run a range scan (expected to succeed).")
    else if options.expect_scan_amount_found
        && decide (first.scan_out.length < req.scan_amount) then
      throw (Error.runtime_error "A range scan returned too few (or too many) records.")
    else pure e
  | Operation.kReadModifyWrite =>
    let succeeded := first.succeeded
    let e := if succeeded then { e with read_xor := e.read_xor ^^^ first.value_word } else e
    let read_run_time := MeasurementHelper first measure_latency
    let e := { e with
      tracker_ := e.tracker_.RecordRead read_run_time first.value_size succeeded }
    if !succeeded && options.expect_request_success then
      throw (Error.runtime_error
        "Failed to read a record during a read-modify-write (expected to succeed).")
    else if !succeeded then pure e
    else
      let succeeded := second.succeeded
      let write_run_time := MeasurementHelper second measure_latency
      let e := { e with
        tracker_ := e.tracker_.RecordWrite write_run_time req.value_size succeeded }
      if !succeeded && options.expect_request_success then
        throw (Error.runtime_error
          "Failed to update a record during a read-modify-write (expected to succeed).")
      else pure e

/-- The method `WorkloadLoop` (executor.h, lines 144-325) on the requests that the
producer returns, each with the replies of the database to it; after the last
request the XOR of the values read is stored in the tracker. -/
def Executor.WorkloadLoop (options : RunOptions) (e : Executor) :
    List (Request × DbReply × DbReply) → Except Error Executor
  | [] => pure { e with tracker_ := e.tracker_.SetReadXOR e.read_xor }
  | (req, first, second) :: rest => do
    let e ← e.step options req first second
    Executor.WorkloadLoop options e rest

/-- The kinds of database calls that the tracker tells apart. -/
inductive CallKind where
  | read
  | write
  | scan
  | delete
  deriving DecidableEq, Repr

/-- The kind of the database call of a request (for a read-modify-write: of its
first call). -/
def callKind : Operation → CallKind
  | Operation.kRead => CallKind.read
  | Operation.kNegativeRead => CallKind.read
  | Operation.kReadModifyWrite => CallKind.read
  | Operation.kInsert => CallKind.write
  | Operation.kUpdate => CallKind.write
  | Operation.kScan => CallKind.scan
  | Operation.kDelete => CallKind.delete

/-- The meter of a kind. -/
def MetricsTracker.meter (t : MetricsTracker) : CallKind → Meter
  | CallKind.read => t.reads_
  | CallKind.write => t.writes_
  | CallKind.scan => t.scans_
  | CallKind.delete => t.deletes_

/-- The failure counter of a kind. -/
def MetricsTracker.failed (t : MetricsTracker) : CallKind → Nat
  | CallKind.read => t.failed_reads_
  | CallKind.write => t.failed_writes_
  | CallKind.scan => t.failed_scans_
  | CallKind.delete => t.failed_deletes_

/-! ## Session (`session-inl.h`, lines 13-59) -/

/-- The two calls on the database that `Initialize` and `Terminate` submit. -/
inductive DbEvent where
  | InitializeDatabase
  | ShutdownDatabase
  deriving DecidableEq, Repr

/-- The members of `Session` that `Initialize` and `Terminate` use: whether `threads_`
is non-null and `initialized_`; `calls` lists the calls made on the database, the
latest last. -/
structure Session where
  threads_ : Bool := true
  initialized_ : Bool := false
  calls : List DbEvent := []
  deriving DecidableEq, Repr

/-- The constructor of `Session` (session-inl.h, lines 13-38). -/
def Session.create (num_threads : Nat) : Except Error Session :=
  if num_threads = 0 then throw (Error.invalid_argument "Must use at least 1 thread.")
  else pure {}

/-- The method `Session::Initialize` (session-inl.h, lines 45-50). `thrown` is the
exception that `db_.InitializeDatabase()` throws if it is called, `none` if it returns:
`ThreadPool::Submit` (thread_pool.h, lines 93-106) runs the call in a
`std::packaged_task`, so that `.get()` rethrows it and `initialized_ = true` is not
reached. The result is the
exception that leaves the method, if any, and the session after the call. -/
def Session.Initialize (s : Session) (thrown : Option Error) : Option Error × Session :=
  if s.initialized_ || !s.threads_ then (none, s)
  else
    let s := { s with calls := s.calls ++ [DbEvent.InitializeDatabase] }
    match thrown with
    | some e => (some e, s)
    | none => (none, { s with initialized_ := true })

/-- The method `Session::Terminate` (session-inl.h, lines 52-59). `thrown` is the
exception that `db_.ShutdownDatabase()` throws if it is called, `none` if it returns;
`.get()` rethrows it and `threads_.reset(nullptr)` is not reached. The result is the
exception that leaves the method, if any, and the session after the call. -/
def Session.Terminate (s : Session) (thrown : Option Error) : Option Error × Session :=
  if !s.threads_ then (none, s)
  else if s.initialized_ then
    let s := { s with calls := s.calls ++ [DbEvent.ShutdownDatabase] }
    match thrown with
    | some e => (some e, s)
    | none => (none, { s with threads_ := false })
  else (none, { s with threads_ := false })

/-- A call of one of the two methods, with the exception that the database call it
submits throws, if any. -/
inductive SessionCall where
  | Initialize (thrown : Option Error)
  | Terminate (thrown : Option Error)
  deriving DecidableEq, Repr

/-- The exception that leaves a call, if any, and the session after it. -/
def Session.call (s : Session) : SessionCall → Option Error × Session
  | SessionCall.Initialize thrown => s.Initialize thrown
  | SessionCall.Terminate thrown => s.Terminate thrown

/-- The session after a sequence of calls, each made whether or not an earlier one
threw. -/
def Session.callAll (s : Session) (calls : List SessionCall) : Session :=
  calls.foldl (fun s c => (s.call c).2) s

/-- The number of `Initialize` calls of a sequence whose database call throws. -/
def throwingInitializes (calls : List SessionCall) : Nat :=
  calls.countP fun c =>
    match c with
    | SessionCall.Initialize (some _) => true
    | _ => false

/-- The number of `Terminate` calls of a sequence whose database call throws. -/
def throwingTerminates (calls : List SessionCall) : Nat :=
  calls.countP fun c =>
    match c with
    | SessionCall.Terminate (some _) => true
    | _ => false

/-- The frozen meter of a kind in a result (`Reads()`, `Writes()`, `Scans()`,
`Deletes()`). -/
def BenchmarkResult.meter (r : BenchmarkResult) : CallKind → FrozenMeter
  | CallKind.read => r.reads_
  | CallKind.write => r.writes_
  | CallKind.scan => r.scans_
  | CallKind.delete => r.deletes_

/-- The failure count of a kind in a result (`NumFailedReads()` and its siblings). -/
def BenchmarkResult.failed (r : BenchmarkResult) : CallKind → Nat
  | CallKind.read => r.failed_reads_
  | CallKind.write => r.failed_writes_
  | CallKind.scan => r.failed_scans_
  | CallKind.delete => r.failed_deletes_

/-- Two trackers with recorded requests. -/
def exampleTrackers : List MetricsTracker :=
  [ ((({} : MetricsTracker).RecordRead (some 30) 8 true).RecordRead (some 10) 8 true).RecordScan
      none 32 2 false,
    ((({} : MetricsTracker).RecordRead (some 20) 8 true).RecordWrite (some 5) 16 true).RecordRead
      none 0 false ]

/-- A Scan request for two records. -/
def scanTwo : Request :=
  { op := Operation.kScan, key := 5 <<< 16, scan_amount := 2, value_size := 0 }

/-- Options under which failed requests are counted and scans must return the
requested amount. -/
def countFailuresCheckScans : RunOptions :=
  { expect_request_success := false, expect_scan_amount_found := true }

/-- Options under which scans must return the requested amount. -/
def checkScans : RunOptions :=
  { expect_request_success := true, expect_scan_amount_found := true }

/-! ## Notions used in the statements about phases during a run -/

/-- The part of a phase that no call changes after `GetPhase`: the phase with its two
counters of remaining work set to 0 and its key choosers removed. -/
def Phase.fixed (phase : Phase) : Phase :=
  { phase with
    num_inserts_left := 0
    num_requests_left := 0
    read_chooser := none
    rmw_chooser := none
    negativeread_chooser := none
    scan_chooser := none
    update_chooser := none
    delete_chooser := none }

/-- The fixed parts of the phases of a producer. -/
def Producer.fixedPhases (p : Producer) : List Phase :=
  p.phases_.map Phase.fixed

/-- The load keys at the positions that are not recorded in `delete_map_`, in
ascending position. -/
def Producer.liveLoadKeys (p : Producer) : List Key :=
  (p.load_keys_.enum.filter (fun e => (p.delete_map_.find e.1).isNone)).map (fun e => e.2)

/-- Five load keys, tagged. -/
def fiveKeys : List Key := ApplyPhaseAndProducerIDs [10, 11, 12, 13, 14] 0 0

/-- The producer 0 of 1 of `readDeleteWorkload` over `fiveKeys`, created and
prepared. -/
def fiveKeyProducer : Except Error Producer := do
  let p ← Producer.create readDeleteWorkload fiveKeys none 0 1
  p.Prepare exampleKeygen

/-- A workload of two phases: four requests with 50% read-modify-writes and 50%
inserts, then one insert. -/
def rmwInsertWorkload : WorkloadConfig :=
  { run := [
      { num_requests := 4
        readmodifywrite := some { proportion_pct := 50, distribution := uniformAccess }
        insert := some { proportion_pct := 50, distribution := uniformInserts } },
      { num_requests := 1
        insert := some { proportion_pct := 100, distribution := uniformInserts } }]
    record_size_bytes := some 16 }

/-- A workload of one phase: one scan with the largest `max_length` that `size_t`
holds. -/
def longestScanWorkload : WorkloadConfig :=
  { run := [
      { num_requests := 1
        scan := some { proportion_pct := 100, distribution := uniformAccess,
                       max_length := some (2 ^ 64 - 1) } }]
    record_size_bytes := some 16 }

/-- A workload of one phase: two scans with `max_length` 1. -/
def shortScanWorkload : WorkloadConfig :=
  { run := [
      { num_requests := 2
        scan := some { proportion_pct := 100, distribution := uniformAccess,
                       max_length := some 1 } }]
    record_size_bytes := some 16 }


/-- A workload of one phase, `mixedDeletePhase`, followed by a phase of one insert. -/
def mixedDeleteThenInsertWorkload : WorkloadConfig :=
  { run := [
      mixedDeletePhase,
      { num_requests := 1
        insert := some { proportion_pct := 100, distribution := uniformInserts } }]
    record_size_bytes := some 16 }

/-- A workload of one phase, `mixedDeletePhase`. -/
def mixedDeleteWorkload : WorkloadConfig :=
  { run := [mixedDeletePhase], record_size_bytes := some 16 }

/-- A workload of one phase of four requests: 50% reads from a clustered Zipfian
distribution with theta = 0.5 and 50% deletes from a uniform distribution. -/
def zipfianReadDeleteWorkload : WorkloadConfig :=
  { run := [
      { num_requests := 4
        read := some { proportion_pct := 50,
                       distribution := { dist_type := "zipfian_clustered",
                                         theta := some (parseDecimal 1 2) } }
        delete := some { proportion_pct := 50, distribution := uniformAccess } }]
    record_size_bytes := some 16 }

/-- The producer `id` of 2 of a workload over `fiveKeys`, created and prepared. -/
def pairedProducer (config : WorkloadConfig) (id : Nat) : Except Error Producer := do
  let p ← Producer.create config fiveKeys none id 2
  p.Prepare exampleKeygen

/-- The item counts of the read chooser and of the delete chooser of the current
phase. -/
def Producer.itemCounts (p : Producer) : Option (Option Nat × Option Nat) :=
  p.phases_[p.current_phase_]?.map (fun phase =>
    (phase.read_chooser.map Chooser.item_count, phase.delete_chooser.map Chooser.item_count))


/-- The counters of the deletion maps agree with the maps: ascending keys, ordinals
from 1, each counter equal to the number of entries of its map, and every entry of
the load map below the number of load keys, which `*num_load_keys_` holds. -/
def Producer.CountsOk (p : Producer) : Prop :=
  p.delete_map_.Sorted ∧ p.delete_map_insert_.Sorted ∧
  (∀ e, e ∈ p.delete_map_ → 1 ≤ e.2) ∧ (∀ e, e ∈ p.delete_map_insert_ → 1 ≤ e.2) ∧
  p.map_size_ = p.delete_map_.length ∧ p.map_size_insert = p.delete_map_insert_.length ∧
  (∀ e, e ∈ p.delete_map_ → e.1 < p.load_keys_.length) ∧
  p.num_load_keys_ = p.load_keys_.length

/-- A call of `ChooseKey` or, when `delete` is set, of `deleteChooseKey`, with the
chooser that is passed and the value that the chooser draws. -/
structure KeyCall where
  delete : Bool
  chooser : Phase → Option Chooser
  draw : Nat

/-- The call `c` made on the producer. -/
def Producer.callKey (p : Producer) (c : KeyCall) : Except Error (Key × Producer) :=
  if c.delete then p.deleteChooseKey c.chooser c.draw else p.ChooseKey c.chooser c.draw

/-- The calls of the list made one after another, each of them returning. -/
def Producer.callKeys : Producer → List KeyCall → Except Error Producer
  | p, [] => pure p
  | p, c :: rest => do
    let (_, q) ← p.callKey c
    q.callKeys rest


/-- The list registered under `name` by `AddCustomInsertList`, if there is one: none
when no list has been added at all (`custom_inserts_` is null) and when no list has
that name. -/
def lookupInserts (custom_inserts : Option (List (String × List Key))) (name : String) :
    Option (List Key) :=
  match custom_inserts with
  | none => none
  | some lists => (lists.find? (fun e => e.1 == name)).map (fun e => e.2)

/-- A workload of one phase of one request, 50% reads and 50% inserts from the custom
list "extra": `num_inserts` is 0. -/
def customNoInsertWorkload : WorkloadConfig :=
  { run := [
      { num_requests := 1
        read := some { proportion_pct := 50, distribution := uniformAccess }
        insert := some { proportion_pct := 50,
                         distribution := { dist_type := "custom", name := some "extra" } } }]
    record_size_bytes := some 16 }

/-- A workload of one phase of two inserts from the custom list "extra" at offset 1. -/
def customInsertWorkload : WorkloadConfig :=
  { run := [
      { num_requests := 2
        insert := some { proportion_pct := 100,
                         distribution := { dist_type := "custom", name := some "extra",
                                           offset := some 1 } } }]
    record_size_bytes := some 16 }


/-! ## Zipfian choosers (`zipfian_chooser.h`, `zipfian_chooser.cc`)

The chooser computes in binary64. The definitions of this section are written over
an arbitrary type `R` of numbers with its operations, so that they can be read with
binary64 and with exact arithmetic alike: `pow` stands for `std::pow`, `trunc` for the
conversion `static_cast<size_t>`, and the cast of a natural number for the conversion
of a `size_t` to `double`. The statements that take the arithmetic as exact
instantiate `R` with the real numbers. Item counts are `size_t` values. -/

/-- The function `ComputeZetaN` (zipfian_chooser.h, lines 149-161): the terms for
`item_count_so_far = prev_item_count, ..., item_count - 1` are added to `prev_zeta_n`
one after another. The source asserts `item_count > prev_item_count`. -/
def ComputeZetaN {R : Type} [Add R] [Div R] [One R] [NatCast R] (pow : R → R → R)
    (item_count : Nat) (theta : R) (prev_item_count : Nat) (prev_zeta_n : R) : R :=
  (List.range' prev_item_count (item_count - prev_item_count)).foldl
    (fun zeta_so_far item_count_so_far =>
      zeta_so_far + 1 / pow ((item_count_so_far + 1 : Nat) : R) theta) prev_zeta_n

/-- The function `ComputeZetaNForDecrease` (zipfian_chooser.h, lines 169-181): the
terms for `item_count_so_far = item_count, ..., prev_item_count - 1` are subtracted
from `prev_zeta_n` one after another. The source asserts
`item_count < prev_item_count`. -/
def ComputeZetaNForDecrease {R : Type} [Sub R] [Div R] [One R] [NatCast R]
    (pow : R → R → R) (item_count : Nat) (theta : R) (prev_item_count : Nat)
    (prev_zeta_n : R) : R :=
  (List.range' item_count (prev_item_count - item_count)).foldl
    (fun zeta_so_far item_count_so_far =>
      zeta_so_far - 1 / pow ((item_count_so_far + 1 : Nat) : R) theta) prev_zeta_n

/-- The data members of `ZipfianChooser` (the distribution `dist_` apart, whose draws
are arguments of `Next`). -/
structure ZipfianChooser (R : Type) where
  item_count_ : Nat
  theta_ : R
  alpha_ : R
  thres_ : R
  zeta2theta_ : R
  zeta_n_ : R
  eta_ : R

/-- The method `UpdateETA` (zipfian_chooser.h, lines 163-166). -/
def ZipfianChooser.UpdateETA {R : Type} [Sub R] [Div R] [One R] [NatCast R]
    (pow : R → R → R) (c : ZipfianChooser R) : ZipfianChooser R :=
  { c with
    eta_ := (1 - pow (((2 : Nat) : R) / ((c.item_count_ : Nat) : R)) (1 - c.theta_))
      / (1 - c.zeta2theta_ / c.zeta_n_) }

/-- The method `ZipfianChooser::Next` (zipfian_chooser.h, lines 98-105); `u` is the
value drawn from `dist_`. -/
def ZipfianChooser.Next {R : Type} [Add R] [Sub R] [Mul R] [One R] [NatCast R] [LT R]
    [∀ a b : R, Decidable (a < b)] (pow : R → R → R) (trunc : R → Nat)
    (c : ZipfianChooser R) (u : R) : Nat :=
  let uz := u * c.zeta_n_
  if uz < 1 then 0
  else if uz < c.thres_ then 1
  else trunc (((c.item_count_ : Nat) : R) * pow (c.eta_ * u - c.eta_ + 1) c.alpha_)

/-- The method `ZipfianChooser::IncreaseItemCountBy` (zipfian_chooser.h, lines
123-138): for `delta == 1` the item count grows by 1 and one term is added to
`zeta_n_`; for every other `delta` the item count shrinks by 1 and one term is
subtracted. -/
def ZipfianChooser.IncreaseItemCountBy {R : Type} [Add R] [Sub R] [Div R] [One R]
    [NatCast R] (pow : R → R → R) (c : ZipfianChooser R) (delta : Nat) :
    ZipfianChooser R :=
  let prev_item_count := c.item_count_
  let prev_zeta_n := c.zeta_n_
  if delta ≠ 1 then
    let c := { c with item_count_ := (c.item_count_ + (U64 - 1)) % U64 }
    let c := { c with
      zeta_n_ := ComputeZetaNForDecrease pow c.item_count_ c.theta_ prev_item_count prev_zeta_n }
    c.UpdateETA pow
  else
    let c := { c with item_count_ := (c.item_count_ + delta) % U64 }
    let c := { c with
      zeta_n_ := ComputeZetaN pow c.item_count_ c.theta_ prev_item_count prev_zeta_n }
    c.UpdateETA pow

/-- The cache `ZetaCache::cache_`: for each `theta` an ordered map from item counts to
`zeta(n)` values, here the list of its entries in ascending order of the item count.
A `theta` without a map has the empty list (the source treats a missing map and an
empty map alike, and `cache_[theta]` creates the map on first use). -/
abbrev ZetaCache (R : Type) := R → List (Nat × R)

/-- The position of `theta_map.lower_bound(item_count)`: the first entry whose item
count is not less than `item_count`; the length of the list stands for `end()`. -/
def zetaLowerBound {R : Type} : List (Nat × R) → Nat → Nat
  | [], _ => 0
  | e :: m, item_count => if item_count ≤ e.1 then 0 else zetaLowerBound m item_count + 1

/-- The call `theta_map.insert(std::make_pair(item_count, zeta))`: no effect when an
entry for `item_count` exists. -/
def zetaInsert {R : Type} : List (Nat × R) → Nat → R → List (Nat × R)
  | [], item_count, zeta => [(item_count, zeta)]
  | e :: m, item_count, zeta =>
    if item_count < e.1 then (item_count, zeta) :: e :: m
    else if item_count = e.1 then e :: m
    else e :: zetaInsert m item_count zeta

/-- The method `ZetaCache::FindStartingPoint` (zipfian_chooser.cc, lines 25-52). -/
def ZetaCache.FindStartingPoint {R : Type} (cache : ZetaCache R) (item_count : Nat)
    (theta : R) : Option (Nat × R) :=
  let theta_map := cache theta
  if theta_map.isEmpty then none
  else
    let it := zetaLowerBound theta_map item_count
    match theta_map[it]? with
    | none => theta_map.getLast?
    | some entry =>
      if entry.1 = item_count then some entry
      else if it = 0 then none
      else theta_map.getLast?

/-- The method `ZetaCache::Add` (zipfian_chooser.cc, lines 54-61). -/
def ZetaCache.Add {R : Type} [DecidableEq R] (cache : ZetaCache R) (item_count : Nat)
    (theta : R) (zeta : R) : ZetaCache R :=
  Function.update cache theta (zetaInsert (cache theta) item_count zeta)

/-- The method `ZipfianChooser::UpdateZetaNWithCaching` (zipfian_chooser.cc, lines
83-109): the chooser and the cache afterwards. -/
def ZipfianChooser.UpdateZetaNWithCaching {R : Type} [Add R] [Sub R] [Div R] [Zero R]
    [One R] [NatCast R] [DecidableEq R] (pow : R → R → R) (c : ZipfianChooser R)
    (cache : ZetaCache R) : ZipfianChooser R × ZetaCache R :=
  let result := cache.FindStartingPoint c.item_count_ c.theta_
  let exact :=
    match result with
    | some entry => decide (entry.1 = c.item_count_)
    | none => false
  if exact then
    match result with
    | some entry => ({ c with zeta_n_ := entry.2 }, cache)
    | none => (c, cache)
  else
    let (prev_item_count, prev_zeta_n) :=
      match result with
      | some entry => (entry.1, entry.2)
      | none => (0, 0)
    let zeta_n :=
      if prev_item_count < c.item_count_ then
        ComputeZetaN pow c.item_count_ c.theta_ prev_item_count prev_zeta_n
      else ComputeZetaNForDecrease pow c.item_count_ c.theta_ prev_item_count prev_zeta_n
    ({ c with zeta_n_ := zeta_n }, cache.Add c.item_count_ c.theta_ zeta_n)

/-- The constructor of `ZipfianChooser` (zipfian_chooser.h, lines 80-92). -/
def ZipfianChooser.create {R : Type} [Add R] [Sub R] [Div R] [Zero R] [One R] [NatCast R]
    [DecidableEq R] (pow : R → R → R) (cache : ZetaCache R) (item_count : Nat) (theta : R) :
    ZipfianChooser R × ZetaCache R :=
  let c : ZipfianChooser R :=
    { item_count_ := item_count
      theta_ := theta
      alpha_ := 1 / (1 - theta)
      thres_ := 1 + pow (1 / ((2 : Nat) : R)) theta
      zeta2theta_ := ComputeZetaN pow 2 theta 0 0
      zeta_n_ := 0
      eta_ := 0 }
  let (c, cache) := c.UpdateZetaNWithCaching pow cache
  (c.UpdateETA pow, cache)

/-- The method `ZipfianChooser::SetItemCount` (zipfian_chooser.h, lines 140-145); the
source asserts `new_item_count > 0`. -/
def ZipfianChooser.SetItemCount {R : Type} [Add R] [Sub R] [Div R] [Zero R] [One R]
    [NatCast R] [DecidableEq R] (pow : R → R → R) (c : ZipfianChooser R)
    (cache : ZetaCache R) (new_item_count : Nat) : ZipfianChooser R × ZetaCache R :=
  let c := { c with item_count_ := new_item_count }
  let (c, cache) := c.UpdateZetaNWithCaching pow cache
  (c.UpdateETA pow, cache)

/-- The method `ScatteredZipfianChooser::Next` (zipfian_chooser.h, lines 107-121),
both branches of the conditional compilation: `wide` is set when `__SIZEOF_INT128__`
is defined. `choice` is what `ZipfianChooser::Next` returned; `hash` stands for
`FNVHash64` of hash.h, a function from and to `uint64_t`. -/
def ScatteredZipfianChooser.Next (hash : Nat → Nat) (wide : Bool)
    (scatter_salt item_count choice : Nat) : Nat :=
  let hashed_choice := hash ((choice ^^^ scatter_salt) % U64) % U64
  if wide then (((hashed_choice * item_count) % 2 ^ 128) >>> 64) % U64
  else hashed_choice % item_count

/-- The cache states that constructions of choosers and calls of `SetItemCount`
produce from the empty cache. -/
inductive ReachableZetaCache {R : Type} [Add R] [Sub R] [Div R] [Zero R] [One R]
    [NatCast R] [DecidableEq R] (pow : R → R → R) : ZetaCache R → Prop where
  | empty : ReachableZetaCache pow (fun _ => [])
  | create {cache : ZetaCache R} (item_count : Nat) (theta : R) :
    ReachableZetaCache pow cache →
    ReachableZetaCache pow (ZipfianChooser.create pow cache item_count theta).2
  | setItemCount {cache : ZetaCache R} (c : ZipfianChooser R) (new_item_count : Nat) :
    ReachableZetaCache pow cache →
    ReachableZetaCache pow (c.SetItemCount pow cache new_item_count).2

/-- What the cache holds in exact arithmetic: every map is in ascending order of the
item count, and the entry for an item count `n` under `theta` is the sum of
`i ^ (-theta)` over `i = 1, ..., n`. -/
def ZetaCache.Exact (cache : ZetaCache ℝ) : Prop :=
  ∀ theta : ℝ, (cache theta).Pairwise (fun a b => a.1 < b.1) ∧
    ∀ e, e ∈ cache theta → e.2 = ∑ i ∈ Finset.range e.1, ((i + 1 : Nat) : ℝ) ^ (-theta)


/-! ## Latency percentiles (`meter.h`, lines 83-99)

The argument of `LatencyPercentile` is a finite double (`Double`; NaN and the
infinities are not modelled), and the index `percentile * latencies_.size()` is
computed as the source does: the size is converted to `double`, the product is
rounded to nearest and the result is truncated to `size_t`. The result is the count of
the latency in nanoseconds (`Units = std::chrono::nanoseconds`). -/

/-- The comparison `x > 1.0`. -/
def Double.gtOne (x : Double) : Bool :=
  !x.neg && decide (2 ^ (-x.exp).toNat < x.mant * 2 ^ x.exp.toNat)

/-- The comparison `x < 0.0`. -/
def Double.ltZero (x : Double) : Bool := x.neg && x.mant != 0

/-- The initialisation `size_t index = percentile * latencies_.size()` for a
percentile that is not negative. -/
def percentileIndex (percentile : Double) (size : Nat) : Nat :=
  truncDouble (mulDouble (percentile.mant, percentile.exp) (roundDouble size 1))

/-- The method `FrozenMeter::LatencyPercentile` (meter.h, lines 83-99). The call
`latencies_.at(index)` throws `std::out_of_range` for an index past the end, here the
error `out_of_bounds`. -/
def FrozenMeter.LatencyPercentile (m : FrozenMeter) (percentile : Double) :
    Except Error Int :=
  if percentile.gtOne || percentile.ltZero then
    throw (Error.invalid_argument
      "Percentile out of range (must be between 0.0 and 1.0 inclusive).")
  else if m.latencies_.isEmpty then pure 0
  else
    let index := percentileIndex percentile m.latencies_.length
    let index := if index = m.latencies_.length then index - 1 else index
    elemAt m.latencies_ index

/-- The double nearest to 0.7, which is 6305039478318694 / 2^53 and lies below 0.7. -/
def doubleSevenTenths : Double := parseDecimal 7 10

/-- A meter with the ten latencies 9, 8, ..., 0 (in nanoseconds). -/
def tenLatencies : Meter :=
  { request_count_ := 10, record_count_ := 10, bytes_ := 160,
    latencies_ := [9, 8, 7, 6, 5, 4, 3, 2, 1, 0] }

/-- The integer nearest to `n / d`, the even one of the two when `n / d` lies half-way
between two integers: the mantissa that `roundDouble` chooses for a scaled value. -/
def roundHalfEven (n d : Nat) : Nat :=
  if d < 2 * (n % d) ∨ (2 * (n % d) = d ∧ n / d % 2 = 1) then n / d + 1 else n / d

/-! ## Properties of `GetPhase` and of the key layout -/

theorem bind_eq_ok {ε α β : Type} {x : Except ε α} {f : α → Except ε β} {b : β}
    (h : (x >>= f) = Except.ok b) : ∃ a, x = Except.ok a ∧ f a = Except.ok b := by
  cases x with
  | error e => cases h
  | ok a => exact ⟨a, rfl, h⟩

theorem required_eq_ok {α : Type} {o : Option α} {a : α}
    (h : required o = Except.ok a) : o = some a := by
  cases o with
  | none => cases h
  | some b => cases h; rfl

theorem asSizeT_eq_ok {n m : Nat} (h : asSizeT n = Except.ok m) : m = n ∧ n < U64 := by
  unfold asSizeT at h
  split at h
  · cases h; exact ⟨rfl, by assumption⟩
  · cases h

theorem asU32_eq_ok {n m : Nat} (h : asU32 n = Except.ok m) : m = n ∧ n < U32 := by
  unfold asU32 at h
  split at h
  · cases h; exact ⟨rfl, by assumption⟩
  · cases h

theorem loadOperation_eq_ok {op : Option OpConfig} {name : String} {k t : Nat}
    {c : Option Chooser} (h : loadOperation op name k = Except.ok (t, c)) :
    t = proportionOf op ∧ t < U32 := by
  unfold loadOperation at h
  cases op with
  | none => cases h; exact ⟨rfl, by decide⟩
  | some cfg =>
    obtain ⟨a, ha, h⟩ := bind_eq_ok h
    obtain ⟨b, _, h⟩ := bind_eq_ok h
    obtain ⟨rfl, hlt⟩ := asU32_eq_ok ha
    cases h
    exact ⟨rfl, hlt⟩

theorem loadScan_eq_ok {op : Option OpConfig} {k t msl : Nat}
    {c c2 : Option Chooser} (h : loadScan op k = Except.ok (t, msl, c, c2)) :
    t = proportionOf op ∧ t < U32 := by
  unfold loadScan at h
  cases op with
  | none => cases h; exact ⟨rfl, by decide⟩
  | some cfg =>
    obtain ⟨a, ha, h⟩ := bind_eq_ok h
    obtain ⟨b, _, h⟩ := bind_eq_ok h
    obtain ⟨b2, _, h⟩ := bind_eq_ok h
    obtain ⟨rfl, hlt⟩ := asU32_eq_ok ha
    split at h
    · cases h
    · obtain ⟨b3, _, h⟩ := bind_eq_ok h
      cases h
      exact ⟨rfl, hlt⟩

theorem loadInsertPct_eq_ok {op : Option OpConfig} {t : Nat}
    (h : loadInsertPct op = Except.ok t) : t = proportionOf op ∧ t < U32 := by
  unfold loadInsertPct at h
  cases op with
  | none => cases h; exact ⟨rfl, by decide⟩
  | some cfg => exact (asU32_eq_ok h).1 ▸ ⟨rfl, (asU32_eq_ok h).2⟩

/-- What a successful `GetPhase` call has checked and computed. -/
theorem GetPhase_eq_ok {run : List PhaseConfig} {phase_id producer_id num_producers : Nat}
    {phase : Phase} (h : GetPhase run phase_id producer_id num_producers = Except.ok phase) :
    ∃ cfg, run[phase_id]? = some cfg ∧ num_producers ≠ 0 ∧ cfg.num_requests < U64 ∧
      (proportionOf cfg.insert + proportionOf cfg.read + proportionOf cfg.readmodifywrite
        + proportionOf cfg.negativeread + proportionOf cfg.scan + proportionOf cfg.update
        + proportionOf cfg.delete) % U32 = 100 ∧
      phase.phase_id = phase_id ∧
      phase.num_requests = cfg.num_requests / num_producers
        + (if producer_id < cfg.num_requests % num_producers then 1 else 0) ∧
      phase.num_requests_left = phase.num_requests ∧
      phase.num_inserts = computeNumInserts phase.num_requests (proportionOf cfg.insert) ∧
      phase.num_inserts_left = phase.num_inserts ∧
      phase.read_thres = proportionOf cfg.read ∧
      phase.rmw_thres = (proportionOf cfg.readmodifywrite + phase.read_thres) % U32 ∧
      phase.negativeread_thres = (proportionOf cfg.negativeread + phase.rmw_thres) % U32 ∧
      phase.scan_thres = (proportionOf cfg.scan + phase.negativeread_thres) % U32 ∧
      phase.update_thres = (proportionOf cfg.update + phase.scan_thres) % U32 ∧
      phase.delete_thres = (proportionOf cfg.delete + phase.read_thres) % U32 := by
  unfold GetPhase at h
  obtain ⟨cfg, hcfg, h⟩ := bind_eq_ok h
  obtain ⟨T, hT, h⟩ := bind_eq_ok h
  split at h
  · cases h
  rename_i hP
  obtain ⟨⟨r, rc⟩, hr, h⟩ := bind_eq_ok h
  obtain ⟨⟨m, mc⟩, hm, h⟩ := bind_eq_ok h
  obtain ⟨⟨n, nc⟩, hn, h⟩ := bind_eq_ok h
  obtain ⟨⟨s, msl, sc, slc⟩, hs, h⟩ := bind_eq_ok h
  obtain ⟨⟨u, uc⟩, hu, h⟩ := bind_eq_ok h
  obtain ⟨⟨d, dc⟩, hd, h⟩ := bind_eq_ok h
  obtain ⟨ins, hins, h⟩ := bind_eq_ok h
  split at h
  · cases h
  rename_i hsum
  obtain ⟨rfl, hTlt⟩ := asSizeT_eq_ok hT
  obtain ⟨rfl, -⟩ := loadOperation_eq_ok hr
  obtain ⟨rfl, -⟩ := loadOperation_eq_ok hm
  obtain ⟨rfl, -⟩ := loadOperation_eq_ok hn
  obtain ⟨rfl, -⟩ := loadScan_eq_ok hs
  obtain ⟨rfl, -⟩ := loadOperation_eq_ok hu
  obtain ⟨rfl, -⟩ := loadOperation_eq_ok hd
  obtain ⟨rfl, -⟩ := loadInsertPct_eq_ok hins
  cases h
  refine ⟨cfg, required_eq_ok hcfg, hP, hTlt, not_not.mp hsum, rfl, ?_, rfl, rfl, rfl, rfl, rfl,
    rfl, rfl, rfl, rfl⟩
  show (if producer_id < cfg.num_requests % num_producers then
      cfg.num_requests / num_producers + 1 else cfg.num_requests / num_producers) = _
  split <;> rfl

theorem tagKey_eq (phase_id producer_id k : Nat) (hk : k ≤ 2 ^ 48 - 1) :
    tagKey phase_id producer_id k = k * 65536 + (phase_id % 256) * 256 + producer_id % 256 := by
  have h1 : (k <<< 16) % U64 = 2 ^ 16 * k := by
    rw [Nat.shiftLeft_eq, Nat.mod_eq_of_lt, Nat.mul_comm]
    unfold U64
    omega
  have h2 : phase_id &&& 0xFF = phase_id % 256 := Nat.and_pow_two_sub_one_eq_mod phase_id 8
  have h3 : producer_id &&& 0xFF = producer_id % 256 :=
    Nat.and_pow_two_sub_one_eq_mod producer_id 8
  have h4 : (phase_id % 256) <<< 8 = 2 ^ 8 * (phase_id % 256) := by
    rw [Nat.shiftLeft_eq, Nat.mul_comm]
  have hb : 2 ^ 8 * (phase_id % 256) < 2 ^ 16 := by
    have := Nat.mod_lt phase_id (show 0 < 256 by decide)
    omega
  have hc : producer_id % 256 < 2 ^ 8 := Nat.mod_lt producer_id (by decide)
  unfold tagKey
  rw [h1, h2, h3, h4, ← Nat.mul_add_lt_is_or hb,
    show 2 ^ 16 * k + 2 ^ 8 * (phase_id % 256) = 2 ^ 8 * (2 ^ 8 * k + phase_id % 256) by ring,
    ← Nat.mul_add_lt_is_or hc]
  ring

/-- C10: a key of at most 2^48 - 1 is mapped by ApplyPhaseAndProducerIDs to
(k << 16) | ((phase_id & 0xFF) << 8) | (producer_id & 0xFF) without loss: shifting
right by 16 gives k back, bits 8-15 are phase_id mod 256 and bits 0-7 are
producer_id mod 256; the tagging is injective on keys and tags below 256 and
strictly increasing in the key for a fixed tag. -/
theorem ApplyPhaseAndProducerIDs_layout (keys : List Key) (phase_id producer_id i k : Nat)
    (hi : keys[i]? = some k) (hk : k ≤ 2 ^ 48 - 1) :
    ∃ t : Nat, (ApplyPhaseAndProducerIDs keys phase_id producer_id)[i]? = some t ∧
      t = (k <<< 16) ||| ((phase_id &&& 0xFF) <<< 8) ||| (producer_id &&& 0xFF) ∧
      t >>> 16 = k ∧ (t >>> 8) % 256 = phase_id % 256 ∧ t % 256 = producer_id % 256 ∧
      (∀ k2 ph2 pr2, k2 ≤ 2 ^ 48 - 1 → phase_id < 256 → producer_id < 256 → ph2 < 256 →
        pr2 < 256 → tagKey ph2 pr2 k2 = t → k2 = k ∧ ph2 = phase_id ∧ pr2 = producer_id) ∧
      (∀ k2, k2 ≤ 2 ^ 48 - 1 → k < k2 → t < tagKey phase_id producer_id k2) := by
  refine ⟨tagKey phase_id producer_id k, ?_, ?_, ?_, ?_, ?_, ?_, ?_⟩
  · simp [ApplyPhaseAndProducerIDs, hi]
  · unfold tagKey
    rw [Nat.mod_eq_of_lt]
    rw [Nat.shiftLeft_eq]
    unfold U64
    omega
  · rw [tagKey_eq _ _ _ hk, Nat.shiftRight_eq_div_pow]
    have := Nat.mod_lt phase_id (show 0 < 256 by decide)
    have := Nat.mod_lt producer_id (show 0 < 256 by decide)
    omega
  · rw [tagKey_eq _ _ _ hk, Nat.shiftRight_eq_div_pow]
    have := Nat.mod_lt phase_id (show 0 < 256 by decide)
    have := Nat.mod_lt producer_id (show 0 < 256 by decide)
    omega
  · rw [tagKey_eq _ _ _ hk]
    omega
  · intro k2 ph2 pr2 hk2 h1 h2 h3 h4 heq
    rw [tagKey_eq _ _ _ hk, tagKey_eq _ _ _ hk2] at heq
    omega
  · intro k2 hk2 hlt
    rw [tagKey_eq _ _ _ hk, tagKey_eq _ _ _ hk2]
    omega

theorem ApplyPhaseAndProducerIDs_layout_witness :
    [5, 7][1]? = some 7 ∧ 7 ≤ 2 ^ 48 - 1 ∧
    ∃ t : Nat, (ApplyPhaseAndProducerIDs [5, 7] 3 2)[1]? = some t ∧
      t = (7 <<< 16) ||| ((3 &&& 0xFF) <<< 8) ||| (2 &&& 0xFF) ∧
      t >>> 16 = 7 ∧ (t >>> 8) % 256 = 3 % 256 ∧ t % 256 = 2 % 256 ∧
      (∀ k2 ph2 pr2, k2 ≤ 2 ^ 48 - 1 → 3 < 256 → 2 < 256 → ph2 < 256 →
        pr2 < 256 → tagKey ph2 pr2 k2 = t → k2 = 7 ∧ ph2 = 3 ∧ pr2 = 2) ∧
      (∀ k2, k2 ≤ 2 ^ 48 - 1 → 7 < k2 → t < tagKey 3 2 k2) :=
  ⟨by decide, by decide, ApplyPhaseAndProducerIDs_layout [5, 7] 3 2 1 7 (by decide) (by decide)⟩


/-- C1: when GetPhase returns a phase for producer p of P producers, its num_requests
and num_requests_left are floor(T / P) + (1 if p < T mod P else 0), T being the
num_requests of the phase configuration. -/
theorem GetPhase_num_requests (run : List PhaseConfig)
    (phase_id producer_id num_producers : Nat) (phase : Phase)
    (h : GetPhase run phase_id producer_id num_producers = Except.ok phase) :
    ∃ cfg, run[phase_id]? = some cfg ∧
      phase.num_requests = cfg.num_requests / num_producers
        + (if producer_id < cfg.num_requests % num_producers then 1 else 0) ∧
      phase.num_requests_left = cfg.num_requests / num_producers
        + (if producer_id < cfg.num_requests % num_producers then 1 else 0) := by
  obtain ⟨cfg, hcfg, -, -, -, -, hn, hl, -⟩ := GetPhase_eq_ok h
  exact ⟨cfg, hcfg, hn, hl.trans hn⟩

theorem GetPhase_num_requests_witness :
    ∃ phase, GetPhase [mixedDeletePhase] 0 0 3 = Except.ok phase ∧
      ∃ cfg, [mixedDeletePhase][0]? = some cfg ∧
        phase.num_requests = cfg.num_requests / 3
          + (if 0 < cfg.num_requests % 3 then 1 else 0) ∧
        phase.num_requests_left = cfg.num_requests / 3
          + (if 0 < cfg.num_requests % 3 then 1 else 0) :=
  ⟨_, rfl, GetPhase_num_requests [mixedDeletePhase] 0 0 3 _ rfl⟩

/-- C2: when GetPhase returns a phase for each of the P >= 1 producers, the
num_requests of these phases add up to the configured num_requests T; and when
P = T each producer gets exactly one request. -/
theorem GetPhase_num_requests_sum (run : List PhaseConfig) (phase_id num_producers : Nat)
    (cfg : PhaseConfig) (phases : Nat → Phase) (hcfg : run[phase_id]? = some cfg)
    (hP : 1 ≤ num_producers)
    (h : ∀ p, p < num_producers →
      GetPhase run phase_id p num_producers = Except.ok (phases p)) :
    (∑ p in Finset.range num_producers, (phases p).num_requests) = cfg.num_requests ∧
    (num_producers = cfg.num_requests →
      ∀ p, p < num_producers → (phases p).num_requests = 1) := by
  have key : ∀ p, p < num_producers → (phases p).num_requests =
      cfg.num_requests / num_producers
        + (if p < cfg.num_requests % num_producers then 1 else 0) := by
    intro p hp
    obtain ⟨cfg2, hcfg2, -, -, -, -, hn, -⟩ := GetPhase_eq_ok (h p hp)
    rw [hcfg] at hcfg2
    cases hcfg2
    exact hn
  constructor
  · rw [Finset.sum_congr rfl (fun p hp => key p (Finset.mem_range.mp hp)),
      Finset.sum_add_distrib, Finset.sum_const, Finset.card_range, Finset.sum_boole]
    have hr : cfg.num_requests % num_producers < num_producers := Nat.mod_lt _ hP
    have hf : Finset.filter (fun p => p < cfg.num_requests % num_producers)
        (Finset.range num_producers) = Finset.range (cfg.num_requests % num_producers) := by
      ext p
      simp only [Finset.mem_filter, Finset.mem_range]
      omega
    rw [hf, Finset.card_range, smul_eq_mul, Nat.cast_id]
    exact Nat.div_add_mod _ _
  · intro hPT p hp
    rw [key p hp, ← hPT, Nat.div_self hP, Nat.mod_self]
    simp

theorem GetPhase_num_requests_sum_witness :
    [mixedDeletePhase][0]? = some mixedDeletePhase ∧ 1 ≤ 3 ∧
    (∀ p, p < 3 → GetPhase [mixedDeletePhase] 0 p 3 = Except.ok (mixedDeletePhases 3 p)) ∧
    (∑ p in Finset.range 3, (mixedDeletePhases 3 p).num_requests)
      = mixedDeletePhase.num_requests ∧
    (3 = mixedDeletePhase.num_requests →
      ∀ p, p < 3 → (mixedDeletePhases 3 p).num_requests = 1) :=
  have h : ∀ p, p < 3 →
      GetPhase [mixedDeletePhase] 0 p 3 = Except.ok (mixedDeletePhases 3 p) := by
    intro p hp
    interval_cases p <;> rfl
  ⟨rfl, by decide, h,
    GetPhase_num_requests_sum [mixedDeletePhase] 0 3 mixedDeletePhase (mixedDeletePhases 3)
      rfl (by decide) h⟩

/-- C3: for the phase with 50% reads, 30% updates and 20% deletes, whose proportions
sum to 100, the thresholds computed by GetPhase make the comparator chain of Next
select Delete for none of the 100 draws and Insert for 20 of them, although the
configured proportions are 20 for Delete and 0 for Insert. -/
theorem selectOperation_mixed_delete :
    ∃ phase, GetPhase [mixedDeletePhase] 0 0 1 = Except.ok phase ∧
      proportionOf mixedDeletePhase.insert + proportionOf mixedDeletePhase.read
        + proportionOf mixedDeletePhase.readmodifywrite
        + proportionOf mixedDeletePhase.negativeread + proportionOf mixedDeletePhase.scan
        + proportionOf mixedDeletePhase.update + proportionOf mixedDeletePhase.delete = 100 ∧
      phase.update_thres = 80 ∧ phase.delete_thres = 70 ∧
      proportionOf mixedDeletePhase.delete = 20 ∧
      drawsSelecting phase Operation.kDelete = 0 ∧
      proportionOf mixedDeletePhase.insert = 0 ∧
      drawsSelecting phase Operation.kInsert = 20 ∧
      selectOperation phase 85 = Operation.kInsert :=
  ⟨_, rfl, by decide, by decide, by decide, by decide, by decide, by decide, by decide,
    by decide⟩

/-- C4: GetPhase returns a phase for the configuration whose proportions are
4294967295 and 101: their sum 4294967396 is not 100, but it is 100 modulo 2^32,
which is what the 32-bit check compares. -/
theorem GetPhase_accepts_wrapped_sum :
    ∃ phase, GetPhase [wrappedSumPhase] 0 0 1 = Except.ok phase ∧
      proportionOf wrappedSumPhase.insert + proportionOf wrappedSumPhase.read
        + proportionOf wrappedSumPhase.readmodifywrite
        + proportionOf wrappedSumPhase.negativeread + proportionOf wrappedSumPhase.scan
        + proportionOf wrappedSumPhase.update + proportionOf wrappedSumPhase.delete
        = 4294967396 ∧
      phase.read_thres = 4294967295 ∧ phase.update_thres = 100 :=
  ⟨_, rfl, by decide, by decide, by decide⟩

set_option maxRecDepth 100000 in
/-- C5: for 100 requests and an insert proportion of 29, GetPhase sets num_inserts
and num_inserts_left to 28, whereas floor(100 * 29 / 100) is 29: the double nearest
to 0.29 is below 0.29 and its product with 100 is rounded to a double below 29. -/
theorem GetPhase_num_inserts_rounding :
    ∃ phase, GetPhase [insert29Phase] 0 0 1 = Except.ok phase ∧
      phase.num_requests = 100 ∧ proportionOf insert29Phase.insert = 29 ∧
      phase.num_inserts = 28 ∧ phase.num_inserts_left = 28 ∧
      phase.num_requests * proportionOf insert29Phase.insert / 100 = 29 :=
  ⟨_, rfl, by decide, by decide, by decide, by decide, by decide⟩

/-! ## Deletion maps and chooser calls -/

theorem IndexMap.find_isSome_iff (m : IndexMap) (k : Nat) :
    (m.find k).isSome = true ↔ ∃ e, e ∈ m ∧ e.1 = k := by
  unfold IndexMap.find
  rw [List.find?_isSome]
  constructor
  · rintro ⟨e, he, h⟩
    exact ⟨e, he, by simpa using h⟩
  · rintro ⟨e, he, h⟩
    exact ⟨e, he, by simpa using h⟩

theorem IndexMap.mem_emplace_of_mem {m : IndexMap} {k v : Nat} {e : Nat × Nat}
    (h : e ∈ m) : e ∈ m.emplace k v := by
  induction m with
  | nil => cases h
  | cons a m ih =>
    unfold IndexMap.emplace
    split
    · exact List.mem_cons_of_mem _ h
    · split
      · exact h
      · rcases List.mem_cons.mp h with h | h
        · exact h ▸ List.mem_cons_self _ _
        · exact List.mem_cons_of_mem _ (ih h)

theorem IndexMap.mem_emplace {m : IndexMap} {k v : Nat} {e : Nat × Nat}
    (h : e ∈ m.emplace k v) : e ∈ m ∨ e = (k, v) := by
  induction m with
  | nil =>
    unfold IndexMap.emplace at h
    exact Or.inr (List.mem_singleton.mp h)
  | cons a m ih =>
    unfold IndexMap.emplace at h
    split at h
    · rcases List.mem_cons.mp h with h | h
      · exact Or.inr h
      · exact Or.inl h
    · split at h
      · exact Or.inl h
      · rcases List.mem_cons.mp h with h | h
        · exact Or.inl (h ▸ List.mem_cons_self _ _)
        · rcases ih h with h | h
          · exact Or.inl (List.mem_cons_of_mem _ h)
          · exact Or.inr h

theorem IndexMap.emplace_has_key (m : IndexMap) (k v : Nat) :
    ∃ e, e ∈ m.emplace k v ∧ e.1 = k := by
  induction m with
  | nil => exact ⟨(k, v), by simp [IndexMap.emplace], rfl⟩
  | cons a m ih =>
    unfold IndexMap.emplace
    split
    · exact ⟨(k, v), List.mem_cons_self _ _, rfl⟩
    · split
      · rename_i h
        exact ⟨a, List.mem_cons_self _ _, h.symm⟩
      · obtain ⟨e, he, hk⟩ := ih
        exact ⟨e, List.mem_cons_of_mem _ he, hk⟩

theorem IndexMap.emplace_sorted {m : IndexMap} (k v : Nat) (h : m.Sorted) :
    (m.emplace k v).Sorted := by
  induction m with
  | nil => simp [IndexMap.emplace, IndexMap.Sorted]
  | cons a m ih =>
    unfold IndexMap.Sorted at h ih ⊢
    rw [List.pairwise_cons] at h
    unfold IndexMap.emplace
    split
    · rename_i hlt
      rw [List.pairwise_cons]
      refine ⟨?_, List.pairwise_cons.mpr h⟩
      intro b hb
      rcases List.mem_cons.mp hb with hb | hb
      · rw [hb]; exact hlt
      · exact Nat.lt_trans hlt (h.1 b hb)
    · split
      · exact List.pairwise_cons.mpr h
      · rename_i h1 h2
        rw [List.pairwise_cons]
        refine ⟨?_, ih h.2⟩
        intro b hb
        rcases IndexMap.mem_emplace hb with hb | hb
        · exact h.1 b hb
        · rw [hb]
          show a.1 < k
          omega

theorem IndexMap.lower_bound_of_mem {m : IndexMap} {k : Nat} (hs : m.Sorted)
    (h : ∃ e, e ∈ m ∧ e.1 = k) : ∃ r, m.lower_bound k = some r ∧ r.1 = k := by
  obtain ⟨e, he, hk⟩ := h
  unfold IndexMap.lower_bound
  cases hf : List.find? (fun e => decide (k ≤ e.1)) m with
  | none =>
    rw [List.find?_eq_none] at hf
    have := hf e he
    simp at this
    omega
  | some r =>
    refine ⟨r, rfl, ?_⟩
    obtain ⟨hr, as, bs, hm, has⟩ := List.find?_eq_some.mp hf
    have hr : k ≤ r.1 := by simpa using hr
    rw [hm] at he hs
    unfold IndexMap.Sorted at hs
    rcases List.mem_append.mp he with he | he
    · have := has e he
      simp at this
      omega
    · rcases List.mem_cons.mp he with he | he
      · rw [← he]; exact hk
      · have h2 := (List.pairwise_append.mp hs).2.1
        have := (List.pairwise_cons.mp h2).1 e he
        omega

theorem skipDeleted_spec (m : IndexMap) (offset : Nat) :
    ∀ (fuel index target i : Nat), skipDeleted m offset fuel index target = some i →
      (target = 0 ∧ i = index) ∨ (m.find (i + offset)).isSome = false := by
  intro fuel
  induction fuel with
  | zero =>
    intro index target i h
    cases target with
    | zero => simp [skipDeleted] at h; exact Or.inl ⟨rfl, h.symm⟩
    | succ t => simp [skipDeleted] at h
  | succ fuel ih =>
    intro index target i h
    cases target with
    | zero => simp [skipDeleted] at h; exact Or.inl ⟨rfl, h.symm⟩
    | succ t =>
      right
      unfold skipDeleted at h
      split at h
      · rcases ih _ _ _ h with ⟨h0, _⟩ | h1
        · cases h0
        · exact h1
      · rename_i hnot
        rcases ih _ _ _ h with ⟨_, h0⟩ | h1
        · rw [h0]
          simpa using hnot
        · exact h1

theorem filter_length_lt {α : Type} (p q : α → Bool) (l : List α)
    (hqp : ∀ x, q x = true → p x = true) (e : α) (he : e ∈ l) (hp : p e = true)
    (hq : q e = false) : (l.filter q).length < (l.filter p).length := by
  induction l with
  | nil => cases he
  | cons a l ih =>
    have hle : (l.filter q).length ≤ (l.filter p).length :=
      List.Sublist.length_le (List.monotone_filter_right l hqp)
    rcases List.mem_cons.mp he with h | h
    · subst h
      rw [List.filter_cons_of_pos hp, List.filter_cons_of_neg (by simp [hq])]
      simp only [List.length_cons]
      omega
    · have := ih h
      by_cases hqa : q a = true
      · rw [List.filter_cons_of_pos hqa, List.filter_cons_of_pos (hqp a hqa)]
        simp only [List.length_cons]
        omega
      · rw [List.filter_cons_of_neg hqa]
        by_cases hpa : p a = true
        · rw [List.filter_cons_of_pos hpa]
          simp only [List.length_cons]
          omega
        · rw [List.filter_cons_of_neg hpa]
          exact this

theorem skipDeleted_isSome (m : IndexMap) (offset : Nat) :
    ∀ (fuel index target : Nat),
      target + (m.filter (fun e => decide (index + offset < e.1))).length ≤ fuel →
      (skipDeleted m offset fuel index target).isSome = true := by
  intro fuel
  induction fuel with
  | zero =>
    intro index target h
    have : target = 0 := by omega
    subst this
    simp [skipDeleted]
  | succ fuel ih =>
    intro index target h
    cases target with
    | zero => simp [skipDeleted]
    | succ t =>
      unfold skipDeleted
      have hmono : (m.filter (fun e => decide (index + 1 + offset < e.1))).length ≤
          (m.filter (fun e => decide (index + offset < e.1))).length := by
        apply List.Sublist.length_le
        apply List.monotone_filter_right
        intro e he
        simp at he ⊢
        omega
      split
      · rename_i hfound
        apply ih
        obtain ⟨e, he, hk⟩ := (IndexMap.find_isSome_iff _ _).mp hfound
        have hlt : (m.filter (fun e => decide (index + 1 + offset < e.1))).length <
            (m.filter (fun e => decide (index + offset < e.1))).length := by
          apply filter_length_lt _ _ m _ e he
          · simp; omega
          · simp; omega
          · intro x hx
            simp at hx ⊢
            omega
        omega
      · apply ih
        omega

theorem Producer.sameKeySpace_refl (p : Producer) : p.SameKeySpace p :=
  ⟨rfl, rfl, rfl, rfl, rfl, rfl, rfl⟩

theorem Producer.sameKeySpace_trans {p q r : Producer} (h1 : p.SameKeySpace q)
    (h2 : q.SameKeySpace r) : p.SameKeySpace r := by
  obtain ⟨a1, a2, a3, a4, a5, a6, a7⟩ := h1
  obtain ⟨b1, b2, b3, b4, b5, b6, b7⟩ := h2
  exact ⟨b1.trans a1, b2.trans a2, b3.trans a3, b4.trans a4, b5.trans a5, b6.trans a6,
    b7.trans a7⟩

theorem Producer.sameKeySpace_mapsOk {p q : Producer} (h : p.SameKeySpace q)
    (hp : p.MapsOk) : q.MapsOk := by
  obtain ⟨-, -, -, a4, a5, a6, a7⟩ := h
  unfold Producer.MapsOk
  rw [a4, a5, a6, a7]
  exact hp

theorem Producer.sameKeySpace_extends {p q : Producer} (h : p.SameKeySpace q) :
    p.Extends q := by
  obtain ⟨a1, a2, a3, a4, -, a6, -⟩ := h
  refine ⟨a1, a2, a3, ?_, ?_⟩
  · intro e he; rw [a4]; exact he
  · intro e he; rw [a6]; exact he

theorem Producer.sameKeySpace_liveKey {p q : Producer} (h : p.SameKeySpace q) {K : Key}
    (hl : q.liveKey K) : p.liveKey K := by
  obtain ⟨a1, a2, a3, a4, -, a6, -⟩ := h
  unfold Producer.liveKey at hl ⊢
  rw [a1, a2, a3, a4, a6] at hl
  exact hl

theorem Producer.extends_refl (p : Producer) : p.Extends p :=
  ⟨rfl, rfl, rfl, fun _ h => h, fun _ h => h⟩

theorem Producer.extends_trans {p q r : Producer} (h1 : p.Extends q) (h2 : q.Extends r) :
    p.Extends r := by
  obtain ⟨a1, a2, a3, a4, a5⟩ := h1
  obtain ⟨b1, b2, b3, b4, b5⟩ := h2
  exact ⟨b1.trans a1, b2.trans a2, b3.trans a3, fun e he => b4 e (a4 e he),
    fun e he => b5 e (a5 e he)⟩

theorem Producer.extends_deletedKey {p q : Producer} (h : p.Extends q) {K : Key}
    (hd : p.deletedKey K) : q.deletedKey K := by
  obtain ⟨a1, a2, a3, a4, a5⟩ := h
  unfold Producer.deletedKey at hd ⊢
  rw [a1, a2, a3]
  rcases hd with ⟨i, hi, hf⟩ | ⟨j, hj, hf⟩
  · left
    refine ⟨i, hi, ?_⟩
    obtain ⟨e, he, hk⟩ := (IndexMap.find_isSome_iff _ _).mp hf
    exact (IndexMap.find_isSome_iff _ _).mpr ⟨e, a4 e he, hk⟩
  · right
    refine ⟨j, hj, ?_⟩
    obtain ⟨e, he, hk⟩ := (IndexMap.find_isSome_iff _ _).mp hf
    exact (IndexMap.find_isSome_iff _ _).mpr ⟨e, a5 e he, hk⟩

/-- With pairwise distinct keys, a key at a live position is at no deleted position. -/
theorem Producer.liveKey_not_deletedKey {p : Producer} {K : Key}
    (hnd : (p.load_keys_ ++ p.insert_keys_).Nodup) (hl : p.liveKey K)
    (hd : p.deletedKey K) : False := by
  obtain ⟨hn1, hn2, hdisj⟩ := List.nodup_append.mp hnd
  rcases hl with ⟨i, hi, hf⟩ | ⟨j, hj, hf⟩
  · rcases hd with ⟨i2, hi2, hf2⟩ | ⟨j2, hj2, hf2⟩
    · have hlt : i < p.load_keys_.length := (List.getElem?_eq_some.mp hi).1
      have := List.getElem?_inj hlt hn1 (hi.trans hi2.symm)
      subst this
      rw [hf] at hf2
      cases hf2
    · exact hdisj (List.getElem?_mem hi) (List.getElem?_mem hj2)
  · rcases hd with ⟨i2, hi2, hf2⟩ | ⟨j2, hj2, hf2⟩
    · exact hdisj (List.getElem?_mem hi2) (List.getElem?_mem hj)
    · have hlt : j < p.insert_keys_.length := (List.getElem?_eq_some.mp hj).1
      have := List.getElem?_inj hlt hn2 (hj.trans hj2.symm)
      subst this
      rw [hf] at hf2
      cases hf2

theorem Producer.modifyPhase_sameKeySpace (p : Producer) (f : Phase → Phase) :
    p.SameKeySpace (p.modifyPhase f) :=
  ⟨rfl, rfl, rfl, rfl, rfl, rfl, rfl⟩

theorem Producer.syncLoadCount_sameKeySpace (p : Producer) :
    p.SameKeySpace p.syncLoadCount := by
  unfold Producer.syncLoadCount
  simp only
  split
  · exact ⟨rfl, rfl, rfl, rfl, rfl, rfl, rfl⟩
  · exact ⟨rfl, rfl, rfl, rfl, rfl, rfl, rfl⟩

theorem Producer.IntoLoadKeys_pos {p : Producer} (hp : p.MapsOk) {i : Nat}
    (h : (p.delete_map_.find i).isSome = true) : 0 < p.IntoLoadKeys i := by
  obtain ⟨hs, -, hv, -, hn, -⟩ := hp
  have hmem := (IndexMap.find_isSome_iff _ _).mp h
  obtain ⟨r, hr, hk⟩ := IndexMap.lower_bound_of_mem hs hmem
  have hne : p.delete_map_ ≠ [] := by
    obtain ⟨e, he, -⟩ := hmem
    exact List.ne_nil_of_mem he
  have hrm : r ∈ p.delete_map_ := List.mem_of_find?_eq_some hr
  unfold Producer.IntoLoadKeys
  rw [if_pos (hn hne), hr]
  simp only [hk, if_true]
  exact hv r hrm

theorem Producer.IntoInsertKeys_pos {p : Producer} (hp : p.MapsOk) {i : Nat}
    (h : (p.delete_map_insert_.find i).isSome = true) : 0 < p.IntoInsertKeys i := by
  obtain ⟨-, hs, -, hv, -, hn⟩ := hp
  have hmem := (IndexMap.find_isSome_iff _ _).mp h
  obtain ⟨r, hr, hk⟩ := IndexMap.lower_bound_of_mem hs hmem
  have hne : p.delete_map_insert_ ≠ [] := by
    obtain ⟨e, he, -⟩ := hmem
    exact List.ne_nil_of_mem he
  have hrm : r ∈ p.delete_map_insert_ := List.mem_of_find?_eq_some hr
  unfold Producer.IntoInsertKeys
  rw [if_pos (hn hne), hr]
  simp only [hk, if_true]
  exact hv r hrm

/-- The position that `locate` reaches is in no deletion map. -/
theorem Producer.locate_live {p : Producer} (hp : p.MapsOk) {draw : Nat} {pos : Nat ⊕ Nat}
    (h : p.locate draw = Except.ok pos) :
    match pos with
    | Sum.inl i => (p.delete_map_.find i).isSome = false
    | Sum.inr j => (p.delete_map_insert_.find (j + p.num_load_keys_)).isSome = false := by
  unfold Producer.locate at h
  split at h
  · simp only at h
    split at h
    · rename_i idx hskip
      cases h
      rcases skipDeleted_spec _ _ _ _ _ _ hskip with ⟨h0, rfl⟩ | h1
      · show (p.delete_map_.find idx).isSome = false
        by_contra hc
        have := Producer.IntoLoadKeys_pos hp (Bool.not_eq_false _ ▸ hc)
        omega
      · simpa using h1
    · cases h
  · simp only at h
    split at h
    · rename_i idx hskip
      cases h
      rcases skipDeleted_spec _ _ _ _ _ _ hskip with ⟨h0, h2⟩ | h1
      · show (p.delete_map_insert_.find (idx + p.num_load_keys_)).isSome = false
        by_contra hc
        rw [h2] at hc
        have := Producer.IntoInsertKeys_pos hp (Bool.not_eq_false _ ▸ hc)
        omega
      · exact h1
    · cases h

/-- The loops of `locate` end within their bound. -/
theorem Producer.locate_ne_loop_bound (p : Producer) (draw : Nat) :
    p.locate draw ≠ Except.error Error.loop_bound := by
  unfold Producer.locate
  split
  · simp only
    have := skipDeleted_isSome p.delete_map_ 0
      (p.IntoLoadKeys draw + p.delete_map_.length) draw (p.IntoLoadKeys draw)
      (by have := List.length_filter_le (fun e => decide (draw + 0 < e.1)) p.delete_map_
          omega)
    split
    · intro h; cases h
    · rename_i hnone
      rw [hnone] at this
      cases this
  · simp only
    have := skipDeleted_isSome p.delete_map_insert_ p.num_load_keys_
      (p.IntoInsertKeys (draw - p.numLoad + p.num_load_keys_) + p.delete_map_insert_.length)
      (draw - p.numLoad) (p.IntoInsertKeys (draw - p.numLoad + p.num_load_keys_))
      (by have := List.length_filter_le
            (fun e => decide (draw - p.numLoad + p.num_load_keys_ < e.1)) p.delete_map_insert_
          omega)
    split
    · intro h; cases h
    · rename_i hnone
      rw [hnone] at this
      cases this

theorem elemAt_eq_ok {α : Type} {v : List α} {i : Nat} {a : α}
    (h : elemAt v i = Except.ok a) : v[i]? = some a := by
  unfold elemAt at h
  split at h
  · cases h; assumption
  · cases h

theorem Producer.ChooseKey_spec {p q : Producer} {chooser : Phase → Option Chooser}
    {draw : Nat} {K : Key} (hp : p.MapsOk)
    (h : p.ChooseKey chooser draw = Except.ok (K, q)) :
    p.SameKeySpace q ∧ p.liveKey K := by
  have hs := Producer.syncLoadCount_sameKeySpace p
  have hp1 := Producer.sameKeySpace_mapsOk hs hp
  unfold Producer.ChooseKey at h
  simp only at h
  obtain ⟨this_phase, -, h⟩ := bind_eq_ok h
  split at h
  · cases h
  obtain ⟨pos, hpos, h⟩ := bind_eq_ok h
  have hlive := Producer.locate_live hp1 hpos
  cases pos with
  | inl i =>
    simp only at h hlive
    obtain ⟨key, hkey, h⟩ := bind_eq_ok h
    cases h
    exact ⟨hs, Producer.sameKeySpace_liveKey hs (Or.inl ⟨i, elemAt_eq_ok hkey, hlive⟩)⟩
  | inr j =>
    simp only at h hlive
    obtain ⟨key, hkey, h⟩ := bind_eq_ok h
    cases h
    exact ⟨hs, Producer.sameKeySpace_liveKey hs (Or.inr ⟨j, elemAt_eq_ok hkey, hlive⟩)⟩

theorem IndexMap.emplace_ne_nil (m : IndexMap) (k v : Nat) : m.emplace k v ≠ [] := by
  obtain ⟨e, he, -⟩ := IndexMap.emplace_has_key m k v
  exact List.ne_nil_of_mem he

theorem Producer.deleteChooseKey_spec {p q : Producer} {chooser : Phase → Option Chooser}
    {draw : Nat} {K : Key} (hp : p.MapsOk)
    (h : p.deleteChooseKey chooser draw = Except.ok (K, q)) :
    q.MapsOk ∧ p.Extends q ∧ p.liveKey K ∧ q.deletedKey K := by
  have hs := Producer.syncLoadCount_sameKeySpace p
  have hp1 := Producer.sameKeySpace_mapsOk hs hp
  unfold Producer.deleteChooseKey at h
  simp only at h
  obtain ⟨this_phase, -, h⟩ := bind_eq_ok h
  split at h
  · cases h
  obtain ⟨pos, hpos, h⟩ := bind_eq_ok h
  have hlive := Producer.locate_live hp1 hpos
  obtain ⟨s1, s2, s3, s4, s5, s6, s7⟩ := hs
  obtain ⟨m1, m2, m3, m4, m5, m6⟩ := hp1
  cases pos with
  | inl i =>
    simp only at h hlive
    obtain ⟨key, hkey, h⟩ := bind_eq_ok h
    have hkey := elemAt_eq_ok hkey
    cases h
    · refine ⟨⟨IndexMap.emplace_sorted _ _ m1, m2, ?_, m4, ?_, m6⟩,
        ⟨s1, s2, s3, ?_, ?_⟩, ?_, ?_⟩
      · intro e he
        rcases IndexMap.mem_emplace he with he | he
        · exact m3 e he
        · rw [he]
          show 1 ≤ p.syncLoadCount.map_size_ + 1
          omega
      · intro _
        show 0 < p.syncLoadCount.map_size_ + 1
        omega
      · intro e he
        rw [← s4] at he
        exact IndexMap.mem_emplace_of_mem he
      · intro e he
        rw [← s6] at he
        exact he
      · exact (Producer.sameKeySpace_liveKey ⟨s1, s2, s3, s4, s5, s6, s7⟩
          (Or.inl ⟨i, hkey, hlive⟩))
      · exact Or.inl ⟨i, hkey,
          (IndexMap.find_isSome_iff _ _).mpr (IndexMap.emplace_has_key _ _ _)⟩
  | inr j =>
    simp only at h hlive
    obtain ⟨key, hkey, h⟩ := bind_eq_ok h
    have hkey := elemAt_eq_ok hkey
    cases h
    · refine ⟨⟨m1, IndexMap.emplace_sorted _ _ m2, m3, ?_, m5, ?_⟩,
        ⟨s1, s2, s3, ?_, ?_⟩, ?_, ?_⟩
      · intro e he
        rcases IndexMap.mem_emplace he with he | he
        · exact m4 e he
        · rw [he]
          show 1 ≤ p.syncLoadCount.map_size_insert + 1
          omega
      · intro _
        show 0 < p.syncLoadCount.map_size_insert + 1
        omega
      · intro e he
        rw [← s4] at he
        exact he
      · intro e he
        rw [← s6] at he
        exact IndexMap.mem_emplace_of_mem he
      · exact (Producer.sameKeySpace_liveKey ⟨s1, s2, s3, s4, s5, s6, s7⟩
          (Or.inr ⟨j, hkey, hlive⟩))
      · exact Or.inr ⟨j, hkey,
          (IndexMap.find_isSome_iff _ _).mpr (IndexMap.emplace_has_key _ _ _)⟩

theorem Producer.doInsert_spec {debug : Bool} {p q : Producer} {r : Request}
    (h : p.doInsert debug = Except.ok (r, q)) :
    p.SameKeySpace q ∧ r.op = Operation.kInsert := by
  unfold Producer.doInsert at h
  obtain ⟨this_phase, -, h⟩ := bind_eq_ok h
  obtain ⟨key, -, h⟩ := bind_eq_ok h
  simp only at h
  split at h
  · split at h
    · cases h
      exact ⟨⟨rfl, rfl, rfl, rfl, rfl, rfl, rfl⟩, rfl⟩
    · split at h
      · cases h
      · cases h
        exact ⟨⟨rfl, rfl, rfl, rfl, rfl, rfl, rfl⟩, rfl⟩
  · cases h
    exact ⟨⟨rfl, rfl, rfl, rfl, rfl, rfl, rfl⟩, rfl⟩

theorem Producer.advance_spec {p q : Producer} (h : p.advance = Except.ok q) :
    p.SameKeySpace q := by
  unfold Producer.advance at h
  obtain ⟨this_phase, -, h⟩ := bind_eq_ok h
  simp only at h
  split at h
  · cases h
    split
    · exact ⟨rfl, rfl, rfl, rfl, rfl, rfl, rfl⟩
    · exact ⟨rfl, rfl, rfl, rfl, rfl, rfl, rfl⟩
  · cases h
    exact ⟨rfl, rfl, rfl, rfl, rfl, rfl, rfl⟩

theorem Producer.dispatch_spec {debug : Bool} {p q : Producer} {next_op : Operation}
    {draw scan_draw : Nat} {r : Request} {chosen : Option Key} (hp : p.MapsOk)
    (h : p.dispatch debug next_op draw scan_draw = Except.ok (r, chosen, q)) :
    p.StepOk q r chosen := by
  unfold Producer.dispatch at h
  cases next_op with
  | kRead =>
    obtain ⟨⟨key, p1⟩, hck, h⟩ := bind_eq_ok h
    obtain ⟨hs, hl⟩ := Producer.ChooseKey_spec hp hck
    cases h
    exact ⟨Producer.sameKeySpace_mapsOk hs hp, Producer.sameKeySpace_extends hs, (fun K hK => by cases hK; exact hl),
      (fun hd => by cases hd), fun _ _ => rfl⟩
  | kReadModifyWrite =>
    obtain ⟨⟨key, p1⟩, hck, h⟩ := bind_eq_ok h
    obtain ⟨hs, hl⟩ := Producer.ChooseKey_spec hp hck
    cases h
    exact ⟨Producer.sameKeySpace_mapsOk hs hp, Producer.sameKeySpace_extends hs, (fun K hK => by cases hK; exact hl),
      (fun hd => by cases hd), fun _ _ => rfl⟩
  | kNegativeRead =>
    obtain ⟨⟨key, p1⟩, hck, h⟩ := bind_eq_ok h
    obtain ⟨hs, hl⟩ := Producer.ChooseKey_spec hp hck
    cases h
    exact ⟨Producer.sameKeySpace_mapsOk hs hp, Producer.sameKeySpace_extends hs, (fun K hK => by cases hK; exact hl),
      (fun hd => by cases hd), fun _ hn => absurd rfl hn⟩
  | kScan =>
    obtain ⟨⟨key, p1⟩, hck, h⟩ := bind_eq_ok h
    obtain ⟨hs, hl⟩ := Producer.ChooseKey_spec hp hck
    obtain ⟨this_phase, -, h⟩ := bind_eq_ok h
    split at h
    · cases h
    · cases h
      exact ⟨Producer.sameKeySpace_mapsOk hs hp, Producer.sameKeySpace_extends hs, (fun K hK => by cases hK; exact hl),
        (fun hd => by cases hd), fun _ _ => rfl⟩
  | kUpdate =>
    obtain ⟨⟨key, p1⟩, hck, h⟩ := bind_eq_ok h
    obtain ⟨hs, hl⟩ := Producer.ChooseKey_spec hp hck
    cases h
    exact ⟨Producer.sameKeySpace_mapsOk hs hp, Producer.sameKeySpace_extends hs, (fun K hK => by cases hK; exact hl),
      (fun hd => by cases hd), fun _ _ => rfl⟩
  | kDelete =>
    obtain ⟨⟨key, p1⟩, hck, h⟩ := bind_eq_ok h
    obtain ⟨hm, he, hl, hd⟩ := Producer.deleteChooseKey_spec hp hck
    cases h
    exact ⟨hm, he, (fun K hK => by cases hK; exact hl), fun _ => ⟨key, rfl, hd⟩,
      fun _ _ => rfl⟩
  | kInsert =>
    obtain ⟨⟨to_return, p1⟩, hins, h⟩ := bind_eq_ok h
    obtain ⟨hs, hop⟩ := Producer.doInsert_spec hins
    cases h
    exact ⟨Producer.sameKeySpace_mapsOk hs hp, Producer.sameKeySpace_extends hs, (fun K hK => by cases hK),
      (fun hd => by rw [hop] at hd; cases hd), fun hi => absurd hop hi⟩

theorem Producer.NextTraced_spec {debug : Bool} {p q : Producer}
    {choice draw scan_draw : Nat} {r : Request} {chosen : Option Key} (hp : p.MapsOk)
    (h : p.NextTraced debug choice draw scan_draw = Except.ok (r, chosen, q)) :
    p.StepOk q r chosen := by
  unfold Producer.NextTraced at h
  split at h
  · cases h
  obtain ⟨this_phase, -, h⟩ := bind_eq_ok h
  obtain ⟨next_op, -, h⟩ := bind_eq_ok h
  obtain ⟨⟨to_return, ch, p1⟩, hd, h⟩ := bind_eq_ok h
  obtain ⟨p2, hadv, h⟩ := bind_eq_ok h
  cases h
  obtain ⟨h1, h2, h3, h4, h5⟩ := Producer.dispatch_spec hp hd
  have hs := Producer.advance_spec hadv
  refine ⟨Producer.sameKeySpace_mapsOk hs h1, Producer.extends_trans h2 (Producer.sameKeySpace_extends hs), h3, ?_, h5⟩
  intro hdel
  obtain ⟨K, hK, hdk⟩ := h4 hdel
  exact ⟨K, hK, Producer.extends_deletedKey (Producer.sameKeySpace_extends hs) hdk⟩

theorem Producer.run_cons {debug : Bool} {p : Producer} {d : Nat × Nat × Nat}
    {ds : List (Nat × Nat × Nat)} {e : Request × Option Key}
    {trace : List (Request × Option Key)}
    (h : (Producer.run debug p (d :: ds)).1 = e :: trace) :
    ∃ q, p.NextTraced debug d.1 d.2.1 d.2.2 = Except.ok (e.1, e.2, q) ∧
      (Producer.run debug q ds).1 = trace := by
  obtain ⟨choice, draw, scan_draw⟩ := d
  unfold Producer.run at h
  split at h
  · split at h
    · rename_i to_return chosen p1 hnext
      simp only at h
      obtain ⟨h1, h2⟩ := List.cons.inj h
      subst h1
      exact ⟨p1, hnext, h2⟩
    · cases h
  · cases h

/-- A key that is deleted in the state `p` is returned by no chooser call of a run
that starts from `p`. -/
theorem Producer.run_avoids_deleted {debug : Bool} (draws : List (Nat × Nat × Nat)) :
    ∀ (p : Producer) (K : Key), p.MapsOk → (p.load_keys_ ++ p.insert_keys_).Nodup →
      p.deletedKey K → ∀ e, e ∈ (Producer.run debug p draws).1 → e.2 ≠ some K := by
  induction draws with
  | nil =>
    intro p K _ _ _ e he
    simp [Producer.run] at he
  | cons d ds ih =>
    intro p K hp hnd hdel e he
    cases htr : (Producer.run debug p (d :: ds)).1 with
    | nil => rw [htr] at he; cases he
    | cons e0 trace =>
      rw [htr] at he
      obtain ⟨q, hnext, hrest⟩ := Producer.run_cons htr
      obtain ⟨hq, hext, hlive, -, -⟩ := Producer.NextTraced_spec hp hnext
      rcases List.mem_cons.mp he with he | he
      · subst he
        intro hK
        exact Producer.liveKey_not_deletedKey hnd (hlive K hK) hdel
      · have hnd2 : (q.load_keys_ ++ q.insert_keys_).Nodup := by
          rw [hext.1, hext.2.1]; exact hnd
        rw [← hrest] at he
        exact ih q K hq hnd2 (Producer.extends_deletedKey hext hdel) e he

/-- For the operations other than Insert and NegativeRead the key of the request is
the key that the chooser call returned. -/
theorem Producer.run_chosen_key {debug : Bool} (draws : List (Nat × Nat × Nat)) :
    ∀ (p : Producer), p.MapsOk → ∀ e, e ∈ (Producer.run debug p draws).1 →
      e.1.op ≠ Operation.kInsert → e.1.op ≠ Operation.kNegativeRead →
      e.2 = some e.1.key := by
  induction draws with
  | nil =>
    intro p _ e he
    simp [Producer.run] at he
  | cons d ds ih =>
    intro p hp e he
    cases htr : (Producer.run debug p (d :: ds)).1 with
    | nil => rw [htr] at he; cases he
    | cons e0 trace =>
      rw [htr] at he
      obtain ⟨q, hnext, hrest⟩ := Producer.run_cons htr
      obtain ⟨hq, -, -, -, hkey⟩ := Producer.NextTraced_spec hp hnext
      rcases List.mem_cons.mp he with he | he
      · subst he
        exact hkey
      · rw [← hrest] at he
        exact ih q hq e he

theorem Producer.run_delete_then {debug : Bool} (draws : List (Nat × Nat × Nat)) :
    ∀ (p : Producer), p.MapsOk → (p.load_keys_ ++ p.insert_keys_).Nodup →
      ∀ (i j : Nat) (ri rj : Request) (K : Key) (cj : Option Key), i < j →
      (Producer.run debug p draws).1[i]? = some (ri, some K) → ri.op = Operation.kDelete →
      (Producer.run debug p draws).1[j]? = some (rj, cj) →
      cj ≠ some K ∧ ri.key = K ∧
        (rj.op ≠ Operation.kInsert → rj.op ≠ Operation.kNegativeRead → rj.key ≠ K) := by
  induction draws with
  | nil =>
    intro p _ _ i j ri rj K cj _ hi
    simp [Producer.run] at hi
  | cons d ds ih =>
    intro p hp hnd i j ri rj K cj hij hi hdel hj
    cases htr : (Producer.run debug p (d :: ds)).1 with
    | nil => rw [htr] at hi; simp at hi
    | cons e0 trace =>
      rw [htr] at hi hj
      obtain ⟨q, hnext, hrest⟩ := Producer.run_cons htr
      obtain ⟨hq, hext, hlive, hdk, hkey⟩ := Producer.NextTraced_spec hp hnext
      have hnd2 : (q.load_keys_ ++ q.insert_keys_).Nodup := by
        rw [hext.1, hext.2.1]; exact hnd
      obtain ⟨j2, rfl⟩ : ∃ j2, j = j2 + 1 := ⟨j - 1, by omega⟩
      rw [List.getElem?_cons_succ, ← hrest] at hj
      cases i with
      | zero =>
        rw [List.getElem?_cons_zero] at hi
        cases hi
        obtain ⟨K2, hK2, hdk2⟩ := hdk hdel
        cases hK2
        have hkey1 : ri.key = K := by
          have := hkey (by rw [hdel]; decide) (by rw [hdel]; decide)
          exact (Option.some.inj this).symm
        have hne := Producer.run_avoids_deleted ds q K hq hnd2 hdk2 (rj, cj)
          (List.getElem?_mem hj)
        refine ⟨hne, hkey1, ?_⟩
        intro h1 h2 hK
        have := Producer.run_chosen_key ds q hq (rj, cj) (List.getElem?_mem hj) h1 h2
        rw [this] at hne
        exact hne (congrArg some hK)
      | succ i2 =>
        rw [List.getElem?_cons_succ, ← hrest] at hi
        exact ih q hq hnd2 i2 j2 ri rj K cj (by omega) hi hdel hj

theorem Producer.create_maps {config : WorkloadConfig} {load_keys : List Key}
    {custom_inserts : Option (List (String × List Key))} {id num_producers : Nat}
    {p : Producer}
    (h : Producer.create config load_keys custom_inserts id num_producers = Except.ok p) :
    p.delete_map_ = [] ∧ p.delete_map_insert_ = [] := by
  unfold Producer.create at h
  obtain ⟨record_size, -, h⟩ := bind_eq_ok h
  cases h
  exact ⟨rfl, rfl⟩

theorem Producer.Prepare_maps {p q : Producer} {keygen : Nat → Nat → Key}
    (h : p.Prepare keygen = Except.ok q) :
    q.delete_map_ = p.delete_map_ ∧ q.delete_map_insert_ = p.delete_map_insert_ := by
  unfold Producer.Prepare at h
  obtain ⟨num_phases, -, h⟩ := bind_eq_ok h
  obtain ⟨phases, -, h⟩ := bind_eq_ok h
  obtain ⟨insert_keys, -, h⟩ := bind_eq_ok h
  cases h
  exact ⟨rfl, rfl⟩

theorem Producer.mapsOk_of_empty {p : Producer} (h1 : p.delete_map_ = [])
    (h2 : p.delete_map_insert_ = []) : p.MapsOk := by
  unfold Producer.MapsOk IndexMap.Sorted
  rw [h1, h2]
  simp

/-- C7: for a producer that has been created and prepared and whose load keys and
insert keys are pairwise distinct, and for every sequence of draws: once a Delete
request of the run has returned the key K from deleteChooseKey, no later ChooseKey
or deleteChooseKey call of the run returns K; in particular no later Read,
ReadModifyWrite, Scan, Update or Delete request has the key K. -/
theorem deleted_key_not_chosen_again (config : WorkloadConfig) (load_keys : List Key)
    (custom_inserts : Option (List (String × List Key))) (id num_producers : Nat)
    (keygen : Nat → Nat → Key) (debug : Bool) (draws : List (Nat × Nat × Nat))
    (p0 p : Producer)
    (hcreate : Producer.create config load_keys custom_inserts id num_producers
      = Except.ok p0)
    (hprepare : p0.Prepare keygen = Except.ok p)
    (hdistinct : (p.load_keys_ ++ p.insert_keys_).Nodup)
    (i j : Nat) (ri rj : Request) (K : Key) (cj : Option Key) (hij : i < j)
    (hi : (Producer.run debug p draws).1[i]? = some (ri, some K))
    (hdel : ri.op = Operation.kDelete)
    (hj : (Producer.run debug p draws).1[j]? = some (rj, cj)) :
    cj ≠ some K ∧ ri.key = K ∧
      (rj.op ≠ Operation.kInsert → rj.op ≠ Operation.kNegativeRead → rj.key ≠ K) := by
  have h0 := Producer.create_maps hcreate
  have h1 := Producer.Prepare_maps hprepare
  have hp : p.MapsOk :=
    Producer.mapsOk_of_empty (h1.1.trans h0.1) (h1.2.trans h0.2)
  exact Producer.run_delete_then draws p hp hdistinct i j ri rj K cj hij hi hdel hj

theorem deleted_key_not_chosen_again_witness :
    ∃ p0 p,
      Producer.create readDeleteWorkload (ApplyPhaseAndProducerIDs [5, 6] 0 0) none 0 1
        = Except.ok p0 ∧
      p0.Prepare exampleKeygen = Except.ok p ∧
      (p.load_keys_ ++ p.insert_keys_).Nodup ∧ 0 < 1 ∧
      (Producer.run true p [(60, 0, 0), (10, 0, 0)]).1[0]? =
        some ({ op := Operation.kDelete, key := tagKey 0 0 5, scan_amount := 0,
                value_size := 0 }, some (tagKey 0 0 5)) ∧
      (Producer.run true p [(60, 0, 0), (10, 0, 0)]).1[1]? =
        some ({ op := Operation.kRead, key := tagKey 0 0 6, scan_amount := 0,
                value_size := 0 }, some (tagKey 0 0 6)) ∧
      (some (tagKey 0 0 6) ≠ some (tagKey 0 0 5) ∧ tagKey 0 0 5 = tagKey 0 0 5 ∧
        (Operation.kRead ≠ Operation.kInsert → Operation.kRead ≠ Operation.kNegativeRead →
          tagKey 0 0 6 ≠ tagKey 0 0 5)) :=
  ⟨_, _, rfl, rfl, by decide, by decide, rfl, rfl,
    deleted_key_not_chosen_again readDeleteWorkload (ApplyPhaseAndProducerIDs [5, 6] 0 0)
      none 0 1 exampleKeygen true [(60, 0, 0), (10, 0, 0)] _ _ rfl rfl (by decide) 0 1 _ _ _ _
      (by decide) rfl rfl rfl⟩

/-! ## Runs of example workloads -/

set_option maxRecDepth 100000 in
/-- C6: in the workload whose first phase has two requests, 50% updates and 50%
inserts (num_inserts = 1), the operation draws 90 and 90, both within the bounds of
op_dist_, make a release build emit two Insert requests in that phase, the second
one with the insert key of the next phase, and leave num_inserts_left at 2^64 - 1
above num_requests_left; a debug build stops at the first call on the assertion
num_requests_left == 1. -/
theorem Next_inserts_exceed_num_inserts :
    ∃ p, exampleProducer updateInsertWorkload = Except.ok p ∧
      p.phases_.map Phase.num_inserts = [1, 1] ∧
      p.phases_.map Phase.num_requests = [2, 1] ∧
      p.insert_keys_ = [tagKey 1 1 1000, tagKey 2 1 1000] ∧ p.op_dist_ = (0, 99) ∧
      (∃ p1 p2,
        p.Next false 90 0 0 =
          Except.ok ({ op := Operation.kInsert, key := tagKey 1 1 1000, scan_amount := 0,
                       value_size := 8 }, p1) ∧
        p1.current_phase_ = 0 ∧ p1.op_dist_ = (0, 99) ∧
        p1.phases_.map Phase.num_inserts_left = [0, 1] ∧
        p1.Next false 90 0 0 =
          Except.ok ({ op := Operation.kInsert, key := tagKey 2 1 1000, scan_amount := 0,
                       value_size := 8 }, p2) ∧
        p2.current_phase_ = 1 ∧
        p2.phases_.map Phase.num_requests_left = [0, 1] ∧
        p2.phases_.map Phase.num_inserts_left = [2 ^ 64 - 1, 1]) ∧
      p.Next true 90 0 0 = Except.error Error.assertion_failed :=
  ⟨_, rfl, by decide, by decide, by decide, by decide,
    ⟨_, _, rfl, by decide, by decide, by decide, rfl, by decide, by decide, by decide⟩, rfl⟩

set_option maxRecDepth 100000 in
/-- C8: in the workload whose second phase makes one insert, the first request of
the second phase can be a Read (operation draw 10, chooser draw 2 below the item
count 3) whose key is the insert key of that phase, although no Insert request has
been emitted yet and the key is not a load key. -/
theorem Next_reads_uninserted_key :
    ∃ p, exampleProducer readThenInsertWorkload = Except.ok p ∧
      p.load_keys_ = [tagKey 0 0 5, tagKey 0 0 6] ∧ p.insert_keys_ = [tagKey 2 1 1000] ∧
      ∃ p1 p2, p.Next true 0 0 0 =
          Except.ok ({ op := Operation.kRead, key := tagKey 0 0 5, scan_amount := 0,
                       value_size := 0 }, p1) ∧
        p1.current_phase_ = 1 ∧ p1.op_dist_ = (0, 99) ∧
        p1.phases_.map Phase.read_chooser =
          [some { kind := ChooserKind.uniform, item_count := 2 },
           some { kind := ChooserKind.uniform, item_count := 3 }] ∧
        p1.Next true 10 2 0 =
          Except.ok ({ op := Operation.kRead, key := tagKey 2 1 1000, scan_amount := 0,
                       value_size := 0 }, p2) ∧
        tagKey 2 1 1000 ∉ p.load_keys_ ∧ p1.next_insert_key_index_ = 0 :=
  ⟨_, rfl, by decide, by decide, _, _, rfl, by decide, by decide, by decide, rfl, by decide,
    by decide⟩

set_option maxRecDepth 100000 in
/-- C9: in the same workload, after the only request of the first phase the chooser
of the second phase has item count 3 at its first draw (the check of the live
load-key count changes nothing), whereas there are 2 load keys, none deleted, and
no Insert request has been emitted. After the insert of the second phase the item
count is 4 although only 3 keys exist, and a Read with the chooser draw 3 reads
past the end of insert_keys_. -/
theorem Next_item_count_counts_future_inserts :
    ∃ p, exampleProducer readThenInsertWorkload = Except.ok p ∧
      ∃ p1, Producer.run true p [(0, 0, 0)] =
          ([({ op := Operation.kRead, key := tagKey 0 0 5, scan_amount := 0,
               value_size := 0 }, some (tagKey 0 0 5))], p1) ∧
        p1.current_phase_ = 1 ∧
        (p1.syncLoadCount.phases_[1]?.map Phase.keyChoosers) =
          some [{ kind := ChooserKind.uniform, item_count := 3 }] ∧
        p1.load_keys_.length = 2 ∧ p1.map_size_ = 0 ∧ p1.delete_map_ = [] ∧
        p1.map_size_insert = 0 ∧ p1.delete_map_insert_ = [] ∧
        p1.next_insert_key_index_ = 0 ∧
        ∃ p2, p1.Next true 60 0 0 =
            Except.ok ({ op := Operation.kInsert, key := tagKey 2 1 1000, scan_amount := 0,
                         value_size := 8 }, p2) ∧
          (p2.syncLoadCount.phases_[1]?.map Phase.keyChoosers) =
            some [{ kind := ChooserKind.uniform, item_count := 4 }] ∧
          p2.load_keys_.length + p2.insert_keys_.length = 3 ∧ p2.op_dist_ = (0, 49) ∧
          p2.Next true 10 3 0 = Except.error Error.out_of_bounds :=
  ⟨_, rfl, _, rfl, by decide, by decide, by decide, by decide, by decide, by decide,
    by decide, by decide, _, rfl, by decide, by decide, by decide, rfl⟩

/-! ## Record size, distribution types and theta -/

/-- C18: for a configuration whose file gives record_size_bytes = 16 and that is
loaded with set_record_size_bytes = 32, GetRecordSizeBytes returns 16, the value of
the file, and not the positive argument 32. -/
theorem GetRecordSizeBytes_prefers_file :
    bothRecordSizes.record_size_bytes = some 16 ∧
    bothRecordSizes.set_record_size_bytes = 32 ∧
    bothRecordSizes.GetRecordSizeBytes = Except.ok 16 :=
  ⟨rfl, rfl, rfl⟩

/-- C19: GetRecordSizeBytes throws invalid_argument exactly when no record size is
available (no record_size_bytes key and set_record_size_bytes = 0) or the selected
record size (the one of the file if present, else the argument) is below 9; every
value it returns is the selected record size and is at least 9; and it returns when
neither condition holds and the value of the file fits size_t. -/
theorem GetRecordSizeBytes_throws_iff (config : WorkloadConfig) :
    ((∃ msg, config.GetRecordSizeBytes = Except.error (Error.invalid_argument msg)) ↔
      ((config.record_size_bytes = none ∧ config.set_record_size_bytes = 0) ∨
       (∃ n, config.record_size_bytes = some n ∧ n < 9) ∨
       (config.record_size_bytes = none ∧ config.set_record_size_bytes ≠ 0 ∧
         config.set_record_size_bytes < 9))) ∧
    (∀ v, config.GetRecordSizeBytes = Except.ok v →
      9 ≤ v ∧ (config.record_size_bytes = some v ∨
        (config.record_size_bytes = none ∧ config.set_record_size_bytes = v))) ∧
    (∀ n, config.record_size_bytes = some n → 9 ≤ n → n < U64 →
      config.GetRecordSizeBytes = Except.ok n) ∧
    (config.record_size_bytes = none → 9 ≤ config.set_record_size_bytes →
      config.GetRecordSizeBytes = Except.ok config.set_record_size_bytes) := by
  unfold WorkloadConfig.GetRecordSizeBytes
  cases hfile : config.record_size_bytes with
  | some n =>
    by_cases hn : n < U64
    · by_cases h9 : n < 9
      · simp [asSizeT, hn, h9, bind, Except.bind, pure, Except.pure, throw, throwThe,
          MonadExceptOf.throw]
      · simp [asSizeT, hn, h9, bind, Except.bind, pure, Except.pure, throw, throwThe,
          MonadExceptOf.throw]
        omega
    · have h9 : ¬ n < 9 := by unfold U64 at hn; omega
      simp [asSizeT, hn, h9, bind, Except.bind, pure, Except.pure, throw, throwThe,
        MonadExceptOf.throw]
      omega
  | none =>
    by_cases h0 : config.set_record_size_bytes = 0
    · simp [h0, bind, Except.bind, pure, Except.pure, throw, throwThe, MonadExceptOf.throw]
    · by_cases h9 : config.set_record_size_bytes < 9
      · simp [h0, h9, bind, Except.bind, pure, Except.pure, throw, throwThe,
          MonadExceptOf.throw]
      · simp [h0, h9, bind, Except.bind, pure, Except.pure, throw, throwThe,
          MonadExceptOf.throw]
        omega

/-- C20: CreateChooser returns a chooser only for the distribution types uniform,
zipfian, zipfian_clustered and latest and throws invalid_argument for every other
type name, among them hotspot, linspace and custom; CreateGenerator returns a
generator only for uniform, hotspot and linspace and throws invalid_argument for
every other type name, among them zipfian, zipfian_clustered, latest and custom. -/
theorem distribution_types_accepted :
    (∀ d name n c, CreateChooser d name n = Except.ok c → d.dist_type ∈ chooserTypes) ∧
    (∀ d name n, d.dist_type ∉ chooserTypes →
      CreateChooser d name n = Except.error (Error.invalid_argument
        ("Unsupported " ++ name ++ " distribution: " ++ d.dist_type))) ∧
    (∀ d name n, d.dist_type ∈ ["hotspot", "linspace", "custom"] →
      ∃ msg, CreateChooser d name n = Except.error (Error.invalid_argument msg)) ∧
    (∀ d, CreateGenerator d = Except.ok () → d.dist_type ∈ generatorTypes) ∧
    (∀ d, d.dist_type ∉ generatorTypes →
      CreateGenerator d = Except.error (Error.invalid_argument
        ("Unsupported load/insert distribution: " ++ d.dist_type))) ∧
    (∀ d, d.dist_type ∈ ["zipfian", "zipfian_clustered", "latest", "custom"] →
      ∃ msg, CreateGenerator d = Except.error (Error.invalid_argument msg)) := by
  have hc : ∀ d name n, d.dist_type ∉ chooserTypes →
      CreateChooser d name n = Except.error (Error.invalid_argument
        ("Unsupported " ++ name ++ " distribution: " ++ d.dist_type)) := by
    intro d name n h
    simp only [chooserTypes, List.mem_cons, List.mem_singleton, List.not_mem_nil, or_false,
      not_or] at h
    obtain ⟨h1, h2, h3, h4⟩ := h
    unfold CreateChooser
    simp only [h1, h2, h3, h4, or_self, if_false]
    rfl
  have hg : ∀ d, d.dist_type ∉ generatorTypes →
      CreateGenerator d = Except.error (Error.invalid_argument
        ("Unsupported load/insert distribution: " ++ d.dist_type)) := by
    intro d h
    simp only [generatorTypes, List.mem_cons, List.mem_singleton, List.not_mem_nil, or_false,
      not_or] at h
    obtain ⟨h1, h2, h3⟩ := h
    unfold CreateGenerator
    simp only [h1, h2, h3, if_false]
    rfl
  refine ⟨?_, hc, ?_, ?_, hg, ?_⟩
  · intro d name n c h
    by_contra hn
    rw [hc d name n hn] at h
    cases h
  · intro d name n h
    refine ⟨_, hc d name n ?_⟩
    intro hm
    simp only [List.mem_cons, List.mem_singleton, List.not_mem_nil, or_false] at h
    simp only [chooserTypes, List.mem_cons, List.mem_singleton, List.not_mem_nil,
      or_false] at hm
    rcases h with h | h | h <;> rw [h] at hm <;> revert hm <;> decide
  · intro d h
    by_contra hn
    rw [hg d hn] at h
    cases h
  · intro d h
    refine ⟨_, hg d ?_⟩
    intro hm
    simp only [List.mem_cons, List.mem_singleton, List.not_mem_nil, or_false] at h
    simp only [generatorTypes, List.mem_cons, List.mem_singleton, List.not_mem_nil,
      or_false] at hm
    rcases h with h | h | h | h <;> rw [h] at hm <;> revert hm <;> decide

theorem Double.leZero_iff (x : Double) : x.leZero = true ↔ x.value ≤ 0 := by
  have h2 : (0 : ℚ) < (2 : ℚ) ^ x.exp := zpow_pos (by norm_num) _
  unfold Double.leZero Double.value
  cases hneg : x.neg with
  | true =>
    simp only [Bool.true_or, if_true, true_iff]
    have hm : (0 : ℚ) ≤ (x.mant : ℚ) := Nat.cast_nonneg _
    have : (0 : ℚ) ≤ (x.mant : ℚ) * (2 : ℚ) ^ x.exp := mul_nonneg hm h2.le
    linarith
  | false =>
    simp only [Bool.false_or, beq_iff_eq, Bool.false_eq_true, if_false, one_mul]
    constructor
    · intro h
      rw [h]
      simp
    · intro h
      by_contra hne
      have hm : (0 : ℚ) < (x.mant : ℚ) := Nat.cast_pos.mpr (Nat.pos_of_ne_zero hne)
      have : (0 : ℚ) < (x.mant : ℚ) * (2 : ℚ) ^ x.exp := mul_pos hm h2
      linarith

theorem Double.geOne_iff (x : Double) : x.geOne = true ↔ 1 ≤ x.value := by
  have h2 : (0 : ℚ) < (2 : ℚ) ^ x.exp := zpow_pos (by norm_num) _
  unfold Double.geOne Double.value
  cases hneg : x.neg with
  | true =>
    simp only [Bool.not_true, Bool.false_and, Bool.false_eq_true, if_true, false_iff, not_le]
    have hm : (0 : ℚ) ≤ (x.mant : ℚ) := Nat.cast_nonneg _
    have : (0 : ℚ) ≤ (x.mant : ℚ) * (2 : ℚ) ^ x.exp := mul_nonneg hm h2.le
    linarith
  | false =>
    simp only [Bool.not_false, Bool.true_and, decide_eq_true_eq, Bool.false_eq_true,
      if_false, one_mul]
    rcases le_total 0 x.exp with he | he
    · have h1 : (-x.exp).toNat = 0 := by omega
      have h3 : (2 : ℚ) ^ x.exp = ((2 ^ x.exp.toNat : Nat) : ℚ) := by
        conv_lhs => rw [← Int.toNat_of_nonneg he]
        rw [zpow_natCast]
        push_cast
        rfl
      rw [h1, h3, pow_zero, ← Nat.cast_mul]
      constructor
      · intro h
        exact_mod_cast h
      · intro h
        exact_mod_cast h
    · have h1 : x.exp.toNat = 0 := by omega
      have h3 : (2 : ℚ) ^ x.exp = (((2 ^ (-x.exp).toNat : Nat) : ℚ))⁻¹ := by
        have : x.exp = -((-x.exp).toNat : ℤ) := by omega
        conv_lhs => rw [this]
        rw [zpow_neg, zpow_natCast]
        push_cast
        rfl
      have hpos : (0 : ℚ) < ((2 ^ (-x.exp).toNat : Nat) : ℚ) := by
        exact_mod_cast Nat.pow_pos (n := (-x.exp).toNat) (by norm_num : 0 < 2)
      rw [h1, h3, pow_zero, mul_one, ← div_eq_mul_inv, le_div_iff₀ hpos, one_mul,
        Nat.cast_le]

theorem CreateChooser_of_theta (d : DistributionConfig) (name : String) (n : Nat)
    (t : Double) (htype : d.dist_type ∈ ["zipfian", "zipfian_clustered", "latest"])
    (htheta : d.theta = some t) :
    ((t.leZero || t.geOne) = true →
      ∃ msg, CreateChooser d name n = Except.error (Error.invalid_argument msg)) ∧
    ((t.leZero || t.geOne) = false → (d.dist_type = "latest" ∨ d.salt.getD 0 < U64) →
      ∃ c, CreateChooser d name n = Except.ok c) ∧
    ((t.leZero || t.geOne) = false → d.dist_type ≠ "latest" → U64 ≤ d.salt.getD 0 →
      CreateChooser d name n = Except.error Error.bad_conversion) := by
  simp only [List.mem_cons, List.mem_singleton, List.not_mem_nil, or_false] at htype
  unfold CreateChooser
  rcases htype with h | h | h
  · refine ⟨?_, ?_, ?_⟩
    · intro hc
      simp [h, htheta, required, hc, bind, Except.bind, pure, Except.pure, throw, throwThe,
        MonadExceptOf.throw]
    · intro hc hs
      rcases hs with hs | hs
      · rw [h] at hs
        exact absurd hs (by decide)
      · cases hsalt : d.salt with
        | none =>
          simp [h, htheta, required, hc, hsalt, bind, Except.bind, pure, Except.pure, throw,
            throwThe, MonadExceptOf.throw]
        | some v =>
          rw [hsalt] at hs
          have hv : v < U64 := hs
          simp [h, htheta, required, hc, hsalt, asU64, hv, bind, Except.bind, pure,
            Except.pure, throw, throwThe, MonadExceptOf.throw]
    · intro hc _ hs
      cases hsalt : d.salt with
      | none =>
        rw [hsalt] at hs
        exact absurd hs (by decide)
      | some v =>
        rw [hsalt] at hs
        have hv : ¬ v < U64 := Nat.not_lt.mpr hs
        simp [h, htheta, required, hc, hsalt, asU64, hv, bind, Except.bind, pure,
          Except.pure, throw, throwThe, MonadExceptOf.throw]
  · refine ⟨?_, ?_, ?_⟩
    · intro hc
      simp [h, htheta, required, hc, bind, Except.bind, pure, Except.pure, throw, throwThe,
        MonadExceptOf.throw]
    · intro hc hs
      rcases hs with hs | hs
      · rw [h] at hs
        exact absurd hs (by decide)
      · cases hsalt : d.salt with
        | none =>
          simp [h, htheta, required, hc, hsalt, bind, Except.bind, pure, Except.pure, throw,
            throwThe, MonadExceptOf.throw]
        | some v =>
          rw [hsalt] at hs
          have hv : v < U64 := hs
          simp [h, htheta, required, hc, hsalt, asU64, hv, bind, Except.bind, pure,
            Except.pure, throw, throwThe, MonadExceptOf.throw]
    · intro hc _ hs
      cases hsalt : d.salt with
      | none =>
        rw [hsalt] at hs
        exact absurd hs (by decide)
      | some v =>
        rw [hsalt] at hs
        have hv : ¬ v < U64 := Nat.not_lt.mpr hs
        simp [h, htheta, required, hc, hsalt, asU64, hv, bind, Except.bind, pure,
          Except.pure, throw, throwThe, MonadExceptOf.throw]
  · refine ⟨?_, ?_, ?_⟩
    · intro hc
      simp [h, htheta, required, hc, bind, Except.bind, pure, Except.pure, throw, throwThe,
        MonadExceptOf.throw]
    · intro hc _
      simp [h, htheta, required, hc, bind, Except.bind, pure, Except.pure, throw, throwThe,
        MonadExceptOf.throw]
    · intro _ hl
      exact absurd h hl

/-- C17: for the distribution types zipfian, zipfian_clustered and latest and a
finite theta, CreateChooser throws invalid_argument if and only if theta <= 0 or
theta >= 1. Otherwise it returns a chooser, provided that for the two Zipfian types
the optional salt (0 when absent) converts to a 64-bit unsigned integer; a salt that
does not convert makes the conversion throw after theta has passed its check, which is
not an invalid_argument. The doubles nearest to 0.0001 and to 0.9999 pass the check
for each of the three types: no invalid_argument is thrown for them, and a chooser is
returned under the same proviso on the salt. -/
theorem CreateChooser_theta (d : DistributionConfig) (name : String) (n : Nat) (t : Double)
    (htype : d.dist_type ∈ ["zipfian", "zipfian_clustered", "latest"])
    (htheta : d.theta = some t) :
    ((∃ msg, CreateChooser d name n = Except.error (Error.invalid_argument msg)) ↔
      (t.value ≤ 0 ∨ 1 ≤ t.value)) ∧
    (¬ (t.value ≤ 0 ∨ 1 ≤ t.value) → (d.dist_type = "latest" ∨ d.salt.getD 0 < U64) →
      ∃ c, CreateChooser d name n = Except.ok c) ∧
    (¬ (t.value ≤ 0 ∨ 1 ≤ t.value) → d.dist_type ≠ "latest" → U64 ≤ d.salt.getD 0 →
      CreateChooser d name n = Except.error Error.bad_conversion) ∧
    (∀ msg, CreateChooser { d with theta := some (parseDecimal 1 10000) } name n
      ≠ Except.error (Error.invalid_argument msg)) ∧
    (∀ msg, CreateChooser { d with theta := some (parseDecimal 9999 10000) } name n
      ≠ Except.error (Error.invalid_argument msg)) ∧
    ((d.dist_type = "latest" ∨ d.salt.getD 0 < U64) →
      (∃ c, CreateChooser { d with theta := some (parseDecimal 1 10000) } name n
        = Except.ok c) ∧
      (∃ c, CreateChooser { d with theta := some (parseDecimal 9999 10000) } name n
        = Except.ok c)) := by
  have hb : ∀ x : Double, (x.leZero || x.geOne) = true ↔ (x.value ≤ 0 ∨ 1 ≤ x.value) := by
    intro x
    rw [Bool.or_eq_true, Double.leZero_iff, Double.geOne_iff]
  have hnot : ∀ (e : DistributionConfig) (x : Double),
      e.dist_type ∈ ["zipfian", "zipfian_clustered", "latest"] → e.theta = some x →
      (x.leZero || x.geOne) = false →
      ∀ msg, CreateChooser e name n ≠ Except.error (Error.invalid_argument msg) := by
    intro e x hetype hetheta hx msg hmsg
    obtain ⟨_, h2, h3⟩ := CreateChooser_of_theta e name n x hetype hetheta
    by_cases hs : e.dist_type = "latest" ∨ e.salt.getD 0 < U64
    · obtain ⟨c, hok⟩ := h2 hx hs
      rw [hok] at hmsg
      cases hmsg
    · rw [not_or, Nat.not_lt] at hs
      rw [h3 hx hs.1 hs.2] at hmsg
      cases hmsg
  obtain ⟨h1, h2, h3⟩ := CreateChooser_of_theta d name n t htype htheta
  refine ⟨⟨?_, fun h => h1 ((hb t).mpr h)⟩, ?_, ?_, ?_, ?_, ?_⟩
  · rintro ⟨msg, hmsg⟩
    rw [← hb t]
    by_contra hc
    exact hnot d t htype htheta (by simpa using hc) msg hmsg
  · intro hn
    rw [← hb t] at hn
    exact h2 (by simpa using hn)
  · intro hn
    rw [← hb t] at hn
    exact h3 (by simpa using hn)
  · exact hnot { d with theta := some (parseDecimal 1 10000) } (parseDecimal 1 10000)
      htype rfl (by decide)
  · exact hnot { d with theta := some (parseDecimal 9999 10000) } (parseDecimal 9999 10000)
      htype rfl (by decide)
  · intro hs
    exact ⟨(CreateChooser_of_theta { d with theta := some (parseDecimal 1 10000) } name n
        (parseDecimal 1 10000) htype rfl).2.1 (by decide) hs,
      (CreateChooser_of_theta { d with theta := some (parseDecimal 9999 10000) } name n
        (parseDecimal 9999 10000) htype rfl).2.1 (by decide) hs⟩

theorem CreateChooser_theta_witness :
    zipfianOneHalf.dist_type ∈ ["zipfian", "zipfian_clustered", "latest"] ∧
    zipfianOneHalf.theta = some (parseDecimal 1 2) ∧
    (zipfianOneHalf.dist_type = "latest" ∨ zipfianOneHalf.salt.getD 0 < U64) ∧
    CreateChooser zipfianOneHalf "read" 1
      = Except.ok { kind := ChooserKind.scattered_zipfian, item_count := 1 } ∧
    CreateChooser { zipfianOneHalf with salt := some U64 } "read" 1
      = Except.error Error.bad_conversion ∧
    (∃ c, CreateChooser { zipfianOneHalf with theta := some (parseDecimal 1 10000) } "read" 1
      = Except.ok c) ∧
    (∃ c, CreateChooser { zipfianOneHalf with theta := some (parseDecimal 9999 10000) }
      "read" 1 = Except.ok c) :=
  ⟨by decide, rfl, Or.inr (by decide), rfl, rfl,
    (CreateChooser_theta zipfianOneHalf "read" 1 (parseDecimal 1 2) (by decide) rfl).2.2.2.2.2
      (Or.inr (by decide))⟩

/-! ## Load keys and custom key lists -/

theorem maxElement_gt_iff (bound : Nat) (rest : List Nat) :
    ∀ first : Nat, bound < maxElement first rest ↔ ∃ k, k ∈ first :: rest ∧ bound < k := by
  unfold maxElement
  induction rest with
  | nil =>
    intro first
    simp
  | cons a rest ih =>
    intro first
    rw [List.foldl_cons, ih (max first a)]
    constructor
    · rintro ⟨k, hk, hlt⟩
      rcases List.mem_cons.mp hk with hk | hk
      · subst hk
        rcases Nat.le_total first a with h | h
        · rw [Nat.max_eq_right h] at hlt
          exact ⟨a, by simp, hlt⟩
        · rw [Nat.max_eq_left h] at hlt
          exact ⟨first, by simp, hlt⟩
      · exact ⟨k, by simp [hk], hlt⟩
    · rintro ⟨k, hk, hlt⟩
      rcases List.mem_cons.mp hk with hk | hk
      · subst hk
        refine ⟨max k a, by simp, ?_⟩
        omega
      · rcases List.mem_cons.mp hk with hk | hk
        · subst hk
          refine ⟨max first k, by simp, ?_⟩
          omega
        · exact ⟨k, by simp [hk], hlt⟩

/-- C16: for every non-empty key list, SetCustomLoadDataset and AddCustomInsertList
throw invalid_argument if and only if some key exceeds 2^48 - 1, they succeed
otherwise, and whenever they do not succeed the workload (load_keys_ and the custom
insert map included) is unchanged. -/
theorem custom_keys_checked (debug : Bool) (w : PhasedWorkload) (name : String)
    (keys : List Nat) (hne : keys ≠ []) :
    ((∃ msg, (w.SetCustomLoadDataset debug keys).1
        = Except.error (Error.invalid_argument msg)) ↔ ∃ k, k ∈ keys ∧ 2 ^ 48 - 1 < k) ∧
    ((¬ ∃ k, k ∈ keys ∧ 2 ^ 48 - 1 < k) →
      (w.SetCustomLoadDataset debug keys).1 = Except.ok ()) ∧
    ((w.SetCustomLoadDataset debug keys).1 ≠ Except.ok () →
      (w.SetCustomLoadDataset debug keys).2 = w) ∧
    ((∃ msg, (w.AddCustomInsertList debug name keys).1
        = Except.error (Error.invalid_argument msg)) ↔ ∃ k, k ∈ keys ∧ 2 ^ 48 - 1 < k) ∧
    ((¬ ∃ k, k ∈ keys ∧ 2 ^ 48 - 1 < k) →
      (w.AddCustomInsertList debug name keys).1 = Except.ok ()) ∧
    ((w.AddCustomInsertList debug name keys).1 ≠ Except.ok () →
      (w.AddCustomInsertList debug name keys).2 = w) := by
  cases keys with
  | nil => exact absurd rfl hne
  | cons first rest =>
    have hmax := maxElement_gt_iff (2 ^ 48 - 1) rest first
    unfold PhasedWorkload.SetCustomLoadDataset PhasedWorkload.AddCustomInsertList
    simp only [kMaxKey, gt_iff_lt]
    by_cases h : 2 ^ 48 - 1 < maxElement first rest
    · have h2 := hmax.mp h
      simp only [h, if_true]
      refine ⟨⟨fun _ => h2, fun _ => ⟨_, rfl⟩⟩, fun hn => absurd h2 hn, fun _ => trivial,
        ⟨fun _ => h2, fun _ => ⟨_, rfl⟩⟩, fun hn => absurd h2 hn, fun _ => trivial⟩
    · have h2 : ¬ ∃ k, k ∈ first :: rest ∧ 2 ^ 48 - 1 < k := fun hk => h (hmax.mpr hk)
      simp only [h, if_false]
      refine ⟨⟨?_, fun hk => absurd hk h2⟩, fun _ => rfl, fun hn => absurd rfl hn,
        ⟨?_, fun hk => absurd hk h2⟩, fun _ => rfl, fun hn => absurd rfl hn⟩
      · rintro ⟨msg, hmsg⟩
        cases hmsg
      · rintro ⟨msg, hmsg⟩
        cases hmsg

theorem custom_keys_checked_witness :
    ([5, 2 ^ 48 - 1] : List Nat) ≠ [] ∧ ([5, 2 ^ 48] : List Nat) ≠ [] ∧
    (exampleWorkload.SetCustomLoadDataset true [5, 2 ^ 48 - 1]).1 = Except.ok () ∧
    (exampleWorkload.AddCustomInsertList true "extra" [5, 2 ^ 48 - 1]).1 = Except.ok () ∧
    (∃ msg, (exampleWorkload.SetCustomLoadDataset true [5, 2 ^ 48]).1
      = Except.error (Error.invalid_argument msg)) ∧
    (exampleWorkload.SetCustomLoadDataset true [5, 2 ^ 48]).2 = exampleWorkload ∧
    (∃ msg, (exampleWorkload.AddCustomInsertList true "extra" [5, 2 ^ 48]).1
      = Except.error (Error.invalid_argument msg)) ∧
    (exampleWorkload.AddCustomInsertList true "extra" [5, 2 ^ 48]).2 = exampleWorkload :=
  have ha := custom_keys_checked true exampleWorkload "extra" [5, 2 ^ 48 - 1] (by decide)
  have hb := custom_keys_checked true exampleWorkload "extra" [5, 2 ^ 48] (by decide)
  have hbig : ∃ k, k ∈ ([5, 2 ^ 48] : List Nat) ∧ 2 ^ 48 - 1 < k := ⟨2 ^ 48, by simp, by decide⟩
  have hsmall : ¬ ∃ k, k ∈ ([5, 2 ^ 48 - 1] : List Nat) ∧ 2 ^ 48 - 1 < k := by
    rintro ⟨k, hk, hlt⟩
    simp only [List.mem_cons, List.mem_singleton, List.not_mem_nil, or_false] at hk
    rcases hk with hk | hk <;> subst hk <;> revert hlt <;> decide
  have h1 := hb.1.mpr hbig
  have h4 := hb.2.2.2.1.mpr hbig
  ⟨by decide, by decide, ha.2.1 hsmall, ha.2.2.2.2.1 hsmall, h1,
    hb.2.2.1 (by obtain ⟨msg, hmsg⟩ := h1; rw [hmsg]; intro hc; cases hc), h4,
    hb.2.2.2.2.2 (by obtain ⟨msg, hmsg⟩ := h4; rw [hmsg]; intro hc; cases hc)⟩

theorem tagKey_zero_eq (k : Nat) (hk : k ≤ 2 ^ 48 - 1) : tagKey 0 0 k = k <<< 16 := by
  rw [tagKey_eq 0 0 k hk, Nat.shiftLeft_eq]
  norm_num

theorem ApplyPhaseAndProducerIDs_zero (keys : List Nat) (h : ∀ k, k ∈ keys → k ≤ 2 ^ 48 - 1) :
    ApplyPhaseAndProducerIDs keys 0 0 = keys.map (fun k => k <<< 16) := by
  unfold ApplyPhaseAndProducerIDs
  apply List.map_congr_left
  intro k hk
  exact tagKey_zero_eq k (h k hk)

theorem sortKeys_sorted (keys : List Nat) : (sortKeys keys).Sorted (fun a b => a ≤ b) :=
  List.sorted_insertionSort _ keys

theorem sortKeys_perm (keys : List Nat) : (sortKeys keys).Perm keys :=
  List.perm_insertionSort _ keys

/-- C15: SetCustomLoadDataset on a non-empty dataset whose keys are all at most
2^48 - 1 succeeds and leaves load_keys_ in ascending order and a permutation of the
values k << 16 of the dataset; and the generating constructor, for a configuration
without custom dataset whose record count and load generator are valid and whose
generated keys are at most 2^48 - 1, returns a workload whose load_keys_ is in
ascending order and a permutation of the values k << 16 of the generated keys. -/
theorem load_keys_sorted_tagged :
    (∀ (debug : Bool) (w : PhasedWorkload) (dataset : List Nat), dataset ≠ [] →
      (∀ k, k ∈ dataset → k ≤ 2 ^ 48 - 1) →
      (w.SetCustomLoadDataset debug dataset).1 = Except.ok () ∧
      ∃ keys : List Nat, (w.SetCustomLoadDataset debug dataset).2.load_keys_ = some keys ∧
        keys.Sorted (fun a b => a ≤ b) ∧ keys.Perm (dataset.map (fun k => k <<< 16))) ∧
    (∀ (config : WorkloadConfig) (seed : Nat) (loadgen : Nat → Nat) (n : Nat),
      config.UsingCustomDataset = Except.ok false → config.GetNumLoadRecords = Except.ok n →
      config.GetLoadGenerator = Except.ok () →
      (∀ i, i < n → loadgen i ≤ 2 ^ 48 - 1) →
      ∃ w, PhasedWorkload.create config seed loadgen = Except.ok w ∧
        ∃ keys : List Nat, w.load_keys_ = some keys ∧ keys.Sorted (fun a b => a ≤ b) ∧
          keys.Perm ((List.range n).map (fun i => loadgen i <<< 16))) := by
  constructor
  · intro debug w dataset hne hall
    cases dataset with
    | nil => exact absurd rfl hne
    | cons first rest =>
      have hmax := maxElement_gt_iff (2 ^ 48 - 1) rest first
      have hlt : ¬ 2 ^ 48 - 1 < maxElement first rest := by
        intro hc
        obtain ⟨k, hk, hgt⟩ := hmax.mp hc
        have := hall k hk
        omega
      unfold PhasedWorkload.SetCustomLoadDataset
      simp only [kMaxKey, gt_iff_lt, hlt, if_false]
      refine ⟨rfl, _, rfl, sortKeys_sorted _, ?_⟩
      rw [← ApplyPhaseAndProducerIDs_zero _ hall]
      exact sortKeys_perm _
  · intro config seed loadgen n hcustom hn hgen hsmall
    have hall : ∀ k, k ∈ (List.range n).map loadgen → k ≤ 2 ^ 48 - 1 := by
      intro k hk
      obtain ⟨i, hi, rfl⟩ := List.mem_map.mp hk
      exact hsmall i (List.mem_range.mp hi)
    have hmap := ApplyPhaseAndProducerIDs_zero _ hall
    rw [List.map_map] at hmap
    refine ⟨{ prng_seed_ := seed, config_ := config,
              load_keys_ := some (sortKeys
                (ApplyPhaseAndProducerIDs ((List.range n).map loadgen) 0 0)) }, ?_,
      _, rfl, sortKeys_sorted _, ?_⟩
    · unfold PhasedWorkload.create
      simp [hcustom, hn, hgen, bind, Except.bind, pure, Except.pure]
    · rw [show (List.range n).map (fun i => loadgen i <<< 16)
        = ((List.range n).map ((fun k => k <<< 16) ∘ loadgen)) from rfl, ← hmap]
      exact sortKeys_perm _

theorem load_keys_sorted_tagged_witness :
    ([7, 5, 6] : List Nat) ≠ [] ∧ (∀ k, k ∈ ([7, 5, 6] : List Nat) → k ≤ 2 ^ 48 - 1) ∧
    (exampleWorkload.SetCustomLoadDataset true [7, 5, 6]).2.load_keys_
      = some [5 <<< 16, 6 <<< 16, 7 <<< 16] ∧
    ((exampleWorkload.SetCustomLoadDataset true [7, 5, 6]).1 = Except.ok () ∧
      ∃ keys : List Nat,
        (exampleWorkload.SetCustomLoadDataset true [7, 5, 6]).2.load_keys_ = some keys ∧
        keys.Sorted (fun a b => a ≤ b) ∧
        keys.Perm (([7, 5, 6] : List Nat).map (fun k => k <<< 16))) ∧
    (∃ w, PhasedWorkload.create generatedWorkload 42 (fun i => 9 - i) = Except.ok w ∧
      w.load_keys_ = some [7 <<< 16, 8 <<< 16, 9 <<< 16]) ∧
    ∃ w, PhasedWorkload.create generatedWorkload 42 (fun i => 9 - i) = Except.ok w ∧
      ∃ keys : List Nat, w.load_keys_ = some keys ∧ keys.Sorted (fun a b => a ≤ b) ∧
        keys.Perm ((List.range 3).map (fun i => (9 - i) <<< 16)) :=
  ⟨by decide, by decide, by decide,
    load_keys_sorted_tagged.1 true exampleWorkload [7, 5, 6] (by decide) (by decide),
    ⟨_, rfl, by decide⟩,
    load_keys_sorted_tagged.2 generatedWorkload 42 (fun i => 9 - i) 3 rfl rfl rfl
      (fun i _ => by show 9 - i ≤ 2 ^ 48 - 1; omega)⟩

/-! ## Tags of the keys of a request -/

theorem tagKey_bits (phase_id producer_id k : Nat) :
    tagKey phase_id producer_id k % 256 = producer_id % 256 ∧
    tagKey phase_id producer_id k / 256 % 256 = phase_id % 256 ∧
    tagKey phase_id producer_id k % 65536 = (phase_id % 256) * 256 + producer_id % 256 := by
  have h : tagKey phase_id producer_id k = tagKey phase_id producer_id (k % 2 ^ 48) := by
    unfold tagKey U64
    have : (k <<< 16) % 2 ^ 64 = ((k % 2 ^ 48) <<< 16) % 2 ^ 64 := by
      simp only [Nat.shiftLeft_eq]
      omega
    rw [this]
  have hk : k % 2 ^ 48 ≤ 2 ^ 48 - 1 := by omega
  rw [h, tagKey_eq phase_id producer_id _ hk]
  omega

theorem testBit_ff00 (i : Nat) : Nat.testBit (0xFF <<< 8) i = decide (8 ≤ i ∧ i < 16) := by
  by_cases hi : i < 16
  · interval_cases i <;> decide
  · have : Nat.testBit (0xFF <<< 8) i = false := by
      apply Nat.testBit_lt_two_pow
      calc 0xFF <<< 8 < 2 ^ 16 := by decide
        _ ≤ 2 ^ i := Nat.pow_le_pow_right (by decide) (by omega)
    rw [this]
    simp [hi]

theorem or_ff00_bits (K : Nat) :
    (K ||| (0xFF <<< 8)) % 256 = K % 256 ∧ (K ||| (0xFF <<< 8)) / 256 % 256 = 255 ∧
    (K ||| (0xFF <<< 8)) / 65536 = K / 65536 := by
  refine ⟨?_, ?_, ?_⟩
  · apply Nat.eq_of_testBit_eq
    intro i
    rw [show (256 : Nat) = 2 ^ 8 from rfl, Nat.testBit_mod_two_pow, Nat.testBit_mod_two_pow,
      Nat.testBit_or, testBit_ff00]
    by_cases hi : i < 8
    · have : ¬ (8 ≤ i ∧ i < 16) := by omega
      simp [hi, this]
    · simp [hi]
  · apply Nat.eq_of_testBit_eq
    intro i
    rw [show (256 : Nat) = 2 ^ 8 from rfl, Nat.testBit_mod_two_pow, ← Nat.shiftRight_eq_div_pow,
      Nat.testBit_shiftRight, Nat.testBit_or, testBit_ff00]
    by_cases hi : i < 8
    · have h1 : 8 ≤ 8 + i ∧ 8 + i < 16 := by omega
      have h2 : Nat.testBit 255 i = true := by interval_cases i <;> decide
      simp [hi, h1, h2]
    · have h2 : Nat.testBit 255 i = false := by
        apply Nat.testBit_lt_two_pow
        calc 255 < 2 ^ 8 := by decide
          _ ≤ 2 ^ i := Nat.pow_le_pow_right (by decide) (by omega)
      simp [hi, h2]
  · apply Nat.eq_of_testBit_eq
    intro i
    rw [show (65536 : Nat) = 2 ^ 16 from rfl, ← Nat.shiftRight_eq_div_pow,
      ← Nat.shiftRight_eq_div_pow, Nat.testBit_shiftRight, Nat.testBit_shiftRight,
      Nat.testBit_or, testBit_ff00]
    have : ¬ (8 ≤ 16 + i ∧ 16 + i < 16) := by omega
    simp [this]

theorem mem_sortKeys {keys : List Nat} {K : Nat} : K ∈ sortKeys keys ↔ K ∈ keys :=
  (sortKeys_perm keys).mem_iff

theorem PhasedWorkload.reachable_load_keys {w : PhasedWorkload} (h : w.Reachable) :
    ∀ keys, w.load_keys_ = some keys → ∀ K, K ∈ keys → ∃ raw, K = tagKey 0 0 raw := by
  induction h with
  | @create config seed loadgen w hcreate =>
    intro keys hkeys K hK
    unfold PhasedWorkload.create at hcreate
    obtain ⟨custom, -, hcreate⟩ := bind_eq_ok hcreate
    split at hcreate
    · cases hcreate
      cases hkeys
    · obtain ⟨n, -, hcreate⟩ := bind_eq_ok hcreate
      obtain ⟨u, -, hcreate⟩ := bind_eq_ok hcreate
      cases hcreate
      cases hkeys
      rw [mem_sortKeys] at hK
      obtain ⟨raw, -, rfl⟩ := List.mem_map.mp hK
      exact ⟨raw, rfl⟩
  | @setLoad w debug dataset _ ih =>
    intro keys hkeys K hK
    unfold PhasedWorkload.SetCustomLoadDataset at hkeys
    split at hkeys
    · exact ih keys hkeys K hK
    · split at hkeys
      · exact ih keys hkeys K hK
      · cases hkeys
        rw [mem_sortKeys] at hK
        obtain ⟨raw, -, rfl⟩ := List.mem_map.mp hK
        exact ⟨raw, rfl⟩
  | @addInserts w debug name keys0 _ ih =>
    intro keys hkeys K hK
    unfold PhasedWorkload.AddCustomInsertList at hkeys
    split at hkeys
    · exact ih keys hkeys K hK
    · split at hkeys
      · exact ih keys hkeys K hK
      · exact ih keys hkeys K hK

theorem constructProducers_spec {w : PhasedWorkload} {load_keys : List Key} {N : Nat} :
    ∀ (ids : List Nat) (producers : List Producer),
      constructProducers w load_keys N ids = Except.ok producers →
      producers.length = ids.length ∧
      ∀ (i : Nat) (p : Producer), producers[i]? = some p → ∃ id p0, ids[i]? = some id ∧
        Producer.create w.config_ load_keys w.custom_inserts_ id N = Except.ok p0 ∧
        p = { p0 with prng_seed := (w.prng_seed_ ^^^ id) % U32 } := by
  intro ids
  induction ids with
  | nil =>
    intro producers h
    cases h
    exact ⟨rfl, fun i p hp => by simp at hp⟩
  | cons id rest ih =>
    intro producers h
    unfold constructProducers at h
    obtain ⟨p0, hp0, h⟩ := bind_eq_ok h
    obtain ⟨ps, hps, h⟩ := bind_eq_ok h
    cases h
    obtain ⟨hlen, hall⟩ := ih ps hps
    refine ⟨by simp [hlen], ?_⟩
    intro i p hp
    cases i with
    | zero =>
      simp only [List.getElem?_cons_zero, Option.some.injEq] at hp
      exact ⟨id, p0, by simp, hp0, hp.symm⟩
    | succ i =>
      simp only [List.getElem?_cons_succ] at hp ⊢
      exact hall i p hp

theorem constructProducers_ok {w : PhasedWorkload} {load_keys : List Key} {N : Nat} {size : Nat}
    (hsize : w.config_.GetRecordSizeBytes = Except.ok size) :
    ∀ ids : List Nat, ∃ producers, constructProducers w load_keys N ids = Except.ok producers := by
  intro ids
  induction ids with
  | nil => exact ⟨[], rfl⟩
  | cons id rest ih =>
    obtain ⟨ps, hps⟩ := ih
    unfold constructProducers Producer.create
    rw [hsize, hps]
    exact ⟨_, rfl⟩

theorem GetProducers_spec {w : PhasedWorkload} {N : Nat} {producers : List Producer}
    (h : w.GetProducers N = Except.ok producers) :
    producers.length = N ∧
    ∀ (i : Nat) (p : Producer), producers[i]? = some p → i < N ∧
      ∃ load_keys p0, w.load_keys_ = some load_keys ∧
      Producer.create w.config_ load_keys w.custom_inserts_ i N = Except.ok p0 ∧
      p = { p0 with prng_seed := (w.prng_seed_ ^^^ i) % U32 } := by
  unfold PhasedWorkload.GetProducers at h
  obtain ⟨load_keys, hload, h⟩ := bind_eq_ok h
  have hl : w.load_keys_ = some load_keys := by
    cases hw : w.load_keys_ with
    | none => rw [hw] at hload; cases hload
    | some l => rw [hw] at hload; cases hload; rfl
  obtain ⟨hlen, hall⟩ := constructProducers_spec _ _ h
  refine ⟨by simpa using hlen, ?_⟩
  intro i p hp
  obtain ⟨id, p0, hid, hp0, hpe⟩ := hall i p hp
  have hi : i < N ∧ id = i := by
    rw [List.getElem?_eq_some_iff] at hid
    obtain ⟨hlt, hget⟩ := hid
    simp only [List.length_range] at hlt
    simp only [List.getElem_range] at hget
    exact ⟨hlt, hget.symm⟩
  obtain ⟨hlt, rfl⟩ := hi
  exact ⟨hlt, load_keys, p0, hl, hp0, hpe⟩

theorem insertStart_zero (phases : List Phase) : insertStart phases 0 = 0 := by
  simp [insertStart]

theorem insertStart_succ (phase : Phase) (rest : List Phase) (f : Nat) :
    insertStart (phase :: rest) (f + 1) = phase.num_inserts + insertStart rest f := by
  simp [insertStart]

theorem generateInserts_spec {config : WorkloadConfig}
    {custom_inserts : Option (List (String × List Key))} {id : Nat}
    {keygen : Nat → Nat → Key} :
    ∀ (phases : List Phase) (acc ks : List Key),
      generateInserts config custom_inserts id keygen phases acc = Except.ok ks →
      (∃ tail, ks = acc ++ tail ∧ tail.length = insertStart phases phases.length) ∧
      ∀ (f : Nat) (phase : Phase) (j : Nat) (K : Nat), phases[f]? = some phase →
        acc.length + insertStart phases f ≤ j →
        j < acc.length + insertStart phases f + phase.num_inserts →
        ks[j]? = some K → ∃ raw, K = tagKey (phase.phase_id + 1) (id + 1) raw := by
  intro phases
  induction phases with
  | nil =>
    intro acc ks h
    cases h
    exact ⟨⟨[], by simp, by simp [insertStart]⟩, fun f phase j K hf => by simp at hf⟩
  | cons phase rest ih =>
    intro acc ks h
    unfold generateInserts at h
    split at h
    · rename_i hzero
      obtain ⟨⟨tail, hks, htail⟩, hall⟩ := ih acc ks h
      refine ⟨⟨tail, hks, ?_⟩, ?_⟩
      · rw [List.length_cons, insertStart_succ, hzero, htail, Nat.zero_add]
      · intro f ph j K hf hlo hhi hK
        cases f with
        | zero =>
          simp only [List.getElem?_cons_zero, Option.some.injEq] at hf
          subst hf
          rw [insertStart_zero] at hlo hhi
          omega
        | succ f =>
          simp only [List.getElem?_cons_succ] at hf
          rw [insertStart_succ, hzero, Nat.zero_add] at hlo hhi
          exact hall f ph j K hf hlo hhi hK
    · obtain ⟨cii, -, h⟩ := bind_eq_ok h
      have hraw : ∃ raw : List Key, raw.length = phase.num_inserts ∧
          generateInserts config custom_inserts id keygen rest
            (acc ++ ApplyPhaseAndProducerIDs raw (phase.phase_id + 1) (id + 1))
            = Except.ok ks := by
        simp only at h
        split at h
        · split at h
          · cases h
          · split at h
            · cases h
            · split at h
              · cases h
              · rename_i hok
                refine ⟨_, ?_, h⟩
                rw [List.length_take, List.length_drop]
                omega
        · obtain ⟨generator, -, h⟩ := bind_eq_ok h
          split at h
          · cases h
          · exact ⟨_, by simp, h⟩
      obtain ⟨raw, hlen, h⟩ := hraw
      obtain ⟨⟨tail, hks, htail⟩, hall⟩ := ih _ ks h
      have hseg : (ApplyPhaseAndProducerIDs raw (phase.phase_id + 1) (id + 1)).length
          = phase.num_inserts := by
        unfold ApplyPhaseAndProducerIDs
        rw [List.length_map, hlen]
      refine ⟨⟨ApplyPhaseAndProducerIDs raw (phase.phase_id + 1) (id + 1) ++ tail,
        by rw [hks, List.append_assoc], ?_⟩, ?_⟩
      · rw [List.length_append, hseg, htail, List.length_cons, insertStart_succ]
      · intro f ph j K hf hlo hhi hK
        cases f with
        | zero =>
          simp only [List.getElem?_cons_zero, Option.some.injEq] at hf
          subst hf
          rw [insertStart_zero] at hlo hhi
          rw [hks, List.append_assoc, List.getElem?_append_right (by omega),
            List.getElem?_append_left (by omega)] at hK
          have hmem : K ∈ ApplyPhaseAndProducerIDs raw (phase.phase_id + 1) (id + 1) := by
            obtain ⟨hlt, hget⟩ := List.getElem?_eq_some_iff.mp hK
            rw [← hget]
            exact List.getElem_mem _
          unfold ApplyPhaseAndProducerIDs at hmem
          obtain ⟨r, -, rfl⟩ := List.mem_map.mp hmem
          exact ⟨r, rfl⟩
        | succ f =>
          simp only [List.getElem?_cons_succ] at hf
          rw [insertStart_succ] at hlo hhi
          refine hall f ph j K hf ?_ ?_ hK
          · rw [List.length_append, hseg]; omega
          · rw [List.length_append, hseg]; omega

theorem loadPhases_spec {config : WorkloadConfig} {id N : Nat} :
    ∀ (ids : List Nat) (phases : List Phase),
      loadPhases config id N ids = Except.ok phases →
      phases.length = ids.length ∧
      ∀ (f : Nat) (phase : Phase), phases[f]? = some phase →
        ∃ phase_id, ids[f]? = some phase_id ∧ phase.phase_id = phase_id ∧
          GetPhase config.run phase_id id N = Except.ok phase := by
  intro ids
  induction ids with
  | nil =>
    intro phases h
    cases h
    exact ⟨rfl, fun f phase hf => by simp at hf⟩
  | cons phase_id rest ih =>
    intro phases h
    unfold loadPhases at h
    obtain ⟨phase, hphase, h⟩ := bind_eq_ok h
    obtain ⟨ps, hps, h⟩ := bind_eq_ok h
    cases h
    obtain ⟨hlen, hall⟩ := ih ps hps
    refine ⟨by simp [hlen], ?_⟩
    intro f ph hf
    cases f with
    | zero =>
      simp only [List.getElem?_cons_zero, Option.some.injEq] at hf
      subst hf
      obtain ⟨cfg, -, -, -, -, hid, -⟩ := GetPhase_eq_ok hphase
      exact ⟨phase_id, by simp, hid, hphase⟩
    | succ f =>
      simp only [List.getElem?_cons_succ] at hf ⊢
      exact hall f ph hf

theorem setItemCounts_spec :
    ∀ (phases : List Phase) (count : Nat),
      (setItemCounts phases count).map (fun phase => (phase.phase_id, phase.num_inserts))
        = phases.map (fun phase => (phase.phase_id, phase.num_inserts)) := by
  intro phases
  induction phases with
  | nil => intro count; rfl
  | cons phase rest ih =>
    intro count
    unfold setItemCounts
    rw [List.map_cons, List.map_cons, ih]
    rfl

theorem insertStart_congr {phases1 phases2 : List Phase}
    (h : phases1.map (fun phase => (phase.phase_id, phase.num_inserts))
      = phases2.map (fun phase => (phase.phase_id, phase.num_inserts))) (f : Nat) :
    insertStart phases1 f = insertStart phases2 f := by
  have h2 : phases1.map (fun phase => phase.num_inserts)
      = phases2.map (fun phase => phase.num_inserts) := by
    have := congrArg (List.map Prod.snd) h
    simpa [List.map_map, Function.comp_def] using this
  unfold insertStart
  rw [List.map_take, List.map_take, h2]

theorem getElem?_congr_ids {phases1 phases2 : List Phase}
    (h : phases1.map (fun phase => (phase.phase_id, phase.num_inserts))
      = phases2.map (fun phase => (phase.phase_id, phase.num_inserts)))
    {f : Nat} {phase : Phase} (hf : phases1[f]? = some phase) :
    ∃ phase2, phases2[f]? = some phase2 ∧ phase2.phase_id = phase.phase_id ∧
      phase2.num_inserts = phase.num_inserts := by
  have h1 := congrArg (fun l => l[f]?) h
  simp only [List.getElem?_map, hf, Option.map_some'] at h1
  cases h2 : phases2[f]? with
  | none => rw [h2] at h1; cases h1
  | some phase2 =>
    rw [h2] at h1
    simp only [Option.map_some', Option.some.injEq, Prod.mk.injEq] at h1
    exact ⟨phase2, rfl, h1.1.symm, h1.2.symm⟩

theorem Producer.create_fields {config : WorkloadConfig} {load_keys : List Key}
    {custom_inserts : Option (List (String × List Key))} {id num_producers : Nat}
    {p : Producer}
    (h : Producer.create config load_keys custom_inserts id num_producers = Except.ok p) :
    p.id_ = id ∧ p.num_producers_ = num_producers ∧ p.config_ = config ∧
    p.load_keys_ = load_keys ∧ p.phases_ = [] ∧ p.insert_keys_ = [] ∧
    p.custom_inserts_ = custom_inserts ∧ p.prng_seed = 0 := by
  unfold Producer.create at h
  obtain ⟨record_size, -, h⟩ := bind_eq_ok h
  cases h
  exact ⟨rfl, rfl, rfl, rfl, rfl, rfl, rfl, rfl⟩

theorem Producer.Prepare_keys {p q : Producer} {keygen : Nat → Nat → Key}
    (hphases : p.phases_ = []) (hkeys : p.insert_keys_ = [])
    (h : p.Prepare keygen = Except.ok q) :
    q.id_ = p.id_ ∧ q.load_keys_ = p.load_keys_ ∧ q.phases_.length ≤ 254 ∧
    q.insert_keys_.length = insertStart q.phases_ q.phases_.length ∧
    (∀ (f : Nat) (phase : Phase), q.phases_[f]? = some phase → phase.phase_id = f) ∧
    ∀ (f : Nat) (phase : Phase) (j : Nat) (K : Nat), q.phases_[f]? = some phase →
      insertStart q.phases_ f ≤ j → j < insertStart q.phases_ f + phase.num_inserts →
      q.insert_keys_[j]? = some K → ∃ raw, K = tagKey (f + 1) (p.id_ + 1) raw := by
  unfold Producer.Prepare at h
  obtain ⟨num_phases, hnum, h⟩ := bind_eq_ok h
  obtain ⟨phases, hload, h⟩ := bind_eq_ok h
  obtain ⟨insert_keys, hgen, h⟩ := bind_eq_ok h
  cases h
  have hn : num_phases ≤ 254 := by
    unfold WorkloadConfig.GetNumPhases kMaxNumPhases at hnum
    split at hnum
    · cases hnum
    · cases hnum
      omega
  obtain ⟨hlen, hids⟩ := loadPhases_spec _ _ hload
  rw [List.length_range] at hlen
  obtain ⟨⟨tail, hks, htail⟩, htag⟩ := generateInserts_spec _ _ _ hgen
  have hmap := setItemCounts_spec phases p.load_keys_.length
  have hlen2 : (setItemCounts phases p.load_keys_.length).length = phases.length := by
    have := congrArg List.length hmap
    simpa using this
  have hid : ∀ (f : Nat) (phase : Phase),
      (setItemCounts phases p.load_keys_.length)[f]? = some phase → phase.phase_id = f := by
    intro f phase hf
    obtain ⟨phase2, hf2, hpid, -⟩ := getElem?_congr_ids hmap hf
    obtain ⟨phase_id, hrange, hpid2, -⟩ := hids f phase2 hf2
    rw [List.getElem?_eq_some_iff] at hrange
    obtain ⟨hlt, hget⟩ := hrange
    simp only [List.getElem_range] at hget
    omega
  simp only [hphases, hkeys, List.nil_append, List.length_nil, Nat.zero_add] at hks htag ⊢
  refine ⟨trivial, trivial, by omega, ?_, hid, ?_⟩
  · rw [hks, htail, hlen2, insertStart_congr hmap]
  · intro f phase j K hf hlo hhi hK
    obtain ⟨phase2, hf2, hpid, hins⟩ := getElem?_congr_ids hmap hf
    rw [insertStart_congr hmap] at hlo hhi
    obtain ⟨raw, hraw⟩ := htag f phase2 j K hf2 hlo (by omega) hK
    have := hid f phase hf
    exact ⟨raw, by rw [hraw, hpid, this]⟩

theorem Producer.liveKey_holdsKey {p : Producer} {K : Key} (h : p.liveKey K) :
    p.holdsKey K := by
  rcases h with ⟨i, hi, -⟩ | ⟨j, hj, -⟩
  · exact Or.inl ⟨i, hi⟩
  · exact Or.inr ⟨j, hj⟩

theorem Producer.dispatch_origin {debug : Bool} {p q : Producer} {next_op : Operation}
    {draw scan_draw : Nat} {r : Request} {chosen : Option Key}
    (h : p.dispatch debug next_op draw scan_draw = Except.ok (r, chosen, q)) :
    (r.op = Operation.kInsert → ∃ j : Nat, p.insert_keys_[j]? = some r.key) ∧
    (r.op = Operation.kNegativeRead →
      ∃ K : Nat, chosen = some K ∧ r.key = K ||| (0xFF <<< 8)) := by
  unfold Producer.dispatch at h
  cases next_op with
  | kRead =>
    obtain ⟨⟨key, p1⟩, -, h⟩ := bind_eq_ok h
    cases h
    exact ⟨(fun hop => by cases hop), (fun hop => by cases hop)⟩
  | kReadModifyWrite =>
    obtain ⟨⟨key, p1⟩, -, h⟩ := bind_eq_ok h
    cases h
    exact ⟨(fun hop => by cases hop), (fun hop => by cases hop)⟩
  | kNegativeRead =>
    obtain ⟨⟨key, p1⟩, -, h⟩ := bind_eq_ok h
    cases h
    exact ⟨(fun hop => by cases hop), fun _ => ⟨key, rfl, rfl⟩⟩
  | kScan =>
    obtain ⟨⟨key, p1⟩, -, h⟩ := bind_eq_ok h
    obtain ⟨this_phase, -, h⟩ := bind_eq_ok h
    split at h
    · cases h
    · cases h
      exact ⟨(fun hop => by cases hop), (fun hop => by cases hop)⟩
  | kUpdate =>
    obtain ⟨⟨key, p1⟩, -, h⟩ := bind_eq_ok h
    cases h
    exact ⟨(fun hop => by cases hop), (fun hop => by cases hop)⟩
  | kDelete =>
    obtain ⟨⟨key, p1⟩, -, h⟩ := bind_eq_ok h
    cases h
    exact ⟨(fun hop => by cases hop), (fun hop => by cases hop)⟩
  | kInsert =>
    obtain ⟨⟨to_return, p1⟩, hins, h⟩ := bind_eq_ok h
    cases h
    refine ⟨fun _ => ?_, fun hop => ?_⟩
    · unfold Producer.doInsert at hins
      obtain ⟨this_phase, -, hins⟩ := bind_eq_ok hins
      obtain ⟨key, hkey, hins⟩ := bind_eq_ok hins
      have hk := elemAt_eq_ok hkey
      simp only at hins
      split at hins
      · split at hins
        · cases hins
          exact ⟨_, hk⟩
        · split at hins
          · cases hins
          · cases hins
            exact ⟨_, hk⟩
      · cases hins
        exact ⟨_, hk⟩
    · have := (Producer.doInsert_spec hins).2
      rw [this] at hop
      cases hop

theorem Producer.NextTraced_origin {debug : Bool} {p q : Producer}
    {choice draw scan_draw : Nat} {r : Request} {chosen : Option Key} (hp : p.MapsOk)
    (h : p.NextTraced debug choice draw scan_draw = Except.ok (r, chosen, q)) :
    (r.op = Operation.kInsert → ∃ j : Nat, p.insert_keys_[j]? = some r.key) ∧
    (r.op = Operation.kNegativeRead →
      ∃ K : Nat, chosen = some K ∧ p.holdsKey K ∧ r.key = K ||| (0xFF <<< 8)) ∧
    (r.op ≠ Operation.kInsert → r.op ≠ Operation.kNegativeRead → p.holdsKey r.key) := by
  obtain ⟨-, -, hlive, -, hkey⟩ := Producer.NextTraced_spec hp h
  unfold Producer.NextTraced at h
  split at h
  · cases h
  obtain ⟨this_phase, -, h⟩ := bind_eq_ok h
  obtain ⟨next_op, -, h⟩ := bind_eq_ok h
  obtain ⟨⟨to_return, ch, p1⟩, hd, h⟩ := bind_eq_ok h
  obtain ⟨p2, hadv, h⟩ := bind_eq_ok h
  cases h
  obtain ⟨h1, h2⟩ := Producer.dispatch_origin hd
  refine ⟨h1, ?_, ?_⟩
  · intro hop
    obtain ⟨K, hK, hr⟩ := h2 hop
    exact ⟨K, hK, Producer.liveKey_holdsKey (hlive K hK), hr⟩
  · intro hi hn
    exact Producer.liveKey_holdsKey (hlive _ (hkey hi hn))

/-- The origin of the key of every request of a run: an Insert request has a key of
`insert_keys_`; a NegativeRead request has the key returned by `ChooseKey`, which
is a key of one of the two vectors, combined with `0xFF << 8`; every other request
has a key of one of the two vectors. -/
theorem Producer.run_origin {debug : Bool} (draws : List (Nat × Nat × Nat)) :
    ∀ (p : Producer), p.MapsOk → ∀ e, e ∈ (Producer.run debug p draws).1 →
      (e.1.op = Operation.kInsert → ∃ j : Nat, p.insert_keys_[j]? = some e.1.key) ∧
      (e.1.op = Operation.kNegativeRead →
        ∃ K : Nat, e.2 = some K ∧ p.holdsKey K ∧ e.1.key = K ||| (0xFF <<< 8)) ∧
      (e.1.op ≠ Operation.kInsert → e.1.op ≠ Operation.kNegativeRead →
        p.holdsKey e.1.key) := by
  induction draws with
  | nil =>
    intro p _ e he
    simp [Producer.run] at he
  | cons d ds ih =>
    intro p hp e he
    cases htr : (Producer.run debug p (d :: ds)).1 with
    | nil => rw [htr] at he; cases he
    | cons e0 trace =>
      rw [htr] at he
      obtain ⟨q, hnext, hrest⟩ := Producer.run_cons htr
      obtain ⟨hq, hext, -, -, -⟩ := Producer.NextTraced_spec hp hnext
      rcases List.mem_cons.mp he with he | he
      · subst he
        exact Producer.NextTraced_origin hp hnext
      · rw [← hrest] at he
        have := ih q hq e he
        unfold Producer.holdsKey at this ⊢
        rw [hext.1, hext.2.1] at this
        exact this

theorem insertStart_cover :
    ∀ (phases : List Phase) (j : Nat), j < insertStart phases phases.length →
      ∃ (f : Nat) (phase : Phase), phases[f]? = some phase ∧ insertStart phases f ≤ j ∧
        j < insertStart phases f + phase.num_inserts := by
  intro phases
  induction phases with
  | nil =>
    intro j hj
    simp [insertStart] at hj
  | cons phase rest ih =>
    intro j hj
    rw [List.length_cons, insertStart_succ] at hj
    by_cases h : j < phase.num_inserts
    · exact ⟨0, phase, by simp, by rw [insertStart_zero]; omega, by rw [insertStart_zero]; omega⟩
    · obtain ⟨f, ph, hf, hlo, hhi⟩ := ih (j - phase.num_inserts) (by omega)
      refine ⟨f + 1, ph, by simpa using hf, ?_, ?_⟩
      · rw [insertStart_succ]; omega
      · rw [insertStart_succ]; omega

/-- What `GetProducers` followed by `Prepare` establishes for the producer at
position `i`: empty deletion maps, the id `i`, the load keys of the workload, each
tagged with phase 0 and producer 0, at most 254 phases with ids equal to their
positions, and insert keys that are covered by the slices of the phases, the slice of
phase `f` tagged with `f + 1` and `i + 1`. -/
theorem prepared_producer {w : PhasedWorkload} {N i : Nat} {producers : List Producer}
    {p q : Producer} {keygen : Nat → Nat → Key} (hreach : w.Reachable)
    (hget : w.GetProducers N = Except.ok producers) (hp : producers[i]? = some p)
    (hprep : p.Prepare keygen = Except.ok q) :
    q.MapsOk ∧ q.id_ = i ∧ i < N ∧ w.load_keys_ = some q.load_keys_ ∧
    (∀ K, K ∈ q.load_keys_ → ∃ raw, K = tagKey 0 0 raw) ∧ q.phases_.length ≤ 254 ∧
    q.insert_keys_.length = insertStart q.phases_ q.phases_.length ∧
    (∀ (f : Nat) (phase : Phase), q.phases_[f]? = some phase → phase.phase_id = f) ∧
    ∀ (f : Nat) (phase : Phase) (j : Nat) (K : Nat), q.phases_[f]? = some phase →
      insertStart q.phases_ f ≤ j → j < insertStart q.phases_ f + phase.num_inserts →
      q.insert_keys_[j]? = some K → ∃ raw, K = tagKey (f + 1) (i + 1) raw := by
  obtain ⟨-, hall⟩ := GetProducers_spec hget
  obtain ⟨hlt, load_keys, p0, hload, hcreate, hpe⟩ := hall i p hp
  obtain ⟨hid, -, -, hlk, hph, hik, -, -⟩ := Producer.create_fields hcreate
  obtain ⟨hm1, hm2⟩ := Producer.create_maps hcreate
  have e1 : p.phases_ = [] := by rw [hpe]; exact hph
  have e2 : p.insert_keys_ = [] := by rw [hpe]; exact hik
  have e3 : p.id_ = i := by rw [hpe]; exact hid
  have e4 : p.load_keys_ = load_keys := by rw [hpe]; exact hlk
  have e5 : p.delete_map_ = [] := by rw [hpe]; exact hm1
  have e6 : p.delete_map_insert_ = [] := by rw [hpe]; exact hm2
  obtain ⟨hm3, hm4⟩ := Producer.Prepare_maps hprep
  obtain ⟨h1, h2, h3, h4, h5, h6⟩ := Producer.Prepare_keys e1 e2 hprep
  have hq : q.load_keys_ = load_keys := h2.trans e4
  refine ⟨Producer.mapsOk_of_empty (hm3.trans e5) (hm4.trans e6), h1.trans e3, hlt,
    by rw [hq]; exact hload, ?_, h3, h4, h5, ?_⟩
  · intro K hK
    rw [hq] at hK
    exact PhasedWorkload.reachable_load_keys hreach load_keys hload K hK
  · rw [e3] at h6
    exact h6

theorem prepared_insert_key {w : PhasedWorkload} {N i : Nat} {producers : List Producer}
    {p q : Producer} {keygen : Nat → Nat → Key} (hreach : w.Reachable)
    (hget : w.GetProducers N = Except.ok producers) (hp : producers[i]? = some p)
    (hprep : p.Prepare keygen = Except.ok q) {j : Nat} {K : Nat}
    (hK : q.insert_keys_[j]? = some K) :
    ∃ (f : Nat) (phase : Phase) (raw : Nat), q.phases_[f]? = some phase ∧ f < 254 ∧
      insertStart q.phases_ f ≤ j ∧ j < insertStart q.phases_ f + phase.num_inserts ∧
      K = tagKey (f + 1) (i + 1) raw := by
  obtain ⟨-, -, -, -, -, hlen, hcover, -, htag⟩ := prepared_producer hreach hget hp hprep
  have hj : j < q.insert_keys_.length := (List.getElem?_eq_some_iff.mp hK).1
  rw [hcover] at hj
  obtain ⟨f, phase, hf, hlo, hhi⟩ := insertStart_cover _ j hj
  obtain ⟨raw, hraw⟩ := htag f phase j K hf hlo hhi hK
  have hf2 : f < q.phases_.length := (List.getElem?_eq_some_iff.mp hf).1
  exact ⟨f, phase, raw, hf, by omega, hlo, hhi, hraw⟩

set_option maxRecDepth 1000000 in
/-- C11: GetProducers(256) on a workload with one phase of 256 inserts returns a
producer with id 255; its only request is an Insert whose key has the bits 0-7
equal to 0, the value reserved for the initial load, whereas its producer id + 1 is
256. -/
theorem insert_tag_wraps_at_producer_255 :
    ∃ producers p q, manyInsertsWorkload.GetProducers 256 = Except.ok producers ∧
      producers[255]? = some p ∧ p.id_ = 255 ∧ p.Prepare exampleKeygen = Except.ok q ∧
      (Producer.run true q [(0, 0, 0)]).1
        = [({ op := Operation.kInsert, key := tagKey 1 256 1000, scan_amount := 0,
              value_size := 8 }, none)] ∧
      tagKey 1 256 1000 % 256 = 0 ∧ tagKey 1 256 1000 % 256 ≠ 255 + 1 :=
  ⟨_, _, _, rfl, rfl, rfl, rfl, rfl, by decide, by decide⟩

/-- The tags of the keys of a prepared producer, the one at position i of GetProducers
of a workload built by the constructor and the setters: every load key has its low 16
bits equal to 0; every key of insert_keys_ lies in the slice that Prepare generated
for some phase f, and a key of that slice has bits 0-7 equal to (i + 1) mod 256 (which
is i + 1 when i is at most 254) and bits 8-15 equal to f + 1; and in every run an
Insert request has a key of insert_keys_, a NegativeRead request has bits 8-15 equal
to 0xFF and all other bits equal to those of the key that ChooseKey returned from the
two key vectors, and every other request has a key of the two key vectors. The slice
of a key says which phase it was generated for, not in which phase it is requested. -/
theorem request_key_tags (w : PhasedWorkload) (N i : Nat) (producers : List Producer)
    (p q : Producer) (keygen : Nat → Nat → Key) (debug : Bool)
    (draws : List (Nat × Nat × Nat)) (hreach : w.Reachable)
    (hget : w.GetProducers N = Except.ok producers) (hp : producers[i]? = some p)
    (hprep : p.Prepare keygen = Except.ok q) :
    (∀ K, K ∈ q.load_keys_ → K % 65536 = 0) ∧
    (∀ (f : Nat) (phase : Phase) (j K : Nat), q.phases_[f]? = some phase →
      insertStart q.phases_ f ≤ j → j < insertStart q.phases_ f + phase.num_inserts →
      q.insert_keys_[j]? = some K →
      K % 256 = (i + 1) % 256 ∧ K / 256 % 256 = f + 1 ∧ (i ≤ 254 → K % 256 = i + 1)) ∧
    (∀ (j K : Nat), q.insert_keys_[j]? = some K →
      ∃ (f : Nat) (phase : Phase), q.phases_[f]? = some phase ∧ phase.phase_id = f ∧
        insertStart q.phases_ f ≤ j ∧ j < insertStart q.phases_ f + phase.num_inserts) ∧
    ∀ e, e ∈ (Producer.run debug q draws).1 →
      (e.1.op = Operation.kInsert → ∃ j : Nat, q.insert_keys_[j]? = some e.1.key) ∧
      (e.1.op = Operation.kNegativeRead → ∃ K : Nat, e.2 = some K ∧ q.holdsKey K ∧
        e.1.key % 256 = K % 256 ∧ e.1.key / 256 % 256 = 255 ∧
        e.1.key / 65536 = K / 65536) ∧
      (e.1.op ≠ Operation.kInsert → e.1.op ≠ Operation.kNegativeRead →
        q.holdsKey e.1.key) := by
  obtain ⟨hmaps, -, -, -, hload, hlen, -, hids, htag⟩ := prepared_producer hreach hget hp hprep
  refine ⟨?_, ?_, ?_, ?_⟩
  · intro K hK
    obtain ⟨raw, rfl⟩ := hload K hK
    exact (tagKey_bits 0 0 raw).2.2
  · intro f phase j K hf hlo hhi hK
    obtain ⟨raw, rfl⟩ := htag f phase j K hf hlo hhi hK
    have hf2 : f < q.phases_.length := (List.getElem?_eq_some_iff.mp hf).1
    obtain ⟨h1, h2, -⟩ := tagKey_bits (f + 1) (i + 1) raw
    refine ⟨h1, ?_, ?_⟩
    · rw [h2]; omega
    · intro hi
      rw [h1]; omega
  · intro j K hK
    obtain ⟨f, phase, raw, hf, -, hlo, hhi, -⟩ := prepared_insert_key hreach hget hp hprep hK
    exact ⟨f, phase, hf, hids f phase hf, hlo, hhi⟩
  · intro e he
    obtain ⟨h1, h2, h3⟩ := Producer.run_origin draws q hmaps e he
    refine ⟨h1, ?_, h3⟩
    intro hop
    obtain ⟨K, hK, hhold, hkey⟩ := h2 hop
    obtain ⟨b1, b2, b3⟩ := or_ff00_bits K
    exact ⟨K, hK, hhold, by rw [hkey]; exact b1, by rw [hkey]; exact b2,
      by rw [hkey]; exact b3⟩

set_option maxRecDepth 1000000 in
theorem request_key_tags_witness :
    ∃ producers p q, loadedWorkload.GetProducers 1 = Except.ok producers ∧
      producers[0]? = some p ∧ p.Prepare exampleKeygen = Except.ok q ∧
      q.load_keys_ = [5 <<< 16, 6 <<< 16, 7 <<< 16] ∧
      q.insert_keys_ = [tagKey 1 1 1000, tagKey 2 1 1000] ∧
      (∀ K, K ∈ q.load_keys_ → K % 65536 = 0) ∧
      ∀ (f : Nat) (phase : Phase) (j K : Nat), q.phases_[f]? = some phase →
        insertStart q.phases_ f ≤ j → j < insertStart q.phases_ f + phase.num_inserts →
        q.insert_keys_[j]? = some K →
        K % 256 = (0 + 1) % 256 ∧ K / 256 % 256 = f + 1 ∧ (0 ≤ 254 → K % 256 = 0 + 1) :=
  ⟨_, _, _, rfl, rfl, rfl, by decide, by decide,
    (request_key_tags loadedWorkload 1 0 _ _ _ exampleKeygen true []
      (PhasedWorkload.Reachable.setLoad true [7, 5, 6]
        (PhasedWorkload.Reachable.create
          (rfl : PhasedWorkload.create insertingWorkload.config_ 42 (fun _ => 0)
            = Except.ok insertingWorkload))) rfl rfl rfl).1,
    (request_key_tags loadedWorkload 1 0 _ _ _ exampleKeygen true []
      (PhasedWorkload.Reachable.setLoad true [7, 5, 6]
        (PhasedWorkload.Reachable.create
          (rfl : PhasedWorkload.create insertingWorkload.config_ 42 (fun _ => 0)
            = Except.ok insertingWorkload))) rfl rfl rfl).2.1⟩

/-- C12: for the producers that GetProducers returns for a workload built by the
constructor and the setters and that Prepare accepts (so the workload has at most 254
phases), and for every key k: the key k | 0xFF00 differs from every load key and
from every insert key of every producer; in every run the key of a NegativeRead
request is k | 0xFF00 for the key k that ChooseKey returned, and it is neither among
the load keys nor among the insert keys of any producer. -/
theorem negative_read_key_fresh (w : PhasedWorkload) (N i1 i2 : Nat)
    (producers : List Producer) (p1 q1 p2 q2 : Producer) (keygen1 keygen2 : Nat → Nat → Key)
    (debug : Bool) (draws : List (Nat × Nat × Nat)) (hreach : w.Reachable)
    (hget : w.GetProducers N = Except.ok producers)
    (hp1 : producers[i1]? = some p1) (hprep1 : p1.Prepare keygen1 = Except.ok q1)
    (hp2 : producers[i2]? = some p2) (hprep2 : p2.Prepare keygen2 = Except.ok q2) :
    q1.config_.run.length ≤ 254 ∧ w.load_keys_ = some q1.load_keys_ ∧
    q2.load_keys_ = q1.load_keys_ ∧
    (∀ k key : Nat, key ∈ q1.load_keys_ ∨ key ∈ q2.insert_keys_ →
      k ||| (0xFF <<< 8) ≠ key) ∧
    ∀ e, e ∈ (Producer.run debug q1 draws).1 → e.1.op = Operation.kNegativeRead →
      (∃ k : Nat, e.2 = some k ∧ e.1.key = k ||| (0xFF <<< 8)) ∧
      e.1.key ∉ q1.load_keys_ ∧ e.1.key ∉ q2.insert_keys_ := by
  obtain ⟨hmaps, -, -, hw1, hload, -, -, -, -⟩ := prepared_producer hreach hget hp1 hprep1
  obtain ⟨-, -, -, hw2, -, -, -, -, -⟩ := prepared_producer hreach hget hp2 hprep2
  have hfresh : ∀ k key : Nat, key ∈ q1.load_keys_ ∨ key ∈ q2.insert_keys_ →
      k ||| (0xFF <<< 8) ≠ key := by
    intro k key hkey heq
    obtain ⟨-, b2, -⟩ := or_ff00_bits k
    rw [heq] at b2
    rcases hkey with hkey | hkey
    · obtain ⟨raw, rfl⟩ := hload key hkey
      have := (tagKey_bits 0 0 raw).2.1
      omega
    · obtain ⟨j, hj⟩ := List.getElem?_of_mem hkey
      obtain ⟨f, phase, raw, -, hf, -, -, rfl⟩ :=
        prepared_insert_key hreach hget hp2 hprep2 hj
      have := (tagKey_bits (f + 1) (i2 + 1) raw).2.1
      omega
  have hnum : q1.config_.run.length ≤ 254 := by
    unfold Producer.Prepare at hprep1
    obtain ⟨num_phases, hnum, h⟩ := bind_eq_ok hprep1
    obtain ⟨phases, -, h⟩ := bind_eq_ok h
    obtain ⟨insert_keys, -, h⟩ := bind_eq_ok h
    cases h
    unfold WorkloadConfig.GetNumPhases kMaxNumPhases at hnum
    split at hnum
    · cases hnum
    · show p1.config_.run.length ≤ 254
      omega
  refine ⟨hnum, hw1, ?_, hfresh, ?_⟩
  · rw [hw1] at hw2
    exact (Option.some.inj hw2).symm
  · intro e he hop
    obtain ⟨-, h2, -⟩ := Producer.run_origin draws q1 hmaps e he
    obtain ⟨K, hK, -, hkey⟩ := h2 hop
    refine ⟨⟨K, hK, hkey⟩, ?_, ?_⟩
    · intro hmem
      exact hfresh K e.1.key (Or.inl hmem) hkey.symm
    · intro hmem
      exact hfresh K e.1.key (Or.inr hmem) hkey.symm

theorem negative_read_key_fresh_witness :
    ∃ producers p q, negativeReadWorkload.GetProducers 1 = Except.ok producers ∧
      producers[0]? = some p ∧ p.Prepare exampleKeygen = Except.ok q ∧
      (Producer.run true q [(0, 1, 0)]).1
        = [({ op := Operation.kNegativeRead, key := (6 <<< 16) ||| (0xFF <<< 8),
              scan_amount := 0, value_size := 0 }, some (6 <<< 16))] ∧
      q.load_keys_ = [5 <<< 16, 6 <<< 16] ∧
      ∀ k key : Nat, key ∈ q.load_keys_ ∨ key ∈ q.insert_keys_ →
        k ||| (0xFF <<< 8) ≠ key :=
  ⟨_, _, _, rfl, rfl, rfl, by decide, by decide,
    (negative_read_key_fresh negativeReadWorkload 1 0 0 _ _ _ _ _ exampleKeygen exampleKeygen
      true []
      (PhasedWorkload.Reachable.setLoad true [5, 6]
        (PhasedWorkload.Reachable.create
          (rfl : PhasedWorkload.create
            { load_distribution := some { dist_type := "custom" }
              run := [{ num_requests := 2
                        negativeread := some { proportion_pct := 100,
                                               distribution := uniformAccess } }]
              record_size_bytes := some 16 } 42 (fun _ => 0) = Except.ok _)))
      rfl rfl rfl rfl rfl).2.2.2.1⟩

/-! ## The number of producers -/

theorem producersPrepared_spec {w : PhasedWorkload} {N : Nat} {keygen : Nat → Nat → Key}
    (h : producersPrepared w N keygen = true) :
    ∃ producers, w.GetProducers N = Except.ok producers ∧ producers.length = N ∧
      ∀ p, p ∈ producers → ∃ q, p.Prepare keygen = Except.ok q := by
  unfold producersPrepared at h
  split at h
  · rename_i producers hget
    refine ⟨producers, hget, (GetProducers_spec hget).1, ?_⟩
    intro p hp
    unfold allPrepared at h
    have := List.all_eq_true.mp h p hp
    split at this
    · rename_i q hq
      exact ⟨q, hq⟩
    · cases this
  · cases h

set_option maxRecDepth 1000000 in
/-- C13: GetProducers(255) and GetProducers(256) on a workload with one phase of 256
inserts return 255 and 256 producers, and Prepare returns for each of them; no
error is raised by either method. -/
theorem GetProducers_accepts_255_and_256 :
    (∃ producers, manyInsertsWorkload.GetProducers 255 = Except.ok producers ∧
      producers.length = 255 ∧
      ∀ p, p ∈ producers → ∃ q, p.Prepare exampleKeygen = Except.ok q) ∧
    (∃ producers, manyInsertsWorkload.GetProducers 256 = Except.ok producers ∧
      producers.length = 256 ∧
      ∀ p, p ∈ producers → ∃ q, p.Prepare exampleKeygen = Except.ok q) :=
  ⟨producersPrepared_spec
      (show producersPrepared manyInsertsWorkload 255 exampleKeygen = true by decide!),
    producersPrepared_spec
      (show producersPrepared manyInsertsWorkload 256 exampleKeygen = true by decide!)⟩

theorem Producer.Prepare_insert_tag {p q : Producer} {keygen : Nat → Nat → Key}
    (hphases : p.phases_ = []) (hkeys : p.insert_keys_ = [])
    (h : p.Prepare keygen = Except.ok q) :
    ∀ K, K ∈ q.insert_keys_ → ∃ f raw, f < 254 ∧ K = tagKey (f + 1) (p.id_ + 1) raw := by
  intro K hK
  obtain ⟨-, -, hlen, hcover, -, htag⟩ := Producer.Prepare_keys hphases hkeys h
  obtain ⟨j, hj⟩ := List.getElem?_of_mem hK
  have hjlt : j < q.insert_keys_.length := (List.getElem?_eq_some_iff.mp hj).1
  rw [hcover] at hjlt
  obtain ⟨f, phase, hf, hlo, hhi⟩ := insertStart_cover _ j hjlt
  obtain ⟨raw, hraw⟩ := htag f phase j K hf hlo hhi hj
  have hf2 : f < q.phases_.length := (List.getElem?_eq_some_iff.mp hf).1
  exact ⟨f, raw, by omega, hraw⟩

/-- The producers of GetProducers for an arbitrary count: for every workload whose
load keys are set and whose record size is valid, and for every N, it returns N
producers; the producer at position i has the id i, the producer count N, the seed
(prng_seed XOR i) mod 2^32 and the shared load keys, and when Prepare returns for it
every insert key has the bits 0-7 equal to (i + 1) mod 256. -/
theorem GetProducers_any_count (w : PhasedWorkload) (N : Nat) (load_keys : List Key)
    (size : Nat) (hload : w.load_keys_ = some load_keys)
    (hsize : w.config_.GetRecordSizeBytes = Except.ok size) :
    ∃ producers, w.GetProducers N = Except.ok producers ∧ producers.length = N ∧
      ∀ i, i < N → ∃ p, producers[i]? = some p ∧ p.id_ = i ∧ p.num_producers_ = N ∧
        p.prng_seed = (w.prng_seed_ ^^^ i) % U32 ∧ p.load_keys_ = load_keys ∧
        ∀ (keygen : Nat → Nat → Key) (q : Producer), p.Prepare keygen = Except.ok q →
          ∀ K, K ∈ q.insert_keys_ → K % 256 = (i + 1) % 256 := by
  have hok : ∃ producers, constructProducers w load_keys N (List.range N)
      = Except.ok producers := constructProducers_ok hsize (List.range N)
  obtain ⟨producers, hps⟩ := hok
  have hget : w.GetProducers N = Except.ok producers := by
    unfold PhasedWorkload.GetProducers
    rw [hload]
    exact hps
  obtain ⟨hlen, hall⟩ := GetProducers_spec hget
  refine ⟨producers, hget, hlen, ?_⟩
  intro i hi
  have hlt : i < producers.length := by omega
  refine ⟨producers[i], List.getElem?_eq_getElem hlt, ?_⟩
  obtain ⟨-, lk, p0, hlk, hcreate, hpe⟩ := hall i producers[i] (List.getElem?_eq_getElem hlt)
  obtain ⟨hid, hnp, -, hlks, hph, hik, -, -⟩ := Producer.create_fields hcreate
  rw [hload] at hlk
  cases hlk
  have e1 : (producers[i]).phases_ = [] := by rw [hpe]; exact hph
  have e2 : (producers[i]).insert_keys_ = [] := by rw [hpe]; exact hik
  have e3 : (producers[i]).id_ = i := by rw [hpe]; exact hid
  refine ⟨e3, by rw [hpe]; exact hnp, by rw [hpe], by rw [hpe]; exact hlks, ?_⟩
  intro keygen q hprep K hK
  obtain ⟨f, raw, -, rfl⟩ := Producer.Prepare_insert_tag e1 e2 hprep K hK
  rw [e3]
  exact (tagKey_bits (f + 1) (i + 1) raw).1

theorem GetProducers_any_count_witness :
    loadedWorkload.load_keys_ = some [5 <<< 16, 6 <<< 16, 7 <<< 16] ∧
    loadedWorkload.config_.GetRecordSizeBytes = Except.ok 16 ∧
    ∃ producers, loadedWorkload.GetProducers 300 = Except.ok producers ∧
      producers.length = 300 ∧
      ∀ i, i < 300 → ∃ p, producers[i]? = some p ∧ p.id_ = i ∧ p.num_producers_ = 300 ∧
        p.prng_seed = (loadedWorkload.prng_seed_ ^^^ i) % U32 ∧
        p.load_keys_ = [5 <<< 16, 6 <<< 16, 7 <<< 16] ∧
        ∀ (keygen : Nat → Nat → Key) (q : Producer), p.Prepare keygen = Except.ok q →
          ∀ K, K ∈ q.insert_keys_ → K % 256 = (i + 1) % 256 :=
  ⟨by decide, rfl,
    GetProducers_any_count loadedWorkload 300 [5 <<< 16, 6 <<< 16, 7 <<< 16] 16 (by decide)
      rfl⟩

/-! ## Producers that share the deletion map -/

/-- C14: GetProducers(2) on a workload with seed 42 over the dataset 5, 6 with one
phase of two deletes returns producers with the seeds 42 XOR 0 and 42 XOR 1, one
request each. For the key draws d0 and d1 that the two producers make on two live
keys: when producer 0 calls Next first, its request deletes the key at position d0;
when producer 1 calls Next first, producer 0 is left with one live key and its
request deletes the key at position 1 - d1. For d0 = d1 the two runs give different
requests for producer 0 (and for producer 1). -/
theorem producer_requests_depend_on_schedule :
    (∃ producers p0 p1, deleteTwoWorkload.GetProducers 2 = Except.ok producers ∧
      producers = [p0, p1] ∧ p0.prng_seed = 42 ^^^ 0 ∧ p1.prng_seed = 42 ^^^ 1) ∧
    ∀ d0 d1 : Fin 2, ∃ first second,
      deleteTwoWorkload.runProducers true 2 exampleKeygen
        [(0, 0, d0.val, 0), (1, 0, 0, 0)] = Except.ok first ∧
      deleteTwoWorkload.runProducers true 2 exampleKeygen
        [(1, 0, d1.val, 0), (0, 0, 0, 0)] = Except.ok second ∧
      requestsOf 0 first = [deleteRequest ((5 + d0.val) <<< 16)] ∧
      requestsOf 1 first = [deleteRequest ((6 - d0.val) <<< 16)] ∧
      requestsOf 0 second = [deleteRequest ((6 - d1.val) <<< 16)] ∧
      requestsOf 1 second = [deleteRequest ((5 + d1.val) <<< 16)] ∧
      (d0 = d1 → requestsOf 0 first ≠ requestsOf 0 second ∧
        requestsOf 1 first ≠ requestsOf 1 second) := by
  refine ⟨⟨_, _, _, rfl, rfl, by decide, by decide⟩, ?_⟩
  intro d0 d1
  fin_cases d0 <;> fin_cases d1 <;>
    exact ⟨_, _, rfl, rfl, by decide, by decide, by decide, by decide, by decide⟩

/-! ## Sessions -/

theorem Session.calls_shape (s0 : Session) (h0 : s0 = {}) (calls : List SessionCall) :
    ∃ a b, (s0.callAll calls).calls
        = List.replicate a DbEvent.InitializeDatabase
          ++ List.replicate b DbEvent.ShutdownDatabase ∧
      (if (s0.callAll calls).initialized_ then 1 ≤ a ∧ a ≤ throwingInitializes calls + 1
        else a ≤ throwingInitializes calls ∧ b = 0) ∧
      (if (s0.callAll calls).threads_ then b ≤ throwingTerminates calls
        else b ≤ throwingTerminates calls + 1) := by
  subst h0
  induction calls using List.reverseRecOn with
  | nil => exact ⟨0, 0, rfl, by simp [Session.callAll], by simp [Session.callAll]⟩
  | append_singleton cs c ih =>
    obtain ⟨a, b, hcalls, hinit, hthr⟩ := ih
    have hstep : Session.callAll {} (cs ++ [c]) = ((Session.callAll {} cs).call c).2 := by
      unfold Session.callAll
      rw [List.foldl_append]
      rfl
    rw [hstep]
    generalize Session.callAll {} cs = s at hcalls hinit hthr
    obtain ⟨threads, initialized, events⟩ := s
    simp only at hcalls hinit hthr
    subst hcalls
    cases c with
    | Initialize thrown =>
      cases initialized <;> cases threads <;> cases thrown <;>
        simp [Session.call, Session.Initialize, throwingInitializes, throwingTerminates,
          List.countP_append] at hinit hthr ⊢
      all_goals first
        | exact ⟨a, b, rfl, by omega, by omega⟩
        | (obtain ⟨h1, h2⟩ := hinit
           subst h2
           refine ⟨a + 1, 0, ?_, ?_, ?_⟩
           · rw [List.replicate_succ']
             simp
           · simp [throwingInitializes] at h1 ⊢
             omega
           · simp [throwingTerminates] at hthr ⊢)
    | Terminate thrown =>
      cases initialized <;> cases threads <;> cases thrown <;>
        simp [Session.call, Session.Terminate, throwingInitializes, throwingTerminates,
          List.countP_append] at hinit hthr ⊢
      all_goals first
        | exact ⟨a, b, rfl, by omega, by omega⟩
        | (refine ⟨a, b + 1, ?_, ?_, ?_⟩
           · rw [List.replicate_succ']
           · omega
           · omega)

theorem Session.call_terminated (s : Session) (h : s.threads_ = false) (c : SessionCall) :
    s.call c = (none, s) := by
  cases c
  · simp [Session.call, Session.Initialize, h]
  · simp [Session.call, Session.Terminate, h]

theorem Session.callAll_terminated (s : Session) (h : s.threads_ = false)
    (calls : List SessionCall) : s.callAll calls = s := by
  induction calls with
  | nil => rfl
  | cons c cs ih =>
    unfold Session.callAll at ih ⊢
    rw [List.foldl_cons, Session.call_terminated s h c]
    exact ih

/-- C28: on the session that the constructor returns for one thread,
InitializeDatabase throws on the first Initialize, so that initialized_ stays
false and the second Initialize invokes InitializeDatabase a second time; and when
ShutdownDatabase throws on the first Terminate, threads_ is not reset and the second
Terminate invokes ShutdownDatabase a second time. -/
theorem Initialize_retried_after_exception :
    Session.create 1 = Except.ok {} ∧
    (({} : Session).Initialize (some (Error.runtime_error "open failed"))
      = (some (Error.runtime_error "open failed"),
          { threads_ := true, initialized_ := false,
            calls := [DbEvent.InitializeDatabase] })) ∧
    (({} : Session).callAll
        [SessionCall.Initialize (some (Error.runtime_error "open failed")),
          SessionCall.Initialize none]).calls
      = [DbEvent.InitializeDatabase, DbEvent.InitializeDatabase] ∧
    (({} : Session).callAll
        [SessionCall.Initialize (some (Error.runtime_error "open failed")),
          SessionCall.Initialize none]).calls.count DbEvent.InitializeDatabase = 2 ∧
    (({} : Session).callAll
        [SessionCall.Initialize none,
          SessionCall.Terminate (some (Error.runtime_error "close failed")),
          SessionCall.Terminate none]).calls
      = [DbEvent.InitializeDatabase, DbEvent.ShutdownDatabase,
          DbEvent.ShutdownDatabase] ∧
    (({} : Session).callAll
        [SessionCall.Initialize none,
          SessionCall.Terminate (some (Error.runtime_error "close failed")),
          SessionCall.Terminate none]).calls.count DbEvent.ShutdownDatabase = 2 := by
  refine ⟨rfl, rfl, ?_, ?_, ?_, ?_⟩ <;> decide

/-- C28 (amended): for a session that its constructor returned and every sequence of
Initialize and Terminate calls, each with the exception that its database call throws
if any, the calls made on the database are a run of InitializeDatabase followed by a
run of ShutdownDatabase; InitializeDatabase is invoked at most once more than the
number of Initialize calls whose database call throws, ShutdownDatabase at most once
more than the number of Terminate calls whose database call throws, and
ShutdownDatabase only after InitializeDatabase. When no database call throws the calls
are none, or InitializeDatabase alone, or InitializeDatabase followed by
ShutdownDatabase, so that each is invoked at most once. An Initialize that follows an
Initialize that returned changes nothing, and after a Terminate that returned every
further call returns and changes nothing. -/
theorem Session_database_calls (num_threads : Nat) (s0 : Session)
    (calls more : List SessionCall) (hcreate : Session.create num_threads = Except.ok s0) :
    (∃ a b, (s0.callAll calls).calls
        = List.replicate a DbEvent.InitializeDatabase
          ++ List.replicate b DbEvent.ShutdownDatabase ∧
      a ≤ throwingInitializes calls + 1 ∧ b ≤ throwingTerminates calls + 1 ∧
      (0 < b → 0 < a)) ∧
    (s0.callAll calls).calls.count DbEvent.InitializeDatabase
      ≤ throwingInitializes calls + 1 ∧
    (s0.callAll calls).calls.count DbEvent.ShutdownDatabase
      ≤ throwingTerminates calls + 1 ∧
    (throwingInitializes calls = 0 → throwingTerminates calls = 0 →
      ((s0.callAll calls).calls = [] ∨
        (s0.callAll calls).calls = [DbEvent.InitializeDatabase] ∨
        (s0.callAll calls).calls
          = [DbEvent.InitializeDatabase, DbEvent.ShutdownDatabase])) ∧
    (∀ thrown again : Option Error, ((s0.callAll calls).Initialize thrown).1 = none →
      ((s0.callAll calls).Initialize thrown).2.Initialize again
        = (none, ((s0.callAll calls).Initialize thrown).2)) ∧
    (∀ thrown : Option Error, ((s0.callAll calls).Terminate thrown).1 = none →
      (∀ c : SessionCall, ((s0.callAll calls).Terminate thrown).2.call c
        = (none, ((s0.callAll calls).Terminate thrown).2)) ∧
      ((s0.callAll calls).Terminate thrown).2.callAll more
        = ((s0.callAll calls).Terminate thrown).2) := by
  have h0 : s0 = {} := by
    unfold Session.create at hcreate
    split at hcreate
    · cases hcreate
    · cases hcreate
      rfl
  obtain ⟨a, b, hcalls, hinit, hthr⟩ := Session.calls_shape s0 h0 calls
  have ha : a ≤ throwingInitializes calls + 1 := by
    split at hinit <;> omega
  have hb : b ≤ throwingTerminates calls + 1 := by
    split at hthr <;> omega
  have hab : 0 < b → 0 < a := by
    split at hinit <;> omega
  have hcountI : (s0.callAll calls).calls.count DbEvent.InitializeDatabase = a := by
    rw [hcalls, List.count_append, List.count_replicate_self]
    simp [List.count_replicate]
  have hcountS : (s0.callAll calls).calls.count DbEvent.ShutdownDatabase = b := by
    rw [hcalls, List.count_append, List.count_replicate_self]
    simp [List.count_replicate]
  refine ⟨⟨a, b, hcalls, ha, hb, hab⟩, by omega, by omega, ?_, ?_, ?_⟩
  · intro hI hT
    rw [hcalls]
    have ha1 : a ≤ 1 := by omega
    have hb1 : b ≤ 1 := by omega
    interval_cases a <;> interval_cases b
    · exact Or.inl rfl
    · exact absurd (hab (by decide)) (by decide)
    · exact Or.inr (Or.inl rfl)
    · exact Or.inr (Or.inr rfl)
  · intro thrown again hret
    generalize s0.callAll calls = s at hret ⊢
    obtain ⟨threads, initialized, events⟩ := s
    cases threads <;> cases initialized <;> cases thrown <;> cases again <;>
      simp [Session.Initialize] at hret ⊢
  · intro thrown hret
    have hterm : ((s0.callAll calls).Terminate thrown).2.threads_ = false := by
      generalize s0.callAll calls = s at hret ⊢
      obtain ⟨threads, initialized, events⟩ := s
      cases threads <;> cases initialized <;> cases thrown <;>
        simp [Session.Terminate] at hret ⊢
    exact ⟨fun c => Session.call_terminated _ hterm c,
      Session.callAll_terminated _ hterm more⟩

theorem Session_database_calls_witness :
    Session.create 4 = Except.ok {} ∧
    (({} : Session).callAll
      [SessionCall.Initialize none, SessionCall.Initialize none, SessionCall.Terminate none,
        SessionCall.Initialize none, SessionCall.Terminate none]).calls
      = [DbEvent.InitializeDatabase, DbEvent.ShutdownDatabase] ∧
    (({} : Session).callAll [SessionCall.Terminate none, SessionCall.Initialize none]).calls
      = [] ∧
    (({} : Session).callAll
      [SessionCall.Initialize none, SessionCall.Initialize none, SessionCall.Terminate none,
        SessionCall.Initialize none, SessionCall.Terminate none]).calls.count
        DbEvent.InitializeDatabase ≤ 0 + 1 :=
  ⟨rfl, by decide, by decide,
    (Session_database_calls 4 {}
      [SessionCall.Initialize none, SessionCall.Initialize none, SessionCall.Terminate none,
        SessionCall.Initialize none, SessionCall.Terminate none] [] rfl).2.1⟩

/-! ## Aggregation of the meters -/

theorem foldl_add_eq_sum {α : Type} (f : α → Nat) (l : List α) :
    ∀ init : Nat, l.foldl (fun acc a => acc + f a) init = init + (l.map f).sum := by
  induction l with
  | nil => intro init; simp
  | cons a l ih =>
    intro init
    rw [List.foldl_cons, ih, List.map_cons, List.sum_cons, Nat.add_assoc]

theorem foldl_append_eq_flatten {α β : Type} (f : α → List β) (l : List α) :
    ∀ init : List β, l.foldl (fun acc a => acc ++ f a) init = init ++ (l.map f).flatten := by
  induction l with
  | nil => intro init; simp
  | cons a l ih =>
    intro init
    rw [List.foldl_cons, ih, List.map_cons, List.flatten_cons, List.append_assoc]

theorem foldl_push_eq_map {α β : Type} (f : α → β) (l : List α) :
    l.foldl (fun acc a => acc ++ [f a]) [] = l.map f := by
  rw [foldl_append_eq_flatten (fun a => [f a]) l [], List.nil_append]
  clear * -
  induction l with
  | nil => rfl
  | cons a l ih => rw [List.map_cons, List.flatten_cons, ih, List.map_cons]; rfl

theorem sortLatencies_sorted (l : List Int) : (sortLatencies l).Sorted (fun a b => a ≤ b) :=
  List.sorted_insertionSort _ l

theorem sortLatencies_perm (l : List Int) : (sortLatencies l).Perm l :=
  List.perm_insertionSort _ l

theorem FreezeGroup_spec (meters : List Meter) :
    (Meter.FreezeGroup meters).request_count_ = (meters.map (fun m => m.request_count_)).sum ∧
    (Meter.FreezeGroup meters).record_count_ = (meters.map (fun m => m.record_count_)).sum ∧
    (Meter.FreezeGroup meters).bytes_ = (meters.map (fun m => m.bytes_)).sum ∧
    (Meter.FreezeGroup meters).latencies_.Sorted (fun a b => a ≤ b) ∧
    (Meter.FreezeGroup meters).latencies_.Perm (meters.map (fun m => m.latencies_)).flatten := by
  unfold Meter.FreezeGroup
  simp only [foldl_add_eq_sum, foldl_append_eq_flatten, Nat.zero_add, List.nil_append]
  exact ⟨trivial, trivial, trivial, sortLatencies_sorted _, sortLatencies_perm _⟩

/-- C24: for every list of trackers and each kind among reads, writes, scans and
deletes, the result of FinalizeGroup has for that kind a request count, a record
count and a byte total equal to the sums over the trackers' meters of that kind, a
failure count equal to the sum of the trackers' failure counters of that kind, and a
latency list that is in ascending order and a permutation of the concatenation of
the trackers' latency lists of that kind. -/
theorem FinalizeGroup_aggregates (total_run_time : Int) (trackers : List MetricsTracker)
    (kind : CallKind) :
    ((MetricsTracker.FinalizeGroup total_run_time trackers).meter kind).request_count_
      = (trackers.map (fun t => (t.meter kind).request_count_)).sum ∧
    ((MetricsTracker.FinalizeGroup total_run_time trackers).meter kind).record_count_
      = (trackers.map (fun t => (t.meter kind).record_count_)).sum ∧
    ((MetricsTracker.FinalizeGroup total_run_time trackers).meter kind).bytes_
      = (trackers.map (fun t => (t.meter kind).bytes_)).sum ∧
    (MetricsTracker.FinalizeGroup total_run_time trackers).failed kind
      = (trackers.map (fun t => t.failed kind)).sum ∧
    ((MetricsTracker.FinalizeGroup total_run_time trackers).meter kind).latencies_.Sorted
      (fun a b => a ≤ b) ∧
    ((MetricsTracker.FinalizeGroup total_run_time trackers).meter kind).latencies_.Perm
      (trackers.map (fun t => (t.meter kind).latencies_)).flatten := by
  unfold MetricsTracker.FinalizeGroup BenchmarkResult.create
  simp only [foldl_push_eq_map, foldl_add_eq_sum, Nat.zero_add]
  cases kind
  · obtain ⟨h1, h2, h3, h4, h5⟩ := FreezeGroup_spec (trackers.map (fun t => t.reads_))
    simp only [List.map_map, Function.comp_def] at h1 h2 h3 h5
    exact ⟨h1, h2, h3, rfl, h4, h5⟩
  · obtain ⟨h1, h2, h3, h4, h5⟩ := FreezeGroup_spec (trackers.map (fun t => t.writes_))
    simp only [List.map_map, Function.comp_def] at h1 h2 h3 h5
    exact ⟨h1, h2, h3, rfl, h4, h5⟩
  · obtain ⟨h1, h2, h3, h4, h5⟩ := FreezeGroup_spec (trackers.map (fun t => t.scans_))
    simp only [List.map_map, Function.comp_def] at h1 h2 h3 h5
    exact ⟨h1, h2, h3, rfl, h4, h5⟩
  · obtain ⟨h1, h2, h3, h4, h5⟩ := FreezeGroup_spec (trackers.map (fun t => t.deletes_))
    simp only [List.map_map, Function.comp_def] at h1 h2 h3 h5
    exact ⟨h1, h2, h3, rfl, h4, h5⟩

theorem FinalizeGroup_aggregates_witness :
    ((MetricsTracker.FinalizeGroup 100 exampleTrackers).meter CallKind.read).request_count_ = 3 ∧
    ((MetricsTracker.FinalizeGroup 100 exampleTrackers).meter CallKind.read).bytes_ = 24 ∧
    ((MetricsTracker.FinalizeGroup 100 exampleTrackers).meter CallKind.read).latencies_
      = [10, 20, 30] ∧
    (MetricsTracker.FinalizeGroup 100 exampleTrackers).failed CallKind.read = 1 ∧
    (MetricsTracker.FinalizeGroup 100 exampleTrackers).failed CallKind.scan = 1 ∧
    ((MetricsTracker.FinalizeGroup 100 exampleTrackers).meter CallKind.read).request_count_
      = (exampleTrackers.map (fun t => (t.meter CallKind.read).request_count_)).sum :=
  ⟨by decide, by decide, by decide, by decide, by decide,
    (FinalizeGroup_aggregates 100 exampleTrackers CallKind.read).1⟩

/-! ## The executor loop -/

/-- C26: with expect_request_success unset and expect_scan_amount_found set, a Scan
request for two records whose database call returns false with no record increases
failed_scans, and then the loop aborts with runtime_error on the scan amount check
instead of going on to the next request. -/
theorem WorkloadLoop_failed_scan_aborts :
    countFailuresCheckScans.expect_request_success = false ∧
    (∃ msg, Executor.step countFailuresCheckScans {} scanTwo { succeeded := false }
      { succeeded := false } = Except.error (Error.runtime_error msg)) ∧
    (∃ msg, Executor.WorkloadLoop countFailuresCheckScans {}
      [(scanTwo, { succeeded := false }, { succeeded := false }),
        (scanTwo, { succeeded := true, scan_out := [8, 8] }, { succeeded := false })]
      = Except.error (Error.runtime_error msg)) :=
  ⟨rfl, ⟨_, rfl⟩, ⟨_, rfl⟩⟩

theorem Executor.WorkloadLoop_cons (options : RunOptions) (e : Executor) (req : Request)
    (first second : DbReply) (rest : List (Request × DbReply × DbReply)) :
    Executor.WorkloadLoop options e ((req, first, second) :: rest)
      = (e.step options req first second >>= fun e1 => Executor.WorkloadLoop options e1 rest) :=
  rfl

/-- C26 (amended): in WorkloadLoop, for a request whose (first) database call returns
false: with expect_request_success set the loop aborts with runtime_error at that
request; with it unset the loop goes on to the next request with exactly the failure
counter of the call's kind increased by one and every meter unchanged, unless the
request is a Scan, expect_scan_amount_found is set and fewer records than requested
were returned, in which case the loop aborts with runtime_error. For a request other
than a read-modify-write whose call returns true the loop goes on (a Scan under
expect_scan_amount_found only if it returned at least the requested amount) with the
request count of the kind's meter increased by one, the other meters and every
failure counter unchanged. For a read-modify-write whose read returns true the read
meter's request count increases by one and the update is called: if it returns true
the write meter's request count increases by one and no failure counter changes, if
it returns false failed_writes increases by one and the write meter is unchanged
(expect_request_success unset) or the loop aborts with runtime_error (set). -/
theorem WorkloadLoop_counts_outcome (options : RunOptions) (e : Executor) (req : Request)
    (first second : DbReply) (rest : List (Request × DbReply × DbReply)) :
    (first.succeeded = false → options.expect_request_success = true →
      ∃ msg, Executor.WorkloadLoop options e ((req, first, second) :: rest)
        = Except.error (Error.runtime_error msg)) ∧
    (first.succeeded = false → options.expect_request_success = false →
      req.op = Operation.kScan → options.expect_scan_amount_found = true →
      first.scan_out.length < req.scan_amount →
      ∃ msg, Executor.WorkloadLoop options e ((req, first, second) :: rest)
        = Except.error (Error.runtime_error msg)) ∧
    (first.succeeded = false → options.expect_request_success = false →
      ¬ (req.op = Operation.kScan ∧ options.expect_scan_amount_found = true ∧
          first.scan_out.length < req.scan_amount) →
      ∃ e1, Executor.WorkloadLoop options e ((req, first, second) :: rest)
          = Executor.WorkloadLoop options e1 rest ∧
        ∀ kind, e1.tracker_.failed kind
            = e.tracker_.failed kind + (if kind = callKind req.op then 1 else 0) ∧
          e1.tracker_.meter kind = e.tracker_.meter kind) ∧
    (first.succeeded = true → req.op ≠ Operation.kReadModifyWrite →
      ¬ (req.op = Operation.kScan ∧ options.expect_scan_amount_found = true ∧
          first.scan_out.length < req.scan_amount) →
      ∃ e1, Executor.WorkloadLoop options e ((req, first, second) :: rest)
          = Executor.WorkloadLoop options e1 rest ∧
        ∀ kind, e1.tracker_.failed kind = e.tracker_.failed kind ∧
          (e1.tracker_.meter kind).request_count_
            = (e.tracker_.meter kind).request_count_
              + (if kind = callKind req.op then 1 else 0) ∧
          (kind ≠ callKind req.op → e1.tracker_.meter kind = e.tracker_.meter kind)) ∧
    (first.succeeded = true → req.op = Operation.kReadModifyWrite →
      second.succeeded = true →
      ∃ e1, Executor.WorkloadLoop options e ((req, first, second) :: rest)
          = Executor.WorkloadLoop options e1 rest ∧
        ∀ kind, e1.tracker_.failed kind = e.tracker_.failed kind ∧
          (e1.tracker_.meter kind).request_count_
            = (e.tracker_.meter kind).request_count_
              + (if kind = CallKind.read ∨ kind = CallKind.write then 1 else 0)) ∧
    (first.succeeded = true → req.op = Operation.kReadModifyWrite →
      second.succeeded = false → options.expect_request_success = false →
      ∃ e1, Executor.WorkloadLoop options e ((req, first, second) :: rest)
          = Executor.WorkloadLoop options e1 rest ∧
        ∀ kind, e1.tracker_.failed kind
            = e.tracker_.failed kind + (if kind = CallKind.write then 1 else 0) ∧
          (e1.tracker_.meter kind).request_count_
            = (e.tracker_.meter kind).request_count_
              + (if kind = CallKind.read then 1 else 0) ∧
          (kind ≠ CallKind.read → e1.tracker_.meter kind = e.tracker_.meter kind)) ∧
    (first.succeeded = true → req.op = Operation.kReadModifyWrite →
      second.succeeded = false → options.expect_request_success = true →
      ∃ msg, Executor.WorkloadLoop options e ((req, first, second) :: rest)
        = Except.error (Error.runtime_error msg)) := by
  obtain ⟨op, key, scan_amount, value_size⟩ := req
  obtain ⟨s1, vs1, vw1, so1, rt1⟩ := first
  obtain ⟨s2, vs2, vw2, so2, rt2⟩ := second
  obtain ⟨lsp, tsp, ers, esaf⟩ := options
  rw [Executor.WorkloadLoop_cons]
  refine ⟨?_, ?_, ?_, ?_, ?_, ?_, ?_⟩
  · intro h1 h2
    simp only at h1 h2
    subst h1 h2
    cases op <;> exact ⟨_, rfl⟩
  · intro h1 h2 h3 h4 h5
    simp only at h1 h2 h3 h4 h5
    subst h1 h2 h3 h4
    refine ⟨"A range scan returned too few (or too many) records.", ?_⟩
    simp only [Executor.step, Bool.not_false, Bool.and_false, Bool.false_eq_true, if_false,
      Bool.true_and, decide_eq_true_eq, h5, if_true]
    rfl
  · intro h1 h2 h3
    simp only at h1 h2 h3
    subst h1 h2
    cases op
    case kScan =>
      have h4 : (esaf && decide (so1.length < scan_amount)) = false := by
        cases hd : (esaf && decide (so1.length < scan_amount))
        · rfl
        · simp only [Bool.and_eq_true, decide_eq_true_eq] at hd
          exact absurd ⟨rfl, hd.1, hd.2⟩ h3
      have hstep : ∃ e1, Executor.step
          { latency_sample_period := lsp, throughput_sample_period := tsp,
            expect_request_success := false, expect_scan_amount_found := esaf } e
          { op := Operation.kScan, key := key, scan_amount := scan_amount,
            value_size := value_size }
          { succeeded := false, value_size := vs1, value_word := vw1, scan_out := so1,
            run_time := rt1 }
          { succeeded := s2, value_size := vs2, value_word := vw2, scan_out := so2,
            run_time := rt2 } = Except.ok e1 ∧
          ∀ kind, e1.tracker_.failed kind
              = e.tracker_.failed kind + (if kind = CallKind.scan then 1 else 0) ∧
            e1.tracker_.meter kind = e.tracker_.meter kind := by
        simp only [Executor.step, h4]
        refine ⟨_, rfl, ?_⟩
        intro kind
        cases kind <;> exact ⟨rfl, rfl⟩
      obtain ⟨e1, he1, hprops⟩ := hstep
      rw [he1]
      exact ⟨e1, rfl, hprops⟩
    all_goals
      refine ⟨_, rfl, ?_⟩
      intro kind
      cases kind <;> exact ⟨rfl, rfl⟩
  · intro h1 h2 h3
    simp only at h1 h2 h3
    subst h1
    cases op
    case kReadModifyWrite => exact absurd rfl h2
    case kScan =>
      have h4 : (esaf && decide (so1.length < scan_amount)) = false := by
        cases hd : (esaf && decide (so1.length < scan_amount))
        · rfl
        · simp only [Bool.and_eq_true, decide_eq_true_eq] at hd
          exact absurd ⟨rfl, hd.1, hd.2⟩ h3
      have hstep : ∃ e1, Executor.step
          { latency_sample_period := lsp, throughput_sample_period := tsp,
            expect_request_success := ers, expect_scan_amount_found := esaf } e
          { op := Operation.kScan, key := key, scan_amount := scan_amount,
            value_size := value_size }
          { succeeded := true, value_size := vs1, value_word := vw1, scan_out := so1,
            run_time := rt1 }
          { succeeded := s2, value_size := vs2, value_word := vw2, scan_out := so2,
            run_time := rt2 } = Except.ok e1 ∧
          ∀ kind, e1.tracker_.failed kind = e.tracker_.failed kind ∧
            (e1.tracker_.meter kind).request_count_
              = (e.tracker_.meter kind).request_count_
                + (if kind = CallKind.scan then 1 else 0) ∧
            (kind ≠ CallKind.scan → e1.tracker_.meter kind = e.tracker_.meter kind) := by
        cases hpos : decide (so1.length > 0)
        all_goals
          simp only [Executor.step, h4, hpos, Bool.and_false, Bool.and_true, Bool.false_eq_true,
            if_false, if_true]
          refine ⟨_, rfl, ?_⟩
          intro kind
          cases kind <;> refine ⟨rfl, rfl, ?_⟩ <;> intro hk <;> first | rfl | exact absurd rfl hk
      obtain ⟨e1, he1, hprops⟩ := hstep
      rw [he1]
      exact ⟨e1, rfl, hprops⟩
    all_goals
      refine ⟨_, rfl, ?_⟩
      intro kind
      cases kind <;> refine ⟨rfl, rfl, ?_⟩ <;> intro hk <;> first | rfl | exact absurd rfl hk
  · intro h1 h2 h3
    simp only at h1 h2 h3
    subst h1 h2 h3
    refine ⟨_, rfl, ?_⟩
    intro kind
    cases kind <;> exact ⟨rfl, rfl⟩
  · intro h1 h2 h3 h4
    simp only at h1 h2 h3 h4
    subst h1 h2 h3 h4
    refine ⟨_, rfl, ?_⟩
    intro kind
    cases kind <;> refine ⟨rfl, rfl, ?_⟩ <;> intro hk <;> first | rfl | exact absurd rfl hk
  · intro h1 h2 h3 h4
    simp only at h1 h2 h3 h4
    subst h1 h2 h3 h4
    exact ⟨_, rfl⟩

theorem WorkloadLoop_counts_outcome_witness :
    ∃ e1, Executor.WorkloadLoop { expect_request_success := false } {}
        [({ op := Operation.kRead, key := 5, scan_amount := 0, value_size := 0 },
            { succeeded := false }, { succeeded := false }),
          ({ op := Operation.kInsert, key := 6, scan_amount := 0, value_size := 8 },
            { succeeded := true }, { succeeded := false }),
          ({ op := Operation.kReadModifyWrite, key := 5, scan_amount := 0, value_size := 8 },
            { succeeded := true, value_size := 8 }, { succeeded := false })]
        = Except.ok e1 ∧
      e1.tracker_.failed_reads_ = 1 ∧ e1.tracker_.failed_writes_ = 1 ∧
      e1.tracker_.reads_.request_count_ = 1 ∧ e1.tracker_.writes_.request_count_ = 1 ∧
      e1.tracker_.writes_.bytes_ = 16 ∧
      ∃ e2, Executor.WorkloadLoop { expect_request_success := false } {}
          [({ op := Operation.kReadModifyWrite, key := 5, scan_amount := 0, value_size := 8 },
            { succeeded := true, value_size := 8 }, { succeeded := false })]
          = Executor.WorkloadLoop { expect_request_success := false } e2 [] ∧
        ∀ kind, e2.tracker_.failed kind
            = ({} : Executor).tracker_.failed kind + (if kind = CallKind.write then 1 else 0) ∧
          (e2.tracker_.meter kind).request_count_
            = (({} : Executor).tracker_.meter kind).request_count_
              + (if kind = CallKind.read then 1 else 0) ∧
          (kind ≠ CallKind.read → e2.tracker_.meter kind = ({} : Executor).tracker_.meter kind) :=
  ⟨_, rfl, by decide, by decide, by decide, by decide, by decide,
    (WorkloadLoop_counts_outcome { expect_request_success := false } {}
      { op := Operation.kReadModifyWrite, key := 5, scan_amount := 0, value_size := 8 }
      { succeeded := true, value_size := 8 } { succeeded := false } []).2.2.2.2.2.1
      rfl rfl rfl rfl⟩

/-- C27: with expect_scan_amount_found set (and expect_request_success set), a Scan
request for two records whose database call succeeds and returns three records does
not abort the loop: the three records are counted and the loop goes on. The check
compares only for fewer records: whenever fewer records than requested are returned
the request aborts the loop with runtime_error, and with expect_scan_amount_found
unset no Scan request whose call succeeds, or whose failure is tolerated, aborts the
loop. -/
theorem WorkloadLoop_scan_amount_check :
    (checkScans.expect_scan_amount_found = true ∧
      ([8, 8, 8] : List Nat).length ≠ scanTwo.scan_amount ∧
      ∃ e1, Executor.step checkScans {} scanTwo { succeeded := true, scan_out := [8, 8, 8] }
          { succeeded := false } = Except.ok e1 ∧
        e1.tracker_.scans_.request_count_ = 1 ∧ e1.tracker_.scans_.record_count_ = 3 ∧
        Executor.WorkloadLoop checkScans {}
          [(scanTwo, { succeeded := true, scan_out := [8, 8, 8] }, { succeeded := false })]
          = Executor.WorkloadLoop checkScans e1 []) ∧
    (∀ (options : RunOptions) (e : Executor) (req : Request) (first second : DbReply),
      req.op = Operation.kScan → options.expect_scan_amount_found = true →
      first.scan_out.length < req.scan_amount →
      ∃ msg, e.step options req first second = Except.error (Error.runtime_error msg)) ∧
    (∀ (options : RunOptions) (e : Executor) (req : Request) (first second : DbReply),
      req.op = Operation.kScan → options.expect_scan_amount_found = false →
      (first.succeeded = true ∨ options.expect_request_success = false) →
      ∃ e1, e.step options req first second = Except.ok e1) := by
  refine ⟨⟨rfl, by decide, _, rfl, by decide, by decide, rfl⟩, ?_, ?_⟩
  · intro options e req first second hop hflag hlt
    obtain ⟨op, key, scan_amount, value_size⟩ := req
    obtain ⟨lsp, tsp, ers, esaf⟩ := options
    simp only at hop hflag hlt
    subst hop hflag
    simp only [Executor.step, Bool.true_and, decide_eq_true_eq, hlt, if_true]
    split
    · exact ⟨_, rfl⟩
    · exact ⟨_, rfl⟩
  · intro options e req first second hop hflag hok
    obtain ⟨op, key, scan_amount, value_size⟩ := req
    obtain ⟨lsp, tsp, ers, esaf⟩ := options
    simp only at hop hflag hok
    subst hop hflag
    have h1 : (!first.succeeded && ers) = false := by
      rcases hok with h | h <;> simp [h]
    simp only [Executor.step, h1, Bool.false_and, Bool.false_eq_true, if_false]
    exact ⟨_, rfl⟩

/-! ## The fixed part of the phases during a run -/

theorem List.map_modify_of_fixed {α β : Type} (g : α → β) (f : α → α)
    (h : ∀ a, g (f a) = g a) : ∀ (l : List α) (n : Nat), (l.modify f n).map g = l.map g := by
  intro l
  induction l with
  | nil => intro n; cases n <;> rfl
  | cons a l ih =>
    intro n
    cases n with
    | zero => rw [List.modify_zero_cons, List.map_cons, List.map_cons, h]
    | succ n => rw [List.modify_succ_cons, List.map_cons, List.map_cons, ih n]

theorem Producer.modifyPhase_fixed (p : Producer) (f : Phase → Phase)
    (h : ∀ phase, (f phase).fixed = phase.fixed) :
    (p.modifyPhase f).fixedPhases = p.fixedPhases ∧
    (p.modifyPhase f).current_phase_ = p.current_phase_ ∧
    (p.modifyPhase f).op_dist_ = p.op_dist_ := by
  refine ⟨?_, rfl, rfl⟩
  unfold Producer.fixedPhases Producer.modifyPhase
  exact List.map_modify_of_fixed Phase.fixed f h _ _

theorem Phase.fixed_IncreaseItemCountBy (delta : Nat) (phase : Phase) :
    (phase.IncreaseItemCountBy delta).fixed = phase.fixed := rfl

theorem Phase.fixed_SetItemCount (count : Nat) (phase : Phase) :
    (phase.SetItemCount count).fixed = phase.fixed := rfl

theorem Producer.syncLoadCount_fixed (p : Producer) :
    p.syncLoadCount.fixedPhases = p.fixedPhases ∧
    p.syncLoadCount.current_phase_ = p.current_phase_ ∧
    p.syncLoadCount.op_dist_ = p.op_dist_ := by
  unfold Producer.syncLoadCount
  simp only
  split
  · exact Producer.modifyPhase_fixed p _ (Phase.fixed_IncreaseItemCountBy _)
  · exact ⟨rfl, rfl, rfl⟩

theorem Producer.ChooseKey_fixed {p q : Producer} {chooser : Phase → Option Chooser}
    {draw : Nat} {K : Key} (h : p.ChooseKey chooser draw = Except.ok (K, q)) :
    q.fixedPhases = p.fixedPhases ∧ q.current_phase_ = p.current_phase_ ∧
    q.op_dist_ = p.op_dist_ := by
  have hs := Producer.syncLoadCount_fixed p
  unfold Producer.ChooseKey at h
  simp only at h
  obtain ⟨this_phase, -, h⟩ := bind_eq_ok h
  split at h
  · cases h
  obtain ⟨pos, -, h⟩ := bind_eq_ok h
  cases pos with
  | inl i =>
    simp only at h
    obtain ⟨key, -, h⟩ := bind_eq_ok h
    cases h
    exact hs
  | inr j =>
    simp only at h
    obtain ⟨key, -, h⟩ := bind_eq_ok h
    cases h
    exact hs

theorem Producer.deleteChooseKey_fixed {p q : Producer} {chooser : Phase → Option Chooser}
    {draw : Nat} {K : Key} (h : p.deleteChooseKey chooser draw = Except.ok (K, q)) :
    q.fixedPhases = p.fixedPhases ∧ q.current_phase_ = p.current_phase_ ∧
    q.op_dist_ = p.op_dist_ := by
  have hs := Producer.syncLoadCount_fixed p
  unfold Producer.deleteChooseKey at h
  simp only at h
  obtain ⟨this_phase, -, h⟩ := bind_eq_ok h
  split at h
  · cases h
  obtain ⟨pos, -, h⟩ := bind_eq_ok h
  cases pos with
  | inl i =>
    simp only at h
    obtain ⟨key, -, h⟩ := bind_eq_ok h
    cases h
    exact hs
  | inr j =>
    simp only at h
    obtain ⟨key, -, h⟩ := bind_eq_ok h
    cases h
    obtain ⟨h1, h2, h3⟩ := Producer.modifyPhase_fixed
      { p.syncLoadCount with
        delete_map_insert_ := p.syncLoadCount.delete_map_insert_.emplace
          (j + p.syncLoadCount.num_load_keys_) (p.syncLoadCount.map_size_insert + 1)
        map_size_insert := p.syncLoadCount.map_size_insert + 1 }
      (Phase.IncreaseItemCountBy · (U64 - 1)) (Phase.fixed_IncreaseItemCountBy _)
    exact ⟨h1.trans hs.1, h2.trans hs.2.1, h3.trans hs.2.2⟩

theorem Producer.fixedPhases_modify (phases : List Phase) (f : Phase → Phase) (n : Nat)
    (h : ∀ phase, (f phase).fixed = phase.fixed) :
    (phases.modify f n).map Phase.fixed = phases.map Phase.fixed :=
  List.map_modify_of_fixed Phase.fixed f h phases n

theorem Producer.doInsert_fixed {debug : Bool} {p q : Producer} {r : Request}
    (h : p.doInsert debug = Except.ok (r, q)) :
    q.fixedPhases = p.fixedPhases ∧ q.current_phase_ = p.current_phase_ ∧
    ∃ this_phase, p.phases_[p.current_phase_]? = some this_phase ∧
      (q.op_dist_ = p.op_dist_ ∨ q.op_dist_ = (0, this_phase.delete_thres - 1)) ∧
      ((this_phase.num_inserts_left + (U64 - 1)) % U64 = 0 → 0 < this_phase.delete_thres →
        q.op_dist_ = (0, this_phase.delete_thres - 1)) := by
  unfold Producer.doInsert at h
  obtain ⟨this_phase, hphase, h⟩ := bind_eq_ok h
  obtain ⟨key, -, h⟩ := bind_eq_ok h
  have hfix : ∀ (x : Nat) (n : Nat),
      ((p.phases_.modify (fun phase => { phase with num_inserts_left := x }) n).modify
        (Phase.IncreaseItemCountBy · 1) n).map Phase.fixed = p.phases_.map Phase.fixed := by
    intro x n
    rw [Producer.fixedPhases_modify _ (Phase.IncreaseItemCountBy · 1) n
        (Phase.fixed_IncreaseItemCountBy 1),
      Producer.fixedPhases_modify _ (fun phase => { phase with num_inserts_left := x }) n
        (fun _ => rfl)]
  simp only at h
  refine ⟨?_, ?_, this_phase, elemAt_eq_ok hphase, ?_⟩
  · split at h
    · split at h
      · cases h; exact hfix _ _
      · split at h
        · cases h
        · cases h; exact hfix _ _
    · cases h; exact hfix _ _
  · split at h
    · split at h
      · cases h; rfl
      · split at h
        · cases h
        · cases h; rfl
    · cases h; rfl
  · split at h
    · rename_i hzero
      split at h
      · rename_i hpos
        cases h
        exact ⟨Or.inr rfl, fun _ _ => rfl⟩
      · rename_i hpos
        split at h
        · cases h
        · cases h
          exact ⟨Or.inl rfl, fun _ hp => absurd hp hpos⟩
    · rename_i hzero
      cases h
      exact ⟨Or.inl rfl, fun hz _ => absurd hz hzero⟩

theorem Producer.advance_fixed {p q : Producer} (h : p.advance = Except.ok q) :
    q.fixedPhases = p.fixedPhases ∧
    ((q.current_phase_ = p.current_phase_ ∧ q.op_dist_ = p.op_dist_) ∨
      (q.current_phase_ = p.current_phase_ + 1 ∧ q.op_dist_ = (0, 99))) := by
  unfold Producer.advance at h
  obtain ⟨this_phase, -, h⟩ := bind_eq_ok h
  have h1 : ∀ (x n : Nat), (p.phases_.modify
      (fun phase => { phase with num_requests_left := x }) n).map Phase.fixed
      = p.phases_.map Phase.fixed :=
    fun x n => Producer.fixedPhases_modify _
      (fun phase => { phase with num_requests_left := x }) n (fun _ => rfl)
  simp only at h
  split at h
  · cases h
    split
    · refine ⟨?_, Or.inr ⟨rfl, rfl⟩⟩
      exact (Producer.fixedPhases_modify _ (Phase.SetItemCount ·
          ((p.num_load_keys_ + p.insert_keys_.length + (U64 - p.map_size_ % U64)
            + (U64 - p.map_size_insert % U64)) % U64)) (p.current_phase_ + 1)
        (Phase.fixed_SetItemCount _)).trans (h1 _ _)
    · exact ⟨h1 _ _, Or.inr ⟨rfl, rfl⟩⟩
  · cases h
    exact ⟨h1 _ _, Or.inl ⟨rfl, rfl⟩⟩

theorem Producer.dispatch_fixed {debug : Bool} {p q : Producer} {next_op : Operation}
    {draw scan_draw : Nat} {r : Request} {chosen : Option Key}
    (h : p.dispatch debug next_op draw scan_draw = Except.ok (r, chosen, q)) :
    q.fixedPhases = p.fixedPhases ∧ q.current_phase_ = p.current_phase_ ∧ r.op = next_op ∧
    (next_op ≠ Operation.kInsert → q.op_dist_ = p.op_dist_) ∧
    (next_op = Operation.kScan → r.scan_amount = (scan_draw + 1) % U64 ∧
      ∃ phase, q.phases_[q.current_phase_]? = some phase ∧
        phase.scan_length_chooser.isNone = false) := by
  unfold Producer.dispatch at h
  cases next_op with
  | kRead =>
    obtain ⟨⟨key, p1⟩, hck, h⟩ := bind_eq_ok h
    obtain ⟨h1, h2, h3⟩ := Producer.ChooseKey_fixed hck
    cases h
    exact ⟨h1, h2, rfl, fun _ => h3, fun hc => by cases hc⟩
  | kReadModifyWrite =>
    obtain ⟨⟨key, p1⟩, hck, h⟩ := bind_eq_ok h
    obtain ⟨h1, h2, h3⟩ := Producer.ChooseKey_fixed hck
    cases h
    exact ⟨h1, h2, rfl, fun _ => h3, fun hc => by cases hc⟩
  | kNegativeRead =>
    obtain ⟨⟨key, p1⟩, hck, h⟩ := bind_eq_ok h
    obtain ⟨h1, h2, h3⟩ := Producer.ChooseKey_fixed hck
    cases h
    exact ⟨h1, h2, rfl, fun _ => h3, fun hc => by cases hc⟩
  | kScan =>
    obtain ⟨⟨key, p1⟩, hck, h⟩ := bind_eq_ok h
    obtain ⟨h1, h2, h3⟩ := Producer.ChooseKey_fixed hck
    obtain ⟨this_phase, hphase, h⟩ := bind_eq_ok h
    split at h
    · cases h
    · rename_i hsome
      cases h
      exact ⟨h1, h2, rfl, fun _ => h3,
        fun _ => ⟨rfl, this_phase, elemAt_eq_ok hphase, Bool.eq_false_iff.mpr hsome⟩⟩
  | kUpdate =>
    obtain ⟨⟨key, p1⟩, hck, h⟩ := bind_eq_ok h
    obtain ⟨h1, h2, h3⟩ := Producer.ChooseKey_fixed hck
    cases h
    exact ⟨h1, h2, rfl, fun _ => h3, fun hc => by cases hc⟩
  | kDelete =>
    obtain ⟨⟨key, p1⟩, hck, h⟩ := bind_eq_ok h
    obtain ⟨h1, h2, h3⟩ := Producer.deleteChooseKey_fixed hck
    cases h
    exact ⟨h1, h2, rfl, fun _ => h3, fun hc => by cases hc⟩
  | kInsert =>
    obtain ⟨⟨to_return, p1⟩, hins, h⟩ := bind_eq_ok h
    obtain ⟨h1, h2, -⟩ := Producer.doInsert_fixed hins
    have hop := (Producer.doInsert_spec hins).2
    cases h
    exact ⟨h1, h2, hop, fun hc => absurd rfl hc, fun hc => by cases hc⟩

theorem fixedPhases_getElem? {p q : Producer} (h : q.fixedPhases = p.fixedPhases) {n : Nat}
    {phase : Phase} (hq : q.phases_[n]? = some phase) :
    ∃ phase0, p.phases_[n]? = some phase0 ∧ phase0.fixed = phase.fixed := by
  have h1 := congrArg (fun l => l[n]?) h
  simp only [Producer.fixedPhases, List.getElem?_map, hq, Option.map_some'] at h1
  cases h2 : p.phases_[n]? with
  | none => rw [h2] at h1; cases h1
  | some phase0 =>
    rw [h2] at h1
    simp only [Option.map_some', Option.some.injEq] at h1
    exact ⟨phase0, rfl, h1.symm⟩

/-- What one call of `Next` leaves fixed: the fixed parts of the phases; the current
phase stays or moves to the next one, and then the operation draw is reset to
`[0, 99]`; a Scan request has the amount `scan_draw + 1` in `size_t` arithmetic and
the current phase has a scan-length chooser. -/
theorem Producer.NextTraced_fixed {debug : Bool} {p q : Producer}
    {choice draw scan_draw : Nat} {r : Request} {chosen : Option Key}
    (h : p.NextTraced debug choice draw scan_draw = Except.ok (r, chosen, q)) :
    q.fixedPhases = p.fixedPhases ∧
    (q.current_phase_ = p.current_phase_ ∨
      (q.current_phase_ = p.current_phase_ + 1 ∧ q.op_dist_ = (0, 99))) ∧
    (r.op = Operation.kScan → r.scan_amount = (scan_draw + 1) % U64 ∧
      ∃ phase, p.phases_[p.current_phase_]? = some phase ∧
        phase.scan_length_chooser.isNone = false) := by
  unfold Producer.NextTraced at h
  split at h
  · cases h
  obtain ⟨this_phase, -, h⟩ := bind_eq_ok h
  obtain ⟨next_op, -, h⟩ := bind_eq_ok h
  obtain ⟨⟨to_return, ch, p1⟩, hd, h⟩ := bind_eq_ok h
  obtain ⟨p2, hadv, h⟩ := bind_eq_ok h
  cases h
  obtain ⟨h1, h2, h3, -, h5⟩ := Producer.dispatch_fixed hd
  obtain ⟨a1, a2⟩ := Producer.advance_fixed hadv
  refine ⟨a1.trans h1, ?_, ?_⟩
  · rcases a2 with ⟨a2, -⟩ | ⟨a2, a3⟩
    · exact Or.inl (a2.trans h2)
    · exact Or.inr ⟨by rw [a2, h2], a3⟩
  · intro hop
    rw [h3] at hop
    obtain ⟨hamount, phase, hphase, hsome⟩ := h5 hop
    rw [h2] at hphase
    obtain ⟨phase0, hp0, hfix⟩ := fixedPhases_getElem? h1 hphase
    refine ⟨hamount, phase0, hp0, ?_⟩
    have : phase0.fixed.scan_length_chooser = phase.fixed.scan_length_chooser :=
      congrArg Phase.scan_length_chooser hfix
    have : phase0.scan_length_chooser = phase.scan_length_chooser := this
    rw [this]
    exact hsome

theorem Producer.run_state {debug : Bool} (P : Producer → Prop)
    (hstep : ∀ (p q : Producer) (choice draw scan_draw : Nat) (r : Request)
      (chosen : Option Key), P p →
      p.NextTraced debug choice draw scan_draw = Except.ok (r, chosen, q) → P q) :
    ∀ (draws : List (Nat × Nat × Nat)) (p : Producer), P p →
      P (Producer.run debug p draws).2 := by
  intro draws
  induction draws with
  | nil => intro p hp; exact hp
  | cons d ds ih =>
    intro p hp
    obtain ⟨choice, draw, scan_draw⟩ := d
    unfold Producer.run
    split
    · split
      · rename_i to_return chosen p1 hnext
        exact ih p1 (hstep p p1 choice draw scan_draw to_return chosen hp hnext)
      · exact hp
    · exact hp

theorem Producer.run_fixed {debug : Bool} (draws : List (Nat × Nat × Nat)) (p : Producer) :
    (Producer.run debug p draws).2.fixedPhases = p.fixedPhases :=
  Producer.run_state (fun q => q.fixedPhases = p.fixedPhases)
    (fun _ _ _ _ _ _ _ hp hnext => (Producer.NextTraced_fixed hnext).1.trans hp) draws p rfl

theorem setItemCounts_fixed :
    ∀ (phases : List Phase) (count : Nat),
      (setItemCounts phases count).map Phase.fixed = phases.map Phase.fixed := by
  intro phases
  induction phases with
  | nil => intro count; rfl
  | cons phase rest ih =>
    intro count
    unfold setItemCounts
    rw [List.map_cons, List.map_cons, ih]
    rfl

theorem Producer.Prepare_fixed {p q : Producer} {keygen : Nat → Nat → Key}
    (hphases : p.phases_ = []) (h : p.Prepare keygen = Except.ok q) :
    ∀ (f : Nat) (phase : Phase), q.phases_[f]? = some phase →
      ∃ phase0, GetPhase p.config_.run f p.id_ p.num_producers_ = Except.ok phase0 ∧
        phase0.fixed = phase.fixed := by
  unfold Producer.Prepare at h
  obtain ⟨num_phases, -, h⟩ := bind_eq_ok h
  obtain ⟨phases, hload, h⟩ := bind_eq_ok h
  obtain ⟨insert_keys, -, h⟩ := bind_eq_ok h
  cases h
  obtain ⟨-, hids⟩ := loadPhases_spec _ _ hload
  intro f phase hf
  simp only [hphases, List.nil_append] at hf
  have h1 := congrArg (fun l => l[f]?) (setItemCounts_fixed phases p.load_keys_.length)
  simp only [List.getElem?_map, hf, Option.map_some'] at h1
  cases h2 : phases[f]? with
  | none => rw [h2] at h1; cases h1
  | some phase0 =>
    rw [h2] at h1
    simp only [Option.map_some', Option.some.injEq] at h1
    obtain ⟨phase_id, hrange, -, hget⟩ := hids f phase0 h2
    rw [List.getElem?_eq_some_iff] at hrange
    obtain ⟨hlt, hval⟩ := hrange
    simp only [List.getElem_range] at hval
    subst hval
    exact ⟨phase0, hget, h1.symm⟩

theorem loadScan_scan {op : Option OpConfig} {k t msl : Nat} {c c2 : Option Chooser}
    (h : loadScan op k = Except.ok (t, msl, c, c2)) :
    (op = none → c2 = none) ∧
    (∀ cfg, op = some cfg → ∃ m, cfg.max_length = some m ∧ 1 ≤ m ∧ m < U64 ∧ msl = m ∧
      c2 = some { kind := ChooserKind.uniform, item_count := (m + 1) % U64 }) := by
  unfold loadScan at h
  cases op with
  | none =>
    cases h
    exact ⟨fun _ => rfl, fun cfg hc => by cases hc⟩
  | some cfg =>
    obtain ⟨a, -, h⟩ := bind_eq_ok h
    obtain ⟨b, hb, h⟩ := bind_eq_ok h
    obtain ⟨b2, hb2, h⟩ := bind_eq_ok h
    split at h
    · cases h
    · rename_i hne
      obtain ⟨b3, -, h⟩ := bind_eq_ok h
      cases h
      obtain ⟨hb2eq, hlt⟩ := asSizeT_eq_ok hb2
      refine ⟨(fun hc => by cases hc), ?_⟩
      intro cfg2 hcfg
      cases hcfg
      refine ⟨b, required_eq_ok hb, by omega, hlt, hb2eq, ?_⟩
      rw [hb2eq]

theorem GetPhase_scan {run : List PhaseConfig} {phase_id producer_id num_producers : Nat}
    {phase : Phase} (h : GetPhase run phase_id producer_id num_producers = Except.ok phase) :
    ∃ cfg, run[phase_id]? = some cfg ∧
      (cfg.scan = none → phase.scan_length_chooser = none) ∧
      (∀ c, cfg.scan = some c → ∃ m, c.max_length = some m ∧ 1 ≤ m ∧ m < U64 ∧
        phase.max_scan_length = m ∧
        phase.scan_length_chooser
          = some { kind := ChooserKind.uniform, item_count := (m + 1) % U64 }) := by
  unfold GetPhase at h
  obtain ⟨cfg, hcfg, h⟩ := bind_eq_ok h
  obtain ⟨T, hT, h⟩ := bind_eq_ok h
  split at h
  · cases h
  obtain ⟨⟨r, rc⟩, hr, h⟩ := bind_eq_ok h
  obtain ⟨⟨m, mc⟩, hm, h⟩ := bind_eq_ok h
  obtain ⟨⟨n, nc⟩, hn, h⟩ := bind_eq_ok h
  obtain ⟨⟨s, msl, sc, slc⟩, hs, h⟩ := bind_eq_ok h
  obtain ⟨⟨u, uc⟩, hu, h⟩ := bind_eq_ok h
  obtain ⟨⟨d, dc⟩, hd, h⟩ := bind_eq_ok h
  obtain ⟨ins, hins, h⟩ := bind_eq_ok h
  split at h
  · cases h
  cases h
  obtain ⟨h1, h2⟩ := loadScan_scan hs
  exact ⟨cfg, required_eq_ok hcfg, h1, h2⟩

/-! ## Scan amounts -/

/-- C21: for a workload whose scan has max_length 2^64 - 1, GetPhase returns a phase
whose scan-length chooser has the item count 0 (max_length + 1 wraps; a build with
assertions stops in the constructor of the chooser), and a Scan request whose
scan-length draw is 2^64 - 1, which lies in [0, max_length], has the scan amount 0.
For every other phase the claim holds: a Scan request is only produced in a phase
whose configuration has a scan with max_length m >= 1, its amount is the draw plus 1,
which lies in [1, m + 1] when the draw lies in [0, m] and m < 2^64 - 1, and is 1 or 2
when m = 1; and the scan block of GetPhase rejects max_length = 0 with
invalid_argument. -/
theorem Next_scan_amount :
    (∃ p, exampleProducer longestScanWorkload = Except.ok p ∧
      p.phases_.map Phase.max_scan_length = [2 ^ 64 - 1] ∧
      p.phases_.map Phase.scan_length_chooser
        = [some { kind := ChooserKind.uniform, item_count := 0 }] ∧
      ∃ q, p.Next false 0 0 (2 ^ 64 - 1) =
        Except.ok ({ op := Operation.kScan, key := tagKey 0 0 5, scan_amount := 0,
                     value_size := 0 }, q)) ∧
    (∀ (config : WorkloadConfig) (load_keys : List Key)
      (custom_inserts : Option (List (String × List Key))) (id num_producers : Nat)
      (keygen : Nat → Nat → Key) (p0 q0 : Producer) (debug : Bool)
      (draws : List (Nat × Nat × Nat)) (choice draw scan_draw : Nat) (r : Request)
      (chosen : Option Key) (q : Producer),
      Producer.create config load_keys custom_inserts id num_producers = Except.ok p0 →
      p0.Prepare keygen = Except.ok q0 →
      (Producer.run debug q0 draws).2.NextTraced debug choice draw scan_draw
        = Except.ok (r, chosen, q) →
      r.op = Operation.kScan →
      ∃ cfg c m, config.run[(Producer.run debug q0 draws).2.current_phase_]? = some cfg ∧
        cfg.scan = some c ∧ c.max_length = some m ∧ 1 ≤ m ∧
        r.scan_amount = (scan_draw + 1) % U64 ∧
        (m < 2 ^ 64 - 1 → scan_draw ≤ m → 1 ≤ r.scan_amount ∧ r.scan_amount ≤ m + 1) ∧
        (m = 1 → scan_draw ≤ 1 → r.scan_amount = 1 ∨ r.scan_amount = 2)) ∧
    (∀ (c : OpConfig) (k : Nat), c.proportion_pct < U32 → c.max_length = some 0 →
      loadScan (some c) k
        = Except.error (Error.invalid_argument "The maximum scan length must be at least 1.")) := by
  refine ⟨⟨_, rfl, by decide, by decide, _, rfl⟩, ?_, ?_⟩
  · intro config load_keys custom_inserts id num_producers keygen p0 q0 debug draws choice
      draw scan_draw r chosen q hcreate hprep hnext hop
    obtain ⟨-, -, hconfig, -, hph, -, -, -⟩ := Producer.create_fields hcreate
    obtain ⟨-, -, hscan⟩ := Producer.NextTraced_fixed hnext
    obtain ⟨hamount, phase, hphase, hsome⟩ := hscan hop
    have hfix : (Producer.run debug q0 draws).2.fixedPhases = q0.fixedPhases :=
      Producer.run_fixed draws q0
    obtain ⟨phase1, hphase1, hfix1⟩ := fixedPhases_getElem? hfix hphase
    obtain ⟨phase0, hget, hfix0⟩ := Producer.Prepare_fixed hph hprep _ phase1 hphase1
    rw [hconfig] at hget
    obtain ⟨cfg, hcfg, hnone, hsc⟩ := GetPhase_scan hget
    have hch : phase0.scan_length_chooser = phase.scan_length_chooser := by
      have h1 : phase0.fixed.scan_length_chooser = phase1.fixed.scan_length_chooser :=
        congrArg Phase.scan_length_chooser hfix0
      have h2 : phase1.fixed.scan_length_chooser = phase.fixed.scan_length_chooser :=
        congrArg Phase.scan_length_chooser hfix1
      exact h1.trans h2
    cases hs : cfg.scan with
    | none =>
      have := hnone hs
      rw [hch] at this
      rw [this] at hsome
      cases hsome
    | some c =>
      obtain ⟨m, hm, hm1, hmlt, -, -⟩ := hsc c hs
      refine ⟨cfg, c, m, hcfg, hs, hm, hm1, hamount, ?_, ?_⟩
      · intro hlt hdraw
        rw [hamount]
        unfold U64
        omega
      · intro h1 hdraw
        rw [hamount]
        unfold U64
        omega
  · intro c k hpct hzero
    unfold loadScan
    simp only [asU32, hpct, if_true, hzero, required, asSizeT, bind, Except.bind, pure,
      Except.pure]
    rfl

/-! ## Runs that leave the documented behaviour -/

set_option maxRecDepth 100000 in
/-- C29: over five load keys, after the Delete requests with the chooser draws 3 and
0 the load-deletion map records the positions 3 and 0, three load keys are live (the
keys 11, 12 and 14 at the positions 1, 2 and 4), and ChooseKey with the drawn index
0, which is below 3, returns the key 12 at position 2, not the key 11 that is the 0-th
live key in ascending position. -/
theorem ChooseKey_not_ith_live_key :
    ∃ p p2 q key, fiveKeyProducer = Except.ok p ∧
      Producer.run true p [(60, 3, 0), (60, 0, 0)] =
        ([(deleteRequest (tagKey 0 0 13), some (tagKey 0 0 13)),
          (deleteRequest (tagKey 0 0 10), some (tagKey 0 0 10))], p2) ∧
      p2.delete_map_ = [(0, 2), (3, 1)] ∧ p2.numLoad = 3 ∧
      p2.liveLoadKeys = [tagKey 0 0 11, tagKey 0 0 12, tagKey 0 0 14] ∧
      p2.ChooseKey Phase.read_chooser 0 = Except.ok (key, q) ∧ key = tagKey 0 0 12 ∧
      p2.liveLoadKeys[0]? = some (tagKey 0 0 11) :=
  ⟨_, _, _, _, rfl, rfl, by decide, by decide, by decide, rfl, by decide, by decide⟩

set_option maxRecDepth 100000 in
/-- C39: over five load keys, after the Delete requests with the chooser draws 4 and
3, the third Delete request draws 2, which is below the item count 3 of the delete
chooser and below the live load-key count 3, and the deletion-skipping loop ends at
the index 5 = |load_keys_|: the read of load_keys_ is past the end of the vector. -/
theorem deleteChooseKey_index_past_end :
    ∃ p p2 phase, fiveKeyProducer = Except.ok p ∧ p.load_keys_.length = 5 ∧
      (Producer.run true p [(60, 4, 0), (60, 3, 0)]).2 = p2 ∧
      (Producer.run true p [(60, 4, 0), (60, 3, 0)]).1.length = 2 ∧
      p2.syncLoadCount.phases_[p2.current_phase_]? = some phase ∧
      phase.delete_chooser = some { kind := ChooserKind.uniform, item_count := 3 } ∧
      p2.syncLoadCount.numLoad = 3 ∧
      p2.syncLoadCount.locate 2 = Except.ok (Sum.inl 5) ∧
      p2.deleteChooseKey Phase.delete_chooser 2 = Except.error Error.out_of_bounds ∧
      p2.Next false 60 2 0 = Except.error Error.out_of_bounds :=
  ⟨_, _, _, rfl, by decide, rfl, by decide, rfl, by decide, by decide, rfl, rfl, rfl⟩

set_option maxRecDepth 100000 in
/-- C30: in the workload whose first phase has four requests, 50% read-modify-writes
and 50% inserts (not insert-only, num_inserts = 2, delete_thres = 0), the operation
draws 90, 90 and 90 make a release build take the Insert branch three times in that
phase: after the second call num_inserts_left is 0 and op_dist_ is still [0, 99], and
the third call is an Insert again (a debug build stops at the second call on the
assertion num_requests_left == 1). What holds for every phase: a draw within an
op_dist_ clamped to [0, delete_thres - 1] with delete_thres > 0 never selects Insert,
and every call that ends a phase leaves op_dist_ at [0, 99]. -/
theorem Next_inserts_after_none_left :
    (∃ p p1 p2 p3, exampleProducer rmwInsertWorkload = Except.ok p ∧
      p.phases_.map Phase.num_inserts = [2, 1] ∧
      p.phases_.map Phase.delete_thres = [0, 0] ∧
      p.phases_.map Phase.rmw_thres = [50, 0] ∧
      p.Next false 90 0 0 =
        Except.ok ({ op := Operation.kInsert, key := tagKey 1 1 1000, scan_amount := 0,
                     value_size := 8 }, p1) ∧
      p1.Next false 90 0 0 =
        Except.ok ({ op := Operation.kInsert, key := tagKey 1 1 1001, scan_amount := 0,
                     value_size := 8 }, p2) ∧
      p2.current_phase_ = 0 ∧ p2.phases_.map Phase.num_inserts_left = [0, 1] ∧
      p2.phases_.map Phase.num_requests_left = [2, 1] ∧ p2.op_dist_ = (0, 99) ∧
      p2.Next false 90 0 0 =
        Except.ok ({ op := Operation.kInsert, key := tagKey 2 1 1000, scan_amount := 0,
                     value_size := 8 }, p3) ∧
      p3.current_phase_ = 0 ∧ p3.phases_.map Phase.num_inserts_left = [2 ^ 64 - 1, 1] ∧
      p1.Next true 90 0 0 = Except.error Error.assertion_failed) ∧
    (∀ (phase : Phase) (choice : Nat), 0 < phase.delete_thres →
      choice ≤ phase.delete_thres - 1 → selectOperation phase choice ≠ Operation.kInsert) ∧
    (∀ (debug : Bool) (p q : Producer) (choice draw scan_draw : Nat) (r : Request)
      (chosen : Option Key),
      p.NextTraced debug choice draw scan_draw = Except.ok (r, chosen, q) →
      q.current_phase_ ≠ p.current_phase_ → q.op_dist_ = (0, 99)) := by
  refine ⟨⟨_, _, _, _, rfl, by decide, by decide, by decide, rfl, rfl, by decide, by decide,
    by decide, by decide, rfl, by decide, by decide, rfl⟩, ?_, ?_⟩
  · intro phase choice hpos hle
    have hlt : choice < phase.delete_thres := by omega
    unfold selectOperation
    repeat' split
    all_goals (intro h; cases h)
  · intro debug p q choice draw scan_draw r chosen h hne
    obtain ⟨-, h2, -⟩ := Producer.NextTraced_fixed h
    rcases h2 with h2 | ⟨-, h2⟩
    · exact absurd h2 hne
    · exact h2

set_option maxRecDepth 100000 in
/-- C40: for the phase with 50% reads, 30% updates and 20% deletes, whose percentages
sum to 100 and whose num_inserts is 0, the operation draw 85 makes Next take the
Insert branch with num_inserts_left = 0: a debug build stops on the assertion of the
final else; a release build reads insert_keys_ at the index 0 of an empty vector, and,
when a later phase has an insert key, emits that key and wraps num_inserts_left to
2^64 - 1. -/
theorem Next_insert_branch_without_inserts :
    (∃ p, exampleProducer mixedDeleteWorkload = Except.ok p ∧
      p.phases_.map Phase.num_inserts_left = [0] ∧ p.insert_keys_ = [] ∧
      p.next_insert_key_index_ = 0 ∧
      p.Next true 85 0 0 = Except.error Error.assertion_failed ∧
      p.Next false 85 0 0 = Except.error Error.out_of_bounds) ∧
    (∃ p q, exampleProducer mixedDeleteThenInsertWorkload = Except.ok p ∧
      p.phases_.map Phase.num_inserts_left = [0, 1] ∧
      p.Next true 85 0 0 = Except.error Error.assertion_failed ∧
      p.Next false 85 0 0 =
        Except.ok ({ op := Operation.kInsert, key := tagKey 2 1 1000, scan_amount := 0,
                     value_size := 8 }, q) ∧
      q.current_phase_ = 0 ∧ q.phases_.map Phase.num_inserts_left = [2 ^ 64 - 1, 1]) :=
  ⟨⟨_, rfl, by decide, by decide, by decide, rfl, rfl⟩,
    ⟨_, _, rfl, by decide, rfl, rfl, by decide, by decide⟩⟩

set_option maxRecDepth 100000 in
/-- C38: for the producer 1 of 2 of the workload whose phases have 1 and 2 requests,
GetPhase assigns 0 requests in the first phase and 1 in the second (sum 1), HasNext
is false right after Prepare, and no Next call is made while HasNext is true, whatever
the draws: 0 calls, not 1. -/
theorem HasNext_false_at_empty_phase :
    ∃ p, pairedProducer readThenInsertWorkload 1 = Except.ok p ∧
      p.phases_.map Phase.num_requests = [0, 1] ∧
      (p.phases_.map Phase.num_requests).sum = 1 ∧
      p.current_phase_ = 0 ∧ p.HasNext = false ∧
      ∀ (debug : Bool) (draws : List (Nat × Nat × Nat)),
        (Producer.run debug p draws).1.length = 0 := by
  refine ⟨_, rfl, by decide, by decide, by decide, by decide, ?_⟩
  intro debug draws
  cases draws with
  | nil => rfl
  | cons d draws =>
    obtain ⟨choice, draw, scan_draw⟩ := d
    rfl

set_option maxRecDepth 100000 in
/-- C31: two producers of one workload over five load keys share the load-deletion
map. After producer 0 has deleted two load keys, the live load-key count has dropped
by k = 2 since the last observation of producer 1 (5 then, 3 now); the next ChooseKey
of producer 1 brings the item count of its uniform delete chooser from 5 to 3 and
that of its Zipfian read chooser from 5 to 4, a reduction by 1 and not by k. -/
theorem ChooseKey_zipfian_reduces_by_one :
    ∃ p0 p1 q0 q1 key, pairedProducer zipfianReadDeleteWorkload 0 = Except.ok p0 ∧
      pairedProducer zipfianReadDeleteWorkload 1 = Except.ok p1 ∧
      (Producer.run true p0 [(60, 0, 0), (60, 0, 0)]).2 = q0 ∧
      (Producer.run true p0 [(60, 0, 0), (60, 0, 0)]).1.length = 2 ∧
      p1.num_load_previous = 5 ∧ (p1.attach q0.detach).numLoad = 3 ∧
      p1.itemCounts = some (some 5, some 5) ∧
      (p1.attach q0.detach).ChooseKey Phase.read_chooser 0 = Except.ok (key, q1) ∧
      q1.num_load_previous = 3 ∧
      q1.itemCounts = some (some 4, some 3) :=
  ⟨_, _, _, _, _, rfl, rfl, rfl, by decide, by decide, by decide, by decide, rfl, by decide,
    by decide⟩

/-! ## The counters of the deletion maps -/

theorem IndexMap.emplace_length {m : IndexMap} {k v : Nat}
    (h : (m.find k).isSome = false) : (m.emplace k v).length = m.length + 1 := by
  induction m with
  | nil => rfl
  | cons a m ih =>
    have ha : a.1 ≠ k := by
      intro hk
      have : (IndexMap.find (a :: m) k).isSome = true :=
        (IndexMap.find_isSome_iff _ _).mpr ⟨a, List.mem_cons_self _ _, hk⟩
      rw [h] at this
      cases this
    have hm : (IndexMap.find m k).isSome = false := by
      cases hf : (IndexMap.find m k).isSome with
      | false => rfl
      | true =>
        obtain ⟨e, he, hk⟩ := (IndexMap.find_isSome_iff _ _).mp hf
        have : (IndexMap.find (a :: m) k).isSome = true :=
          (IndexMap.find_isSome_iff _ _).mpr ⟨e, List.mem_cons_of_mem _ he, hk⟩
        rw [h] at this
        cases this
    unfold IndexMap.emplace
    split
    · rfl
    · split
      · rename_i hk
        exact absurd hk.symm ha
      · rw [List.length_cons, ih hm, List.length_cons]

theorem IndexMap.sorted_length_le {m : IndexMap} {L : Nat} (hs : m.Sorted)
    (hb : ∀ e, e ∈ m → e.1 < L) : m.length ≤ L := by
  have hnd : (m.map Prod.fst).Nodup := by
    unfold IndexMap.Sorted at hs
    unfold List.Nodup
    rw [List.pairwise_map]
    exact hs.imp (fun h => Nat.ne_of_lt h)
  have hsub : (m.map Prod.fst).toFinset ⊆ Finset.range L := by
    intro x hx
    rw [List.mem_toFinset, List.mem_map] at hx
    obtain ⟨e, he, rfl⟩ := hx
    exact Finset.mem_range.mpr (hb e he)
  have hcard := Finset.card_le_card hsub
  rw [List.toFinset_card_of_nodup hnd, List.length_map, Finset.card_range] at hcard
  exact hcard

theorem Producer.countsOk_mapsOk {p : Producer} (h : p.CountsOk) : p.MapsOk := by
  obtain ⟨h1, h2, h3, h4, h5, h6, -, -⟩ := h
  refine ⟨h1, h2, h3, h4, ?_, ?_⟩
  · intro hne
    rw [h5]
    exact List.length_pos.mpr hne
  · intro hne
    rw [h6]
    exact List.length_pos.mpr hne

theorem Producer.sameKeySpace_countsOk {p q : Producer} (h : p.SameKeySpace q)
    (hp : p.CountsOk) : q.CountsOk := by
  obtain ⟨s1, s2, s3, s4, s5, s6, s7⟩ := h
  unfold Producer.CountsOk
  rw [s1, s3, s4, s5, s6, s7]
  exact hp

theorem Producer.countsOk_numLoad {p : Producer} (h : p.CountsOk)
    (hlen : p.load_keys_.length < U64) :
    p.delete_map_.length ≤ p.load_keys_.length ∧
    p.numLoad = p.load_keys_.length - p.delete_map_.length := by
  obtain ⟨h1, -, -, -, h5, -, h7, h8⟩ := h
  have hle := IndexMap.sorted_length_le h1 h7
  refine ⟨hle, ?_⟩
  unfold Producer.numLoad
  rw [h5, h8]
  unfold U64 at hlen ⊢
  omega

/-- What a returning call of `deleteChooseKey` does to the deletion maps. -/
theorem Producer.deleteChooseKey_counts {p q : Producer} {chooser : Phase → Option Chooser}
    {draw : Nat} {K : Key} (hp : p.CountsOk)
    (h : p.deleteChooseKey chooser draw = Except.ok (K, q)) :
    q.CountsOk ∧ q.load_keys_ = p.load_keys_ ∧
    ((∃ index v, p.load_keys_[index]? = some K ∧ (p.delete_map_.find index).isSome = false ∧
        (∀ e, e ∈ q.delete_map_ ↔ e ∈ p.delete_map_ ∨ e = (index, v)) ∧
        q.delete_map_.length = p.delete_map_.length + 1 ∧
        q.delete_map_insert_ = p.delete_map_insert_) ∨
      (∃ index v, p.insert_keys_[index]? = some K ∧
        (p.delete_map_insert_.find (index + p.num_load_keys_)).isSome = false ∧
        (∀ e, e ∈ q.delete_map_insert_ ↔
          e ∈ p.delete_map_insert_ ∨ e = (index + p.num_load_keys_, v)) ∧
        q.delete_map_insert_.length = p.delete_map_insert_.length + 1 ∧
        q.delete_map_ = p.delete_map_)) := by
  have hs := Producer.syncLoadCount_sameKeySpace p
  have hp1 := Producer.sameKeySpace_countsOk hs hp
  unfold Producer.deleteChooseKey at h
  simp only at h
  obtain ⟨this_phase, -, h⟩ := bind_eq_ok h
  split at h
  · cases h
  obtain ⟨pos, hpos, h⟩ := bind_eq_ok h
  have hlive := Producer.locate_live (Producer.countsOk_mapsOk hp1) hpos
  obtain ⟨s1, s2, s3, s4, s5, s6, s7⟩ := hs
  obtain ⟨m1, m2, m3, m4, m5, m6, m7, m8⟩ := hp1
  cases pos with
  | inl i =>
    simp only at h hlive
    obtain ⟨key, hkey, h⟩ := bind_eq_ok h
    have hkey := elemAt_eq_ok hkey
    have hlen := IndexMap.emplace_length (v := p.syncLoadCount.map_size_ + 1) hlive
    have hi : i < p.syncLoadCount.load_keys_.length := by
      rcases List.getElem?_eq_some_iff.mp hkey with ⟨hlt, -⟩
      exact hlt
    cases h
    refine ⟨⟨IndexMap.emplace_sorted _ _ m1, m2, ?_, m4, ?_, m6, ?_, m8⟩, s1, Or.inl
      ⟨i, p.syncLoadCount.map_size_ + 1, by rw [← s1]; exact hkey, by rw [← s4]; exact hlive,
        ?_, by rw [← s4]; exact hlen, s6⟩⟩
    · intro e he
      rcases IndexMap.mem_emplace he with he | he
      · exact m3 e he
      · rw [he]
        show 1 ≤ p.syncLoadCount.map_size_ + 1
        omega
    · show p.syncLoadCount.map_size_ + 1 = List.length (IndexMap.emplace _ _ _)
      rw [hlen, m5]
    · intro e he
      rcases IndexMap.mem_emplace he with he | he
      · exact m7 e he
      · rw [he]
        exact hi
    · intro e
      rw [← s4]
      constructor
      · exact IndexMap.mem_emplace
      · rintro (he | he)
        · exact IndexMap.mem_emplace_of_mem he
        · obtain ⟨e2, he2, hk2⟩ := IndexMap.emplace_has_key p.syncLoadCount.delete_map_ i
            (p.syncLoadCount.map_size_ + 1)
          rcases IndexMap.mem_emplace he2 with h3 | h3
          · have : (p.syncLoadCount.delete_map_.find i).isSome = true :=
              (IndexMap.find_isSome_iff _ _).mpr ⟨e2, h3, hk2⟩
            rw [hlive] at this
            cases this
          · rw [he, ← h3]
            exact he2
  | inr j =>
    simp only at h hlive
    obtain ⟨key, hkey, h⟩ := bind_eq_ok h
    have hkey := elemAt_eq_ok hkey
    have hlen := IndexMap.emplace_length (v := p.syncLoadCount.map_size_insert + 1) hlive
    cases h
    refine ⟨⟨m1, IndexMap.emplace_sorted _ _ m2, m3, ?_, m5, ?_, m7, m8⟩, s1, Or.inr
      ⟨j, p.syncLoadCount.map_size_insert + 1, by rw [← s2]; exact hkey,
        by rw [← s6, ← s3]; exact hlive, ?_, by rw [← s6]; exact hlen, s4⟩⟩
    · intro e he
      rcases IndexMap.mem_emplace he with he | he
      · exact m4 e he
      · rw [he]
        show 1 ≤ p.syncLoadCount.map_size_insert + 1
        omega
    · show p.syncLoadCount.map_size_insert + 1 = List.length (IndexMap.emplace _ _ _)
      rw [hlen, m6]
    · intro e
      rw [← s6, ← s3]
      constructor
      · exact IndexMap.mem_emplace
      · rintro (he | he)
        · exact IndexMap.mem_emplace_of_mem he
        · obtain ⟨e2, he2, hk2⟩ := IndexMap.emplace_has_key p.syncLoadCount.delete_map_insert_
            (j + p.syncLoadCount.num_load_keys_) (p.syncLoadCount.map_size_insert + 1)
          rcases IndexMap.mem_emplace he2 with h3 | h3
          · have : (p.syncLoadCount.delete_map_insert_.find
                (j + p.syncLoadCount.num_load_keys_)).isSome = true :=
              (IndexMap.find_isSome_iff _ _).mpr ⟨e2, h3, hk2⟩
            rw [hlive] at this
            cases this
          · rw [he, ← h3]
            exact he2

theorem Producer.prepared_countsOk {config : WorkloadConfig} {load_keys : List Key}
    {custom_inserts : Option (List (String × List Key))} {id num_producers : Nat}
    {keygen : Nat → Nat → Key} {p0 p : Producer}
    (hcreate : Producer.create config load_keys custom_inserts id num_producers = Except.ok p0)
    (hprep : p0.Prepare keygen = Except.ok p) : p.CountsOk ∧ p.load_keys_ = load_keys := by
  unfold Producer.create at hcreate
  obtain ⟨record_size, -, hcreate⟩ := bind_eq_ok hcreate
  cases hcreate
  unfold Producer.Prepare at hprep
  obtain ⟨num_phases, -, hprep⟩ := bind_eq_ok hprep
  obtain ⟨phases, -, hprep⟩ := bind_eq_ok hprep
  obtain ⟨insert_keys, -, hprep⟩ := bind_eq_ok hprep
  cases hprep
  refine ⟨⟨?_, ?_, ?_, ?_, rfl, rfl, ?_, rfl⟩, rfl⟩
  · exact List.Pairwise.nil
  · exact List.Pairwise.nil
  · intro e he; cases he
  · intro e he; cases he
  · intro e he; cases he

theorem Producer.ChooseKey_counts {p q : Producer} {chooser : Phase → Option Chooser}
    {draw : Nat} {K : Key} (hp : p.CountsOk)
    (h : p.ChooseKey chooser draw = Except.ok (K, q)) :
    q.CountsOk ∧ q.load_keys_ = p.load_keys_ := by
  obtain ⟨hs, -⟩ := Producer.ChooseKey_spec (Producer.countsOk_mapsOk hp) h
  exact ⟨Producer.sameKeySpace_countsOk hs hp, hs.1⟩

theorem Producer.dispatch_counts {debug : Bool} {p q : Producer} {next_op : Operation}
    {draw scan_draw : Nat} {r : Request} {chosen : Option Key} (hp : p.CountsOk)
    (h : p.dispatch debug next_op draw scan_draw = Except.ok (r, chosen, q)) :
    q.CountsOk ∧ q.load_keys_ = p.load_keys_ := by
  unfold Producer.dispatch at h
  cases next_op with
  | kRead =>
    obtain ⟨⟨key, p1⟩, hck, h⟩ := bind_eq_ok h
    cases h
    exact Producer.ChooseKey_counts hp hck
  | kReadModifyWrite =>
    obtain ⟨⟨key, p1⟩, hck, h⟩ := bind_eq_ok h
    cases h
    exact Producer.ChooseKey_counts hp hck
  | kNegativeRead =>
    obtain ⟨⟨key, p1⟩, hck, h⟩ := bind_eq_ok h
    cases h
    exact Producer.ChooseKey_counts hp hck
  | kScan =>
    obtain ⟨⟨key, p1⟩, hck, h⟩ := bind_eq_ok h
    obtain ⟨this_phase, -, h⟩ := bind_eq_ok h
    split at h
    · cases h
    · cases h
      exact Producer.ChooseKey_counts hp hck
  | kUpdate =>
    obtain ⟨⟨key, p1⟩, hck, h⟩ := bind_eq_ok h
    cases h
    exact Producer.ChooseKey_counts hp hck
  | kDelete =>
    obtain ⟨⟨key, p1⟩, hck, h⟩ := bind_eq_ok h
    cases h
    obtain ⟨h1, h2, -⟩ := Producer.deleteChooseKey_counts hp hck
    exact ⟨h1, h2⟩
  | kInsert =>
    obtain ⟨⟨to_return, p1⟩, hins, h⟩ := bind_eq_ok h
    obtain ⟨hs, -⟩ := Producer.doInsert_spec hins
    cases h
    exact ⟨Producer.sameKeySpace_countsOk hs hp, hs.1⟩

theorem Producer.NextTraced_counts {debug : Bool} {p q : Producer}
    {choice draw scan_draw : Nat} {r : Request} {chosen : Option Key} (hp : p.CountsOk)
    (h : p.NextTraced debug choice draw scan_draw = Except.ok (r, chosen, q)) :
    q.CountsOk ∧ q.load_keys_ = p.load_keys_ := by
  unfold Producer.NextTraced at h
  split at h
  · cases h
  obtain ⟨this_phase, -, h⟩ := bind_eq_ok h
  obtain ⟨next_op, -, h⟩ := bind_eq_ok h
  obtain ⟨⟨to_return, ch, p1⟩, hd, h⟩ := bind_eq_ok h
  obtain ⟨p2, hadv, h⟩ := bind_eq_ok h
  cases h
  obtain ⟨h1, h2⟩ := Producer.dispatch_counts hp hd
  have hs := Producer.advance_spec hadv
  exact ⟨Producer.sameKeySpace_countsOk hs h1, hs.1.trans h2⟩

theorem Producer.callKeys_counts (calls : List KeyCall) :
    ∀ (p q : Producer), p.CountsOk → p.callKeys calls = Except.ok q →
      q.CountsOk ∧ q.load_keys_ = p.load_keys_ := by
  induction calls with
  | nil =>
    intro p q hp h
    cases h
    exact ⟨hp, rfl⟩
  | cons c rest ih =>
    intro p q hp h
    unfold Producer.callKeys at h
    obtain ⟨⟨key, p1⟩, hcall, h⟩ := bind_eq_ok h
    have h1 : p1.CountsOk ∧ p1.load_keys_ = p.load_keys_ := by
      unfold Producer.callKey at hcall
      split at hcall
      · obtain ⟨h1, h2, -⟩ := Producer.deleteChooseKey_counts hp hcall
        exact ⟨h1, h2⟩
      · exact Producer.ChooseKey_counts hp hcall
    obtain ⟨h2, h3⟩ := ih p1 q h1.1 h
    exact ⟨h2, h3.trans h1.2⟩

/-- C32: for a producer that has been created over fewer than 2^64 load keys and
prepared, after every sequence of Next calls followed by every sequence of returning
ChooseKey and deleteChooseKey calls, *map_size_ and map_size_insert equal the numbers
of entries of delete_map_ and delete_map_insert_, and the live load-key count
*num_load_keys_ - *map_size_ is |load_keys| - |delete_map_|; and every returning
deleteChooseKey call made then adds exactly one new entry to exactly one of the two
maps and leaves the other one as it is: either the key returned stands at a position
index of load_keys_ that was not in delete_map_ and the new entry of delete_map_ has
the key index, or it stands at a position index of insert_keys_ and the new entry of
delete_map_insert_ has the key index + *num_load_keys_, which was not in that map;
the counters agree with the maps afterwards as well. -/
theorem deleteChooseKey_adds_one_entry (config : WorkloadConfig) (load_keys : List Key)
    (custom_inserts : Option (List (String × List Key))) (id num_producers : Nat)
    (keygen : Nat → Nat → Key) (p0 p : Producer) (debug : Bool)
    (draws : List (Nat × Nat × Nat)) (calls : List KeyCall) (q : Producer)
    (hcreate : Producer.create config load_keys custom_inserts id num_producers = Except.ok p0)
    (hprep : p0.Prepare keygen = Except.ok p)
    (hlen : load_keys.length < U64)
    (hcalls : (Producer.run debug p draws).2.callKeys calls = Except.ok q) :
    q.map_size_ = q.delete_map_.length ∧ q.map_size_insert = q.delete_map_insert_.length ∧
    q.delete_map_.length ≤ load_keys.length ∧
    q.numLoad = load_keys.length - q.delete_map_.length ∧
    ∀ (chooser : Phase → Option Chooser) (draw : Nat) (K : Key) (r : Producer),
      q.deleteChooseKey chooser draw = Except.ok (K, r) →
      r.map_size_ = r.delete_map_.length ∧ r.map_size_insert = r.delete_map_insert_.length ∧
      ((∃ index v, q.load_keys_[index]? = some K ∧
          (q.delete_map_.find index).isSome = false ∧
          (∀ e, e ∈ r.delete_map_ ↔ e ∈ q.delete_map_ ∨ e = (index, v)) ∧
          r.delete_map_.length = q.delete_map_.length + 1 ∧
          r.delete_map_insert_ = q.delete_map_insert_) ∨
        (∃ index v, q.insert_keys_[index]? = some K ∧
          (q.delete_map_insert_.find (index + q.num_load_keys_)).isSome = false ∧
          (∀ e, e ∈ r.delete_map_insert_ ↔
            e ∈ q.delete_map_insert_ ∨ e = (index + q.num_load_keys_, v)) ∧
          r.delete_map_insert_.length = q.delete_map_insert_.length + 1 ∧
          r.delete_map_ = q.delete_map_)) := by
  obtain ⟨hp, hkeys⟩ := Producer.prepared_countsOk hcreate hprep
  have hrun : (Producer.run debug p draws).2.CountsOk ∧
      (Producer.run debug p draws).2.load_keys_ = load_keys :=
    Producer.run_state (fun s => s.CountsOk ∧ s.load_keys_ = load_keys)
      (fun s t choice draw scan_draw r chosen hs hnext =>
        ⟨(Producer.NextTraced_counts hs.1 hnext).1,
          (Producer.NextTraced_counts hs.1 hnext).2.trans hs.2⟩)
      draws p ⟨hp, hkeys⟩
  obtain ⟨hq, hqkeys⟩ := Producer.callKeys_counts calls _ q hrun.1 hcalls
  have hqk : q.load_keys_ = load_keys := hqkeys.trans hrun.2
  have hnum := Producer.countsOk_numLoad hq (by rw [hqk]; exact hlen)
  rw [hqk] at hnum
  refine ⟨hq.2.2.2.2.1, hq.2.2.2.2.2.1, hnum.1, hnum.2, ?_⟩
  intro chooser draw K r hdel
  obtain ⟨hr, -, hcases⟩ := Producer.deleteChooseKey_counts hq hdel
  exact ⟨hr.2.2.2.2.1, hr.2.2.2.2.2.1, hcases⟩

set_option maxRecDepth 100000 in
theorem deleteChooseKey_adds_one_entry_witness :
    ∃ p0 p q, Producer.create readDeleteWorkload fiveKeys none 0 1 = Except.ok p0 ∧
      p0.Prepare exampleKeygen = Except.ok p ∧
      (Producer.run true p [(60, 3, 0)]).2.callKeys
        [{ delete := true, chooser := Phase.delete_chooser, draw := 0 }] = Except.ok q ∧
      q.delete_map_ = [(0, 2), (3, 1)] ∧
      q.map_size_ = q.delete_map_.length ∧ q.map_size_insert = q.delete_map_insert_.length ∧
      q.delete_map_.length ≤ fiveKeys.length ∧
      q.numLoad = fiveKeys.length - q.delete_map_.length ∧
      ∀ (chooser : Phase → Option Chooser) (draw : Nat) (K : Key) (r : Producer),
        q.deleteChooseKey chooser draw = Except.ok (K, r) →
        r.map_size_ = r.delete_map_.length ∧
        r.map_size_insert = r.delete_map_insert_.length ∧
        ((∃ index v, q.load_keys_[index]? = some K ∧
            (q.delete_map_.find index).isSome = false ∧
            (∀ e, e ∈ r.delete_map_ ↔ e ∈ q.delete_map_ ∨ e = (index, v)) ∧
            r.delete_map_.length = q.delete_map_.length + 1 ∧
            r.delete_map_insert_ = q.delete_map_insert_) ∨
          (∃ index v, q.insert_keys_[index]? = some K ∧
            (q.delete_map_insert_.find (index + q.num_load_keys_)).isSome = false ∧
            (∀ e, e ∈ r.delete_map_insert_ ↔
              e ∈ q.delete_map_insert_ ∨ e = (index + q.num_load_keys_, v)) ∧
            r.delete_map_insert_.length = q.delete_map_insert_.length + 1 ∧
            r.delete_map_ = q.delete_map_)) :=
  ⟨_, _, _, rfl, rfl, rfl, by decide,
    deleteChooseKey_adds_one_entry readDeleteWorkload fiveKeys none 0 1 exampleKeygen _ _ true
      [(60, 3, 0)] [{ delete := true, chooser := Phase.delete_chooser, draw := 0 }] _
      rfl rfl (by decide) rfl⟩

/-! ## Custom insert lists in `Prepare` -/

theorem generateInserts_append {config : WorkloadConfig}
    {custom_inserts : Option (List (String × List Key))} {id : Nat}
    {keygen : Nat → Nat → Key} (ys : List Phase) :
    ∀ (xs : List Phase) (acc : List Key),
      generateInserts config custom_inserts id keygen (xs ++ ys) acc
        = (generateInserts config custom_inserts id keygen xs acc >>=
            generateInserts config custom_inserts id keygen ys) := by
  intro xs
  induction xs with
  | nil => intro acc; rfl
  | cons phase rest ih =>
    intro acc
    rw [List.cons_append]
    unfold generateInserts
    split
    · exact ih acc
    · cases hc : config.GetCustomInsertsForPhase phase with
      | error e => rfl
      | ok info =>
        simp only [bind, Except.bind, pure, Except.pure]
        cases info with
        | some no =>
          obtain ⟨name, o⟩ := no
          simp only
          cases custom_inserts with
          | none => rfl
          | some lists =>
            simp only
            cases hfind : List.find? (fun e => e.1 == name) lists with
            | none => rfl
            | some e =>
              obtain ⟨n1, list⟩ := e
              simp only
              split
              · rfl
              · exact ih _
        | none =>
          simp only
          cases hg : config.GetGeneratorForPhase phase with
          | error e => rfl
          | ok g =>
            simp only
            split
            · rfl
            · exact ih _

theorem GetCustomInsertsForPhase_custom {config : WorkloadConfig} {phase : Phase}
    {cfg : PhaseConfig} {ins : OpConfig} {name : String} {o : Nat}
    (hcfg : config.run[phase.phase_id]? = some cfg) (hins : cfg.insert = some ins)
    (htype : ins.distribution.dist_type = "custom")
    (hname : ins.distribution.name = some name)
    (hoff : ins.distribution.offset.getD 0 = o) (ho : o < U64)
    (hpos : 0 < phase.num_inserts) :
    config.GetCustomInsertsForPhase phase = Except.ok (some (name, o)) := by
  unfold WorkloadConfig.GetCustomInsertsForPhase
  rw [hcfg]
  simp only [bind, Except.bind, pure, Except.pure, hins]
  rw [if_neg (by omega), if_neg (by simp [htype]), hname]
  cases hofs : ins.distribution.offset with
  | none =>
    rw [hofs] at hoff
    simp only [Option.getD_none] at hoff
    rw [← hoff]
  | some v =>
    rw [hofs] at hoff
    simp only [Option.getD_some] at hoff
    subst hoff
    simp only [asSizeT, ho, if_true, pure, Except.pure]

theorem generateInserts_custom {config : WorkloadConfig}
    {custom_inserts : Option (List (String × List Key))} {id : Nat}
    {keygen : Nat → Nat → Key} {phase : Phase} {name : String} {o : Nat}
    (hpos : 0 < phase.num_inserts)
    (hinfo : config.GetCustomInsertsForPhase phase = Except.ok (some (name, o)))
    (rest : List Phase) (acc : List Key) :
    generateInserts config custom_inserts id keygen (phase :: rest) acc =
      match lookupInserts custom_inserts name with
      | none => Except.error (Error.runtime_error ("Did not find inserts for " ++ name))
      | some list =>
        if list.length < o + phase.num_inserts then
          Except.error (Error.runtime_error ("Not enough keys in " ++ name))
        else
          generateInserts config custom_inserts id keygen rest
            (acc ++ ApplyPhaseAndProducerIDs ((list.drop o).take phase.num_inserts)
              (phase.phase_id + 1) (id + 1)) := by
  conv_lhs => unfold generateInserts
  rw [if_neg (by omega), hinfo]
  simp only [bind, Except.bind]
  unfold lookupInserts
  cases custom_inserts with
  | none => rfl
  | some lists =>
    simp only
    cases hfind : List.find? (fun e => e.1 == name) lists with
    | none => rfl
    | some e =>
      obtain ⟨n1, list⟩ := e
      simp only [Option.map_some']
      by_cases hshort : list.length < o + phase.num_inserts
      · rw [if_pos hshort, if_pos (by omega)]
      · rw [if_neg hshort, if_neg (by omega)]
        rfl

theorem generateInserts_at {config : WorkloadConfig}
    {custom_inserts : Option (List (String × List Key))} {id : Nat}
    {keygen : Nat → Nat → Key} {phases : List Phase} {f : Nat} {phase : Phase}
    {acc : List Key} (hphase : phases[f]? = some phase)
    (hbefore : generateInserts config custom_inserts id keygen (phases.take f) []
      = Except.ok acc) :
    generateInserts config custom_inserts id keygen phases []
      = generateInserts config custom_inserts id keygen (phase :: phases.drop (f + 1)) acc ∧
    generateInserts config custom_inserts id keygen (phases.take (f + 1)) []
      = generateInserts config custom_inserts id keygen [phase] acc ∧
    acc.length = insertStart phases f := by
  obtain ⟨hlt, hget⟩ := List.getElem?_eq_some_iff.mp hphase
  have hsplit : phases = phases.take f ++ phase :: phases.drop (f + 1) := by
    rw [← hget, ← List.drop_eq_getElem_cons hlt, List.take_append_drop]
  have htake : phases.take (f + 1) = phases.take f ++ [phase] := by
    rw [List.take_succ, hphase]
    rfl
  refine ⟨?_, ?_, ?_⟩
  · conv_lhs => rw [hsplit]
    rw [generateInserts_append, hbefore]
    rfl
  · rw [htake, generateInserts_append, hbefore]
    rfl
  · obtain ⟨⟨tail, hacc, htail⟩, -⟩ := generateInserts_spec _ _ _ hbefore
    rw [hacc, List.nil_append, htail]
    unfold insertStart
    rw [List.take_length]

/-- C22 (as amended): for the producer created from a configuration whose phase f
has a custom insert distribution with name N and offset o (below 2^64), when the
GetPhase calls of Prepare return with num_inserts > 0 for that phase and the
iterations of the insert loop for the earlier phases return: the iteration for the
phase f throws runtime_error if and only if no list is registered under N or the list
has fewer than o + num_inserts keys, and Prepare then throws it; and whenever Prepare
returns, the list is registered, has at least o + num_inserts keys, and the segment of
insert_keys_ of the phase holds list[o + j] tagged (f + 1, id + 1) at its position j,
for every j < num_inserts. -/
theorem Prepare_custom_inserts (config : WorkloadConfig) (load_keys : List Key)
    (custom_inserts : Option (List (String × List Key))) (id num_producers : Nat)
    (keygen : Nat → Nat → Key) (p0 : Producer) (n : Nat) (phases : List Phase) (f : Nat)
    (phase : Phase) (cfg : PhaseConfig) (ins : OpConfig) (name : String) (o : Nat)
    (acc : List Key)
    (hcreate : Producer.create config load_keys custom_inserts id num_producers = Except.ok p0)
    (hnum : config.GetNumPhases = Except.ok n)
    (hload : loadPhases config id num_producers (List.range n) = Except.ok phases)
    (hphase : phases[f]? = some phase)
    (hcfg : config.run[f]? = some cfg) (hins : cfg.insert = some ins)
    (htype : ins.distribution.dist_type = "custom")
    (hname : ins.distribution.name = some name)
    (hoff : ins.distribution.offset.getD 0 = o) (ho : o < U64)
    (hpos : 0 < phase.num_inserts)
    (hbefore : generateInserts config custom_inserts id keygen (phases.take f) []
      = Except.ok acc) :
    ((∃ msg, generateInserts config custom_inserts id keygen (phases.take (f + 1)) []
        = Except.error (Error.runtime_error msg)) ↔
      (∀ list, lookupInserts custom_inserts name = some list →
        list.length < o + phase.num_inserts)) ∧
    ((∀ list, lookupInserts custom_inserts name = some list →
        list.length < o + phase.num_inserts) →
      ∃ msg, p0.Prepare keygen = Except.error (Error.runtime_error msg)) ∧
    (∀ q, p0.Prepare keygen = Except.ok q →
      ∃ list, lookupInserts custom_inserts name = some list ∧
        o + phase.num_inserts ≤ list.length ∧
        ∀ (j : Nat) (k : Key), j < phase.num_inserts → list[o + j]? = some k →
          q.insert_keys_[insertStart q.phases_ f + j]?
            = some (tagKey (f + 1) (id + 1) k)) := by
  have hid : phase.phase_id = f := by
    obtain ⟨-, hids⟩ := loadPhases_spec _ _ hload
    obtain ⟨phase_id, hrange, hpid, -⟩ := hids f phase hphase
    obtain ⟨hlt, hget⟩ := List.getElem?_eq_some_iff.mp hrange
    rw [List.getElem_range] at hget
    rw [hpid, ← hget]
  have hinfo : config.GetCustomInsertsForPhase phase = Except.ok (some (name, o)) :=
    GetCustomInsertsForPhase_custom (by rw [hid]; exact hcfg) hins htype hname hoff ho hpos
  obtain ⟨hall, hupto, hacc⟩ := generateInserts_at hphase hbefore
  have hone := @generateInserts_custom config custom_inserts id keygen phase name o
    hpos hinfo [] acc
  have hrest := @generateInserts_custom config custom_inserts id keygen phase name o
    hpos hinfo (phases.drop (f + 1)) acc
  rw [← hupto] at hone
  rw [← hall] at hrest
  have hprep : p0.Prepare keygen = (do
      let insert_keys ← generateInserts config custom_inserts id keygen phases []
      pure { p0 with
        phases_ := setItemCounts phases load_keys.length
        insert_keys_ := insert_keys }) := by
    unfold Producer.create at hcreate
    obtain ⟨record_size, -, hcreate⟩ := bind_eq_ok hcreate
    cases hcreate
    unfold Producer.Prepare
    simp only [hnum, hload, bind, Except.bind, List.nil_append]
  refine ⟨?_, ?_, ?_⟩
  · rw [hone]
    cases hl : lookupInserts custom_inserts name with
    | none =>
      simp only
      exact ⟨fun _ list hlist => (nomatch hlist), fun _ => ⟨_, rfl⟩⟩
    | some list =>
      simp only
      by_cases hshort : list.length < o + phase.num_inserts
      · rw [if_pos hshort]
        exact ⟨fun _ l hlist => (Option.some.inj hlist) ▸ hshort, fun _ => ⟨_, rfl⟩⟩
      · rw [if_neg hshort]
        constructor
        · rintro ⟨msg, hmsg⟩
          cases hmsg
        · intro hx
          exact absurd (hx list rfl) hshort
  · intro hx
    rw [hprep, hrest]
    cases hl : lookupInserts custom_inserts name with
    | none => exact ⟨_, rfl⟩
    | some list =>
      simp only
      rw [if_pos (hx list hl)]
      exact ⟨_, rfl⟩
  · intro q hq
    rw [hprep] at hq
    obtain ⟨ks, hks, hq⟩ := bind_eq_ok hq
    cases hq
    rw [hrest] at hks
    cases hl : lookupInserts custom_inserts name with
    | none =>
      rw [hl] at hks
      cases hks
    | some list =>
      rw [hl] at hks
      simp only at hks
      by_cases hshort : list.length < o + phase.num_inserts
      · rw [if_pos hshort] at hks
        cases hks
      · rw [if_neg hshort] at hks
        refine ⟨list, rfl, by omega, ?_⟩
        intro j k hj hk
        obtain ⟨⟨tail, htail, -⟩, -⟩ := generateInserts_spec _ _ _ hks
        have hstart : insertStart (setItemCounts phases load_keys.length) f = acc.length := by
          rw [hacc]
          exact insertStart_congr (setItemCounts_spec _ _) f
        show ks[insertStart (setItemCounts phases load_keys.length) f + j]? = _
        rw [hstart, htail, List.append_assoc, List.getElem?_append_right (by omega),
          List.getElem?_append_left (by
            unfold ApplyPhaseAndProducerIDs
            rw [List.length_map, List.length_take, List.length_drop]
            omega)]
        unfold ApplyPhaseAndProducerIDs
        rw [List.getElem?_map, Nat.add_sub_cancel_left, List.getElem?_take_of_lt hj,
          List.getElem?_drop, hk, hid]
        rfl

set_option maxRecDepth 100000 in
/-- C22: for the phase of one request with 50% reads and 50% inserts from the custom
list "extra", num_inserts is 0; no list is registered under "extra", and Prepare
returns without an error, leaving insert_keys_ empty. -/
theorem Prepare_skips_custom_phase_without_inserts :
    ∃ p0 q, Producer.create customNoInsertWorkload fiveKeys none 0 1 = Except.ok p0 ∧
      lookupInserts p0.custom_inserts_ "extra" = none ∧
      p0.Prepare exampleKeygen = Except.ok q ∧
      q.phases_.map Phase.num_inserts = [0] ∧ q.insert_keys_ = [] :=
  ⟨_, _, rfl, by decide, rfl, by decide, by decide⟩

set_option maxRecDepth 100000 in
theorem Prepare_custom_inserts_witness :
    ∃ p0 phases phase,
      Producer.create customInsertWorkload fiveKeys (some [("extra", [7, 8, 9])]) 0 1
        = Except.ok p0 ∧
      loadPhases customInsertWorkload 0 1 (List.range 1) = Except.ok phases ∧
      phases[0]? = some phase ∧ phase.num_inserts = 2 ∧
      ((∃ msg, generateInserts customInsertWorkload (some [("extra", [7, 8, 9])]) 0
            exampleKeygen (phases.take (0 + 1)) [] = Except.error (Error.runtime_error msg)) ↔
        (∀ list, lookupInserts (some [("extra", [7, 8, 9])]) "extra" = some list →
          list.length < 1 + phase.num_inserts)) ∧
      ((∀ list, lookupInserts (some [("extra", [7, 8, 9])]) "extra" = some list →
          list.length < 1 + phase.num_inserts) →
        ∃ msg, p0.Prepare exampleKeygen = Except.error (Error.runtime_error msg)) ∧
      (∀ q, p0.Prepare exampleKeygen = Except.ok q →
        ∃ list, lookupInserts (some [("extra", [7, 8, 9])]) "extra" = some list ∧
          1 + phase.num_inserts ≤ list.length ∧
          ∀ (j : Nat) (k : Key), j < phase.num_inserts → list[1 + j]? = some k →
            q.insert_keys_[insertStart q.phases_ 0 + j]?
              = some (tagKey (0 + 1) (0 + 1) k)) :=
  ⟨_, _, _, rfl, rfl, rfl, by decide,
    Prepare_custom_inserts customInsertWorkload fiveKeys (some [("extra", [7, 8, 9])]) 0 1
      exampleKeygen _ 1 _ 0 _ _ _ "extra" 1 [] rfl rfl rfl rfl rfl rfl rfl rfl rfl
      (by decide) (by decide) rfl⟩

/-! ## Zipfian choosers -/

theorem ComputeZetaN_split {R : Type} [Add R] [Div R] [One R] [NatCast R]
    (pow : R → R → R) (theta : R) (a b c : Nat) (z : R) (hab : a ≤ b) (hbc : b ≤ c) :
    ComputeZetaN pow c theta b (ComputeZetaN pow b theta a z) = ComputeZetaN pow c theta a z := by
  unfold ComputeZetaN
  rw [← List.foldl_append]
  congr 1
  obtain ⟨k, rfl⟩ := Nat.exists_eq_add_of_le hab
  obtain ⟨l, rfl⟩ := Nat.exists_eq_add_of_le hbc
  rw [Nat.add_sub_cancel_left, Nat.add_sub_cancel_left,
    show a + k + l - a = l + k by omega]
  exact List.range'_append_1 a k l

/-- C34: for every theta and all n' < n (0 < n' < n in particular), ComputeZetaN(n,
theta, n', ComputeZetaN(n', theta, 0, 0)) is ComputeZetaN(n, theta, 0, 0). The
statement holds for every arithmetic, with no law assumed of the addition, the
division or pow: both sides perform the same additions in the same order. -/
theorem ComputeZetaN_extends {R : Type} [Add R] [Div R] [Zero R] [One R] [NatCast R]
    (pow : R → R → R) (theta : R) (n' n : Nat) (hlt : n' < n) :
    ComputeZetaN pow n theta n' (ComputeZetaN pow n' theta 0 0)
      = ComputeZetaN pow n theta 0 0 :=
  ComputeZetaN_split pow theta 0 n' n 0 (Nat.zero_le _) (Nat.le_of_lt hlt)

theorem ComputeZetaN_extends_witness :
    2 < 5 ∧
    ComputeZetaN (fun (x _ : ℚ) => x * x) 5 (1 / 2)
        2 (ComputeZetaN (fun (x _ : ℚ) => x * x) 2 (1 / 2) 0 0)
      = ComputeZetaN (fun (x _ : ℚ) => x * x) 5 (1 / 2) 0 0 :=
  ⟨by decide, ComputeZetaN_extends (fun (x _ : ℚ) => x * x) (1 / 2) 2 5 (by decide)⟩

theorem ComputeZetaN_one_step {R : Type} [Add R] [Div R] [One R] [NatCast R]
    (pow : R → R → R) (theta : R) (n : Nat) (z : R) :
    ComputeZetaN pow (n + 1) theta n z = z + 1 / pow ((n + 1 : Nat) : R) theta := by
  unfold ComputeZetaN
  rw [Nat.add_sub_cancel_left]
  rfl

theorem ComputeZetaNForDecrease_one_step {R : Type} [Sub R] [Div R] [One R] [NatCast R]
    (pow : R → R → R) (theta : R) (n : Nat) (z : R) :
    ComputeZetaNForDecrease pow n theta (n + 1) z = z - 1 / pow ((n + 1 : Nat) : R) theta := by
  unfold ComputeZetaNForDecrease
  rw [Nat.add_sub_cancel_left]
  rfl

/-- C36: for a ZipfianChooser with item count n, 2 <= n < 2^64 - 1:
IncreaseItemCountBy(1) sets the item count to n + 1 and zeta_n to the old zeta_n plus
1 / pow(n + 1, theta); IncreaseItemCountBy(delta) with any other delta sets the item
count to n - 1 and zeta_n to the old zeta_n minus 1 / pow(n, theta); in both cases eta
is the value that UpdateETA computes from the new item count and the new zeta_n, and
theta, alpha, thres and zeta2theta are unchanged. The statement holds for every
arithmetic. -/
theorem ZipfianChooser_IncreaseItemCountBy {R : Type} [Add R] [Sub R] [Div R] [One R]
    [NatCast R] (pow : R → R → R) (c : ZipfianChooser R) (delta : Nat)
    (h2 : 2 ≤ c.item_count_) (hlt : c.item_count_ + 1 < U64) :
    (delta = 1 →
      (c.IncreaseItemCountBy pow delta).item_count_ = c.item_count_ + 1 ∧
      (c.IncreaseItemCountBy pow delta).zeta_n_
        = c.zeta_n_ + 1 / pow ((c.item_count_ + 1 : Nat) : R) c.theta_) ∧
    (delta ≠ 1 →
      (c.IncreaseItemCountBy pow delta).item_count_ = c.item_count_ - 1 ∧
      (c.IncreaseItemCountBy pow delta).zeta_n_
        = c.zeta_n_ - 1 / pow ((c.item_count_ : Nat) : R) c.theta_) ∧
    (c.IncreaseItemCountBy pow delta).eta_
      = (1 - pow (((2 : Nat) : R) / (((c.IncreaseItemCountBy pow delta).item_count_ : Nat) : R))
            (1 - c.theta_))
        / (1 - c.zeta2theta_ / (c.IncreaseItemCountBy pow delta).zeta_n_) ∧
    (c.IncreaseItemCountBy pow delta).theta_ = c.theta_ ∧
    (c.IncreaseItemCountBy pow delta).alpha_ = c.alpha_ ∧
    (c.IncreaseItemCountBy pow delta).thres_ = c.thres_ ∧
    (c.IncreaseItemCountBy pow delta).zeta2theta_ = c.zeta2theta_ := by
  have hdec : (c.item_count_ + (U64 - 1)) % U64 = c.item_count_ - 1 := by
    unfold U64 at hlt ⊢
    omega
  have hinc : (c.item_count_ + 1) % U64 = c.item_count_ + 1 := Nat.mod_eq_of_lt hlt
  have hn : c.item_count_ - 1 + 1 = c.item_count_ := by omega
  by_cases hd : delta = 1
  · subst hd
    have e1 : c.IncreaseItemCountBy pow 1 = ZipfianChooser.UpdateETA pow
        { c with
          item_count_ := (c.item_count_ + 1) % U64
          zeta_n_ := ComputeZetaN pow ((c.item_count_ + 1) % U64) c.theta_ c.item_count_
            c.zeta_n_ } := rfl
    rw [e1, hinc, ComputeZetaN_one_step]
    exact ⟨fun _ => ⟨rfl, rfl⟩, fun h => absurd rfl h, rfl, rfl, rfl, rfl, rfl⟩
  · have hstep := ComputeZetaNForDecrease_one_step pow c.theta_ (c.item_count_ - 1) c.zeta_n_
    rw [hn] at hstep
    have e2 : c.IncreaseItemCountBy pow delta = ZipfianChooser.UpdateETA pow
        { c with
          item_count_ := (c.item_count_ + (U64 - 1)) % U64
          zeta_n_ := ComputeZetaNForDecrease pow ((c.item_count_ + (U64 - 1)) % U64) c.theta_
            c.item_count_ c.zeta_n_ } := by
      unfold ZipfianChooser.IncreaseItemCountBy
      exact if_pos hd
    rw [e2, hdec, hstep]
    exact ⟨fun h => absurd h hd, fun _ => ⟨rfl, rfl⟩, rfl, rfl, rfl, rfl, rfl⟩

theorem ZipfianChooser_IncreaseItemCountBy_witness :
    (2 ≤ 5 ∧ 5 + 1 < U64) ∧
    (({ item_count_ := 5, theta_ := 1 / 2, alpha_ := 2, thres_ := 3 / 2, zeta2theta_ := 3 / 2,
        zeta_n_ := 2, eta_ := 0 } : ZipfianChooser ℚ).IncreaseItemCountBy
        (fun x _ => x * x) 7).item_count_ = 4 ∧
    (({ item_count_ := 5, theta_ := 1 / 2, alpha_ := 2, thres_ := 3 / 2, zeta2theta_ := 3 / 2,
        zeta_n_ := 2, eta_ := 0 } : ZipfianChooser ℚ).IncreaseItemCountBy
        (fun x _ => x * x) 1).item_count_ = 6 :=
  ⟨⟨by decide, by decide⟩,
    ((ZipfianChooser_IncreaseItemCountBy (fun (x _ : ℚ) => x * x)
      { item_count_ := 5, theta_ := 1 / 2, alpha_ := 2, thres_ := 3 / 2, zeta2theta_ := 3 / 2,
        zeta_n_ := 2, eta_ := 0 } 7 (by decide) (by decide)).2.1 (by decide)).1,
    ((ZipfianChooser_IncreaseItemCountBy (fun (x _ : ℚ) => x * x)
      { item_count_ := 5, theta_ := 1 / 2, alpha_ := 2, thres_ := 3 / 2, zeta2theta_ := 3 / 2,
        zeta_n_ := 2, eta_ := 0 } 1 (by decide) (by decide)).1 rfl).1⟩

theorem wide_reduction {h item_count : Nat} (hh : h < U64) (h1 : 1 ≤ item_count)
    (hn : item_count < U64) :
    (((h * item_count) % 2 ^ 128) >>> 64) % U64 = h * item_count / 2 ^ 64 ∧
    h * item_count / 2 ^ 64 < item_count := by
  have hprod : h * item_count < 2 ^ 64 * item_count :=
    Nat.mul_lt_mul_of_pos_right (by unfold U64 at hh; exact hh) (by omega)
  have hdiv : h * item_count / 2 ^ 64 < item_count :=
    Nat.div_lt_of_lt_mul hprod
  have h128 : h * item_count < 2 ^ 128 := by
    have : 2 ^ 64 * item_count ≤ 2 ^ 64 * 2 ^ 64 :=
      Nat.mul_le_mul_left _ (by unfold U64 at hn; omega)
    have e : (2 : Nat) ^ 64 * 2 ^ 64 = 2 ^ 128 := by norm_num
    omega
  refine ⟨?_, hdiv⟩
  rw [Nat.mod_eq_of_lt h128, Nat.shiftRight_eq_div_pow]
  exact Nat.mod_eq_of_lt (by omega)

/-- C37: for every hash function to 64-bit values, every salt, every Zipfian draw and
every item count n with 1 <= n < 2^64, ScatteredZipfianChooser::Next returns an index
below n, in the build with 128-bit integers, where the index is (h * n) >> 64 for the
hash value h (the 128-bit product does not overflow), and in the build without, where
it is h mod n; h is FNVHash64 of the draw xor the salt, so the index is a function of
the draw, the salt and n. -/
theorem ScatteredZipfianChooser_Next_lt (hash : Nat → Nat) (wide : Bool)
    (scatter_salt item_count choice : Nat) (h1 : 1 ≤ item_count) (hn : item_count < U64) :
    ScatteredZipfianChooser.Next hash wide scatter_salt item_count choice < item_count ∧
    ScatteredZipfianChooser.Next hash true scatter_salt item_count choice
      = (hash ((choice ^^^ scatter_salt) % U64) % U64 * item_count) / 2 ^ 64 ∧
    ScatteredZipfianChooser.Next hash false scatter_salt item_count choice
      = hash ((choice ^^^ scatter_salt) % U64) % U64 % item_count := by
  have hh : hash ((choice ^^^ scatter_salt) % U64) % U64 < U64 :=
    Nat.mod_lt _ (by unfold U64; norm_num)
  obtain ⟨hwide, hdiv⟩ := wide_reduction hh h1 hn
  refine ⟨?_, ?_, ?_⟩
  · unfold ScatteredZipfianChooser.Next
    simp only
    split
    · rw [hwide]; exact hdiv
    · exact Nat.mod_lt _ (by omega)
  · unfold ScatteredZipfianChooser.Next
    simp only [if_true]
    exact hwide
  · unfold ScatteredZipfianChooser.Next
    simp only [Bool.false_eq_true, if_false]

theorem ScatteredZipfianChooser_Next_lt_witness :
    (1 ≤ 10 ∧ 10 < U64) ∧
    ScatteredZipfianChooser.Next (fun x => 3 * x + 2 ^ 63) true 7 10 4 < 10 :=
  ⟨⟨by decide, by decide⟩,
    (ScatteredZipfianChooser_Next_lt (fun x => 3 * x + 2 ^ 63) true 7 10 4
      (by decide) (by decide)).1⟩

theorem mem_of_getElem?_some {α : Type} {l : List α} {i : Nat} {a : α}
    (h : l[i]? = some a) : a ∈ l := by
  obtain ⟨hlt, hget⟩ := List.getElem?_eq_some_iff.mp h
  rw [← hget]
  exact List.getElem_mem _

theorem zetaLowerBound_spec {R : Type} (m : List (Nat × R)) (n : Nat) :
    zetaLowerBound m n ≤ m.length ∧
    (∀ (j : Nat) (e : Nat × R), j < zetaLowerBound m n → m[j]? = some e → e.1 < n) ∧
    (∀ e : Nat × R, m[zetaLowerBound m n]? = some e → n ≤ e.1) := by
  induction m with
  | nil =>
    refine ⟨Nat.le_refl _, fun j e hj => absurd hj (Nat.not_lt_zero _), fun e he => ?_⟩
    simp at he
  | cons a m ih =>
    obtain ⟨ih1, ih2, ih3⟩ := ih
    unfold zetaLowerBound
    split
    · rename_i hle
      refine ⟨Nat.zero_le _, fun j e hj => absurd hj (Nat.not_lt_zero _), fun e he => ?_⟩
      simp only [List.getElem?_cons_zero, Option.some.injEq] at he
      rw [← he]
      exact hle
    · rename_i hlt
      refine ⟨by simp only [List.length_cons]; omega, fun j e hj he => ?_, fun e he => ?_⟩
      · cases j with
        | zero =>
          simp only [List.getElem?_cons_zero, Option.some.injEq] at he
          rw [← he]
          omega
        | succ j =>
          simp only [List.getElem?_cons_succ] at he
          exact ih2 j e (by omega) he
      · simp only [List.getElem?_cons_succ] at he
        exact ih3 e he

theorem getLast?_max {R : Type} (m : List (Nat × R))
    (hs : m.Pairwise (fun a b => a.1 < b.1)) (last : Nat × R)
    (hlast : m.getLast? = some last) : last ∈ m ∧ ∀ e, e ∈ m → e.1 ≤ last.1 := by
  have hmem : last ∈ m := List.mem_of_getLast?_eq_some hlast
  refine ⟨hmem, ?_⟩
  obtain ⟨init, hinit⟩ : ∃ init, m = init ++ [last] := by
    have hne : m ≠ [] := List.ne_nil_of_mem hmem
    refine ⟨m.dropLast, ?_⟩
    have h1 := List.dropLast_append_getLast hne
    rw [List.getLast?_eq_getLast _ hne] at hlast
    rw [← Option.some.inj hlast]
    exact h1.symm
  intro e he
  rw [hinit] at he hs
  rcases List.mem_append.mp he with he | he
  · have := (List.pairwise_append.mp hs).2.2 e he last (List.mem_singleton.mpr rfl)
    omega
  · rw [List.mem_singleton.mp he]

/-- C33: with the cached item counts 5 and 20 for theta and neither of them 10,
FindStartingPoint(10, theta) returns the entry for 20, the last one of the map, not
the entry for 5, which is the one with the largest item count below 10. In general,
for a map in ascending order: an entry for n is returned when there is one; when all
item counts are below n the last entry, which has the largest item count, is
returned; when all are above n nothing is returned; and when there is no entry for n
but there are item counts below n and above n, the last entry of the map is returned,
whose item count is above n. -/
theorem FindStartingPoint_returns_last_entry :
    ZetaCache.FindStartingPoint (fun _ => [(5, (3 : ℚ)), (20, 7)]) 10 (1 / 2)
      = some (20, 7) ∧
    (∀ (R : Type) (cache : ZetaCache R) (n : Nat) (theta : R),
      (cache theta).Pairwise (fun a b => a.1 < b.1) →
      (∀ e, e ∈ cache theta → e.1 = n → cache.FindStartingPoint n theta = some e) ∧
      ((∀ e, e ∈ cache theta → e.1 < n) → cache theta ≠ [] →
        ∃ last, cache.FindStartingPoint n theta = some last ∧ last ∈ cache theta ∧
          ∀ e, e ∈ cache theta → e.1 ≤ last.1) ∧
      ((∀ e, e ∈ cache theta → n < e.1) → cache.FindStartingPoint n theta = none) ∧
      ((∀ e, e ∈ cache theta → e.1 ≠ n) → (∃ e, e ∈ cache theta ∧ e.1 < n) →
        (∃ e, e ∈ cache theta ∧ n < e.1) →
        ∃ last, cache.FindStartingPoint n theta = some last ∧ last ∈ cache theta ∧
          n < last.1 ∧ ∀ e, e ∈ cache theta → e.1 ≤ last.1)) := by
  refine ⟨by decide, ?_⟩
  intro R cache n theta hs
  obtain ⟨hle, hbelow, hat⟩ := zetaLowerBound_spec (cache theta) n
  have hlast : ∀ (hne : cache theta ≠ []), ∃ last, (cache theta).getLast? = some last ∧
      last ∈ cache theta ∧ ∀ e, e ∈ cache theta → e.1 ≤ last.1 := by
    intro hne
    refine ⟨(cache theta).getLast hne, List.getLast?_eq_getLast _ hne, ?_⟩
    exact getLast?_max _ hs _ (List.getLast?_eq_getLast _ hne)
  have hempty : ∀ (hne : cache theta ≠ []), (cache theta).isEmpty = false := by
    intro hne
    cases hc : cache theta with
    | nil => exact absurd hc hne
    | cons a m => rfl
  refine ⟨?_, ?_, ?_, ?_⟩
  · intro e he hkey
    have hne : cache theta ≠ [] := List.ne_nil_of_mem he
    obtain ⟨i, hi, hget⟩ := List.getElem_of_mem he
    have hget? : (cache theta)[i]? = some e := by
      rw [List.getElem?_eq_getElem hi, hget]
    -- the lower bound is the position of `e`
    have hpos : zetaLowerBound (cache theta) n = i := by
      rcases Nat.lt_trichotomy (zetaLowerBound (cache theta) n) i with h | h | h
      · obtain ⟨e2, he2⟩ : ∃ e2, (cache theta)[zetaLowerBound (cache theta) n]? = some e2 :=
          ⟨_, List.getElem?_eq_getElem (by omega)⟩
        have h1 := hat e2 he2
        have h2 : e2.1 < e.1 := by
          have := List.pairwise_iff_getElem.mp hs _ _ (by omega) hi h
          rw [List.getElem?_eq_getElem (by omega)] at he2
          rw [← Option.some.inj he2, ← hget]
          exact this
        omega
      · exact h
      · have := hbelow i e h hget?
        omega
    unfold ZetaCache.FindStartingPoint
    simp only [hempty hne, Bool.false_eq_true, if_false, hpos, hget?, hkey, if_true]
  · intro hall hne
    obtain ⟨last, hl, hmem, hmax⟩ := hlast hne
    refine ⟨last, ?_, hmem, hmax⟩
    have hend : (cache theta)[zetaLowerBound (cache theta) n]? = none := by
      cases hg : (cache theta)[zetaLowerBound (cache theta) n]? with
      | none => rfl
      | some e =>
        have h1 := hat e hg
        have h2 := hall e (mem_of_getElem?_some hg)
        omega
    unfold ZetaCache.FindStartingPoint
    simp only [hempty hne, Bool.false_eq_true, if_false, hend, hl]
  · intro hall
    unfold ZetaCache.FindStartingPoint
    cases hc : cache theta with
    | nil => rfl
    | cons a m =>
      have ha : n < a.1 := hall a (by rw [hc]; exact List.mem_cons_self _ _)
      have hz : zetaLowerBound (a :: m) n = 0 := by
        unfold zetaLowerBound
        rw [if_pos (Nat.le_of_lt ha)]
      simp only [List.isEmpty_cons, Bool.false_eq_true, if_false, hz,
        List.getElem?_cons_zero, if_true]
      rw [if_neg (by omega)]
  · rintro hno ⟨e1, he1, hlt1⟩ ⟨e2, he2, hlt2⟩
    have hne : cache theta ≠ [] := List.ne_nil_of_mem he1
    obtain ⟨last, hl, hmem, hmax⟩ := hlast hne
    have hbig : n < last.1 := Nat.lt_of_lt_of_le hlt2 (hmax e2 he2)
    refine ⟨last, ?_, hmem, hbig, hmax⟩
    have hnz : zetaLowerBound (cache theta) n ≠ 0 := by
      intro hz
      obtain ⟨i, hi, hget⟩ := List.getElem_of_mem he1
      cases hc : cache theta with
      | nil => exact absurd hc hne
      | cons a m =>
        have h0 : (cache theta)[0]? = some a := by rw [hc]; simp
        have h1 := hat a (by rw [hz]; exact h0)
        -- the first entry has the smallest item count
        have h2 : a.1 ≤ e1.1 := by
          rw [hc] at he1 hs
          rcases List.mem_cons.mp he1 with h | h
          · rw [h]
          · exact Nat.le_of_lt ((List.pairwise_cons.mp hs).1 e1 h)
        omega
    unfold ZetaCache.FindStartingPoint
    simp only [hempty hne, Bool.false_eq_true, if_false]
    cases hg : (cache theta)[zetaLowerBound (cache theta) n]? with
    | none => exact hl
    | some e =>
      simp only
      rw [if_neg (hno e (mem_of_getElem?_some hg)), if_neg hnz]
      exact hl

/-! ## The zeta cache in exact arithmetic -/

theorem zetaInsert_mem_of_mem {R : Type} {m : List (Nat × R)} {k : Nat} {v : R}
    {e : Nat × R} (h : e ∈ m) : e ∈ zetaInsert m k v := by
  induction m with
  | nil => cases h
  | cons a m ih =>
    unfold zetaInsert
    split
    · exact List.mem_cons_of_mem _ h
    · split
      · exact h
      · rcases List.mem_cons.mp h with h | h
        · exact h ▸ List.mem_cons_self _ _
        · exact List.mem_cons_of_mem _ (ih h)

theorem zetaInsert_mem {R : Type} {m : List (Nat × R)} {k : Nat} {v : R} {e : Nat × R}
    (h : e ∈ zetaInsert m k v) : e ∈ m ∨ e = (k, v) := by
  induction m with
  | nil =>
    unfold zetaInsert at h
    exact Or.inr (List.mem_singleton.mp h)
  | cons a m ih =>
    unfold zetaInsert at h
    split at h
    · rcases List.mem_cons.mp h with h | h
      · exact Or.inr h
      · exact Or.inl h
    · split at h
      · exact Or.inl h
      · rcases List.mem_cons.mp h with h | h
        · exact Or.inl (h ▸ List.mem_cons_self _ _)
        · rcases ih h with h | h
          · exact Or.inl (List.mem_cons_of_mem _ h)
          · exact Or.inr h

theorem zetaInsert_has_key {R : Type} (m : List (Nat × R)) (k : Nat) (v : R) :
    ∃ e, e ∈ zetaInsert m k v ∧ e.1 = k := by
  induction m with
  | nil => exact ⟨(k, v), by simp [zetaInsert], rfl⟩
  | cons a m ih =>
    unfold zetaInsert
    split
    · exact ⟨(k, v), List.mem_cons_self _ _, rfl⟩
    · split
      · rename_i h
        exact ⟨a, List.mem_cons_self _ _, h.symm⟩
      · obtain ⟨e, he, hk⟩ := ih
        exact ⟨e, List.mem_cons_of_mem _ he, hk⟩

theorem zetaInsert_sorted {R : Type} {m : List (Nat × R)} (k : Nat) (v : R)
    (h : m.Pairwise (fun a b => a.1 < b.1)) :
    (zetaInsert m k v).Pairwise (fun a b => a.1 < b.1) := by
  induction m with
  | nil => simp [zetaInsert]
  | cons a m ih =>
    rw [List.pairwise_cons] at h
    unfold zetaInsert
    split
    · rename_i hlt
      rw [List.pairwise_cons]
      refine ⟨?_, List.pairwise_cons.mpr h⟩
      intro b hb
      rcases List.mem_cons.mp hb with hb | hb
      · rw [hb]; exact hlt
      · exact Nat.lt_trans hlt (h.1 b hb)
    · split
      · exact List.pairwise_cons.mpr h
      · rename_i h1 h2
        rw [List.pairwise_cons]
        refine ⟨?_, ih h.2⟩
        intro b hb
        rcases zetaInsert_mem hb with hb | hb
        · exact h.1 b hb
        · rw [hb]
          show a.1 < k
          omega

theorem FindStartingPoint_mem {R : Type} {cache : ZetaCache R} {n : Nat} {theta : R}
    {e : Nat × R} (h : cache.FindStartingPoint n theta = some e) : e ∈ cache theta := by
  unfold ZetaCache.FindStartingPoint at h
  simp only at h
  split at h
  · cases h
  · split at h
    · exact List.mem_of_getLast?_eq_some h
    · rename_i entry hentry
      split at h
      · cases h
        exact mem_of_getElem?_some hentry
      · split at h
        · cases h
        · exact List.mem_of_getLast?_eq_some h

theorem ComputeZetaNForDecrease_split {R : Type} [Sub R] [Div R] [One R] [NatCast R]
    (pow : R → R → R) (theta : R) (a b c : Nat) (z : R) (hab : a ≤ b) (hbc : b ≤ c) :
    ComputeZetaNForDecrease pow b theta c (ComputeZetaNForDecrease pow a theta b z)
      = ComputeZetaNForDecrease pow a theta c z := by
  unfold ComputeZetaNForDecrease
  rw [← List.foldl_append]
  congr 1
  obtain ⟨k, rfl⟩ := Nat.exists_eq_add_of_le hab
  obtain ⟨l, rfl⟩ := Nat.exists_eq_add_of_le hbc
  rw [Nat.add_sub_cancel_left, Nat.add_sub_cancel_left,
    show a + k + l - a = l + k by omega]
  exact List.range'_append_1 a k l

theorem ComputeZetaN_real (theta : ℝ) (a : Nat) (z : ℝ) :
    ∀ b : Nat, a ≤ b →
      ComputeZetaN Real.rpow b theta a z
        = z + ∑ i ∈ Finset.Ico a b, ((i + 1 : Nat) : ℝ) ^ (-theta) := by
  intro b hab
  induction b, hab using Nat.le_induction with
  | base =>
    unfold ComputeZetaN
    simp
  | succ b hab ih =>
    rw [← ComputeZetaN_split Real.rpow theta a b (b + 1) z hab (Nat.le_succ b), ih,
      ComputeZetaN_one_step, Finset.sum_Ico_succ_top hab, add_assoc]
    congr 2
    show 1 / (((b + 1 : Nat) : ℝ) ^ theta) = _
    rw [Real.rpow_neg (Nat.cast_nonneg _), one_div]

theorem ComputeZetaNForDecrease_real (theta : ℝ) (a : Nat) (z : ℝ) :
    ∀ b : Nat, a ≤ b →
      ComputeZetaNForDecrease Real.rpow a theta b z
        = z - ∑ i ∈ Finset.Ico a b, ((i + 1 : Nat) : ℝ) ^ (-theta) := by
  intro b hab
  induction b, hab using Nat.le_induction with
  | base =>
    unfold ComputeZetaNForDecrease
    simp
  | succ b hab ih =>
    rw [← ComputeZetaNForDecrease_split Real.rpow theta a b (b + 1) z hab (Nat.le_succ b), ih,
      ComputeZetaNForDecrease_one_step, Finset.sum_Ico_succ_top hab]
    have : (1 : ℝ) / Real.rpow ((b + 1 : Nat) : ℝ) theta = ((b + 1 : Nat) : ℝ) ^ (-theta) := by
      show 1 / (((b + 1 : Nat) : ℝ) ^ theta) = _
      rw [Real.rpow_neg (Nat.cast_nonneg _), one_div]
    rw [this]
    ring

theorem UpdateZetaNWithCaching_exact (c : ZipfianChooser ℝ) (cache : ZetaCache ℝ)
    (hcache : cache.Exact) :
    (c.UpdateZetaNWithCaching Real.rpow cache).1
      = { c with
          zeta_n_ := ∑ i ∈ Finset.range c.item_count_, ((i + 1 : Nat) : ℝ) ^ (-c.theta_) } ∧
    (c.UpdateZetaNWithCaching Real.rpow cache).2.Exact ∧
    (∃ e, e ∈ (c.UpdateZetaNWithCaching Real.rpow cache).2 c.theta_ ∧ e.1 = c.item_count_) ∧
    (∀ (theta : ℝ) (e : Nat × ℝ), e ∈ cache theta →
      e ∈ (c.UpdateZetaNWithCaching Real.rpow cache).2 theta) := by
  have hadd : ∀ z : ℝ,
      z = ∑ i ∈ Finset.range c.item_count_, ((i + 1 : Nat) : ℝ) ^ (-c.theta_) →
      (cache.Add c.item_count_ c.theta_ z).Exact ∧
      (∃ e, e ∈ (cache.Add c.item_count_ c.theta_ z) c.theta_ ∧ e.1 = c.item_count_) ∧
      (∀ (theta : ℝ) (e : Nat × ℝ), e ∈ cache theta →
        e ∈ (cache.Add c.item_count_ c.theta_ z) theta) := by
    intro z hz
    refine ⟨?_, ?_, ?_⟩
    · intro theta
      unfold ZetaCache.Add
      by_cases ht : theta = c.theta_
      · subst ht
        rw [Function.update_same]
        refine ⟨zetaInsert_sorted _ _ (hcache _).1, ?_⟩
        intro e he
        rcases zetaInsert_mem he with he | he
        · exact (hcache _).2 e he
        · rw [he]
          exact hz
      · rw [Function.update_noteq ht]
        exact hcache theta
    · unfold ZetaCache.Add
      rw [Function.update_same]
      exact zetaInsert_has_key _ _ _
    · intro theta e he
      unfold ZetaCache.Add
      by_cases ht : theta = c.theta_
      · subst ht
        rw [Function.update_same]
        exact zetaInsert_mem_of_mem he
      · rw [Function.update_noteq ht]
        exact he
  cases hres : cache.FindStartingPoint c.item_count_ c.theta_ with
  | none =>
    have hz : (if 0 < c.item_count_ then ComputeZetaN Real.rpow c.item_count_ c.theta_ 0 0
        else ComputeZetaNForDecrease Real.rpow c.item_count_ c.theta_ 0 0)
        = ∑ i ∈ Finset.range c.item_count_, ((i + 1 : Nat) : ℝ) ^ (-c.theta_) := by
      split
      · rw [ComputeZetaN_real _ _ _ _ (Nat.zero_le _), zero_add, Finset.range_eq_Ico]
      · rename_i h0
        have h0 : c.item_count_ = 0 := by omega
        rw [h0, ComputeZetaNForDecrease_real _ _ _ _ (Nat.le_refl _)]
        simp
    simp only [ZipfianChooser.UpdateZetaNWithCaching, hres, Bool.false_eq_true, if_false]
    rw [hz]
    exact ⟨rfl, hadd _ rfl⟩
  | some e =>
    have hmem := FindStartingPoint_mem hres
    have hval := (hcache c.theta_).2 e hmem
    by_cases hk : e.1 = c.item_count_
    · simp only [ZipfianChooser.UpdateZetaNWithCaching, hres, hk, decide_True, if_true]
      refine ⟨?_, hcache, ⟨e, hmem, hk⟩, fun theta e he => he⟩
      rw [hval, hk]
    · have hz : (if e.1 < c.item_count_ then
            ComputeZetaN Real.rpow c.item_count_ c.theta_ e.1 e.2
          else ComputeZetaNForDecrease Real.rpow c.item_count_ c.theta_ e.1 e.2)
          = ∑ i ∈ Finset.range c.item_count_, ((i + 1 : Nat) : ℝ) ^ (-c.theta_) := by
        split
        · rename_i hlt
          rw [ComputeZetaN_real _ _ _ _ (Nat.le_of_lt hlt), hval,
            Finset.sum_range_add_sum_Ico _ (Nat.le_of_lt hlt)]
        · rename_i hge
          have hle : c.item_count_ ≤ e.1 := by omega
          rw [ComputeZetaNForDecrease_real _ _ _ _ hle, hval,
            ← Finset.sum_range_add_sum_Ico _ hle]
          ring
      simp only [ZipfianChooser.UpdateZetaNWithCaching, hres, hk, decide_False,
        Bool.false_eq_true, if_false]
      rw [hz]
      exact ⟨rfl, hadd _ rfl⟩

theorem SetItemCount_exact (c : ZipfianChooser ℝ) (cache : ZetaCache ℝ) (n : Nat)
    (hcache : cache.Exact) :
    (c.SetItemCount Real.rpow cache n).1.zeta_n_
      = ∑ i ∈ Finset.range n, ((i + 1 : Nat) : ℝ) ^ (-c.theta_) ∧
    (c.SetItemCount Real.rpow cache n).1.item_count_ = n ∧
    (c.SetItemCount Real.rpow cache n).1.theta_ = c.theta_ ∧
    (c.SetItemCount Real.rpow cache n).2.Exact ∧
    (∃ e, e ∈ (c.SetItemCount Real.rpow cache n).2 c.theta_ ∧ e.1 = n) ∧
    (∀ (theta : ℝ) (e : Nat × ℝ), e ∈ cache theta →
      e ∈ (c.SetItemCount Real.rpow cache n).2 theta) := by
  obtain ⟨h1, h2, h3, h4⟩ :=
    UpdateZetaNWithCaching_exact { c with item_count_ := n } cache hcache
  unfold ZipfianChooser.SetItemCount
  simp only
  rw [h1] at *
  exact ⟨rfl, rfl, rfl, h2, h3, h4⟩

theorem create_exact (cache : ZetaCache ℝ) (n : Nat) (theta : ℝ) (hcache : cache.Exact) :
    (ZipfianChooser.create Real.rpow cache n theta).1.zeta_n_
      = ∑ i ∈ Finset.range n, ((i + 1 : Nat) : ℝ) ^ (-theta) ∧
    (ZipfianChooser.create Real.rpow cache n theta).2.Exact := by
  obtain ⟨h1, h2, -, -⟩ :=
    UpdateZetaNWithCaching_exact
      { item_count_ := n, theta_ := theta, alpha_ := 1 / (1 - theta),
        thres_ := 1 + Real.rpow (1 / ((2 : Nat) : ℝ)) theta,
        zeta2theta_ := ComputeZetaN Real.rpow 2 theta 0 0, zeta_n_ := 0, eta_ := 0 }
      cache hcache
  unfold ZipfianChooser.create
  simp only
  rw [h1] at *
  exact ⟨rfl, h2⟩

theorem ReachableZetaCache_exact {cache : ZetaCache ℝ}
    (h : ReachableZetaCache Real.rpow cache) : cache.Exact := by
  induction h with
  | empty =>
    intro theta
    exact ⟨List.Pairwise.nil, fun e he => by cases he⟩
  | create n theta _ ih => exact (create_exact _ n theta ih).2
  | setItemCount c n _ ih => exact (SetItemCount_exact c _ n ih).2.2.2.1

/-- C35: taking the arithmetic as exact (real numbers, pow the real power): for every
cache state that constructions of choosers and SetItemCount calls produce from the
empty cache, every chooser and every n >= 1, after SetItemCount(n) the item count is
n, zeta_n is the sum of i^(-theta) over i = 1, ..., n, whichever starting point was
found in the cache (none, one with a smaller item count whose terms are added, or one
with a larger item count whose tail terms are subtracted); the cache then has exactly
one entry for (theta, n) and its value is that sum; and every entry that the cache held
before is still in it, unchanged. -/
theorem SetItemCount_zeta_exact (cache : ZetaCache ℝ) (c : ZipfianChooser ℝ) (n : Nat)
    (hreach : ReachableZetaCache Real.rpow cache) (hn : 1 ≤ n) :
    (c.SetItemCount Real.rpow cache n).1.item_count_ = n ∧
    (c.SetItemCount Real.rpow cache n).1.zeta_n_
      = ∑ i ∈ Finset.range n, ((i + 1 : Nat) : ℝ) ^ (-c.theta_) ∧
    (∃ e, e ∈ (c.SetItemCount Real.rpow cache n).2 c.theta_ ∧ e.1 = n ∧
      e.2 = ∑ i ∈ Finset.range n, ((i + 1 : Nat) : ℝ) ^ (-c.theta_) ∧
      ∀ e2, e2 ∈ (c.SetItemCount Real.rpow cache n).2 c.theta_ → e2.1 = n → e2 = e) ∧
    (∀ (theta : ℝ) (e : Nat × ℝ), e ∈ cache theta →
      e ∈ (c.SetItemCount Real.rpow cache n).2 theta) := by
  have hcache := ReachableZetaCache_exact hreach
  obtain ⟨h1, h2, -, h4, ⟨e, he, hk⟩, h6⟩ := SetItemCount_exact c cache n hcache
  have hval := (h4 c.theta_).2 e he
  rw [hk] at hval
  refine ⟨h2, h1, ⟨e, he, hk, hval, ?_⟩, h6⟩
  intro e2 he2 hk2
  have hval2 := (h4 c.theta_).2 e2 he2
  rw [hk2] at hval2
  exact Prod.ext (hk2.trans hk.symm) (hval2.trans hval.symm)

theorem SetItemCount_zeta_exact_witness :
    1 ≤ 10 ∧
    ((ZipfianChooser.create Real.rpow (ZipfianChooser.create Real.rpow (fun _ => []) 20
        (1 / 2)).2 30 (1 / 2)).1.SetItemCount Real.rpow
      (ZipfianChooser.create Real.rpow (ZipfianChooser.create Real.rpow (fun _ => []) 20
        (1 / 2)).2 30 (1 / 2)).2 10).1.item_count_ = 10 :=
  ⟨by decide,
    (SetItemCount_zeta_exact
      (ZipfianChooser.create Real.rpow (ZipfianChooser.create Real.rpow (fun _ => []) 20
        (1 / 2)).2 30 (1 / 2)).2
      (ZipfianChooser.create Real.rpow (ZipfianChooser.create Real.rpow (fun _ => []) 20
        (1 / 2)).2 30 (1 / 2)).1 10
      (ReachableZetaCache.create 30 (1 / 2)
        (ReachableZetaCache.create 20 (1 / 2) ReachableZetaCache.empty))
      (by decide)).1⟩

/-! ## The range of `ZipfianChooser::Next` in exact arithmetic -/

theorem create_fields_exact (cache : ZetaCache ℝ) (n : Nat) (theta : ℝ)
    (hcache : cache.Exact) :
    (ZipfianChooser.create Real.rpow cache n theta).1
      = { item_count_ := n
          theta_ := theta
          alpha_ := 1 / (1 - theta)
          thres_ := 1 + Real.rpow (1 / ((2 : Nat) : ℝ)) theta
          zeta2theta_ := ComputeZetaN Real.rpow 2 theta 0 0
          zeta_n_ := ∑ i ∈ Finset.range n, ((i + 1 : Nat) : ℝ) ^ (-theta)
          eta_ := (1 - Real.rpow (((2 : Nat) : ℝ) / ((n : Nat) : ℝ)) (1 - theta))
            / (1 - ComputeZetaN Real.rpow 2 theta 0 0
                / ∑ i ∈ Finset.range n, ((i + 1 : Nat) : ℝ) ^ (-theta)) } := by
  obtain ⟨h1, -, -, -⟩ :=
    UpdateZetaNWithCaching_exact
      { item_count_ := n, theta_ := theta, alpha_ := 1 / (1 - theta),
        thres_ := 1 + Real.rpow (1 / ((2 : Nat) : ℝ)) theta,
        zeta2theta_ := ComputeZetaN Real.rpow 2 theta 0 0, zeta_n_ := 0, eta_ := 0 }
      cache hcache
  unfold ZipfianChooser.create
  simp only
  rw [h1]
  rfl

theorem zeta_two (theta : ℝ) :
    ComputeZetaN Real.rpow 2 theta 0 0 = 1 + (2 : ℝ) ^ (-theta) := by
  rw [ComputeZetaN_real _ _ _ _ (Nat.zero_le _), zero_add]
  simp [Finset.sum_Ico_eq_sum_range, Finset.sum_range_succ]
  norm_num

theorem zeta_term_pos (theta : ℝ) (i : Nat) : 0 < ((i + 1 : Nat) : ℝ) ^ (-theta) :=
  Real.rpow_pos_of_pos (by exact_mod_cast Nat.succ_pos i) _

theorem zeta_mono (theta : ℝ) {m n : Nat} (h : m ≤ n) :
    ∑ i ∈ Finset.range m, ((i + 1 : Nat) : ℝ) ^ (-theta)
      ≤ ∑ i ∈ Finset.range n, ((i + 1 : Nat) : ℝ) ^ (-theta) :=
  Finset.sum_le_sum_of_subset_of_nonneg (Finset.range_mono h)
    (fun i _ _ => le_of_lt (zeta_term_pos theta i))

theorem zeta_one (theta : ℝ) :
    ∑ i ∈ Finset.range 1, ((i + 1 : Nat) : ℝ) ^ (-theta) = 1 := by
  simp

theorem zeta_two_sum (theta : ℝ) :
    ∑ i ∈ Finset.range 2, ((i + 1 : Nat) : ℝ) ^ (-theta) = 1 + (2 : ℝ) ^ (-theta) := by
  simp [Finset.sum_range_succ]
  norm_num

theorem zeta_three_lt (theta : ℝ) {n : Nat} (h : 3 ≤ n) :
    1 + (2 : ℝ) ^ (-theta) < ∑ i ∈ Finset.range n, ((i + 1 : Nat) : ℝ) ^ (-theta) := by
  have h3 : ∑ i ∈ Finset.range 3, ((i + 1 : Nat) : ℝ) ^ (-theta)
      = 1 + (2 : ℝ) ^ (-theta) + ((2 + 1 : Nat) : ℝ) ^ (-theta) := by
    rw [Finset.sum_range_succ, zeta_two_sum]
  have := zeta_mono theta h
  have hpos := zeta_term_pos theta 2
  linarith

theorem half_rpow (theta : ℝ) : Real.rpow (1 / ((2 : Nat) : ℝ)) theta = (2 : ℝ) ^ (-theta) := by
  show (1 / ((2 : Nat) : ℝ)) ^ theta = _
  rw [Real.rpow_neg (by norm_num), one_div, Real.inv_rpow (by norm_num)]
  norm_num

/-- C23: taking the arithmetic as exact (real numbers, pow the real power, the
conversion to size_t the floor): for the chooser that the constructor returns for
theta in (0, 1) and an item count n >= 1, over any cache state that constructions and
SetItemCount calls produce (so that zeta_n is the sum of i^(-theta) over i = 1..n and
eta is what UpdateETA computes), and for every u in [0, 1): Next returns 0 if
u * zeta_n < 1, returns 1 if 1 <= u * zeta_n < 1 + 0.5^theta, and returns
floor(n * (eta * u - eta + 1)^alpha) otherwise, with alpha = 1 / (1 - theta); in every
case the value returned is below n. -/
theorem ZipfianChooser_Next_range (cache : ZetaCache ℝ) (n : Nat) (theta u : ℝ)
    (hreach : ReachableZetaCache Real.rpow cache)
    (ht0 : 0 < theta) (ht1 : theta < 1) (hn : 1 ≤ n) (hu0 : 0 ≤ u) (hu1 : u < 1) :
    (ZipfianChooser.create Real.rpow cache n theta).1.zeta_n_
      = ∑ i ∈ Finset.range n, ((i + 1 : Nat) : ℝ) ^ (-theta) ∧
    (ZipfianChooser.create Real.rpow cache n theta).1.alpha_ = 1 / (1 - theta) ∧
    (u * (ZipfianChooser.create Real.rpow cache n theta).1.zeta_n_ < 1 →
      (ZipfianChooser.create Real.rpow cache n theta).1.Next Real.rpow (fun x => ⌊x⌋₊) u = 0) ∧
    (1 ≤ u * (ZipfianChooser.create Real.rpow cache n theta).1.zeta_n_ →
      u * (ZipfianChooser.create Real.rpow cache n theta).1.zeta_n_ < 1 + (1 / 2 : ℝ) ^ theta →
      (ZipfianChooser.create Real.rpow cache n theta).1.Next Real.rpow (fun x => ⌊x⌋₊) u = 1) ∧
    (1 + (1 / 2 : ℝ) ^ theta ≤ u * (ZipfianChooser.create Real.rpow cache n theta).1.zeta_n_ →
      (ZipfianChooser.create Real.rpow cache n theta).1.Next Real.rpow (fun x => ⌊x⌋₊) u
        = ⌊(n : ℝ) * ((ZipfianChooser.create Real.rpow cache n theta).1.eta_ * u
            - (ZipfianChooser.create Real.rpow cache n theta).1.eta_ + 1)
            ^ (ZipfianChooser.create Real.rpow cache n theta).1.alpha_⌋₊) ∧
    (ZipfianChooser.create Real.rpow cache n theta).1.Next Real.rpow (fun x => ⌊x⌋₊) u < n := by
  have hfields := create_fields_exact cache n theta (ReachableZetaCache_exact hreach)
  rw [hfields]
  simp only [ZipfianChooser.Next]
  rw [half_rpow, zeta_two]
  have hhalf : (1 / 2 : ℝ) ^ theta = (2 : ℝ) ^ (-theta) := by
    have := half_rpow theta
    simpa using this
  rw [hhalf]
  set Z := ∑ i ∈ Finset.range n, ((i + 1 : Nat) : ℝ) ^ (-theta) with hZ
  have hZ1 : 1 ≤ Z := by
    have := zeta_mono theta hn
    rw [zeta_one] at this
    exact this
  have hZpos : 0 < Z := by linarith
  have h2pos : 0 < (2 : ℝ) ^ (-theta) := Real.rpow_pos_of_pos (by norm_num) _
  refine ⟨trivial, trivial, ?_, ?_, ?_, ?_⟩
  · intro h
    rw [if_pos h]
  · intro h1 h2
    rw [if_neg (not_lt.mpr h1), if_pos h2]
  · intro h
    have h1 : ¬ u * Z < 1 := by
      have : (1 : ℝ) ≤ u * Z := by linarith
      exact not_lt.mpr this
    rw [if_neg h1, if_neg (not_lt.mpr h)]
    simp
  · by_cases h1 : u * Z < 1
    · rw [if_pos h1]
      omega
    · rw [if_neg h1]
      by_cases h2 : u * Z < 1 + (2 : ℝ) ^ (-theta)
      · rw [if_pos h2]
        -- n = 1 would give u * Z = u < 1
        by_contra hcon
        have hn1 : n = 1 := by omega
        have hZe : Z = 1 := by rw [hZ, hn1, zeta_one]
        rw [hZe] at h1
        linarith
      · rw [if_neg h2]
        have h2 : 1 + (2 : ℝ) ^ (-theta) ≤ u * Z := not_lt.mp h2
        have huZ : u * Z < Z := by nlinarith
        -- n >= 3
        have hn3 : 3 ≤ n := by
          by_contra hcon
          have hle : n ≤ 2 := by omega
          have := zeta_mono theta hle
          rw [zeta_two_sum] at this
          linarith
        have hZ2 : 1 + (2 : ℝ) ^ (-theta) < Z := zeta_three_lt theta hn3
        have hnpos : (0 : ℝ) < ((n : Nat) : ℝ) := by exact_mod_cast (by omega : 0 < n)
        have hD : 0 < 1 - (1 + (2 : ℝ) ^ (-theta)) / Z := by
          rw [sub_pos, div_lt_one hZpos]
          exact hZ2
        have hq0 : (0 : ℝ) < ((2 : Nat) : ℝ) / ((n : Nat) : ℝ) := by
          apply div_pos _ hnpos
          norm_num
        have hq1 : ((2 : Nat) : ℝ) / ((n : Nat) : ℝ) < 1 := by
          rw [div_lt_one hnpos]
          exact_mod_cast (by omega : 2 < n)
        have h1t : 0 < 1 - theta := by linarith
        have hp0 : 0 < Real.rpow (((2 : Nat) : ℝ) / ((n : Nat) : ℝ)) (1 - theta) :=
          Real.rpow_pos_of_pos hq0 _
        have hp1 : Real.rpow (((2 : Nat) : ℝ) / ((n : Nat) : ℝ)) (1 - theta) < 1 :=
          Real.rpow_lt_one (le_of_lt hq0) hq1 h1t
        set P := Real.rpow (((2 : Nat) : ℝ) / ((n : Nat) : ℝ)) (1 - theta) with hP
        set D := 1 - (1 + (2 : ℝ) ^ (-theta)) / Z with hDdef
        have heta : 0 < (1 - P) / D := div_pos (by linarith) hD
        -- the base of the power lies in [P, 1)
        have hu_ge : (1 + (2 : ℝ) ^ (-theta)) / Z ≤ u := by
          rw [div_le_iff₀ hZpos]
          exact h2
        have h1u : 1 - u ≤ D := by
          rw [hDdef]
          linarith
        have hb_lt : (1 - P) / D * u - (1 - P) / D + 1 < 1 := by
          have : 0 < (1 - P) / D * (1 - u) := mul_pos heta (by linarith)
          nlinarith
        have hb_ge : P ≤ (1 - P) / D * u - (1 - P) / D + 1 := by
          have hmul : (1 - P) / D * (1 - u) ≤ (1 - P) / D * D :=
            mul_le_mul_of_nonneg_left h1u (le_of_lt heta)
          have hcancel : (1 - P) / D * D = 1 - P := div_mul_cancel₀ _ (ne_of_gt hD)
          nlinarith
        have hb0 : 0 ≤ (1 - P) / D * u - (1 - P) / D + 1 := le_trans (le_of_lt hp0) hb_ge
        have halpha : 0 < 1 / (1 - theta) := one_div_pos.mpr h1t
        have hpow_lt : Real.rpow ((1 - P) / D * u - (1 - P) / D + 1) (1 / (1 - theta)) < 1 :=
          Real.rpow_lt_one hb0 hb_lt halpha
        have hpow_ge : 0 ≤ Real.rpow ((1 - P) / D * u - (1 - P) / D + 1) (1 / (1 - theta)) :=
          Real.rpow_nonneg hb0 _
        rw [Nat.floor_lt (mul_nonneg (le_of_lt hnpos) hpow_ge)]
        nlinarith

theorem ZipfianChooser_Next_range_witness :
    ((0 : ℝ) < 1 / 2 ∧ (1 / 2 : ℝ) < 1 ∧ 1 ≤ 10 ∧ (0 : ℝ) ≤ 9 / 10 ∧ (9 / 10 : ℝ) < 1) ∧
    (ZipfianChooser.create Real.rpow (fun _ => []) 10 (1 / 2)).1.Next Real.rpow
      (fun x => ⌊x⌋₊) (9 / 10) < 10 :=
  ⟨⟨by norm_num, by norm_num, by decide, by norm_num, by norm_num⟩,
    (ZipfianChooser_Next_range (fun _ => []) 10 (1 / 2) (9 / 10) ReachableZetaCache.empty
      (by norm_num) (by norm_num) (by decide) (by norm_num) (by norm_num)).2.2.2.2.2⟩

/-! ## Latency percentiles -/

set_option maxRecDepth 100000 in
/-- C25: for the ten latencies 0, ..., 9 and the percentile p that is the double
nearest to 0.7 (p = 6305039478318694 / 2^53, below 0.7), the exact product p * 10 lies
in [6, 7), so floor(p * n) = 6 and the element at index min(6, 9) is 6; the product
computed in binary64 rounds to 7.0, and LatencyPercentile returns the element at index
7, which is 7. -/
theorem LatencyPercentile_rounds_product :
    doubleSevenTenths = { neg := false, mant := 6305039478318694, exp := -53 } ∧
    tenLatencies.Freeze.latencies_ = [0, 1, 2, 3, 4, 5, 6, 7, 8, 9] ∧
    6 ≤ doubleSevenTenths.value * 10 ∧ doubleSevenTenths.value * 10 < 7 ∧
    percentileIndex doubleSevenTenths 10 = 7 ∧
    tenLatencies.Freeze.LatencyPercentile doubleSevenTenths = Except.ok 7 ∧
    tenLatencies.Freeze.latencies_[min 6 9]? = some 6 := by
  have hd : doubleSevenTenths = { neg := false, mant := 6305039478318694, exp := -53 } := by
    decide
  refine ⟨hd, by decide, ?_, ?_, by decide, rfl, by decide⟩
  · rw [hd]
    unfold Double.value
    norm_num
  · rw [hd]
    unfold Double.value
    norm_num

/-! ## Rounding to nearest in `roundDouble` -/

theorem bitLength_zero (fuel : Nat) : bitLength fuel 0 = 0 := by
  cases fuel with
  | zero => rfl
  | succ fuel => rfl

theorem bitLength_spec :
    ∀ (fuel n : Nat), n ≤ fuel → 0 < n →
      1 ≤ bitLength fuel n ∧ 2 ^ (bitLength fuel n - 1) ≤ n ∧ n < 2 ^ bitLength fuel n := by
  intro fuel
  induction fuel with
  | zero => intro n h0 hpos; omega
  | succ fuel ih =>
    intro n hle hpos
    unfold bitLength
    rw [if_neg (by omega)]
    by_cases h1 : n / 2 = 0
    · rw [h1, bitLength_zero]
      have : n = 1 := by omega
      subst this
      exact ⟨by omega, by norm_num, by norm_num⟩
    · obtain ⟨hb, hlo, hhi⟩ := ih (n / 2) (by omega) (by omega)
      refine ⟨by omega, ?_, ?_⟩
      · rw [Nat.add_sub_cancel]
        have h2 : 2 ^ bitLength fuel (n / 2) = 2 * 2 ^ (bitLength fuel (n / 2) - 1) := by
          rw [← pow_succ']
          congr 1
          omega
        omega
      · rw [pow_succ]
        omega

theorem pow_bound_upper {x y a b s : Nat} (hx : x < 2 ^ a) (hy : 2 ^ (b - 1) ≤ y)
    (hb : 1 ≤ b) (hs : a + s = 52 + b) : x * 2 ^ s < 2 ^ 53 * y := by
  have h1 : x * 2 ^ s < 2 ^ a * 2 ^ s := Nat.mul_lt_mul_of_pos_right hx (by positivity)
  have h2 : 2 ^ a * 2 ^ s = 2 ^ 53 * 2 ^ (b - 1) := by
    rw [← pow_add, ← pow_add]
    congr 1
    omega
  have h3 : 2 ^ 53 * 2 ^ (b - 1) ≤ 2 ^ 53 * y := Nat.mul_le_mul_left _ hy
  omega

theorem pow_bound_lower {x y a b s : Nat} (hx : 2 ^ (a - 1) ≤ x) (hy : y < 2 ^ b)
    (ha : 1 ≤ a) (hs : a + s = 53 + b) : 2 ^ 52 * y ≤ x * 2 ^ s := by
  have h1 : 2 ^ (a - 1) * 2 ^ s ≤ x * 2 ^ s := Nat.mul_le_mul_right _ hx
  have h2 : 2 ^ (a - 1) * 2 ^ s = 2 ^ 52 * 2 ^ b := by
    rw [← pow_add, ← pow_add]
    congr 1
    omega
  have h3 : 2 ^ 52 * y ≤ 2 ^ 52 * 2 ^ b := Nat.mul_le_mul_left _ (Nat.le_of_lt hy)
  omega

/-- The decomposition of `roundDouble` for a value below `2^53`: the exponent is `-s`
for the `s` that brings the value into `[2^52, 2^53)`, and the mantissa is the
quotient of the scaled value, increased by 1 when the remainder is above one half, or
is one half and the quotient is odd. -/
theorem roundDouble_spec (num den : Nat) (hnum : 0 < num) (hden : 0 < den)
    (hlt : num < 2 ^ 53 * den) :
    ∃ s : Nat, 2 ^ 52 * den ≤ num * 2 ^ s ∧ num * 2 ^ s < 2 ^ 53 * den ∧
      roundDouble num den =
        (if den < 2 * (num * 2 ^ s % den) ∨
            (2 * (num * 2 ^ s % den) = den ∧ num * 2 ^ s / den % 2 = 1) then
          (num * 2 ^ s / den + 1, -(s : Int))
        else (num * 2 ^ s / den, -(s : Int))) := by
  obtain ⟨ha, hnlo, hnhi⟩ := bitLength_spec num num (Nat.le_refl _) hnum
  obtain ⟨hb, hdlo, hdhi⟩ := bitLength_spec den den (Nat.le_refl _) hden
  have key : ∀ (fl : Int) (s : Nat), fl - 52 = -(s : Int) →
      (if den * 2 ^ ((bitLength num num : Int) - (bitLength den den : Int)).toNat
          ≤ num * 2 ^ (-((bitLength num num : Int) - (bitLength den den : Int))).toNat
        then (bitLength num num : Int) - (bitLength den den : Int)
        else (bitLength num num : Int) - (bitLength den den : Int) - 1) = fl →
      roundDouble num den =
        (if den < 2 * (num * 2 ^ s % den) ∨
            (2 * (num * 2 ^ s % den) = den ∧ num * 2 ^ s / den % 2 = 1) then
          (num * 2 ^ s / den + 1, -(s : Int))
        else (num * 2 ^ s / den, -(s : Int))) := by
    intro fl s hs hfl
    unfold roundDouble
    rw [if_neg (by omega)]
    simp only [hfl, hs, Int.neg_neg, Int.toNat_ofNat, Int.toNat_neg_nat, pow_zero, Nat.mul_one]
  generalize bitLength num num = a at ha hnlo hnhi key
  generalize bitLength den den = b at hb hdlo hdhi key
  by_cases hab : b ≤ a
  · have hk1 : ((a : Int) - (b : Int)).toNat = a - b := by omega
    have hk2 : (-((a : Int) - (b : Int))).toNat = 0 := by omega
    rw [hk1, hk2, pow_zero, Nat.mul_one] at key
    by_cases hc : den * 2 ^ (a - b) ≤ num
    · -- the value is at least `2 ^ (a - b)`
      have h53 : a - b < 53 := by
        by_contra hge
        have : 2 ^ 53 ≤ 2 ^ (a - b) := Nat.pow_le_pow_right (by norm_num) (by omega)
        have : den * 2 ^ 53 ≤ den * 2 ^ (a - b) := Nat.mul_le_mul_left _ this
        omega
      refine ⟨52 - (a - b), ?_, ?_, key _ _ (by omega) (if_pos hc)⟩
      · have h1 : den * 2 ^ (a - b) * 2 ^ (52 - (a - b)) ≤ num * 2 ^ (52 - (a - b)) :=
          Nat.mul_le_mul_right _ hc
        have h2 : den * 2 ^ (a - b) * 2 ^ (52 - (a - b)) = 2 ^ 52 * den := by
          rw [Nat.mul_assoc, ← pow_add, Nat.mul_comm]
          congr 2
          omega
        omega
      · exact pow_bound_upper hnhi hdlo hb (by omega)
    · have hc : num < den * 2 ^ (a - b) := by omega
      have h53 : a ≤ 53 + b := by
        by_contra hge
        have h1 : 2 ^ (53 + b) ≤ 2 ^ (a - 1) := Nat.pow_le_pow_right (by norm_num) (by omega)
        have h2 : 2 ^ 53 * den < 2 ^ 53 * 2 ^ b := Nat.mul_lt_mul_of_pos_left hdhi (by positivity)
        rw [← pow_add] at h2
        omega
      refine ⟨53 + b - a, ?_, ?_, key _ _ (by omega) (if_neg (by omega))⟩
      · exact pow_bound_lower hnlo hdhi ha (by omega)
      · have h1 : num * 2 ^ (53 + b - a) < den * 2 ^ (a - b) * 2 ^ (53 + b - a) :=
          Nat.mul_lt_mul_of_pos_right hc (by positivity)
        have h2 : den * 2 ^ (a - b) * 2 ^ (53 + b - a) = 2 ^ 53 * den := by
          rw [Nat.mul_assoc, ← pow_add, Nat.mul_comm]
          congr 2
          omega
        omega
  · have hab : a < b := by omega
    have hk1 : ((a : Int) - (b : Int)).toNat = 0 := by omega
    have hk2 : (-((a : Int) - (b : Int))).toNat = b - a := by omega
    rw [hk1, hk2, pow_zero, Nat.mul_one] at key
    by_cases hc : den ≤ num * 2 ^ (b - a)
    · refine ⟨52 + (b - a), ?_, ?_, key _ _ (by omega) (if_pos hc)⟩
      · have h1 : den * 2 ^ 52 ≤ num * 2 ^ (b - a) * 2 ^ 52 := Nat.mul_le_mul_right _ hc
        have h2 : num * 2 ^ (b - a) * 2 ^ 52 = num * 2 ^ (52 + (b - a)) := by
          rw [Nat.mul_assoc, ← pow_add]
          congr 2
          omega
        omega
      · exact pow_bound_upper hnhi hdlo hb (by omega)
    · have hc : num * 2 ^ (b - a) < den := by omega
      refine ⟨53 + (b - a), ?_, ?_, key _ _ (by omega) (if_neg (by omega))⟩
      · exact pow_bound_lower hnlo hdhi ha (by omega)
      · have h1 : num * 2 ^ (b - a) * 2 ^ 53 < den * 2 ^ 53 :=
          Nat.mul_lt_mul_of_pos_right hc (by positivity)
        have h2 : num * 2 ^ (b - a) * 2 ^ 53 = num * 2 ^ (53 + (b - a)) := by
          rw [Nat.mul_assoc, ← pow_add]
          congr 2
          omega
        omega

theorem roundDouble_eq (num den : Nat) (hnum : 0 < num) (hden : 0 < den)
    (hlt : num < 2 ^ 53 * den) :
    ∃ s : Nat, 2 ^ 52 * den ≤ num * 2 ^ s ∧ num * 2 ^ s < 2 ^ 53 * den ∧
      roundDouble num den = (roundHalfEven (num * 2 ^ s) den, -(s : Int)) := by
  obtain ⟨s, h1, h2, h3⟩ := roundDouble_spec num den hnum hden hlt
  refine ⟨s, h1, h2, ?_⟩
  rw [h3]
  unfold roundHalfEven
  split <;> rfl

theorem truncDouble_neg (q s : Nat) : truncDouble (q, -(s : Int)) = q / 2 ^ s := by
  unfold truncDouble
  simp

theorem roundHalfEven_bounds (n d : Nat) :
    n / d ≤ roundHalfEven n d ∧ roundHalfEven n d ≤ n / d + 1 := by
  unfold roundHalfEven
  split <;> omega

theorem roundHalfEven_mono {n d n' d' : Nat} (hd : 0 < d) (hd' : 0 < d')
    (h : n * d' ≤ n' * d) : roundHalfEven n d ≤ roundHalfEven n' d' := by
  have e1 := Nat.div_add_mod n d
  have e2 := Nat.div_add_mod n' d'
  have r1 := Nat.mod_lt n hd
  have r2 := Nat.mod_lt n' hd'
  obtain ⟨b1, b2⟩ := roundHalfEven_bounds n d
  obtain ⟨b3, b4⟩ := roundHalfEven_bounds n' d'
  have hq : n / d ≤ n' / d' := by
    by_contra hcon
    have hcon : n' / d' + 1 ≤ n / d := by omega
    have h1 : n' < d' * (n / d) := by
      have : d' * (n' / d' + 1) ≤ d' * (n / d) := Nat.mul_le_mul_left _ hcon
      rw [Nat.mul_add, Nat.mul_one] at this
      omega
    have h2 : d * (n / d) ≤ n := by omega
    have h3 : n' * d < d' * (n / d) * d := Nat.mul_lt_mul_of_pos_right h1 hd
    have h4 : d * (n / d) * d' ≤ n * d' := Nat.mul_le_mul_right _ h2
    have h5 : d' * (n / d) * d = d * (n / d) * d' := by ring
    omega
  rcases Nat.lt_or_eq_of_le hq with hq | hq
  · omega
  · -- same quotient: compare the remainders
    have hr : n % d * d' ≤ n' % d' * d := by
      have h1 : n * d' = d * (n / d) * d' + n % d * d' := by
        conv_lhs => rw [← e1]
        ring
      have h2 : n' * d = d * (n / d) * d' + n' % d' * d := by
        conv_lhs => rw [← e2, ← hq]
        ring
      omega
    unfold roundHalfEven
    by_cases hup : d < 2 * (n % d) ∨ (2 * (n % d) = d ∧ n / d % 2 = 1)
    · rw [if_pos hup]
      have hup' : d' < 2 * (n' % d') ∨ (2 * (n' % d') = d' ∧ n' / d' % 2 = 1) := by
        have hge : d' ≤ 2 * (n' % d') := by
          have h1 : d * d' ≤ 2 * (n % d) * d' := by
            rcases hup with hup | ⟨hup, -⟩
            · exact Nat.mul_le_mul_right _ (Nat.le_of_lt hup)
            · rw [hup]
          have h2 : 2 * (n % d) * d' ≤ 2 * (n' % d') * d := by
            rw [Nat.mul_assoc, Nat.mul_assoc]
            exact Nat.mul_le_mul_left _ hr
          have h3 : d * d' ≤ d * (2 * (n' % d')) := by
            rw [Nat.mul_comm d (2 * (n' % d'))]
            omega
          exact Nat.le_of_mul_le_mul_left h3 hd
        rcases Nat.lt_or_eq_of_le hge with hgt | heq
        · exact Or.inl hgt
        · rcases hup with hup | ⟨hup, hodd⟩
          · -- strictly above one half on the left
            have h1 : d * d' < 2 * (n % d) * d' := Nat.mul_lt_mul_of_pos_right hup hd'
            have h2 : 2 * (n % d) * d' ≤ 2 * (n' % d') * d := by
              rw [Nat.mul_assoc, Nat.mul_assoc]
              exact Nat.mul_le_mul_left _ hr
            rw [← heq, Nat.mul_comm d' d] at h2
            omega
          · exact Or.inr ⟨heq.symm, by rw [← hq]; exact hodd⟩
      rw [if_pos hup']
      omega
    · rw [if_neg hup]
      split <;> omega

/-- Rounding to nearest and truncating is monotone in the value, for values below
`2^53`. -/
theorem truncDouble_roundDouble_mono {num den num' den' : Nat} (hnum : 0 < num)
    (hden : 0 < den) (hlt : num < 2 ^ 53 * den) (hnum' : 0 < num') (hden' : 0 < den')
    (hlt' : num' < 2 ^ 53 * den') (h : num * den' ≤ num' * den) :
    truncDouble (roundDouble num den) ≤ truncDouble (roundDouble num' den') := by
  obtain ⟨s, hlo, hhi, hr⟩ := roundDouble_eq num den hnum hden hlt
  obtain ⟨s', hlo', hhi', hr'⟩ := roundDouble_eq num' den' hnum' hden' hlt'
  rw [hr, hr', truncDouble_neg, truncDouble_neg]
  obtain ⟨b1, b2⟩ := roundHalfEven_bounds (num * 2 ^ s) den
  obtain ⟨b3, b4⟩ := roundHalfEven_bounds (num' * 2 ^ s') den'
  have hs : s' ≤ s := by
    by_contra hcon
    have hcon : s + 1 ≤ s' := by omega
    have h1 : 2 ^ (s + 1) ≤ 2 ^ s' := Nat.pow_le_pow_right (by norm_num) hcon
    have h2 : num' * 2 ^ (s + 1) ≤ num' * 2 ^ s' := Nat.mul_le_mul_left _ h1
    have h3 : num' * 2 ^ s * 2 < 2 ^ 53 * den' := by
      rw [pow_succ, ← Nat.mul_assoc] at h2
      omega
    have h4 : num' * 2 ^ s < 2 ^ 52 * den' := by omega
    have h5 : num' * 2 ^ s * den < 2 ^ 52 * den' * den := Nat.mul_lt_mul_of_pos_right h4 hden
    have h6 : 2 ^ 52 * den * den' ≤ num * 2 ^ s * den' := Nat.mul_le_mul_right _ hlo
    have h7 : num * den' * 2 ^ s ≤ num' * den * 2 ^ s := Nat.mul_le_mul_right _ h
    have e1 : num * 2 ^ s * den' = num * den' * 2 ^ s := by ring
    have e2 : num' * 2 ^ s * den = num' * den * 2 ^ s := by ring
    have e3 : 2 ^ 52 * den' * den = 2 ^ 52 * den * den' := by ring
    omega
  rcases Nat.lt_or_eq_of_le hs with hs | hs
  · -- the smaller value lies in a lower binade
    have hq : roundHalfEven (num * 2 ^ s) den ≤ 2 ^ 53 := by
      have : num * 2 ^ s / den < 2 ^ 53 := Nat.div_lt_of_lt_mul (by
        rw [Nat.mul_comm den]; exact hhi)
      omega
    have hq' : 2 ^ 52 ≤ roundHalfEven (num' * 2 ^ s') den' := by
      have : 2 ^ 52 ≤ num' * 2 ^ s' / den' := (Nat.le_div_iff_mul_le hden').mpr hlo'
      omega
    have h1 : roundHalfEven (num * 2 ^ s) den / 2 ^ s ≤ 2 ^ 53 / 2 ^ s :=
      Nat.div_le_div_right hq
    have h2 : 2 ^ 52 / 2 ^ s' ≤ roundHalfEven (num' * 2 ^ s') den' / 2 ^ s' :=
      Nat.div_le_div_right hq'
    have h3 : 2 ^ 53 / 2 ^ s ≤ 2 ^ 53 / 2 ^ (s' + 1) :=
      Nat.div_le_div_left (Nat.pow_le_pow_right (by norm_num) (by omega)) (by positivity)
    have h4 : 2 ^ 53 / 2 ^ (s' + 1) = 2 ^ 52 / 2 ^ s' := by
      have e1 : (2 : Nat) ^ (s' + 1) = 2 * 2 ^ s' := by ring
      have e2 : (2 : Nat) ^ 53 / 2 = 2 ^ 52 := by norm_num
      rw [e1, ← Nat.div_div_eq_div_mul, e2]
    omega
  · subst hs
    apply Nat.div_le_div_right
    apply roundHalfEven_mono hden hden'
    have : num * den' * 2 ^ s' ≤ num' * den * 2 ^ s' := Nat.mul_le_mul_right _ h
    have e1 : num * 2 ^ s' * den' = num * den' * 2 ^ s' := by ring
    have e2 : num' * 2 ^ s' * den = num' * den * 2 ^ s' := by ring
    omega

/-- A positive integer below `2^53` is converted to `double` and back without
change. -/
theorem roundDouble_exact {k : Nat} (hk : 0 < k) (hlt : k < 2 ^ 53) :
    (∃ s : Nat, roundDouble k 1 = (k * 2 ^ s, -(s : Int))) ∧
    truncDouble (roundDouble k 1) = k := by
  obtain ⟨s, -, -, hr⟩ := roundDouble_eq k 1 hk (by norm_num) (by omega)
  have hq : roundHalfEven (k * 2 ^ s) 1 = k * 2 ^ s := by
    unfold roundHalfEven
    rw [Nat.mod_one, Nat.div_one]
    simp
  rw [hq] at hr
  refine ⟨⟨s, hr⟩, ?_⟩
  rw [hr, truncDouble_neg]
  exact Nat.mul_div_cancel _ (by positivity)

theorem two_zpow_split (E : Int) :
    (2 : ℚ) ^ E = ((2 ^ E.toNat : Nat) : ℚ) / ((2 ^ (-E).toNat : Nat) : ℚ) := by
  rcases le_total 0 E with he | he
  · have h1 : (-E).toNat = 0 := by omega
    rw [h1, pow_zero, Nat.cast_one, div_one]
    conv_lhs => rw [← Int.toNat_of_nonneg he]
    rw [zpow_natCast]
    push_cast
    rfl
  · have h1 : E.toNat = 0 := by omega
    have h2 : E = -((-E).toNat : ℤ) := by omega
    rw [h1, pow_zero, Nat.cast_one, one_div]
    conv_lhs => rw [h2]
    rw [zpow_neg, zpow_natCast]
    push_cast
    rfl

theorem Double.gtOne_iff (x : Double) : x.gtOne = true ↔ 1 < x.value := by
  have h2 : (0 : ℚ) < (2 : ℚ) ^ x.exp := zpow_pos (by norm_num) _
  unfold Double.gtOne Double.value
  cases hneg : x.neg with
  | true =>
    simp only [Bool.not_true, Bool.false_and, Bool.false_eq_true, if_true, false_iff, not_lt]
    have hm : (0 : ℚ) ≤ (x.mant : ℚ) := Nat.cast_nonneg _
    have : (0 : ℚ) ≤ (x.mant : ℚ) * (2 : ℚ) ^ x.exp := mul_nonneg hm h2.le
    linarith
  | false =>
    simp only [Bool.not_false, Bool.true_and, decide_eq_true_eq, Bool.false_eq_true,
      if_false, one_mul]
    have hpos : (0 : ℚ) < ((2 ^ (-x.exp).toNat : Nat) : ℚ) := by
      exact_mod_cast Nat.pow_pos (n := (-x.exp).toNat) (by norm_num : 0 < 2)
    rw [two_zpow_split, ← mul_div_assoc, lt_div_iff₀ hpos, one_mul, ← Nat.cast_mul,
      Nat.cast_lt]

theorem Double.ltZero_iff (x : Double) : x.ltZero = true ↔ x.value < 0 := by
  have h2 : (0 : ℚ) < (2 : ℚ) ^ x.exp := zpow_pos (by norm_num) _
  unfold Double.ltZero Double.value
  cases hneg : x.neg with
  | true =>
    simp only [Bool.true_and, bne_iff_ne, ne_eq, if_true]
    constructor
    · intro h
      have hm : (0 : ℚ) < (x.mant : ℚ) := Nat.cast_pos.mpr (Nat.pos_of_ne_zero h)
      have : (0 : ℚ) < (x.mant : ℚ) * (2 : ℚ) ^ x.exp := mul_pos hm h2
      linarith
    · intro h hz
      rw [hz] at h
      simp at h
  | false =>
    simp only [Bool.false_and, Bool.false_eq_true, if_false, one_mul, false_iff, not_lt]
    exact mul_nonneg (Nat.cast_nonneg _) h2.le

theorem Double.value_of_nonneg (x : Double) (h : 0 ≤ x.value) :
    x.value = (x.mant : ℚ) * (2 : ℚ) ^ x.exp := by
  have h2 : (0 : ℚ) < (2 : ℚ) ^ x.exp := zpow_pos (by norm_num) _
  unfold Double.value at h ⊢
  cases hneg : x.neg with
  | true =>
    rw [hneg] at h
    simp only [if_true] at h ⊢
    have hm : (0 : ℚ) ≤ (x.mant : ℚ) * (2 : ℚ) ^ x.exp := mul_nonneg (Nat.cast_nonneg _) h2.le
    have : (x.mant : ℚ) * (2 : ℚ) ^ x.exp = 0 := by linarith
    rw [mul_assoc, this]
    simp
  | false => simp

theorem percentileIndex_zero (p : Double) (n : Nat) (h : p.mant = 0) :
    percentileIndex p n = 0 := by
  unfold percentileIndex mulDouble
  simp only [h, Nat.zero_mul]
  unfold roundDouble truncDouble
  simp

theorem percentileIndex_eq (p : Double) (n : Nat) (hn : 0 < n) (hlt : n < 2 ^ 53)
    (hm : 0 < p.mant) :
    ∃ NUM DEN : Nat, 0 < NUM ∧ 0 < DEN ∧
      percentileIndex p n = truncDouble (roundDouble NUM DEN) ∧
      (NUM : ℚ) / (DEN : ℚ) = (p.mant : ℚ) * (2 : ℚ) ^ p.exp * (n : ℚ) := by
  obtain ⟨⟨s, hs⟩, -⟩ := roundDouble_exact hn hlt
  refine ⟨p.mant * (n * 2 ^ s) * 2 ^ (p.exp + -(s : Int)).toNat,
    2 ^ (-(p.exp + -(s : Int))).toNat, by positivity, by positivity, ?_, ?_⟩
  · unfold percentileIndex mulDouble
    rw [hs]
  · have hsplit := two_zpow_split (p.exp + -(s : Int))
    have h2s : (2 : ℚ) ^ (p.exp + -(s : Int)) = (2 : ℚ) ^ p.exp / (2 : ℚ) ^ s := by
      rw [zpow_add₀ (by norm_num), zpow_neg, zpow_natCast, div_eq_mul_inv]
    have hspos : (0 : ℚ) < (2 : ℚ) ^ s := by positivity
    rw [Nat.cast_mul, mul_div_assoc, ← hsplit, h2s]
    push_cast
    field_simp
    ring

theorem truncRound_mono_q {NUM DEN NUM' DEN' : Nat} (h1 : 0 < NUM) (h2 : 0 < DEN)
    (h3 : 0 < NUM') (h4 : 0 < DEN') (hb' : (NUM' : ℚ) / (DEN' : ℚ) < 2 ^ 53)
    (hle : (NUM : ℚ) / (DEN : ℚ) ≤ (NUM' : ℚ) / (DEN' : ℚ)) :
    truncDouble (roundDouble NUM DEN) ≤ truncDouble (roundDouble NUM' DEN') := by
  have hd : (0 : ℚ) < (DEN : ℚ) := by exact_mod_cast h2
  have hd' : (0 : ℚ) < (DEN' : ℚ) := by exact_mod_cast h4
  have hb : (NUM : ℚ) / (DEN : ℚ) < 2 ^ 53 := lt_of_le_of_lt hle hb'
  have c1 : NUM < 2 ^ 53 * DEN := by
    rw [div_lt_iff₀ hd] at hb
    exact_mod_cast hb
  have c2 : NUM' < 2 ^ 53 * DEN' := by
    rw [div_lt_iff₀ hd'] at hb'
    exact_mod_cast hb'
  have c3 : NUM * DEN' ≤ NUM' * DEN := by
    rw [div_le_div_iff hd hd'] at hle
    exact_mod_cast hle
  exact truncDouble_roundDouble_mono h1 h2 c1 h3 h4 c2 c3

theorem percentileIndex_mono (p p' : Double) (n : Nat) (hn : 0 < n) (hlt : n < 2 ^ 53)
    (h0 : 0 ≤ p.value) (hle : p.value ≤ p'.value) (h1 : p'.value ≤ 1) :
    percentileIndex p n ≤ percentileIndex p' n := by
  have hv := Double.value_of_nonneg p h0
  have hv' := Double.value_of_nonneg p' (le_trans h0 hle)
  have h2 : (0 : ℚ) < (2 : ℚ) ^ p.exp := zpow_pos (by norm_num) _
  have hnq : (0 : ℚ) < (n : ℚ) := by exact_mod_cast hn
  have hn53 : (n : ℚ) < 2 ^ 53 := by exact_mod_cast hlt
  rcases Nat.eq_zero_or_pos p.mant with hz | hm
  · rw [percentileIndex_zero p n hz]
    exact Nat.zero_le _
  · have hpos : 0 < p.value := by
      rw [hv]
      exact mul_pos (Nat.cast_pos.mpr hm) h2
    have hm' : 0 < p'.mant := by
      rcases Nat.eq_zero_or_pos p'.mant with hz' | hm'
      · rw [hz'] at hv'
        simp at hv'
        linarith
      · exact hm'
    obtain ⟨N, D, n1, d1, e1, q1⟩ := percentileIndex_eq p n hn hlt hm
    obtain ⟨N', D', n2, d2, e2, q2⟩ := percentileIndex_eq p' n hn hlt hm'
    rw [e1, e2]
    apply truncRound_mono_q n1 d1 n2 d2
    · rw [q2, ← hv']
      nlinarith
    · rw [q1, q2, ← hv, ← hv']
      exact mul_le_mul_of_nonneg_right hle (le_of_lt hnq)

theorem percentileIndex_bounds (p : Double) (n : Nat) (hn : 0 < n) (hlt : n < 2 ^ 53)
    (h0 : 0 ≤ p.value) (h1 : p.value ≤ 1) :
    ⌊p.value * (n : ℚ)⌋₊ ≤ percentileIndex p n ∧
    percentileIndex p n ≤ ⌊p.value * (n : ℚ)⌋₊ + 1 ∧
    percentileIndex p n ≤ n ∧
    (p.value = 0 → percentileIndex p n = 0) ∧
    (p.value = 1 → percentileIndex p n = n) := by
  have hv := Double.value_of_nonneg p h0
  have h2 : (0 : ℚ) < (2 : ℚ) ^ p.exp := zpow_pos (by norm_num) _
  have hnq : (0 : ℚ) < (n : ℚ) := by exact_mod_cast hn
  have hn53 : (n : ℚ) < 2 ^ 53 := by exact_mod_cast hlt
  have hx0 : 0 ≤ p.value * (n : ℚ) := mul_nonneg h0 (le_of_lt hnq)
  have hxn : p.value * (n : ℚ) ≤ (n : ℚ) := by nlinarith
  rcases Nat.eq_zero_or_pos p.mant with hz | hm
  · have hval : p.value = 0 := by rw [hv, hz]; simp
    rw [percentileIndex_zero p n hz, hval]
    simp
  · have hpos : 0 < p.value := by
      rw [hv]
      exact mul_pos (Nat.cast_pos.mpr hm) h2
    obtain ⟨N, D, n1, d1, e1, q1⟩ := percentileIndex_eq p n hn hlt hm
    rw [← hv] at q1
    have hone : ((1 : Nat) : ℚ) = 1 := Nat.cast_one
    -- an integer that is at most the product is at most the index
    have hlow : ∀ k : Nat, (k : ℚ) ≤ p.value * (n : ℚ) → k ≤ percentileIndex p n := by
      intro k hk
      rcases Nat.eq_zero_or_pos k with hk0 | hkpos
      · omega
      · have hk53 : k < 2 ^ 53 := by
          have : (k : ℚ) < 2 ^ 53 := by linarith
          exact_mod_cast this
        have := truncRound_mono_q hkpos (by norm_num : 0 < 1) n1 d1
          (by rw [q1]; linarith) (by rw [q1, hone, div_one]; exact hk)
        rw [(roundDouble_exact hkpos hk53).2] at this
        rw [e1]
        exact this
    -- an integer below `2^53` that is at least the product is at least the index
    have hhigh : ∀ k : Nat, k < 2 ^ 53 → p.value * (n : ℚ) ≤ (k : ℚ) →
        percentileIndex p n ≤ k := by
      intro k hk53 hk
      have hkpos : 0 < k := by
        have : (0 : ℚ) < (k : ℚ) := lt_of_lt_of_le (mul_pos hpos hnq) hk
        exact_mod_cast this
      have := truncRound_mono_q n1 d1 hkpos (by norm_num : 0 < 1)
        (by rw [hone, div_one]; exact_mod_cast hk53) (by rw [q1, hone, div_one]; exact hk)
      rw [(roundDouble_exact hkpos hk53).2] at this
      rw [e1]
      exact this
    have hn_up : percentileIndex p n ≤ n := hhigh n hlt hxn
    refine ⟨hlow _ (Nat.floor_le hx0), ?_, hn_up, ?_, ?_⟩
    · by_cases hk : ⌊p.value * (n : ℚ)⌋₊ + 1 ≤ n
      · apply hhigh _ (by omega)
        have := Nat.lt_floor_add_one (p.value * (n : ℚ))
        push_cast
        linarith
      · omega
    · intro hzero
      rw [hzero] at hpos
      exact absurd hpos (lt_irrefl _)
    · intro hone'
      have : n ≤ percentileIndex p n := hlow n (by rw [hone', one_mul])
      omega

theorem sorted_getElem?_le {l : List Int} (hs : l.Sorted (fun a b => a ≤ b)) {i j : Nat}
    {a b : Int} (hij : i ≤ j) (ha : l[i]? = some a) (hb : l[j]? = some b) : a ≤ b := by
  obtain ⟨hi, hai⟩ := List.getElem?_eq_some_iff.mp ha
  obtain ⟨hj, hbj⟩ := List.getElem?_eq_some_iff.mp hb
  rcases Nat.lt_or_eq_of_le hij with hlt | heq
  · rw [← hai, ← hbj]
    exact List.pairwise_iff_getElem.mp hs i j hi hj hlt
  · subst heq
    rw [ha] at hb
    exact le_of_eq (Option.some.inj hb)

theorem frozen_sorted {m : FrozenMeter}
    (hm : (∃ meter : Meter, m = meter.Freeze) ∨
      (∃ meters : List Meter, m = Meter.FreezeGroup meters)) :
    m.latencies_.Sorted (fun a b => a ≤ b) := by
  rcases hm with ⟨meter, rfl⟩ | ⟨meters, rfl⟩
  · exact sortLatencies_sorted _
  · exact sortLatencies_sorted _

theorem LatencyPercentile_in_range (m : FrozenMeter) (p : Double) (h0 : 0 ≤ p.value)
    (h1 : p.value ≤ 1) (hsize : m.latencies_.length < 2 ^ 53) :
    (m.latencies_ = [] → m.LatencyPercentile p = Except.ok 0) ∧
    (m.latencies_ ≠ [] →
      ∃ v, m.LatencyPercentile p = Except.ok v ∧
        m.latencies_[min (percentileIndex p m.latencies_.length)
          (m.latencies_.length - 1)]? = some v) := by
  have hgt : p.gtOne = false := by
    cases h : p.gtOne with
    | false => rfl
    | true =>
      have := (Double.gtOne_iff p).mp h
      linarith
  have hlt : p.ltZero = false := by
    cases h : p.ltZero with
    | false => rfl
    | true =>
      have := (Double.ltZero_iff p).mp h
      linarith
  unfold FrozenMeter.LatencyPercentile
  simp only [hgt, hlt, Bool.or_self, Bool.false_eq_true, if_false]
  constructor
  · intro hnil
    rw [hnil]
    rfl
  · intro hne
    have hpos : 0 < m.latencies_.length := List.length_pos.mpr hne
    have hempty : m.latencies_.isEmpty = false := by
      cases hl : m.latencies_ with
      | nil => exact absurd hl hne
      | cons a l => rfl
    obtain ⟨-, -, hle, -, -⟩ := percentileIndex_bounds p m.latencies_.length hpos hsize h0 h1
    have hidx : (if percentileIndex p m.latencies_.length = m.latencies_.length then
          percentileIndex p m.latencies_.length - 1
        else percentileIndex p m.latencies_.length)
        = min (percentileIndex p m.latencies_.length) (m.latencies_.length - 1) := by
      split <;> omega
    simp only [hempty, Bool.false_eq_true, if_false, hidx]
    have hin : min (percentileIndex p m.latencies_.length) (m.latencies_.length - 1)
        < m.latencies_.length := by omega
    refine ⟨m.latencies_[min (percentileIndex p m.latencies_.length)
      (m.latencies_.length - 1)], ?_, List.getElem?_eq_getElem hin⟩
    unfold elemAt
    rw [List.getElem?_eq_getElem hin]
    rfl

/-- C25 (as amended): for a FrozenMeter produced by Freeze or FreezeGroup with n
recorded latencies (n < 2^53, so that n converts to double exactly) and a finite
percentile p: LatencyPercentile(p) throws invalid_argument if and only if p < 0 or
p > 1; for p in [0, 1] it returns 0 when n = 0 and otherwise the element at index
min(i, n - 1) of the ascending latency list, where i is the binary64 product p * n,
rounded to nearest and truncated, which is floor(p * n) or floor(p * n) + 1; p = 0
gives the minimum, p = 1 gives the maximum, and the result is non-decreasing in p. -/
theorem LatencyPercentile_spec (m : FrozenMeter) (p : Double)
    (hm : (∃ meter : Meter, m = meter.Freeze) ∨
      (∃ meters : List Meter, m = Meter.FreezeGroup meters))
    (hsize : m.latencies_.length < 2 ^ 53) :
    ((∃ msg, m.LatencyPercentile p = Except.error (Error.invalid_argument msg)) ↔
      (p.value < 0 ∨ 1 < p.value)) ∧
    (0 ≤ p.value → p.value ≤ 1 → m.latencies_ = [] → m.LatencyPercentile p = Except.ok 0) ∧
    (0 ≤ p.value → p.value ≤ 1 → m.latencies_ ≠ [] →
      ∃ v, m.LatencyPercentile p = Except.ok v ∧
        m.latencies_[min (percentileIndex p m.latencies_.length)
          (m.latencies_.length - 1)]? = some v ∧
        ⌊p.value * (m.latencies_.length : ℚ)⌋₊ ≤ percentileIndex p m.latencies_.length ∧
        percentileIndex p m.latencies_.length
          ≤ ⌊p.value * (m.latencies_.length : ℚ)⌋₊ + 1 ∧
        (p.value = 0 → ∀ w, w ∈ m.latencies_ → v ≤ w) ∧
        (p.value = 1 → ∀ w, w ∈ m.latencies_ → w ≤ v)) ∧
    (∀ (p' : Double) (v v' : Int), 0 ≤ p.value → p.value ≤ p'.value → p'.value ≤ 1 →
      m.LatencyPercentile p = Except.ok v → m.LatencyPercentile p' = Except.ok v' →
      v ≤ v') := by
  have hs := frozen_sorted hm
  refine ⟨?_, ?_, ?_, ?_⟩
  · constructor
    · rintro ⟨msg, hmsg⟩
      by_contra hcon
      have h0 : 0 ≤ p.value := by
        by_contra h
        exact hcon (Or.inl (not_le.mp h))
      have h1 : p.value ≤ 1 := by
        by_contra h
        exact hcon (Or.inr (not_le.mp h))
      obtain ⟨a, b⟩ := LatencyPercentile_in_range m p h0 h1 hsize
      by_cases hnil : m.latencies_ = []
      · rw [a hnil] at hmsg
        cases hmsg
      · obtain ⟨v, hv, -⟩ := b hnil
        rw [hv] at hmsg
        cases hmsg
    · intro h
      have hcond : (p.gtOne || p.ltZero) = true := by
        rcases h with h | h
        · rw [(Double.ltZero_iff p).mpr h]
          simp
        · rw [(Double.gtOne_iff p).mpr h]
          simp
      unfold FrozenMeter.LatencyPercentile
      rw [if_pos hcond]
      exact ⟨_, rfl⟩
  · intro h0 h1 hnil
    exact (LatencyPercentile_in_range m p h0 h1 hsize).1 hnil
  · intro h0 h1 hne
    have hpos : 0 < m.latencies_.length := List.length_pos.mpr hne
    obtain ⟨v, hv, hget⟩ := (LatencyPercentile_in_range m p h0 h1 hsize).2 hne
    obtain ⟨b1, b2, b3, b4, b5⟩ :=
      percentileIndex_bounds p m.latencies_.length hpos hsize h0 h1
    refine ⟨v, hv, hget, b1, b2, ?_, ?_⟩
    · intro hz w hw
      obtain ⟨j, hj, hwj⟩ := List.getElem_of_mem hw
      rw [b4 hz] at hget
      exact sorted_getElem?_le hs (by omega : min 0 (m.latencies_.length - 1) ≤ j) hget
        (by rw [List.getElem?_eq_getElem hj, hwj])
    · intro hone w hw
      obtain ⟨j, hj, hwj⟩ := List.getElem_of_mem hw
      rw [b5 hone] at hget
      exact sorted_getElem?_le hs
        (by omega : j ≤ min m.latencies_.length (m.latencies_.length - 1))
        (by rw [List.getElem?_eq_getElem hj, hwj]) hget
  · intro p' v v' h0 hle h1 hv hv'
    have h0' : 0 ≤ p'.value := le_trans h0 hle
    have h1' : p.value ≤ 1 := le_trans hle h1
    by_cases hnil : m.latencies_ = []
    · rw [(LatencyPercentile_in_range m p h0 h1' hsize).1 hnil] at hv
      rw [(LatencyPercentile_in_range m p' h0' h1 hsize).1 hnil] at hv'
      cases hv
      cases hv'
      exact le_refl _
    · have hpos : 0 < m.latencies_.length := List.length_pos.mpr hnil
      obtain ⟨w, hw, hget⟩ := (LatencyPercentile_in_range m p h0 h1' hsize).2 hnil
      obtain ⟨w', hw', hget'⟩ := (LatencyPercentile_in_range m p' h0' h1 hsize).2 hnil
      rw [hw] at hv
      rw [hw'] at hv'
      cases hv
      cases hv'
      have hmono := percentileIndex_mono p p' m.latencies_.length hpos hsize h0 hle h1
      exact sorted_getElem?_le hs (by omega) hget hget'

set_option maxRecDepth 100000 in
theorem LatencyPercentile_spec_witness :
    tenLatencies.Freeze.latencies_.length < 2 ^ 53 ∧
    ((∃ msg, tenLatencies.Freeze.LatencyPercentile doubleSevenTenths
        = Except.error (Error.invalid_argument msg)) ↔
      (doubleSevenTenths.value < 0 ∨ 1 < doubleSevenTenths.value)) :=
  ⟨by decide,
    (LatencyPercentile_spec tenLatencies.Freeze doubleSevenTenths
      (Or.inl ⟨tenLatencies, rfl⟩) (by decide)).1⟩

end YCSBR
